import Mathlib

/-! # cpplsq: a verification development

Shallow embedding of the automatic-differentiation algebra (`SingleDiff`,
`MultiDiff`), of `cholesky_solve` (with the BLAS kernels it calls), of
`line_search`, of the initial evaluation of `gn_sbfgs_min` and of the
Rosenbrock test function, over an arbitrary (ordered) field `K` standing for
`REAL` in exact arithmetic. Functions of the standard library (`std::sqrt`, `std::exp`,
`std::isfinite`) are parameters of the definitions that use them.

The file is organised as: definitions (the embedding), then theorems.
-/

namespace Cpplsq

/-! ## SingleDiff (src/cpplsq/SingleDiff.hpp) -/

/-- Class `SingleDiff<REAL>`: a value and one directional derivative. -/
structure SingleDiff (K : Type) where
  val : K
  diffval : K

/-- Method `SingleDiff::getValue`. -/
def SingleDiff.getValue {K : Type} (x : SingleDiff K) : K := x.val

/-- Method `SingleDiff::getDiffValue`. -/
def SingleDiff.getDiffValue {K : Type} (x : SingleDiff K) : K := x.diffval

/-- Expression nodes over `SingleDiff` (the classes deriving from
`SingleDiffExpr`). Operands are held by reference in the C++ classes: `var r`
is a reference to the `SingleDiff` object number `r` of a store, `tmp m` an
unnamed temporary. The scalar fields are the members the constructors
precompute (`aval`, `bval`, `val`). -/
inductive SingleDiffExpr (K : Type) where
  | var (r : Nat) : SingleDiffExpr K
  | tmp (m : SingleDiff K) : SingleDiffExpr K
  | Plus (a b : SingleDiffExpr K) : SingleDiffExpr K
  | ScalarPlus (aval : K) (b : SingleDiffExpr K) : SingleDiffExpr K
  | Minus (a b : SingleDiffExpr K) : SingleDiffExpr K
  | ScalarMinus (aval : K) (b : SingleDiffExpr K) : SingleDiffExpr K
  | Div (aval bval : K) (a b : SingleDiffExpr K) : SingleDiffExpr K
  | DivScalar (a : SingleDiffExpr K) (bval : K) : SingleDiffExpr K
  | ScalarDiv (bval aval : K) (b : SingleDiffExpr K) : SingleDiffExpr K
  | Mul (aval bval : K) (a b : SingleDiffExpr K) : SingleDiffExpr K
  | ScalarMul (aval : K) (b : SingleDiffExpr K) : SingleDiffExpr K
  | Exp (val : K) (x : SingleDiffExpr K) : SingleDiffExpr K
  | Neg (x : SingleDiffExpr K) : SingleDiffExpr K

/-- The `getValue()` members of the `SingleDiff` expression classes. -/
def SingleDiffExpr.getValue {K : Type} [Field K] (σ : Nat → SingleDiff K) :
    SingleDiffExpr K → K
  | .var r => (σ r).getValue
  | .tmp m => m.getValue
  | .Plus a b => a.getValue σ + b.getValue σ
  | .ScalarPlus aval b => aval + b.getValue σ
  | .Minus a b => a.getValue σ - b.getValue σ
  | .ScalarMinus aval b => aval - b.getValue σ
  | .Div aval bval _ _ => aval / bval
  | .DivScalar a bval => a.getValue σ / bval
  | .ScalarDiv bval aval _ => aval / bval
  | .Mul aval bval _ _ => aval * bval
  | .ScalarMul aval b => aval * b.getValue σ
  | .Exp val _ => val
  | .Neg x => -x.getValue σ

/-- The `getDiffValue()` members of the `SingleDiff` expression classes. -/
def SingleDiffExpr.getDiffValue {K : Type} [Field K] (σ : Nat → SingleDiff K) :
    SingleDiffExpr K → K
  | .var r => (σ r).getDiffValue
  | .tmp m => m.getDiffValue
  | .Plus a b => a.getDiffValue σ + b.getDiffValue σ
  | .ScalarPlus _ b => b.getDiffValue σ
  | .Minus a b => a.getDiffValue σ - b.getDiffValue σ
  | .ScalarMinus _ b => -b.getDiffValue σ
  | .Div aval bval a b => (bval * a.getDiffValue σ - aval * b.getDiffValue σ) / (bval * bval)
  | .DivScalar a bval => a.getDiffValue σ / bval
  | .ScalarDiv bval aval b => -aval * b.getDiffValue σ / (bval * bval)
  | .Mul aval bval a b => aval * b.getDiffValue σ + bval * a.getDiffValue σ
  | .ScalarMul aval b => aval * b.getDiffValue σ
  | .Exp val x => val * x.getDiffValue σ
  | .Neg x => -x.getDiffValue σ

/-- Constructor `SingleDiff( const SingleDiffExpr<T> &a )`. -/
def SingleDiff.ofExpr {K : Type} [Field K] (σ : Nat → SingleDiff K) (a : SingleDiffExpr K) :
    SingleDiff K :=
  ⟨a.getValue σ, a.getDiffValue σ⟩

namespace SingleDiffOps

variable {K : Type} [Field K]

/-- Constructor `SingleDiffPlus( a, b )`. -/
def SingleDiffPlus (a b : SingleDiffExpr K) : SingleDiffExpr K := .Plus a b

/-- Constructor `ScalarSingleDiffPlus( a, b )`. -/
def ScalarSingleDiffPlus (a : K) (b : SingleDiffExpr K) : SingleDiffExpr K := .ScalarPlus a b

/-- Constructor `SingleDiffMinus( a, b )`. -/
def SingleDiffMinus (a b : SingleDiffExpr K) : SingleDiffExpr K := .Minus a b

/-- Constructor `ScalarSingleDiffMinus( a, b )`. -/
def ScalarSingleDiffMinus (a : K) (b : SingleDiffExpr K) : SingleDiffExpr K := .ScalarMinus a b

/-- Constructor `SingleDiffDiv( a, b )`: stores `aval = a.getValue()` and
`bval = b.getValue()`. -/
def SingleDiffDiv (σ : Nat → SingleDiff K) (a b : SingleDiffExpr K) : SingleDiffExpr K :=
  .Div (a.getValue σ) (b.getValue σ) a b

/-- Constructor `SingleDiffScalarDiv( a, b )`. -/
def SingleDiffScalarDiv (a : SingleDiffExpr K) (b : K) : SingleDiffExpr K := .DivScalar a b

/-- Constructor `ScalarSingleDiffDiv( a, b )`: stores `bval = b.getValue()`. -/
def ScalarSingleDiffDiv (σ : Nat → SingleDiff K) (a : K) (b : SingleDiffExpr K) :
    SingleDiffExpr K :=
  .ScalarDiv (b.getValue σ) a b

/-- Constructor `SingleDiffMul( a, b )`: stores `aval` and `bval`. -/
def SingleDiffMul (σ : Nat → SingleDiff K) (a b : SingleDiffExpr K) : SingleDiffExpr K :=
  .Mul (a.getValue σ) (b.getValue σ) a b

/-- Constructor `ScalarSingleDiffMul( a, b )`. -/
def ScalarSingleDiffMul (a : K) (b : SingleDiffExpr K) : SingleDiffExpr K := .ScalarMul a b

/-- Constructor `SingleDiffExp( x )`: stores `val = std::exp( x.getValue() )`. -/
def SingleDiffExp (exp : K → K) (σ : Nat → SingleDiff K) (x : SingleDiffExpr K) :
    SingleDiffExpr K :=
  .Exp (exp (x.getValue σ)) x

/-- Constructor `SingleDiffNeg( x )`. -/
def SingleDiffNeg (x : SingleDiffExpr K) : SingleDiffExpr K := .Neg x

/-- Function `exp( const SingleDiffExpr<T> &x )`. -/
def exp (ex : K → K) (σ : Nat → SingleDiff K) (x : SingleDiffExpr K) : SingleDiffExpr K :=
  SingleDiffExp ex σ x

/-- Unary `operator-( x )`. -/
def neg (x : SingleDiffExpr K) : SingleDiffExpr K := SingleDiffNeg x

/-- Binary `operator+( a, b )` on two expressions. -/
def add (a b : SingleDiffExpr K) : SingleDiffExpr K := SingleDiffPlus a b

/-- Binary `operator-( a, b )` on two expressions. -/
def sub (a b : SingleDiffExpr K) : SingleDiffExpr K := SingleDiffMinus a b

/-- Binary `operator*( a, b )` on two expressions. -/
def mul (σ : Nat → SingleDiff K) (a b : SingleDiffExpr K) : SingleDiffExpr K :=
  SingleDiffMul σ a b

/-- Binary `operator/( a, b )` on two expressions. -/
def div (σ : Nat → SingleDiff K) (a b : SingleDiffExpr K) : SingleDiffExpr K :=
  SingleDiffDiv σ a b

/-- `operator+( a, NumType b )`: returns `ScalarSingleDiffPlus( b, a )`. -/
def addScalar (a : SingleDiffExpr K) (b : K) : SingleDiffExpr K := ScalarSingleDiffPlus b a

/-- `operator-( a, NumType b )`: returns `ScalarSingleDiffPlus( -b, a )`. -/
def subScalar (a : SingleDiffExpr K) (b : K) : SingleDiffExpr K := ScalarSingleDiffPlus (-b) a

/-- `operator*( a, NumType b )`: returns `ScalarSingleDiffMul( b, a )`. -/
def mulScalar (a : SingleDiffExpr K) (b : K) : SingleDiffExpr K := ScalarSingleDiffMul b a

/-- `operator/( a, NumType b )`: returns `SingleDiffScalarDiv( a, b )`. -/
def divScalar (a : SingleDiffExpr K) (b : K) : SingleDiffExpr K := SingleDiffScalarDiv a b

/-- `operator+( NumType a, b )`. -/
def scalarAdd (a : K) (b : SingleDiffExpr K) : SingleDiffExpr K := ScalarSingleDiffPlus a b

/-- `operator-( NumType a, b )`. -/
def scalarSub (a : K) (b : SingleDiffExpr K) : SingleDiffExpr K := ScalarSingleDiffMinus a b

/-- `operator*( NumType a, b )`. -/
def scalarMul (a : K) (b : SingleDiffExpr K) : SingleDiffExpr K := ScalarSingleDiffMul a b

/-- `operator/( NumType a, b )`. -/
def scalarDiv (σ : Nat → SingleDiff K) (a : K) (b : SingleDiffExpr K) : SingleDiffExpr K :=
  ScalarSingleDiffDiv σ a b

end SingleDiffOps

/-! ## MultiDiff (src/cpplsq/MultiDiff.hpp) -/

/-- Type `pack<REAL>`: a SIMD register, read lane by lane. Only the lanes
below the pack size are ever stored. -/
abbrev Pack (K : Type) := Nat → K

/-- Modelled from the spec: `simd::next_size<REAL>( n )`, of the SIMD helper
library that is not part of the sources: the least multiple of the lane count
`W` that is at least `n` (spec 3.3, `D = next_multiple_of_W(n)`). -/
def next_size (W n : Nat) : Nat := ((n + W - 1) / W) * W

/-- The state set up by `MultiDiff<REAL>::Context( num_dir )`: the lane count
`W = pack_size<REAL>()` (positive), the argument `num_dir`, and `fresh`, the
unspecified contents of a buffer as handed out by `internal::new_buffer()`. -/
structure Context (K : Type) where
  W : Nat
  W_pos : 0 < W
  num_dir : Nat
  fresh : Nat → K

/-- Global `internal::num_directions`, set by the `Context` constructor to
`next_size<REAL>( num_dir )`. -/
def Context.num_directions {K : Type} (c : Context K) : Nat := next_size c.W c.num_dir

/-- Class `MultiDiff<REAL>`: the value and the buffer `dval` of directional
derivatives, addressed by lane. -/
structure MultiDiff (K : Type) where
  val : K
  dval : Nat → K

/-- `aligned_load( p + i )`: the pack of the lanes of `p` starting at `i`. -/
def aligned_load {K : Type} (p : Nat → K) (i : Nat) : Pack K := fun l => p (i + l)

/-- `v.aligned_store( p + i )`: writes the `W` lanes of `v` to `p[i .. i + W)`. -/
def aligned_store {K : Type} (W : Nat) (v : Pack K) (p : Nat → K) (i : Nat) : Nat → K :=
  fun j => if i ≤ j ∧ j < i + W then v (j - i) else p j

/-- Constructor `pack<REAL>( x )`: broadcast of a scalar to all lanes. -/
def broadcast {K : Type} (x : K) : Pack K := fun _ => x

/-- Method `MultiDiff::getValue`. -/
def MultiDiff.getValue {K : Type} (x : MultiDiff K) : K := x.val

/-- Method `MultiDiff::getDiffValue( i )`. -/
def MultiDiff.getDiffValue {K : Type} (x : MultiDiff K) (i : Nat) : K := x.dval i

/-- Method `MultiDiff::getDiffValues( i )`. -/
def MultiDiff.getDiffValues {K : Type} (x : MultiDiff K) (i : Nat) : Pack K :=
  aligned_load x.dval i

/-- The loop of `MultiDiff::setDiffValsZero`:
`for( REAL *i = dval; i != end; i += pack_size<REAL>() ) z.aligned_store( i )`.
The first argument bounds the number of iterations. -/
def setDiffValsZero_loop {K : Type} [Zero K] (W D : Nat) : Nat → Nat → (Nat → K) → (Nat → K)
  | 0, _, buf => buf
  | fuel + 1, i, buf =>
    if i ≠ D then setDiffValsZero_loop W D fuel (i + W) (aligned_store W (broadcast 0) buf i)
    else buf

/-- Method `MultiDiff::setDiffValsZero`. -/
def MultiDiff.setDiffValsZero {K : Type} [Zero K] (c : Context K) (x : MultiDiff K) :
    MultiDiff K :=
  ⟨x.val, setDiffValsZero_loop c.W c.num_directions c.num_directions 0 x.dval⟩

/-- Method `MultiDiff::setIndependent( v, i )`. -/
def MultiDiff.setIndependent {K : Type} [Zero K] [One K] (c : Context K) (x : MultiDiff K)
    (v : K) (i : Nat) : MultiDiff K :=
  ⟨v, Function.update (MultiDiff.setDiffValsZero c ⟨v, x.dval⟩).dval i 1⟩

/-- Constructor `MultiDiff( REAL x, std::size_t i )`. -/
def MultiDiff.ofValueIndex {K : Type} [Zero K] [One K] (c : Context K) (x : K) (i : Nat) :
    MultiDiff K :=
  ⟨x, Function.update (MultiDiff.setDiffValsZero c ⟨x, c.fresh⟩).dval i 1⟩

/-- Expression nodes over `MultiDiff` (the classes deriving from
`MultiDiffExpr`). Operands are held by reference in the C++ classes: `var r`
is a reference to the `MultiDiff` object number `r` of a store, `tmp m` an
unnamed temporary `MultiDiff`. The pack and scalar fields are the members the
constructors precompute (`aval`, `bval`, `b2val`, `val`). -/
inductive MultiDiffExpr (K : Type) where
  | var (r : Nat) : MultiDiffExpr K
  | tmp (m : MultiDiff K) : MultiDiffExpr K
  | Plus (a b : MultiDiffExpr K) : MultiDiffExpr K
  | ScalarPlus (a : K) (b : MultiDiffExpr K) : MultiDiffExpr K
  | Minus (a b : MultiDiffExpr K) : MultiDiffExpr K
  | ScalarMinus (a : K) (b : MultiDiffExpr K) : MultiDiffExpr K
  | Mul (aval bval : Pack K) (a b : MultiDiffExpr K) : MultiDiffExpr K
  | ScalarMul (aval : Pack K) (b : MultiDiffExpr K) : MultiDiffExpr K
  | Div (aval bval b2val : Pack K) (a b : MultiDiffExpr K) : MultiDiffExpr K
  | ScalarDiv (bval : K) (aval b2val : Pack K) (b : MultiDiffExpr K) : MultiDiffExpr K
  | DivScalar (a : MultiDiffExpr K) (bval : Pack K) : MultiDiffExpr K
  | Exp (val : Pack K) (x : MultiDiffExpr K) : MultiDiffExpr K
  | Neg (x : MultiDiffExpr K) : MultiDiffExpr K

/-- The `getValue()` members of the `MultiDiff` expression classes. -/
def MultiDiffExpr.getValue {K : Type} [Field K] (σ : Nat → MultiDiff K) :
    MultiDiffExpr K → K
  | .var r => (σ r).getValue
  | .tmp m => m.getValue
  | .Plus a b => a.getValue σ + b.getValue σ
  | .ScalarPlus a b => a + b.getValue σ
  | .Minus a b => a.getValue σ - b.getValue σ
  | .ScalarMinus a b => a - b.getValue σ
  | .Mul aval bval _ _ => aval 0 * bval 0
  | .ScalarMul aval b => aval 0 * b.getValue σ
  | .Div aval bval _ _ _ => aval 0 / bval 0
  | .ScalarDiv bval aval _ _ => aval 0 / bval
  | .DivScalar a bval => a.getValue σ / bval 0
  | .Exp val _ => val 0
  | .Neg x => -x.getValue σ

/-- The `getDiffValues( i )` members of the `MultiDiff` expression classes;
pack arithmetic is lane by lane. The quotients are those of the field; at a
non-zero divisor they are the numbers the hardware gives, at a zero divisor
the hardware gives no number (see `ieeeDiv`). -/
def MultiDiffExpr.getDiffValues {K : Type} [Field K] (σ : Nat → MultiDiff K) :
    MultiDiffExpr K → Nat → Pack K
  | .var r, i => (σ r).getDiffValues i
  | .tmp m, i => m.getDiffValues i
  | .Plus a b, i => fun l => a.getDiffValues σ i l + b.getDiffValues σ i l
  | .ScalarPlus _ b, i => b.getDiffValues σ i
  | .Minus a b, i => fun l => a.getDiffValues σ i l - b.getDiffValues σ i l
  | .ScalarMinus _ b, i => fun l => -b.getDiffValues σ i l
  | .Mul aval bval a b, i => fun l => bval l * a.getDiffValues σ i l + aval l * b.getDiffValues σ i l
  | .ScalarMul aval b, i => fun l => aval l * b.getDiffValues σ i l
  | .Div aval bval b2val a b, i => fun l =>
      (bval l * a.getDiffValues σ i l - aval l * b.getDiffValues σ i l) / b2val l
  | .ScalarDiv _ aval b2val b, i => fun l => -aval l * b.getDiffValues σ i l / b2val l
  | .DivScalar a bval, i => fun l => a.getDiffValues σ i l / bval l
  | .Exp val x, i => fun l => val l * x.getDiffValues σ i l
  | .Neg x, i => fun l => -x.getDiffValues σ i l

/-- The constants `SimdTemps<T>::value`. -/
def SimdTemps {K : Type} : MultiDiffExpr K → Nat
  | .var _ => 0
  | .tmp _ => 0
  | .Plus a b => SimdTemps a + SimdTemps b
  | .ScalarPlus _ b => SimdTemps b
  | .Minus a b => SimdTemps a + SimdTemps b
  | .ScalarMinus _ b => SimdTemps b
  | .Mul _ _ a b => SimdTemps a + SimdTemps b + 2
  | .ScalarMul _ b => SimdTemps b + 1
  | .Div _ _ _ a b => SimdTemps a + SimdTemps b + 3
  | .ScalarDiv _ _ _ b => SimdTemps b + 2
  | .DivScalar a _ => SimdTemps a + 1
  | .Exp _ x => SimdTemps x + 1
  | .Neg x => SimdTemps x

/-- The loop of the constructor `MultiDiff( const MultiDiffExpr<T> &x )`:
`for( i = 0; i < num_directions; i += pack_size<REAL>() )
    x.getDiffValues( i ).aligned_store( dval + i )`,
with `g = x.getDiffValues`. The first argument bounds the number of
iterations. -/
def store_loop {K : Type} (W D : Nat) (g : Nat → Pack K) : Nat → Nat → (Nat → K) → (Nat → K)
  | 0, _, buf => buf
  | fuel + 1, i, buf =>
    if i < D then store_loop W D g fuel (i + W) (aligned_store W (g i) buf i) else buf

/-- Constructor `MultiDiff( const MultiDiffExpr<T> &x )`: takes the value and
stores the gradient, pack by pack, into a new buffer. -/
def MultiDiff.ofExpr {K : Type} [Field K] (c : Context K) (σ : Nat → MultiDiff K)
    (x : MultiDiffExpr K) : MultiDiff K :=
  ⟨x.getValue σ,
   store_loop c.W c.num_directions (x.getDiffValues σ) c.num_directions 0 c.fresh⟩

/-- The return type `ReturnTypeTraits<T, MAX_TMPS>::type`: the expression is
converted to a `MultiDiff` when `SimdTemps<T>::value > MAX_TMPS`, and is
returned as the proxy otherwise. -/
def ReturnTypeAt {K : Type} [Field K] (MAX_TMPS : Nat) (c : Context K) (σ : Nat → MultiDiff K)
    (x : MultiDiffExpr K) : MultiDiffExpr K :=
  if SimdTemps x > MAX_TMPS then .tmp (MultiDiff.ofExpr c σ x) else x

/-- The alias `ReturnType<T> = ReturnTypeTraits<T, 8>::type`. -/
def ReturnType {K : Type} [Field K] (c : Context K) (σ : Nat → MultiDiff K)
    (x : MultiDiffExpr K) : MultiDiffExpr K :=
  ReturnTypeAt 8 c σ x

namespace MultiDiffOps

variable {K : Type} [Field K]

/-- Constructor `MultiDiffPlus( a, b )`. -/
def MultiDiffPlus (a b : MultiDiffExpr K) : MultiDiffExpr K := .Plus a b

/-- Constructor `ScalarMultiDiffPlus( a, b )`. -/
def ScalarMultiDiffPlus (a : K) (b : MultiDiffExpr K) : MultiDiffExpr K := .ScalarPlus a b

/-- Constructor `MultiDiffMinus( a, b )`. -/
def MultiDiffMinus (a b : MultiDiffExpr K) : MultiDiffExpr K := .Minus a b

/-- Constructor `ScalarMultiDiffMinus( a, b )`. -/
def ScalarMultiDiffMinus (a : K) (b : MultiDiffExpr K) : MultiDiffExpr K := .ScalarMinus a b

/-- Constructor `MultiDiffMul( a, b )`: `aval( a.getValue() ), bval( b.getValue() )`. -/
def MultiDiffMul (σ : Nat → MultiDiff K) (a b : MultiDiffExpr K) : MultiDiffExpr K :=
  .Mul (broadcast (a.getValue σ)) (broadcast (b.getValue σ)) a b

/-- Constructor `ScalarMultiDiffMul( a, b )`: `aval( a )`. -/
def ScalarMultiDiffMul (a : K) (b : MultiDiffExpr K) : MultiDiffExpr K :=
  .ScalarMul (broadcast a) b

/-- Constructor `MultiDiffDiv( a, b )`: `aval( a.getValue() ), bval( b.getValue() )`
and `b2val = pack<REAL>( bval[0] * bval[0] )`. -/
def MultiDiffDiv (σ : Nat → MultiDiff K) (a b : MultiDiffExpr K) : MultiDiffExpr K :=
  .Div (broadcast (a.getValue σ)) (broadcast (b.getValue σ))
    (broadcast ((broadcast (b.getValue σ) : Pack K) 0 * (broadcast (b.getValue σ) : Pack K) 0)) a b

/-- Constructor `ScalarMultiDiffDiv( a, b )`:
`bval( b.getValue() ), aval( a ), b2val( bval * bval )`. The initialiser list
of the C++ constructor leaves out the reference member `b`; the node is
modelled with `b` bound to the constructor argument, as its member functions
use it. -/
def ScalarMultiDiffDiv (σ : Nat → MultiDiff K) (a : K) (b : MultiDiffExpr K) : MultiDiffExpr K :=
  .ScalarDiv (b.getValue σ) (broadcast a) (broadcast (b.getValue σ * b.getValue σ)) b

/-- Constructor `MultiDiffScalarDiv( a, b )`: `bval( b )`. -/
def MultiDiffScalarDiv (a : MultiDiffExpr K) (b : K) : MultiDiffExpr K :=
  .DivScalar a (broadcast b)

/-- Constructor `MultiDiffExp( x )`: `val = pack<REAL>( std::exp( x.getValue() ) )`. -/
def MultiDiffExp (ex : K → K) (σ : Nat → MultiDiff K) (x : MultiDiffExpr K) : MultiDiffExpr K :=
  .Exp (broadcast (ex (x.getValue σ))) x

/-- Constructor `MultiDiffNeg( x )`. -/
def MultiDiffNeg (x : MultiDiffExpr K) : MultiDiffExpr K := .Neg x

variable (c : Context K) (σ : Nat → MultiDiff K)

/-- Function `exp( const MultiDiffExpr<T> &x )`. -/
def exp (ex : K → K) (x : MultiDiffExpr K) : MultiDiffExpr K :=
  ReturnType c σ (MultiDiffExp ex σ x)

/-- Unary `operator-( x )`. -/
def neg (x : MultiDiffExpr K) : MultiDiffExpr K := ReturnType c σ (MultiDiffNeg x)

/-- Binary `operator+( a, b )` on two expressions. -/
def add (a b : MultiDiffExpr K) : MultiDiffExpr K := ReturnType c σ (MultiDiffPlus a b)

/-- Binary `operator-( a, b )` on two expressions. -/
def sub (a b : MultiDiffExpr K) : MultiDiffExpr K := ReturnType c σ (MultiDiffMinus a b)

/-- Binary `operator*( a, b )` on two expressions. -/
def mul (a b : MultiDiffExpr K) : MultiDiffExpr K := ReturnType c σ (MultiDiffMul σ a b)

/-- Binary `operator/( a, b )` on two expressions. -/
def div (a b : MultiDiffExpr K) : MultiDiffExpr K := ReturnType c σ (MultiDiffDiv σ a b)

/-- `operator+( a, NumType b )`: returns `ScalarMultiDiffPlus( b, a )`. -/
def addScalar (a : MultiDiffExpr K) (b : K) : MultiDiffExpr K :=
  ReturnType c σ (ScalarMultiDiffPlus b a)

/-- `operator-( a, NumType b )`: returns `ScalarMultiDiffPlus( -b, a )`. -/
def subScalar (a : MultiDiffExpr K) (b : K) : MultiDiffExpr K :=
  ReturnType c σ (ScalarMultiDiffPlus (-b) a)

/-- `operator*( a, NumType b )`: returns `ScalarMultiDiffMul( b, a )`. -/
def mulScalar (a : MultiDiffExpr K) (b : K) : MultiDiffExpr K :=
  ReturnType c σ (ScalarMultiDiffMul b a)

/-- `operator/( a, NumType b )`: returns `MultiDiffScalarDiv( a, b )`. -/
def divScalar (a : MultiDiffExpr K) (b : K) : MultiDiffExpr K :=
  ReturnType c σ (MultiDiffScalarDiv a b)

/-- `operator+( NumType a, b )`. -/
def scalarAdd (a : K) (b : MultiDiffExpr K) : MultiDiffExpr K :=
  ReturnType c σ (ScalarMultiDiffPlus a b)

/-- `operator-( NumType a, b )`. -/
def scalarSub (a : K) (b : MultiDiffExpr K) : MultiDiffExpr K :=
  ReturnType c σ (ScalarMultiDiffMinus a b)

/-- `operator*( NumType a, b )`. -/
def scalarMul (a : K) (b : MultiDiffExpr K) : MultiDiffExpr K :=
  ReturnType c σ (ScalarMultiDiffMul a b)

/-- `operator/( NumType a, b )`. -/
def scalarDiv (a : K) (b : MultiDiffExpr K) : MultiDiffExpr K :=
  ReturnType c σ (ScalarMultiDiffDiv σ a b)

end MultiDiffOps

/-! ## Expressions of the supported algebra

The syntax of an expression as a program writes it with the overloaded
operators, its meaning as a function of the independents, and the objects the
C++ operators build for it on `MultiDiff` and on `SingleDiff` operands. -/

/-- An expression over the independents `x_0 .. x_{n-1}`: negation, the four
binary operations, `exp`, and the operations with a scalar on either side. -/
inductive Expr (n : Nat) (K : Type) where
  | var (i : Fin n) : Expr n K
  | neg (a : Expr n K) : Expr n K
  | add (a b : Expr n K) : Expr n K
  | sub (a b : Expr n K) : Expr n K
  | mul (a b : Expr n K) : Expr n K
  | div (a b : Expr n K) : Expr n K
  | exp (a : Expr n K) : Expr n K
  | addScalar (a : Expr n K) (s : K) : Expr n K
  | subScalar (a : Expr n K) (s : K) : Expr n K
  | mulScalar (a : Expr n K) (s : K) : Expr n K
  | divScalar (a : Expr n K) (s : K) : Expr n K
  | scalarAdd (s : K) (b : Expr n K) : Expr n K
  | scalarSub (s : K) (b : Expr n K) : Expr n K
  | scalarMul (s : K) (b : Expr n K) : Expr n K
  | scalarDiv (s : K) (b : Expr n K) : Expr n K

/-- The function `e(x)` an expression denotes, `ex` being the exponential. -/
def Expr.eval {n : Nat} {K : Type} [Field K] (ex : K → K) (x : Fin n → K) : Expr n K → K
  | .var i => x i
  | .neg a => -a.eval ex x
  | .add a b => a.eval ex x + b.eval ex x
  | .sub a b => a.eval ex x - b.eval ex x
  | .mul a b => a.eval ex x * b.eval ex x
  | .div a b => a.eval ex x / b.eval ex x
  | .exp a => ex (a.eval ex x)
  | .addScalar a s => a.eval ex x + s
  | .subScalar a s => a.eval ex x - s
  | .mulScalar a s => a.eval ex x * s
  | .divScalar a s => a.eval ex x / s
  | .scalarAdd s b => s + b.eval ex x
  | .scalarSub s b => s - b.eval ex x
  | .scalarMul s b => s * b.eval ex x
  | .scalarDiv s b => s / b.eval ex x

/-- Every divisor met while evaluating the expression at `x` is non-zero. -/
def Expr.divisorsNonzero {n : Nat} {K : Type} [Field K] (ex : K → K) (x : Fin n → K) :
    Expr n K → Prop
  | .var _ => True
  | .neg a => a.divisorsNonzero ex x
  | .add a b => a.divisorsNonzero ex x ∧ b.divisorsNonzero ex x
  | .sub a b => a.divisorsNonzero ex x ∧ b.divisorsNonzero ex x
  | .mul a b => a.divisorsNonzero ex x ∧ b.divisorsNonzero ex x
  | .div a b => a.divisorsNonzero ex x ∧ b.divisorsNonzero ex x ∧ b.eval ex x ≠ 0
  | .exp a => a.divisorsNonzero ex x
  | .addScalar a _ => a.divisorsNonzero ex x
  | .subScalar a _ => a.divisorsNonzero ex x
  | .mulScalar a _ => a.divisorsNonzero ex x
  | .divScalar a s => a.divisorsNonzero ex x ∧ s ≠ 0
  | .scalarAdd _ b => b.divisorsNonzero ex x
  | .scalarSub _ b => b.divisorsNonzero ex x
  | .scalarMul _ b => b.divisorsNonzero ex x
  | .scalarDiv _ b => b.divisorsNonzero ex x ∧ b.eval ex x ≠ 0

/-- The object the `MultiDiff` operators build for an expression whose `i`-th
independent is the `MultiDiff` object number `i` of the store `σ`. -/
def Expr.toMultiDiff {n : Nat} {K : Type} [Field K] (ex : K → K) (c : Context K)
    (σ : Nat → MultiDiff K) : Expr n K → MultiDiffExpr K
  | .var i => .var i.val
  | .neg a => MultiDiffOps.neg c σ (a.toMultiDiff ex c σ)
  | .add a b => MultiDiffOps.add c σ (a.toMultiDiff ex c σ) (b.toMultiDiff ex c σ)
  | .sub a b => MultiDiffOps.sub c σ (a.toMultiDiff ex c σ) (b.toMultiDiff ex c σ)
  | .mul a b => MultiDiffOps.mul c σ (a.toMultiDiff ex c σ) (b.toMultiDiff ex c σ)
  | .div a b => MultiDiffOps.div c σ (a.toMultiDiff ex c σ) (b.toMultiDiff ex c σ)
  | .exp a => MultiDiffOps.exp c σ ex (a.toMultiDiff ex c σ)
  | .addScalar a s => MultiDiffOps.addScalar c σ (a.toMultiDiff ex c σ) s
  | .subScalar a s => MultiDiffOps.subScalar c σ (a.toMultiDiff ex c σ) s
  | .mulScalar a s => MultiDiffOps.mulScalar c σ (a.toMultiDiff ex c σ) s
  | .divScalar a s => MultiDiffOps.divScalar c σ (a.toMultiDiff ex c σ) s
  | .scalarAdd s b => MultiDiffOps.scalarAdd c σ s (b.toMultiDiff ex c σ)
  | .scalarSub s b => MultiDiffOps.scalarSub c σ s (b.toMultiDiff ex c σ)
  | .scalarMul s b => MultiDiffOps.scalarMul c σ s (b.toMultiDiff ex c σ)
  | .scalarDiv s b => MultiDiffOps.scalarDiv c σ s (b.toMultiDiff ex c σ)

/-- The object the `SingleDiff` operators build for an expression whose `i`-th
input is the `SingleDiff` object number `i` of the store `σ`. -/
def Expr.toSingleDiff {n : Nat} {K : Type} [Field K] (ex : K → K)
    (σ : Nat → SingleDiff K) : Expr n K → SingleDiffExpr K
  | .var i => .var i.val
  | .neg a => SingleDiffOps.neg (a.toSingleDiff ex σ)
  | .add a b => SingleDiffOps.add (a.toSingleDiff ex σ) (b.toSingleDiff ex σ)
  | .sub a b => SingleDiffOps.sub (a.toSingleDiff ex σ) (b.toSingleDiff ex σ)
  | .mul a b => SingleDiffOps.mul σ (a.toSingleDiff ex σ) (b.toSingleDiff ex σ)
  | .div a b => SingleDiffOps.div σ (a.toSingleDiff ex σ) (b.toSingleDiff ex σ)
  | .exp a => SingleDiffOps.exp ex σ (a.toSingleDiff ex σ)
  | .addScalar a s => SingleDiffOps.addScalar (a.toSingleDiff ex σ) s
  | .subScalar a s => SingleDiffOps.subScalar (a.toSingleDiff ex σ) s
  | .mulScalar a s => SingleDiffOps.mulScalar (a.toSingleDiff ex σ) s
  | .divScalar a s => SingleDiffOps.divScalar (a.toSingleDiff ex σ) s
  | .scalarAdd s b => SingleDiffOps.scalarAdd s (b.toSingleDiff ex σ)
  | .scalarSub s b => SingleDiffOps.scalarSub s (b.toSingleDiff ex σ)
  | .scalarMul s b => SingleDiffOps.scalarMul s (b.toSingleDiff ex σ)
  | .scalarDiv s b => SingleDiffOps.scalarDiv σ s (b.toSingleDiff ex σ)

/-- Function `Independent( begin, end, valiter )`: declares the `MultiDiff`
objects `old 0 .. old (num_dir - 1)` (any previous contents) as independent
variables, object `i` by `setIndependent( x i, i )`; the result is the store
of these objects. -/
def Independent {K : Type} [Zero K] [One K] (c : Context K) (old : Nat → MultiDiff K)
    (x : Fin c.num_dir → K) : Nat → MultiDiff K :=
  fun r => if h : r < c.num_dir then (old r).setIndependent c (x ⟨r, h⟩) r else old r

/-- The store of `SingleDiff` inputs `( x_i, s_i )`: object `i < n` is
`SingleDiff( x i, s i )`. -/
def directionInputs {n : Nat} {K : Type} [Zero K] (x s : Fin n → K) : Nat → SingleDiff K :=
  fun r => if h : r < n then ⟨x ⟨r, h⟩, s ⟨r, h⟩⟩ else ⟨0, 0⟩

/-- A `MultiDiff` expression is lane-uniform when the pack returned by
`getDiffValues( i )` holds in lane `l` what `getDiffValues( i + l )` holds in
lane 0, that is, when its gradient is a function of the direction alone. -/
def LaneUniform {K : Type} [Field K] (σ : Nat → MultiDiff K) (x : MultiDiffExpr K) : Prop :=
  ∀ i l, x.getDiffValues σ i l = x.getDiffValues σ (i + l) 0

/-! ## MultiDiff: further members, assignment and in-place modifiers -/

/-- Constructor `MultiDiff( REAL x )`: the value `x` with all derivative lanes
set to zero, in a new buffer. -/
def MultiDiff.ofValue {K : Type} [Zero K] (c : Context K) (x : K) : MultiDiff K :=
  MultiDiff.setDiffValsZero c ⟨x, c.fresh⟩

/-- Copy constructor `MultiDiff( const MultiDiff<REAL> &x )`: takes the value
and copies the lanes of `x`, pack by pack, into a new buffer. -/
def MultiDiff.copy {K : Type} (c : Context K) (x : MultiDiff K) : MultiDiff K :=
  ⟨x.val, store_loop c.W c.num_directions x.getDiffValues c.num_directions 0 c.fresh⟩

/-- Assignment `operator=( REAL x )`: `val = x; setDiffValsZero();`. -/
def MultiDiff.assignReal {K : Type} [Zero K] (c : Context K) (m : MultiDiff K) (x : K) :
    MultiDiff K :=
  MultiDiff.setDiffValsZero c ⟨x, m.dval⟩

/-- Assignment `operator=( const MultiDiff<REAL> &x )`: takes the value and
copies the lanes of `x`, pack by pack, into the buffer of `*this`. -/
def MultiDiff.assign {K : Type} (c : Context K) (m x : MultiDiff K) : MultiDiff K :=
  ⟨x.val, store_loop c.W c.num_directions x.getDiffValues c.num_directions 0 m.dval⟩

/-- The loop of `operator=( const MultiDiffExpr<T> &x )` on the object number
`r` of the store:
`for( i = 0; i < num_directions; i += pack_size<REAL>() )
    x.getDiffValues( i ).aligned_store( dval + i )`.
Each pack is computed from the store as it is at that iteration, so that an
expression referring to object `r` reads the lanes written so far. The first
argument bounds the number of iterations. -/
def assign_loop {K : Type} [Field K] (W D r : Nat) (x : MultiDiffExpr K) :
    Nat → Nat → (Nat → MultiDiff K) → (Nat → MultiDiff K)
  | 0, _, σ => σ
  | fuel + 1, i, σ =>
    if i < D then
      assign_loop W D r x fuel (i + W)
        (Function.update σ r ⟨(σ r).val, aligned_store W (x.getDiffValues σ i) (σ r).dval i⟩)
    else σ

/-- Assignment `operator=( const MultiDiffExpr<T> &x )` to the object number
`r` of the store: `val = x.getValue()`, then the loop storing the gradient
into the buffer of the object itself. The result is the store afterwards. -/
def MultiDiff.assignExpr {K : Type} [Field K] (c : Context K) (σ : Nat → MultiDiff K) (r : Nat)
    (x : MultiDiffExpr K) : Nat → MultiDiff K :=
  assign_loop c.W c.num_directions r x c.num_directions 0
    (Function.update σ r ⟨x.getValue σ, (σ r).dval⟩)

namespace MultiDiffOps

variable {K : Type} [Field K] (c : Context K) (σ : Nat → MultiDiff K)

/-- Member `operator+=( x )`: `*this = MultiDiffPlus<MultiDiff<REAL>, T>( *this, x )`. -/
def addAssign (r : Nat) (x : MultiDiffExpr K) : Nat → MultiDiff K :=
  MultiDiff.assignExpr c σ r (MultiDiffPlus (.var r) x)

/-- Member `operator-=( x )`: `*this = MultiDiffMinus<MultiDiff<REAL>, T>( *this, x )`. -/
def subAssign (r : Nat) (x : MultiDiffExpr K) : Nat → MultiDiff K :=
  MultiDiff.assignExpr c σ r (MultiDiffMinus (.var r) x)

/-- Member `operator*=( x )`: `*this = MultiDiffMul<MultiDiff<REAL>, T>( *this, x )`. -/
def mulAssign (r : Nat) (x : MultiDiffExpr K) : Nat → MultiDiff K :=
  MultiDiff.assignExpr c σ r (MultiDiffMul σ (.var r) x)

/-- Member `operator/=( x )`: `*this = MultiDiffDiv<MultiDiff<REAL>, T>( *this, x )`. -/
def divAssign (r : Nat) (x : MultiDiffExpr K) : Nat → MultiDiff K :=
  MultiDiff.assignExpr c σ r (MultiDiffDiv σ (.var r) x)

end MultiDiffOps

/-- Function `Independent( begin, end )`: the vector of the objects
`MultiDiff( values[i], i )`. -/
def IndependentValues {K : Type} [Zero K] [One K] (c : Context K) (values : List K) :
    List (MultiDiff K) :=
  values.mapIdx (fun i v => MultiDiff.ofValueIndex c v i)

/-- The gradient lane `j` of an expression, as every store loop computes it:
lane `j % W` of the pack `getDiffValues( j - j % W )`. -/
def MultiDiffExpr.lane {K : Type} [Field K] (c : Context K) (σ : Nat → MultiDiff K)
    (x : MultiDiffExpr K) (j : Nat) : K :=
  x.getDiffValues σ (j / c.W * c.W) (j % c.W)

/-- The padding lanes `dval[n .. D - 1]` of a `MultiDiff` are zero. -/
def PaddingZero {K : Type} [Zero K] (c : Context K) (m : MultiDiff K) : Prop :=
  ∀ j, c.num_dir ≤ j → j < c.num_directions → m.dval j = 0

/-- The padding lanes of the gradient of an expression are zero. -/
def ExprPaddingZero {K : Type} [Field K] (c : Context K) (σ : Nat → MultiDiff K)
    (x : MultiDiffExpr K) : Prop :=
  ∀ j, c.num_dir ≤ j → j < c.num_directions → x.lane c σ j = 0

/-- A materialization policy applied to the node an operator has built: the
node is converted to a `MultiDiff` when the policy selects it, and is returned
as the proxy otherwise. `ReturnTypeAt MAX_TMPS` is the policy
`SimdTemps > MAX_TMPS`. -/
def materializeIf {K : Type} [Field K] (p : MultiDiffExpr K → Bool) (c : Context K)
    (σ : Nat → MultiDiff K) (x : MultiDiffExpr K) : MultiDiffExpr K :=
  if p x then .tmp (MultiDiff.ofExpr c σ x) else x

/-- The object built for an expression when every operator applies the
materialization policy `p` to its node, in place of `ReturnType`. -/
def Expr.toMultiDiffBy {n : Nat} {K : Type} [Field K] (p : MultiDiffExpr K → Bool)
    (ex : K → K) (c : Context K) (σ : Nat → MultiDiff K) : Expr n K → MultiDiffExpr K
  | .var i => .var i.val
  | .neg a => materializeIf p c σ (MultiDiffOps.MultiDiffNeg (a.toMultiDiffBy p ex c σ))
  | .add a b => materializeIf p c σ
      (MultiDiffOps.MultiDiffPlus (a.toMultiDiffBy p ex c σ) (b.toMultiDiffBy p ex c σ))
  | .sub a b => materializeIf p c σ
      (MultiDiffOps.MultiDiffMinus (a.toMultiDiffBy p ex c σ) (b.toMultiDiffBy p ex c σ))
  | .mul a b => materializeIf p c σ
      (MultiDiffOps.MultiDiffMul σ (a.toMultiDiffBy p ex c σ) (b.toMultiDiffBy p ex c σ))
  | .div a b => materializeIf p c σ
      (MultiDiffOps.MultiDiffDiv σ (a.toMultiDiffBy p ex c σ) (b.toMultiDiffBy p ex c σ))
  | .exp a => materializeIf p c σ (MultiDiffOps.MultiDiffExp ex σ (a.toMultiDiffBy p ex c σ))
  | .addScalar a s => materializeIf p c σ
      (MultiDiffOps.ScalarMultiDiffPlus s (a.toMultiDiffBy p ex c σ))
  | .subScalar a s => materializeIf p c σ
      (MultiDiffOps.ScalarMultiDiffPlus (-s) (a.toMultiDiffBy p ex c σ))
  | .mulScalar a s => materializeIf p c σ
      (MultiDiffOps.ScalarMultiDiffMul s (a.toMultiDiffBy p ex c σ))
  | .divScalar a s => materializeIf p c σ
      (MultiDiffOps.MultiDiffScalarDiv (a.toMultiDiffBy p ex c σ) s)
  | .scalarAdd s b => materializeIf p c σ
      (MultiDiffOps.ScalarMultiDiffPlus s (b.toMultiDiffBy p ex c σ))
  | .scalarSub s b => materializeIf p c σ
      (MultiDiffOps.ScalarMultiDiffMinus s (b.toMultiDiffBy p ex c σ))
  | .scalarMul s b => materializeIf p c σ
      (MultiDiffOps.ScalarMultiDiffMul s (b.toMultiDiffBy p ex c σ))
  | .scalarDiv s b => materializeIf p c σ
      (MultiDiffOps.ScalarMultiDiffDiv σ s (b.toMultiDiffBy p ex c σ))

/-! ## SingleDiff: assignment and the comma operator -/

/-- Assignment `SingleDiff::operator=( REAL x )`: `val = x; diffval = 0;`. -/
def SingleDiff.assignReal {K : Type} [Zero K] (_m : SingleDiff K) (x : K) : SingleDiff K :=
  ⟨x, 0⟩

/-- Member `SingleDiff::operator,( REAL x )`: `diffval = x;`. -/
def SingleDiff.comma {K : Type} (m : SingleDiff K) (x : K) : SingleDiff K :=
  ⟨m.val, x⟩

/-! ## SingleDiff: polynomial evaluation and assignment of an expression -/

/-- Constructor `SingleDiff( REAL val )`: `val( val ), diffval( 0 )`. -/
def SingleDiff.ofValue {K : Type} [Zero K] (val : K) : SingleDiff K := ⟨val, 0⟩

/-- Assignment `SingleDiff::operator=( const SingleDiffExpr<T> &x )` to the
object number `r` of the store: `val = x.getValue(); diffval = x.getDiffValue();`,
the second read seeing the value just written. -/
def SingleDiff.assignExpr {K : Type} [Field K] (σ : Nat → SingleDiff K) (r : Nat)
    (x : SingleDiffExpr K) : Nat → SingleDiff K :=
  Function.update (Function.update σ r ⟨x.getValue σ, (σ r).diffval⟩) r
    ⟨x.getValue σ,
      x.getDiffValue (Function.update σ r ⟨x.getValue σ, (σ r).diffval⟩)⟩

/-- A polynomial in one variable as a program writes it with additions and
multiplications: the variable, constants, sums and products, and sums and
products with a scalar on either side. -/
inductive PolyExpr (K : Type) where
  | x : PolyExpr K
  | const (s : K) : PolyExpr K
  | add (a b : PolyExpr K) : PolyExpr K
  | mul (a b : PolyExpr K) : PolyExpr K
  | addScalar (a : PolyExpr K) (s : K) : PolyExpr K
  | scalarAdd (s : K) (b : PolyExpr K) : PolyExpr K
  | mulScalar (a : PolyExpr K) (s : K) : PolyExpr K
  | scalarMul (s : K) (b : PolyExpr K) : PolyExpr K

/-- The value `p(v)` of the polynomial. -/
def PolyExpr.eval {K : Type} [Field K] (v : K) : PolyExpr K → K
  | .x => v
  | .const s => s
  | .add a b => a.eval v + b.eval v
  | .mul a b => a.eval v * b.eval v
  | .addScalar a s => a.eval v + s
  | .scalarAdd s b => s + b.eval v
  | .mulScalar a s => a.eval v * s
  | .scalarMul s b => s * b.eval v

/-- The object the `SingleDiff` operators build when the polynomial is
evaluated at the `SingleDiff` object number `r` of the store; a constant is a
`SingleDiff( REAL val )`. -/
def PolyExpr.toSingleDiff {K : Type} [Field K] (σ : Nat → SingleDiff K) (r : Nat) :
    PolyExpr K → SingleDiffExpr K
  | .x => .var r
  | .const s => .tmp (SingleDiff.ofValue s)
  | .add a b => SingleDiffOps.add (a.toSingleDiff σ r) (b.toSingleDiff σ r)
  | .mul a b => SingleDiffOps.mul σ (a.toSingleDiff σ r) (b.toSingleDiff σ r)
  | .addScalar a s => SingleDiffOps.addScalar (a.toSingleDiff σ r) s
  | .scalarAdd s b => SingleDiffOps.scalarAdd s (b.toSingleDiff σ r)
  | .mulScalar a s => SingleDiffOps.mulScalar (a.toSingleDiff σ r) s
  | .scalarMul s b => SingleDiffOps.scalarMul s (b.toSingleDiff σ r)

/-- The polynomial with the coefficients `a_0, a_1, ...` (lowest degree first)
in Horner form, `a_0 + x * ( a_1 + x * ( ... ) )`. -/
def horner {K : Type} [Field K] : List K → PolyExpr K
  | [] => .const 0
  | a :: as => .scalarAdd a (.mul .x (horner as))

/-! ## MultiDiff: move construction and move assignment -/

/-- Move constructor `MultiDiff( MultiDiff<REAL> && x )`: takes the value and
the buffer of `x`. -/
def MultiDiff.move {K : Type} (x : MultiDiff K) : MultiDiff K := ⟨x.val, x.dval⟩

/-- Move assignment `operator=( MultiDiff<REAL> && x )`:
`std::swap( dval, x.dval ); val = x.val;`. The first component is the target
after the statement, the second is `x` after it (its value is unchanged, its
buffer is the one the target had). -/
def MultiDiff.moveAssign {K : Type} (m x : MultiDiff K) : MultiDiff K × MultiDiff K :=
  (⟨x.val, x.dval⟩, ⟨x.val, m.dval⟩)

/-! ## Sequences of MultiDiff statements -/

/-- A sequence of statements `x_r = e( x_0, ..., x_{N-1} )` on the `MultiDiff`
objects `0, ..., N-1` of the store, run in order: each right-hand side is
built by the overloaded operators from the store as the statement finds it and
assigned with `MultiDiff::operator=( const MultiDiffExpr& )`. -/
def runAssignments {N : Nat} {K : Type} [Field K] (ex : K → K) (c : Context K) :
    List (Fin N × Expr N K) → (Nat → MultiDiff K) → (Nat → MultiDiff K)
  | [], σ => σ
  | p :: ps, σ =>
    runAssignments ex c ps (MultiDiff.assignExpr c σ p.1.val (p.2.toMultiDiff ex c σ))

/-! ## Division as the hardware performs it

The model divides in a field, where `x / 0 = 0`. The quotient of the hardware
by a zero divisor is a NaN or an infinity; the definitions below give the
lanes of the three division nodes with that division, for operands that are
numbers. -/

/-- The quotient `x / y` of two numbers as the hardware computes it, as far
as this development needs it: the number `x / y` when `y` is not zero, and
`none` (a NaN or an infinity, not a number) when `y` is zero. -/
def ieeeDiv {K : Type} [Field K] [DecidableEq K] (x y : K) : Option K :=
  if y = 0 then none else some (x / y)

/-- Lane `j` of `MultiDiffDiv::getDiffValues`,
`( bval * a.getDiffValues( i ) - aval * b.getDiffValues( i ) ) / b2val`, with
the division of the hardware. -/
def MultiDiffDiv_ieeeLane {K : Type} [Field K] [DecidableEq K] (c : Context K)
    (σ : Nat → MultiDiff K) (a b : MultiDiffExpr K) (j : Nat) : Option K :=
  ieeeDiv (b.getValue σ * a.lane c σ j - a.getValue σ * b.lane c σ j)
    (b.getValue σ * b.getValue σ)

/-- Lane `j` of `ScalarMultiDiffDiv::getDiffValues`,
`- aval * b.getDiffValues( i ) / b2val`, with the division of the hardware. -/
def ScalarMultiDiffDiv_ieeeLane {K : Type} [Field K] [DecidableEq K] (c : Context K)
    (σ : Nat → MultiDiff K) (s : K) (b : MultiDiffExpr K) (j : Nat) : Option K :=
  ieeeDiv (-s * b.lane c σ j) (b.getValue σ * b.getValue σ)

/-- Lane `j` of `MultiDiffScalarDiv::getDiffValues`,
`a.getDiffValues( i ) / bval`, with the division of the hardware. -/
def MultiDiffScalarDiv_ieeeLane {K : Type} [Field K] [DecidableEq K] (c : Context K)
    (σ : Nat → MultiDiff K) (a : MultiDiffExpr K) (s : K) (j : Nat) : Option K :=
  ieeeDiv (a.lane c σ j) s

/-- No statement of the sequence divides by zero: every divisor met while the
right-hand sides are evaluated, each on the store as its statement finds it,
is non-zero. -/
def runDivisorsNonzero {N : Nat} {K : Type} [Field K] (ex : K → K) (c : Context K) :
    List (Fin N × Expr N K) → (Nat → MultiDiff K) → Prop
  | [], _ => True
  | p :: ps, σ =>
    p.2.divisorsNonzero ex (fun i => (σ i.val).getValue) ∧
    runDivisorsNonzero ex c ps (MultiDiff.assignExpr c σ p.1.val (p.2.toMultiDiff ex c σ))

/-! ## The Rosenbrock test function (src/test/Rosenbrock.hpp)

`rosen_brock` and `rosen_brock_deriv` are templates over `REAL`; the test
instantiates the first at `double` and at `MultiDiff<double>`. An array is a
function from indices to values, together with its length. -/

/-- The trip count `N - 1` of the two loops, computed in `std::size_t`
(64 bits, wrapping at `N = 0`). -/
def size_pred (N : Nat) : Nat := (N + 2 ^ 64 - 1) % 2 ^ 64

/-- The lambda `sqr` of both functions at a scalar `REAL`: `x * x`. -/
def sqr {K : Type} [Field K] (x : K) : K := x * x

/-- Function `rosen_brock( x, N )` at a scalar `REAL`:
`val += sqr( 1 - x[i] ) + 100 * sqr( x[i + 1] - sqr( x[i] ) )` for
`i < N - 1`, from `val = 0`. -/
def rosen_brock {K : Type} [Field K] (x : Nat → K) (N : Nat) : K :=
  (List.range (size_pred N)).foldl
    (fun val i => val + (sqr (1 - x i) + 100 * sqr (x (i + 1) - sqr (x i)))) 0

/-- One iteration of the loop of `rosen_brock_deriv`, on the vector `y`. -/
def rosen_brock_deriv_step {K : Type} [Field K] (x : Nat → K) (y : Nat → K) (i : Nat) :
    Nat → K :=
  let xi2 := sqr (x i)
  let y1 := Function.update y i
    (y i + 2 * (-200 * x i * x (i + 1) + 200 * xi2 * x i + x i - 1))
  Function.update y1 (i + 1) (y1 (i + 1) + 200 * (x (i + 1) - xi2))

/-- Function `rosen_brock_deriv( x )` for a vector `x` of length `size`: the
hand-written gradient, accumulated into a vector `y` of zeros by
`y[i] += 2 * ( -200 * x[i] * x[i + 1] + 200 * xi2 * x[i] + x[i] - 1 )` and
`y[i + 1] += 200 * ( x[i + 1] - xi2 )`, with `xi2 = sqr( x[i] )`, for
`i < size - 1`. -/
def rosen_brock_deriv {K : Type} [Field K] (x : Nat → K) (size : Nat) : Nat → K :=
  (List.range (size_pred size)).foldl (rosen_brock_deriv_step x) (fun _ => 0)

/-- One iteration of the loop of `rosen_brock` at `REAL = MultiDiff`; the
array `x` is the objects `0, ..., N - 1` of the store and `val` is the object
`N`. The lambda takes its argument by value, so each call of `sqr` first
builds a `MultiDiff` (from the expression `1 - x[i]`, by copy of `x[i]`, from
the expression `x[i + 1] - sqr( x[i] )`) and returns the product node over it;
these argument objects live until the end of the statement. The statement is
`val += sqr( .. ) + 100 * sqr( .. )`. -/
def rosen_brock_MultiDiff_step {K : Type} [Field K] (c : Context K) (N : Nat)
    (σ : Nat → MultiDiff K) (i : Nat) : Nat → MultiDiff K :=
  let t1 := MultiDiff.ofExpr c σ (MultiDiffOps.scalarSub c σ 1 (.var i))
  let t2 := MultiDiff.copy c (σ i)
  let t3 := MultiDiff.ofExpr c σ
    (MultiDiffOps.sub c σ (.var (i + 1)) (MultiDiffOps.mul c σ (.tmp t2) (.tmp t2)))
  MultiDiffOps.addAssign c σ N
    (MultiDiffOps.add c σ (MultiDiffOps.mul c σ (.tmp t1) (.tmp t1))
      (MultiDiffOps.scalarMul c σ 100 (MultiDiffOps.mul c σ (.tmp t3) (.tmp t3))))

/-- Function `rosen_brock( x, N )` at `REAL = MultiDiff`: `val` starts as
`MultiDiff( 0 )`, the loop runs for `i < N - 1`, and `val` is returned. -/
def rosen_brock_MultiDiff {K : Type} [Field K] (c : Context K) (x : Nat → MultiDiff K)
    (N : Nat) : MultiDiff K :=
  (List.range (size_pred N)).foldl (rosen_brock_MultiDiff_step c N)
    (Function.update x N (MultiDiff.ofValue c 0)) N

/-- The array `v.data()` of a vector `v` of `MultiDiff` objects, as a store;
`d` stands for whatever lies behind the vector. -/
def vectorData {K : Type} (v : List (MultiDiff K)) (d : MultiDiff K) : Nat → MultiDiff K :=
  fun r => v.getD r d

/-! ## gn_sbfgs_min: the initial evaluation (src/cpplsq/gn_sbfgs_min.hpp)

The part of `gn_sbfgs_min` that runs before the first iteration. The arrays
`g`, `A_` and `B_` are separate allocations, each a function from offsets to
values; `A( i, j )` is `A_[i * CN + j]` and `B( i, j )` is `B_[i * CN + j]`. -/

/-- Kernel `cblas_?axpy( N, alpha, X, incX, Y, incY )`:
`Y[i * incY] = alpha * X[i * incX] + Y[i * incY]` for `i < N`. -/
def axpy {K : Type} [Field K] (N : Nat) (alpha : K) (X : Nat → K) (incX : Nat) (Y : Nat → K)
    (incY : Nat) : Nat → K :=
  (List.range N).foldl
    (fun m i => Function.update m (i * incY) (alpha * X (i * incX) + m (i * incY))) Y

/-- Kernel `cblas_?syr( RowMajor, Lower, N, alpha, X, incX, A, lda )`: the
rank-1 update `A := alpha * x * x^T + A` of the lower triangle,
`A[i * lda + j] += x[i] * ( alpha * x[j] )` for `j <= i < N`; the entries
above the diagonal are not referenced. -/
def syr {K : Type} [Field K] (N : Nat) (alpha : K) (X : Nat → K) (incX : Nat) (A : Nat → K)
    (lda : Nat) : Nat → K :=
  (List.range N).foldl
    (fun m i => (List.range (i + 1)).foldl
      (fun m' j => Function.update m' (i * lda + j)
        (m' (i * lda + j) + X (i * incX) * (alpha * X (j * incX)))) m) A

/-- Modelled from the spec: `aligned_fill( value, first, last )` of the SIMD
helper library that is not part of the sources (spec 4, an `aligned_fill`
over arrays): every element of `[first, last)` is set to `value`. -/
def aligned_fill {K : Type} (value : K) (mem : Nat → K) (first last : Nat) : Nat → K :=
  fun k => if first ≤ k ∧ k < last then value else mem k

/-- Modelled from the spec: `aligned_transform<1>( f, n, a, b )` of the SIMD
helper library that is not part of the sources (spec 4, an
`aligned_transform` over arrays): for every `k < n` the elements `a[k]` and
`b[k]` are loaded as `p[0]` and `p[1]`, `f` is applied, and `p[0]` is stored
back to `a[k]`; `f` is given by what it leaves in `p[0]`. -/
def aligned_transform_1 {K : Type} (f : K → K → K) (n : Nat) (a b : Nat → K) : Nat → K :=
  fun k => if k < n then f (a k) (b k) else a k

/-- The variables of `gn_sbfgs_min` that the initial evaluation sets. -/
structure GnState (K : Type) where
  normr2 : K
  g : Nat → K
  A_ : Nat → K
  B_ : Nat → K
  r : Nat → MultiDiff K

/-- The body of the loop over the residuals: `MD residual = residuals[i]( tp )`,
`normr2 += residual.getValue() * residual.getValue()`, then `blas::axpy` of
the gradient into `g`, `blas::syr` of it into `B_`, and
`r[i] = std::move( residual )`. -/
def gn_residual_step {K : Type} [Field K] (N CN : Nat) (tp : Nat → MultiDiff K)
    (residuals : Nat → (Nat → MultiDiff K) → MultiDiff K) (st : GnState K) (i : Nat) :
    GnState K :=
  ⟨st.normr2 + (residuals i tp).getValue * (residuals i tp).getValue,
    axpy N (residuals i tp).getValue (residuals i tp).dval 1 st.g 1,
    st.A_,
    syr N 1 (residuals i tp).dval 1 st.B_ CN,
    Function.update st.r i (MultiDiff.moveAssign (st.r i) (residuals i tp)).1⟩

/-- The loop `for( i = 0; i < N; ++i ) { ...; A( i, i ) = normr; }`. -/
def gn_set_diagonal {K : Type} (N CN : Nat) (normr : K) (A_ : Nat → K) : Nat → K :=
  (List.range N).foldl (fun m i => Function.update m (i * CN + i) normr) A_

/-- The initial evaluation of `gn_sbfgs_min`, with the identity parameter
transform: `N` is the number of parameters (the `num_dir` of the context),
`CN = next_size( N )`, `M` the number of residuals, `sqrt` is `std::sqrt`;
`g0`, `A0`, `B0`, `r0` and `old` are the contents of the new arrays before
they are initialised. The parameters are seeded with `setIndependent`, the
arrays are zeroed, the residuals are swept, and then
`normr = 1e-4 * sqrt( normr2 )` goes on the diagonal of `A` and `A_` is added
to `B_` element by element. -/
def gn_sbfgs_min_init {K : Type} [Field K] (sqrt : K → K) (c : Context K)
    (old : Nat → MultiDiff K) (params : Fin c.num_dir → K) (M : Nat)
    (residuals : Nat → (Nat → MultiDiff K) → MultiDiff K) (g0 A0 B0 : Nat → K)
    (r0 : Nat → MultiDiff K) : GnState K :=
  let N := c.num_dir
  let CN := next_size c.W N
  let NxCN := N * CN
  let A1 := aligned_fill 0 A0 0 NxCN
  let g1 := aligned_fill 0 g0 0 CN
  let ad_params := Independent c old params
  let B1 := aligned_fill 0 B0 0 NxCN
  let st := (List.range M).foldl (gn_residual_step N CN ad_params residuals)
    ⟨0, g1, A1, B1, r0⟩
  let normr := 1 / 10000 * sqrt st.normr2
  let A2 := gn_set_diagonal N CN normr st.A_
  ⟨st.normr2, st.g, A2, aligned_transform_1 (fun p0 p1 => p0 + p1) NxCN st.B_ A2, st.r⟩

/-! ## Concrete inputs used by the witnesses -/

/-- A context with 4 lanes per pack and 2 independents, whose new buffers
hold the value 7 in every lane. -/
def exampleContext (K : Type) [Field K] : Context K := ⟨4, by decide, 2, fun _ => 7⟩

/-- The expression `(x0 * x1) * (x0 * x1) / (exp(x0) + 1)` of two independents.
Its quotient node needs 10 SIMD temporaries, more than the threshold 8, so
`operator/` returns it materialized. -/
def exampleExpr (K : Type) [Field K] : Expr 2 K :=
  .div (.mul (.mul (.var 0) (.var 1)) (.mul (.var 0) (.var 1))) (.addScalar (.exp (.var 0)) 1)

/-- Two `MultiDiff` objects with arbitrary previous contents. -/
def exampleOld (K : Type) [Field K] : Nat → MultiDiff K := fun _ => ⟨3, fun _ => 5⟩

/-- The two objects of `exampleOld` seeded as the independents `x0 = 1` and
`x1 = 2` in `exampleContext`. -/
def exampleStore (K : Type) [Field K] : Nat → MultiDiff K :=
  Independent (exampleContext K) (exampleOld K) ![1, 2]

/-- The two objects of `exampleOld` seeded as the independents `x0 = 1` and
`x1 = 0` in `exampleContext`. -/
def zeroDivisorStore (K : Type) [Field K] : Nat → MultiDiff K :=
  Independent (exampleContext K) (exampleOld K) ![1, 0]

/-- A context with 4 lanes per pack and the 10 independents of the Rosenbrock
test (12 lanes per buffer), whose new buffers hold the value 7. -/
def rosenContext (K : Type) [Field K] : Context K := ⟨4, by decide, 10, fun _ => 7⟩

/-- A point of `[-10, 10]^10`, the box the Rosenbrock test draws from. -/
def rosenPoint : List ℚ := [3, -7, 1 / 2, 0, 9, -10, 4, -3 / 2, 6, -1]

/-- Kernel `cblas_?scal( N, alpha, X, incX )`: `X[i * incX] *= alpha` for
`i < N`; here `X` points at offset `x` of `mem`. -/
def scal {K : Type} [Field K] (N : Nat) (alpha : K) (mem : Nat → K) (x incX : Nat) : Nat → K :=
  (List.range N).foldl
    (fun m i => Function.update m (x + i * incX) (alpha * m (x + i * incX))) mem

/-- Kernel `cblas_?gemv( RowMajor, NoTrans, M, N, alpha, A, lda, X, incX, beta, Y, incY )`:
`Y[i * incY] = alpha * sum_{j < N} A[i * lda + j] * X[j * incX] + beta * Y[i * incY]`
for `i < M`, the right-hand sides being read from the entry state. The three
pointers are the offsets `a`, `x`, `y` into the same array `mem`. -/
def gemv {K : Type} [Field K] (M N : Nat) (alpha : K) (mem : Nat → K) (a lda x incX : Nat)
    (beta : K) (y incY : Nat) : Nat → K :=
  (List.range M).foldl
    (fun m i => Function.update m (y + i * incY)
      (alpha * (∑ j in Finset.range N, mem (a + i * lda + j) * mem (x + j * incX))
        + beta * mem (y + i * incY))) mem

/-- Kernel `cblas_?trsv( RowMajor, Lower, NoTrans, NonUnit, N, A, lda, X, incX )`:
solves `L * x = b` in place by forward substitution, `L` being the lower
triangle of `A` (an array of its own, read at offset `a`). -/
def trsv_NoTrans {K : Type} [Field K] (N : Nat) (A : Nat → K) (a lda : Nat) (X : Nat → K)
    (x incX : Nat) : Nat → K :=
  (List.range N).foldl
    (fun m i => Function.update m (x + i * incX)
      ((m (x + i * incX) - ∑ j in Finset.range i, A (a + i * lda + j) * m (x + j * incX))
        / A (a + i * lda + i))) X

/-- Kernel `cblas_?trsv( RowMajor, Lower, Trans, NonUnit, N, A, lda, X, incX )`:
solves `L^T * x = b` in place by backward substitution, from the last row up. -/
def trsv_Trans {K : Type} [Field K] (N : Nat) (A : Nat → K) (a lda : Nat) (X : Nat → K)
    (x incX : Nat) : Nat → K :=
  (List.range N).reverse.foldl
    (fun m i => Function.update m (x + i * incX)
      ((m (x + i * incX) - ∑ j in Finset.Ico (i + 1) N, A (a + j * lda + i) * m (x + j * incX))
        / A (a + i * lda + i))) X

/-! ## cholesky_solve (src/cpplsq/cholesky_solve.hpp) -/

/-- Outcome of `cholesky_solve`: the returned `int`, and the contents of the
arrays `A_` and `b` on return. -/
structure CholeskyResult (K : Type) where
  ret : Nat
  A : Nat → K
  b : Nat → K

/-- The loop `for( size_t k = 1; k < N; ++k )` of `cholesky_solve`, from the
current `k` and array contents. The first argument bounds the number of
iterations. The result is the value returned from inside the loop (`k + 1`),
or 0 when the loop runs to its end, with the array contents at that point. -/
def cholesky_loop {K : Type} [LinearOrderedField K] (sqrt : K → K) (LDA N : Nat) :
    Nat → Nat → (Nat → K) → Nat × (Nat → K)
  | 0, _, A => (0, A)
  | fuel + 1, k, A =>
    if k < N then
      let A1 := gemv (N - k) k (-1) A (k * LDA + 0) LDA (k * LDA + 0) 1 1 (k * LDA + k) LDA
      let v := A1 (k * LDA + k)
      if v < 0 then (k + 1, A1)
      else
        let A2 := Function.update A1 (k * LDA + k) (sqrt v)
        let A3 := scal (N - k - 1) (1 / A2 (k * LDA + k)) A2 ((k + 1) * LDA + k) LDA
        cholesky_loop sqrt LDA N fuel (k + 1) A3
    else (0, A)

/-- Function `cholesky_solve( A_, LDA, b, N )`; `sqrt` is `std::sqrt`. -/
def cholesky_solve {K : Type} [LinearOrderedField K] (sqrt : K → K) (A_ : Nat → K) (LDA : Nat)
    (b : Nat → K) (N : Nat) : CholeskyResult K :=
  let v := A_ (0 * LDA + 0)
  if v < 0 then ⟨1, A_, b⟩
  else
    let A1 := Function.update A_ (0 * LDA + 0) (sqrt v)
    let A2 := scal (N - 1) (1 / A1 (0 * LDA + 0)) A1 (1 * LDA + 0) LDA
    let r := cholesky_loop sqrt LDA N N 1 A2
    if r.1 ≠ 0 then ⟨r.1, r.2, b⟩
    else
      let b1 := trsv_NoTrans N r.2 0 LDA b 0 1
      let b2 := trsv_Trans N r.2 0 LDA b1 0 1
      ⟨0, r.2, b2⟩

/-! ## The Cholesky recurrence, as a specification -/

/-- The first `k` columns of the Cholesky factor of the matrix `M`, by the
textbook recurrence: with `d = M k k - sum_{t < k} L k t ^ 2` the pivot of
column `k`, `L k k = sqrt d` and `L i k = (M i k - sum_{t < k} L i t * L k t) / sqrt d`
below the diagonal; entries above the diagonal and columns not yet computed
are 0. -/
def cholFactor {K : Type} [Field K] (sqrt : K → K) (M : Nat → Nat → K) : Nat → Nat → Nat → K
  | 0 => fun _ _ => 0
  | k + 1 => fun i j =>
    if j = k then
      if i < k then 0
      else if i = k then
        sqrt (M k k - ∑ t in Finset.range k, cholFactor sqrt M k k t * cholFactor sqrt M k k t)
      else
        (M i k - ∑ t in Finset.range k, cholFactor sqrt M k i t * cholFactor sqrt M k k t)
          / sqrt (M k k - ∑ t in Finset.range k, cholFactor sqrt M k k t * cholFactor sqrt M k k t)
    else cholFactor sqrt M k i j

/-- The updated pivot of column `k` in the column-by-column factorization of
`M`: `M k k - sum_{t < k} L k t ^ 2`. -/
def cholPivot {K : Type} [Field K] (sqrt : K → K) (M : Nat → Nat → K) (k : Nat) : K :=
  M k k - ∑ t in Finset.range k, cholFactor sqrt M k k t * cholFactor sqrt M k k t

/-- The symmetric matrix whose lower triangle is stored in the array `A`. -/
def symOf {K : Type} (A : Nat → K) (LDA : Nat) : Nat → Nat → K :=
  fun i j => if j ≤ i then A (i * LDA + j) else A (j * LDA + i)

/-- The lower-triangular matrix stored in the lower triangle of the array `A`. -/
def lowerOf {K : Type} [Zero K] (A : Nat → K) (LDA : Nat) : Nat → Nat → K :=
  fun i j => if j ≤ i then A (i * LDA + j) else 0

/-- Positive definiteness of the leading `N x N` block of `S`: the quadratic
form is positive at every vector that is non-zero somewhere below `N`. -/
def PosDef {K : Type} [LinearOrderedField K] (S : Nat → Nat → K) (N : Nat) : Prop :=
  ∀ v : Nat → K, (∃ i, i < N ∧ v i ≠ 0) →
    0 < ∑ i in Finset.range N, ∑ j in Finset.range N, v i * S i j * v j

/-- The matrix-vector product `(S * x)_i = sum_{j < N} S i j * x j`. -/
def matVec {K : Type} [Field K] (S : Nat → Nat → K) (N : Nat) (x : Nat → K) : Nat → K :=
  fun i => ∑ j in Finset.range N, S i j * x j

/-- The invariant of the factorization loop of `cholesky_solve` before column
`k`: the columns below `k` of the lower triangle of the array hold the
Cholesky recurrence of the input, and every other entry of the array is as on
entry (`A0`). -/
def CholInv {K : Type} [Field K] (sqrt : K → K) (A0 : Nat → K) (LDA N k : Nat)
    (A : Nat → K) : Prop :=
  (∀ i j, j < k → j ≤ i → i < N →
      A (i * LDA + j) = cholFactor sqrt (symOf A0 LDA) k i j) ∧
  (∀ p, (∀ i j, j < k → j ≤ i → i < N → p ≠ i * LDA + j) → A p = A0 p)

/-- A square root on the rationals that is exact on squares of rationals; it
stands for `std::sqrt` when the model is run on rational inputs. -/
def ratSqrt (q : ℚ) : ℚ := (Nat.sqrt q.num.toNat : ℚ) / (Nat.sqrt q.den : ℚ)

/-- The array of `CholeskyTest.cpp`: the lower triangle of
`[[4,12,-16],[12,37,-43],[-16,-43,98]]`, row-major with `LDA = 3`; the
entries above the diagonal are not set by the test (here 0). -/
def testMatrix (K : Type) [Field K] : Nat → K := fun p =>
  match p with
  | 0 => 4
  | 3 => 12
  | 4 => 37
  | 6 => -16
  | 7 => -43
  | 8 => 98
  | _ => 0

/-- The right-hand side `b = A * x` of `CholeskyTest.cpp` for `x = (4, 5, 6)`. -/
def testRhs (K : Type) [Field K] : Nat → K := fun p =>
  match p with
  | 0 => -20
  | 1 => -25
  | 2 => 309
  | _ => 0

/-- The vector `x = (4, 5, 6)` of `CholeskyTest.cpp`. -/
def testX (K : Type) [Field K] : Nat → K := fun p =>
  match p with
  | 0 => 4
  | 1 => 5
  | 2 => 6
  | _ => 0

/-- The lower triangle of the indefinite matrix `[[1,2],[2,1]]`, row-major
with `LDA = 2`. -/
def indefiniteMatrix (K : Type) [Field K] : Nat → K := fun p =>
  match p with
  | 0 => 1
  | 2 => 2
  | 3 => 1
  | _ => 0

/-! ## line_search (src/cpplsq/line_search.hpp) -/

/-- Outcome of `line_search`: the returned flag, the value left in the in/out
argument `alpha`, and (ghost) the step lengths that were passed to `f`, in
order of evaluation. -/
structure LineSearchResult (K : Type) where
  ret : Bool
  alpha : K
  evals : List K

/-- Constant `c1 = 1e-4` of `line_search`. -/
def c1 {K : Type} [LinearOrderedField K] : K := 1 / 10000

/-- Constant `c2 = 0.9` of `line_search`. -/
def c2 {K : Type} [LinearOrderedField K] : K := 9 / 10

/-- The step-length update at the end of the loop body of `line_search`:
`if( up < inf ) alpha = ( up + lo ) / 2; else alpha *= 2;`. -/
def next_alpha {K : Type} [LinearOrderedField K] (inf alpha lo up : K) : K :=
  if up < inf then (up + lo) / 2 else alpha * 2

/-- The `for` loop of `line_search`. The first `Nat` is the number of
iterations still to run (`LINESEARCH_MAXITER - l`); `isfinite` is
`std::isfinite` and `inf` is `std::numeric_limits<REAL>::max()`. The list
`tr` is the ghost record of tested step lengths. The fields of `f0` and of the
values of `f` are numbers here; `line_search_loop_nan` below is the same loop
on values that may be NaN, and agrees with this one on numbers
(`line_search_loop_nan_toNan`). -/
def line_search_loop {K : Type} [LinearOrderedField K] (isfinite : K → Bool) (inf : K)
    (f0 : SingleDiff K) (f : K → SingleDiff K) :
    Nat → K → K → K → List K → LineSearchResult K
  | 0, alpha, _, _, tr => ⟨false, alpha, tr⟩
  | n + 1, alpha, lo, up, tr =>
    if (!isfinite (f alpha).getValue) ||
        decide ((f alpha).getValue > f0.getValue + c1 * alpha * f0.getDiffValue) then
      -- up = alpha
      line_search_loop isfinite inf f0 f n (next_alpha inf alpha lo alpha) lo alpha (tr ++ [alpha])
    else if (f alpha).getDiffValue < c2 * f0.getDiffValue then
      -- lo = alpha
      line_search_loop isfinite inf f0 f n (next_alpha inf alpha alpha up) alpha up (tr ++ [alpha])
    else
      ⟨true, alpha, tr ++ [alpha]⟩

/-- Function `line_search( f0, f, alpha )`, with `lo = 0`, `up = inf` and
`maxiter = LINESEARCH_MAXITER`. -/
def line_search {K : Type} [LinearOrderedField K] (isfinite : K → Bool) (inf : K) (maxiter : Nat)
    (f0 : SingleDiff K) (f : K → SingleDiff K) (alpha : K) : LineSearchResult K :=
  line_search_loop isfinite inf f0 f maxiter alpha 0 inf []

/-- Ghost trace of `line_search`: the triples `(lo, alpha, up)` of the loop
variables at each call `f( alpha )`, in order; the arguments are those of
`line_search_loop`. -/
def line_search_brackets {K : Type} [LinearOrderedField K] (isfinite : K → Bool) (inf : K)
    (f0 : SingleDiff K) (f : K → SingleDiff K) :
    Nat → K → K → K → List (K × K × K)
  | 0, _, _, _ => []
  | n + 1, alpha, lo, up =>
    (lo, alpha, up) ::
      (if (!isfinite (f alpha).getValue) ||
          decide ((f alpha).getValue > f0.getValue + c1 * alpha * f0.getDiffValue) then
        line_search_brackets isfinite inf f0 f n (next_alpha inf alpha lo alpha) lo alpha
      else if (f alpha).getDiffValue < c2 * f0.getDiffValue then
        line_search_brackets isfinite inf f0 f n (next_alpha inf alpha alpha up) alpha up
      else [])

/-- Constant `LINESEARCH_MAXITER` of `line_search`,
`ceil( -log2( pow( epsilon, 2. / 3. ) ) )`, for a `REAL` whose machine epsilon
is `2^-p` (`p = 52` for `double`, `p = 23` for `float`): the least integer
that is not below `2 p / 3`. -/
def LINESEARCH_MAXITER (p : Nat) : Nat := (2 * p + 2) / 3

/-- The acceptance test of `line_search` at step `a`: the value is finite, the
sufficient-decrease (Armijo) inequality and the curvature inequality hold. -/
def weakWolfe {K : Type} [LinearOrderedField K] (isfinite : K → Bool)
    (f0 : SingleDiff K) (f : K → SingleDiff K) (a : K) : Prop :=
  isfinite (f a).getValue = true ∧
  (f a).getValue ≤ f0.getValue + (1 / 10000) * a * f0.getDiffValue ∧
  (f a).getDiffValue ≥ (9 / 10) * f0.getDiffValue

/-! ## line_search on values that may be NaN

`line_search_loop` takes the values of `f0` and of `f` to be numbers. The
tests of the C++ loop are IEEE comparisons, which are false whenever an
operand is NaN. Below a value of type `Option K` is a `REAL` that is either a
number (`some x`) or NaN (`none`); the step lengths stay numbers. -/

/-- The sum `a + b` of two values that may be NaN. -/
def nanAdd {K : Type} [Add K] : Option K → Option K → Option K
  | some a, some b => some (a + b)
  | _, _ => none

/-- The product `a * b` of two values that may be NaN. -/
def nanMul {K : Type} [Mul K] : Option K → Option K → Option K
  | some a, some b => some (a * b)
  | _, _ => none

/-- The comparison `a < b` (and `b > a`) of two values that may be NaN: false
when either is NaN. -/
def nanLt {K : Type} [LinearOrderedField K] : Option K → Option K → Bool
  | some a, some b => decide (a < b)
  | _, _ => false

/-- Function `std::isfinite` on a value that may be NaN. -/
def nanIsFinite {K : Type} (isfinite : K → Bool) : Option K → Bool
  | some a => isfinite a
  | none => false

/-- A `SingleDiff` of numbers read as a `SingleDiff` of values that may be
NaN. -/
def SingleDiff.toNan {K : Type} (x : SingleDiff K) : SingleDiff (Option K) :=
  ⟨some x.val, some x.diffval⟩

/-- The `for` loop of `line_search` when the fields of `f0` and of the
values of `f` may be NaN; arguments as for `line_search_loop`. The first test
is `!isfinite( fval ) || fval > f0 + c1 * alpha * f0'`, the second
`fval' < c2 * f0'`. -/
def line_search_loop_nan {K : Type} [LinearOrderedField K] (isfinite : K → Bool) (inf : K)
    (f0 : SingleDiff (Option K)) (f : K → SingleDiff (Option K)) :
    Nat → K → K → K → List K → LineSearchResult K
  | 0, alpha, _, _, tr => ⟨false, alpha, tr⟩
  | n + 1, alpha, lo, up, tr =>
    if (!nanIsFinite isfinite (f alpha).getValue) ||
        nanLt (nanAdd f0.getValue (nanMul (some (c1 * alpha)) f0.getDiffValue))
          (f alpha).getValue then
      -- up = alpha
      line_search_loop_nan isfinite inf f0 f n (next_alpha inf alpha lo alpha) lo alpha
        (tr ++ [alpha])
    else if nanLt (f alpha).getDiffValue (nanMul (some c2) f0.getDiffValue) then
      -- lo = alpha
      line_search_loop_nan isfinite inf f0 f n (next_alpha inf alpha alpha up) alpha up
        (tr ++ [alpha])
    else
      ⟨true, alpha, tr ++ [alpha]⟩

/-- Function `line_search( f0, f, alpha )` when the fields of `f0` and of the
values of `f` may be NaN. -/
def line_search_nan {K : Type} [LinearOrderedField K] (isfinite : K → Bool) (inf : K)
    (maxiter : Nat) (f0 : SingleDiff (Option K)) (f : K → SingleDiff (Option K)) (alpha : K) :
    LineSearchResult K :=
  line_search_loop_nan isfinite inf f0 f maxiter alpha 0 inf []

/-! ## gn_sbfgs_min: the iteration (src/cpplsq/gn_sbfgs_min.hpp)

The `for( int k = 0; k < MAXITER; ++k )` loop of `gn_sbfgs_min`, with the
identity parameter transform. The residual functors are templates: the
optimizer calls them on `MultiDiff` parameters (for values and gradients) and
on `SingleDiff` parameters (inside the line search), so the model takes the
two instances of every functor. -/

/-- Modelled from the spec: `aligned_transform( f, first, last, in )` of the
SIMD helper library that is not part of the sources (spec 4, an
`aligned_transform` over arrays): `out[k] = f( in[k] )` for the `n` elements
of `[first, last)`. -/
def aligned_transform {K : Type} (f : K → K) (out : Nat → K) (n : Nat) (inp : Nat → K) :
    Nat → K :=
  fun k => if k < n then f (inp k) else out k

/-- Modelled from the spec: `aligned_transform<2>( f, n, a, b, c, d )` of the
SIMD helper library that is not part of the sources: for every `k < n` the
elements `a[k]`, `b[k]`, `c[k]`, `d[k]` are loaded as `p[0] .. p[3]`, `f` is
applied, and `p[0]`, `p[1]` are stored back to `a[k]`, `b[k]`; `f` is given by
what it leaves in `p[0]` and `p[1]`. -/
def aligned_transform_2 {K : Type} (f : K → K → K → K → K × K) (n : Nat) (a b c d : Nat → K) :
    (Nat → K) × (Nat → K) :=
  (fun k => if k < n then (f (a k) (b k) (c k) (d k)).1 else a k,
   fun k => if k < n then (f (a k) (b k) (c k) (d k)).2 else b k)

/-- Kernel `cblas_?dot( N, X, incX, Y, incY )`: the sum of
`X[i * incX] * Y[i * incY]` for `i < N`. -/
def dot {K : Type} [Field K] (N : Nat) (X : Nat → K) (incX : Nat) (Y : Nat → K) (incY : Nat) :
    K :=
  ∑ i in Finset.range N, X (i * incX) * Y (i * incY)

/-- Kernel `cblas_?symv( RowMajor, Lower, N, alpha, A, lda, X, incX, beta, Y, incY )`:
`Y := alpha * A * X + beta * Y` for the symmetric matrix whose lower triangle
is stored in `A`; `X` and `Y` are arrays of their own. -/
def symv {K : Type} [Field K] (N : Nat) (alpha : K) (A : Nat → K) (lda : Nat) (X : Nat → K)
    (incX : Nat) (beta : K) (Y : Nat → K) (incY : Nat) : Nat → K :=
  (List.range N).foldl
    (fun m i => Function.update m (i * incY)
      (alpha * (∑ j in Finset.range N, symOf A lda i j * X (j * incX)) + beta * Y (i * incY))) Y

/-- Kernel `cblas_i?amax( N, X, incX )`: the index of the first element of
largest absolute value (0 when `N` is 0). -/
def iamax {K : Type} [LinearOrderedField K] (N : Nat) (X : Nat → K) (incX : Nat) : Nat :=
  (List.range N).foldl
    (fun best i => if |X (best * incX)| < |X (i * incX)| then i else best) 0

/-- Member `SingleDiff::operator+=( x )`: `*this = *this + x`, the assignment
being `operator=( const SingleDiffExpr<T>& )` on the object itself. -/
def SingleDiff.addAssign {K : Type} [Field K] (m : SingleDiff K) (x : SingleDiffExpr K) :
    SingleDiff K :=
  SingleDiff.assignExpr (fun _ => m) 0 (SingleDiffOps.add (.var 0) x) 0

/-- The array `directed_ad_params` after the loop
`directed_ad_params[i] = params[i] + a * s[i], s[i]` for `i < N` (an
assignment of a scalar followed by the comma operator). -/
def directed_ad_params {K : Type} [Field K] (N : Nat) (params s : Nat → K) (a : K) :
    Nat → SingleDiff K :=
  fun j =>
    if j < N then (SingleDiff.assignReal ⟨0, 0⟩ (params j + a * s j)).comma (s j) else ⟨0, 0⟩

/-- The lambda `eval_step_size` of `gn_sbfgs_min`: seeds `directed_ad_params`,
then for every residual `SD residual = residuals[i]( tp )` and
`f += residual * residual` (from `SD f = 0`), and returns `f * 0.5`. -/
def eval_step_size {K : Type} [Field K] (N M : Nat)
    (residualsSD : Nat → (Nat → SingleDiff K) → SingleDiff K) (params s : Nat → K) (a : K) :
    SingleDiff K :=
  let tp := directed_ad_params N params s a
  let f := (List.range M).foldl
    (fun f i =>
      let residual := residualsSD i tp
      f.addAssign (SingleDiffOps.mul tp (.tmp residual) (.tmp residual)))
    (SingleDiff.ofValue 0)
  SingleDiff.ofExpr tp (SingleDiffOps.mulScalar (.tmp f) (1 / 2))

/-- What `gn_sbfgs_min` is called with and the library facilities it uses:
the `MultiDiff` context of `N = c.num_dir` directions, the number `M` of
residuals, the residual functors at `MultiDiff` and at `SingleDiff`, the
tolerance, and `std::sqrt`, `std::isfinite`, `numeric_limits<REAL>::max()` and
the iteration bound of `line_search`. -/
structure GnEnv (K : Type) where
  c : Context K
  M : Nat
  residuals : Nat → (Nat → MultiDiff K) → MultiDiff K
  residualsSD : Nat → (Nat → SingleDiff K) → SingleDiff K
  tolerance : K
  sqrt : K → K
  isfinite : K → Bool
  inf : K
  LINESEARCH_MAXITER : Nat

/-- The number `N` of parameters. -/
def GnEnv.N {K : Type} (env : GnEnv K) : Nat := env.c.num_dir

/-- The padded length `CN = simd::next_size<REAL>( N )`. -/
def GnEnv.CN {K : Type} (env : GnEnv K) : Nat := next_size env.c.W env.c.num_dir

/-- The variables of `gn_sbfgs_min` that live across iterations. -/
structure GnVars (K : Type) where
  params : Nat → K
  ad_params : Nat → MultiDiff K
  normr2 : K
  g : Nat → K
  s : Nat → K
  z : Nat → K
  As : Nat → K
  A_ : Nat → K
  B_ : Nat → K
  r : Nat → MultiDiff K
  small_progress : Nat

/-- The search direction: `s = -g` (over `CN` elements),
`pos = cholesky_solve( B_, CN, s, N )`, and `s = -g` again if `pos` is not 0.
Returns `pos` and the variables, `B_` being as `cholesky_solve` leaves it. -/
def gn_direction {K : Type} [LinearOrderedField K] (env : GnEnv K) (v : GnVars K) :
    Nat × GnVars K :=
  let s1 := aligned_transform (fun x => -x) v.s env.CN v.g
  let res := cholesky_solve env.sqrt v.B_ env.CN s1 env.N
  let s2 := if res.ret ≠ 0 then aligned_transform (fun x => -x) res.b env.CN v.g else res.b
  (res.ret, ⟨v.params, v.ad_params, v.normr2, v.g, s2, v.z, v.As, v.A_, res.A, v.r,
    v.small_progress⟩)

/-- The call `line_search( f0, eval_step_size, alpha )` with `alpha = 1` and
`f0 = 0.5 * normr2, blas::dot( N, g, 1, s, 1 )`, on the variables as
`gn_direction` leaves them. -/
def gn_line_search {K : Type} [LinearOrderedField K] (env : GnEnv K) (v : GnVars K) :
    LineSearchResult K :=
  line_search env.isfinite env.inf env.LINESEARCH_MAXITER
    ((SingleDiff.assignReal ⟨0, 0⟩ (1 / 2 * v.normr2)).comma (dot env.N v.g 1 v.s 1))
    (eval_step_size env.N env.M env.residualsSD v.params v.s) 1

/-- The variables the sweep over the residuals accumulates after a step. -/
structure GnSweep (K : Type) where
  new_normr2 : K
  g : Nat → K
  z : Nat → K
  B_ : Nat → K
  r : Nat → MultiDiff K

/-- The body of the loop over the residuals after an accepted step:
`MD residual = residuals[i]( tp )`, `new_normr2 += residual.getValue()^2`,
the `aligned_transform<2>` with `p[0] += rval * p[2]` and
`p[1] += rval * ( p[2] - p[3] )` over `CN` elements of `g`, `z`, the gradient
of `residual` and the gradient of `r[i]`, then `blas::syr` into `B_` and
`r[i] = std::move( residual )`. -/
def gn_sweep_step {K : Type} [Field K] (N CN : Nat) (tp : Nat → MultiDiff K)
    (residuals : Nat → (Nat → MultiDiff K) → MultiDiff K) (st : GnSweep K) (i : Nat) :
    GnSweep K :=
  ⟨st.new_normr2 + (residuals i tp).getValue * (residuals i tp).getValue,
    (aligned_transform_2
      (fun p0 p1 p2 p3 =>
        (p0 + (residuals i tp).getValue * p2, p1 + (residuals i tp).getValue * (p2 - p3)))
      CN st.g st.z (residuals i tp).dval (st.r i).dval).1,
    (aligned_transform_2
      (fun p0 p1 p2 p3 =>
        (p0 + (residuals i tp).getValue * p2, p1 + (residuals i tp).getValue * (p2 - p3)))
      CN st.g st.z (residuals i tp).dval (st.r i).dval).2,
    syr N 1 (residuals i tp).dval 1 st.B_ CN,
    Function.update st.r i (MultiDiff.moveAssign (st.r i) (residuals i tp)).1⟩

/-- The loop `for( size_t i = 0; i < N; ++i ) B( i, i ) += normr;`. -/
def gn_add_diagonal {K : Type} [Field K] (N CN : Nat) (normr : K) (B_ : Nat → K) : Nat → K :=
  (List.range N).foldl (fun m i => Function.update m (i * CN + i) (m (i * CN + i) + normr)) B_

/-- The first part of the accept branch, for the step length `alpha` found by
the line search: `blas::scal( N, alpha, s, 1 )`, the loop
`params[i] = params[i] + s[i]; ad_params[i].setIndependent( params[i], i )`,
the zeroing of `B_`, `g` and `z`, the sweep over the residuals, and
`blas::scal( N, sqrt( new_normr2 / normr2 ), z, 1 )`. Returns the variables
(`normr2` still the old one) and `new_normr2`. -/
def gn_accept {K : Type} [Field K] (env : GnEnv K) (v : GnVars K) (alpha : K) : GnVars K × K :=
  let s1 := scal env.N alpha v.s 0 1
  let params1 : Nat → K := fun i => if i < env.N then v.params i + s1 i else v.params i
  let ad1 := Independent env.c v.ad_params (fun i => params1 i.val)
  let sw := (List.range env.M).foldl (gn_sweep_step env.N env.CN ad1 env.residuals)
    ⟨0, aligned_fill 0 v.g 0 env.CN, aligned_fill 0 v.z 0 env.CN,
      aligned_fill 0 v.B_ 0 (env.N * env.CN), v.r⟩
  (⟨params1, ad1, v.normr2, sw.g, s1,
      scal env.N (env.sqrt (sw.new_normr2 / v.normr2)) sw.z 0 1, v.As, v.A_, sw.B_, sw.r,
      v.small_progress⟩,
    sw.new_normr2)

/-- The end of the accept branch, reached when neither termination test
fired: `normr2 = new_normr2`, `zs = dot( z, s )`, and either the structured
BFGS update of `A_` (when `zs / dot( s, s ) >= 1e-6`) followed by
`B_ += A_`, or `B( i, i ) += sqrt( normr2 )`. -/
def gn_hessian_update {K : Type} [LinearOrderedField K] (env : GnEnv K) (v : GnVars K)
    (new_normr2 : K) : GnVars K :=
  let zs := dot env.N v.z 1 v.s 1
  if zs / dot env.N v.s 1 v.s 1 ≥ 1 / 1000000 then
    let As1 := symv env.N 1 v.A_ env.CN v.s 1 0 v.As 1
    let sAs := dot env.N v.s 1 As1 1
    let A1 := syr env.N (-1 / sAs) As1 1 v.A_ env.CN
    let A2 := syr env.N (1 / zs) v.z 1 A1 env.CN
    ⟨v.params, v.ad_params, new_normr2, v.g, v.s, v.z, As1, A2,
      aligned_transform_1 (fun p0 p1 => p0 + p1) (env.N * env.CN) v.B_ A2, v.r,
      v.small_progress⟩
  else
    ⟨v.params, v.ad_params, new_normr2, v.g, v.s, v.z, v.As, v.A_,
      gn_add_diagonal env.N env.CN (env.sqrt new_normr2) v.B_, v.r, v.small_progress⟩

/-- How an iteration of `gn_sbfgs_min` ends: it goes on to the next one, or
leaves the loop after printing that the change in function value was smaller
than the tolerance for 15 consecutive iterations (`stagnation`), that the
gradient max norm is smaller than the tolerance (`gradient`), or that no step
satisfying the weak Wolfe conditions was found (`noStep`). -/
inductive GnStop where
  | running
  | stagnation
  | gradient
  | noStep
  deriving DecidableEq

/-- One iteration of the loop of `gn_sbfgs_min`, from the variables at the
top of the loop body. -/
def gn_iteration {K : Type} [LinearOrderedField K] (env : GnEnv K) (v : GnVars K) :
    GnVars K × GnStop :=
  let v1 := (gn_direction env v).2
  let ls := gn_line_search env v1
  if ls.ret then
    let acc := gn_accept env v1 ls.alpha
    let delta := 1 / 2 * (v1.normr2 - acc.2)
    let sp := if delta < env.tolerance then v1.small_progress + 1 else 0
    let imax := iamax env.N acc.1.g 1
    let v2 : GnVars K := ⟨acc.1.params, acc.1.ad_params, acc.1.normr2, acc.1.g, acc.1.s, acc.1.z,
      acc.1.As, acc.1.A_, acc.1.B_, acc.1.r, sp⟩
    if sp = 15 then (v2, GnStop.stagnation)
    else if |acc.1.g imax| < env.tolerance then (v2, GnStop.gradient)
    else (gn_hessian_update env v2 acc.2, GnStop.running)
  else (v1, GnStop.noStep)

/-- Outcome of the loop of `gn_sbfgs_min`: the variables on leaving it, how
it was left (`running` when `k` reached `MAXITER`), the number of iterations
begun, and (ghost) the variables at the top of each of them, in order. -/
structure GnResult (K : Type) where
  vars : GnVars K
  stop : GnStop
  iterations : Nat
  heads : List (GnVars K)

/-- The loop `for( int k = 0; k < MAXITER; ++k )`; the first argument is the
number of iterations still allowed, `MAXITER - k`. -/
def gn_loop {K : Type} [LinearOrderedField K] (env : GnEnv K) : Nat → GnVars K → GnResult K
  | 0, v => ⟨v, GnStop.running, 0, []⟩
  | n + 1, v =>
    if (gn_iteration env v).2 = GnStop.running then
      ⟨(gn_loop env n (gn_iteration env v).1).vars, (gn_loop env n (gn_iteration env v).1).stop,
        (gn_loop env n (gn_iteration env v).1).iterations + 1,
        v :: (gn_loop env n (gn_iteration env v).1).heads⟩
    else ⟨(gn_iteration env v).1, (gn_iteration env v).2, 1, [v]⟩

/-- The variables at the top of the first iteration: the result of the
initial evaluation, with the parameters seeded a second time; `s0`, `z0`,
`As0`, `g0`, `A0`, `B0`, `r0` and `old` are the contents of the new arrays
before they are written. -/
def gn_initial_vars {K : Type} [Field K] (env : GnEnv K) (old : Nat → MultiDiff K)
    (params : Nat → K) (g0 s0 z0 As0 A0 B0 : Nat → K) (r0 : Nat → MultiDiff K) : GnVars K :=
  let st := gn_sbfgs_min_init env.sqrt env.c old (fun i => params i.val) env.M env.residuals
    g0 A0 B0 r0
  ⟨params,
    Independent env.c (Independent env.c old (fun i => params i.val)) (fun i => params i.val),
    st.normr2, st.g, s0, z0, As0, st.A_, st.B_, st.r, 0⟩

/-- Function `gn_sbfgs_min( tolerance, params, residuals )` with the template
argument `MAXITER`: the initial evaluation followed by the loop. The field
`vars.params` of the result is `params` on return. -/
def gn_sbfgs_min {K : Type} [LinearOrderedField K] (env : GnEnv K) (MAXITER : Nat)
    (old : Nat → MultiDiff K) (params : Nat → K) (g0 s0 z0 As0 A0 B0 : Nat → K)
    (r0 : Nat → MultiDiff K) : GnResult K :=
  gn_loop env MAXITER (gn_initial_vars env old params g0 s0 z0 As0 A0 B0 r0)

/-- The variables and `new_normr2` that the accept branch computes in the
iteration that starts with the variables `v`, up to the rescaling of `z`
(ghost: meaningful when the line search of that iteration succeeds). -/
def gn_accepted {K : Type} [LinearOrderedField K] (env : GnEnv K) (v : GnVars K) :
    GnVars K × K :=
  gn_accept env (gn_direction env v).2 (gn_line_search env (gn_direction env v).2).alpha

/-- The decrease `delta = 0.5 * ( normr2 - new_normr2 )` of the iteration
that starts with the variables `v` (ghost). -/
def gn_delta {K : Type} [LinearOrderedField K] (env : GnEnv K) (v : GnVars K) : K :=
  1 / 2 * (v.normr2 - (gn_accepted env v).2)

/-- The value of `small_progress` after the statement
`if( delta < tolerance ) ++small_progress; else small_progress = 0;` of the
iteration that starts with the variables `v` (ghost). -/
def gn_progress {K : Type} [LinearOrderedField K] (env : GnEnv K) (v : GnVars K) : Nat :=
  if gn_delta env v < env.tolerance then v.small_progress + 1 else 0

/-- The variables at the termination tests of the iteration that starts with
the variables `v`: those of `gn_accepted` with the new `small_progress`
(ghost). -/
def gn_tested {K : Type} [LinearOrderedField K] (env : GnEnv K) (v : GnVars K) : GnVars K :=
  ⟨(gn_accepted env v).1.params, (gn_accepted env v).1.ad_params, (gn_accepted env v).1.normr2,
    (gn_accepted env v).1.g, (gn_accepted env v).1.s, (gn_accepted env v).1.z,
    (gn_accepted env v).1.As, (gn_accepted env v).1.A_, (gn_accepted env v).1.B_,
    (gn_accepted env v).1.r, gn_progress env v⟩

/-- The number of sweeps over the residuals at `MultiDiff` that a run makes
(ghost): one in the initial evaluation and one in every iteration whose line
search succeeded. -/
def gn_multidiff_sweeps {K : Type} [LinearOrderedField K] (env : GnEnv K) (R : GnResult K) :
    Nat :=
  1 + (R.heads.filter (fun v => (gn_line_search env (gn_direction env v).2).ret)).length

/-- The number of sweeps over the residuals at `SingleDiff` that a run makes
(ghost): one for every call of `eval_step_size` by `line_search`. -/
def gn_singlediff_sweeps {K : Type} [LinearOrderedField K] (env : GnEnv K) (R : GnResult K) :
    Nat :=
  (R.heads.map (fun v => (gn_line_search env (gn_direction env v).2).evals.length)).sum

/-- The environment of `gn_sbfgs_min` for residual functors written with the
overloaded operators: residual `k` is the expression `es k` of the supported
algebra, instantiated at `MultiDiff` and at `SingleDiff` (the two types the
optimizer calls the functor template with); `ex` is `std::exp`. -/
def gnExprEnv {K : Type} [Field K] (ex : K → K) (c : Context K) (M : Nat)
    (es : Nat → Expr c.num_dir K) (tolerance : K) (sqrt : K → K) (isfinite : K → Bool) (inf : K)
    (maxiter : Nat) : GnEnv K :=
  ⟨c, M, fun k tp => MultiDiff.ofExpr c tp ((es k).toMultiDiff ex c tp),
    fun k tp => SingleDiff.ofExpr tp ((es k).toSingleDiff ex tp), tolerance, sqrt, isfinite, inf,
    maxiter⟩

/-- The two instances of every residual functor agree: called on the
`SingleDiff` inputs `( x_i, s_i )` the functor returns the value that it
returns on the `MultiDiff` independents seeded with `x`, and as derivative the
sum over `j < N` of the `j`-th gradient entry times `s_j`. -/
def GnEnv.Consistent {K : Type} [Field K] (env : GnEnv K) : Prop :=
  ∀ k, k < env.M → ∀ (X : Nat → MultiDiff K) (x s : Fin env.c.num_dir → K),
    (env.residualsSD k (directionInputs x s)).getValue
      = (env.residuals k (Independent env.c X x)).getValue ∧
    (env.residualsSD k (directionInputs x s)).getDiffValue
      = ∑ j : Fin env.c.num_dir, (env.residuals k (Independent env.c X x)).getDiffValue j.val * s j

/-! ## Concrete inputs for gn_sbfgs_min -/

/-- A context with 4 lanes per pack and one independent. -/
def gnContext (K : Type) [Field K] : Context K := ⟨4, by decide, 1, fun _ => 7⟩

/-- The residual `r( x ) = x[0] - 201` at `MultiDiff`. -/
def gnResidual (K : Type) [Field K] : (Nat → MultiDiff K) → MultiDiff K :=
  fun tp => MultiDiff.ofExpr (gnContext K) tp (MultiDiffOps.subScalar (gnContext K) tp (.var 0) 201)

/-- The residual `r( x ) = x[0] - 201` at `SingleDiff`. -/
def gnResidualSD (K : Type) [Field K] : (Nat → SingleDiff K) → SingleDiff K :=
  fun tp => SingleDiff.ofExpr tp (SingleDiffOps.subScalar (.var 0) 201)

/-- Newton's iteration for the integer square root of `n` from the guess `x`:
`x <- (x + n / x) / 2` while this decreases; the first argument bounds the
number of steps. -/
def newtonSqrt (n : Nat) : Nat → Nat → Nat
  | 0, x => x
  | fuel + 1, x => if (x + n / x) / 2 < x then newtonSqrt n fuel ((x + n / x) / 2) else x

/-- A square root on the rationals, exact on squares of rationals (the integer
square roots of numerator and denominator, by Newton's iteration); it stands
for `std::sqrt` when `gn_sbfgs_min` is run on rational inputs. -/
def gnSqrt (q : ℚ) : ℚ :=
  (newtonSqrt q.num.toNat q.num.toNat q.num.toNat : ℚ) / (newtonSqrt q.den q.den q.den : ℚ)

/-- The least squares problem with the one residual `x[0] - 201`, tolerance
`1/1000`, run in exact rational arithmetic. -/
def gnExampleEnv : GnEnv ℚ :=
  ⟨gnContext ℚ, 1, fun _ => gnResidual ℚ, fun _ => gnResidualSD ℚ, 1 / 1000, gnSqrt,
    fun _ => true, 2 ^ 1024, 35⟩

/-- The same problem when every value of the line function is reported
non-finite. -/
def gnNonfiniteEnv : GnEnv ℚ :=
  ⟨gnContext ℚ, 1, fun _ => gnResidual ℚ, fun _ => gnResidualSD ℚ, 1 / 1000, gnSqrt,
    fun _ => false, 2 ^ 1024, 35⟩

/-- Arbitrary previous contents of a new array. -/
def gnJunk : Nat → ℚ := fun _ => 9

/-- The variables at the top of the first iteration of the run of
`gnExampleEnv` from `x[0] = 0`. -/
def gnExampleStart : GnVars ℚ :=
  gn_initial_vars gnExampleEnv (exampleOld ℚ) (fun _ => 0) gnJunk gnJunk gnJunk gnJunk gnJunk
    gnJunk (exampleOld ℚ)

/-- The residual `r( x ) = x[0] - 201` as an expression of the supported
algebra. -/
def gnExprResidual (K : Type) [Field K] : Expr (gnContext K).num_dir K :=
  .subScalar (.var ⟨0, Nat.zero_lt_one⟩) 201

/-- The least squares problem of `gnExampleEnv` with the residual given as an
expression, for any field with an exponential and a square root. -/
def gnExprExampleEnv (K : Type) [Field K] (ex sqrt : K → K) : GnEnv K :=
  gnExprEnv ex (gnContext K) 1 (fun _ => gnExprResidual K) (1 / 1000) sqrt (fun _ => true)
    (2 ^ 1024) 35

/-- The variables at the top of the first iteration of the run of
`gnExprExampleEnv` from `x[0] = 0`. -/
def gnExprExampleStart (K : Type) [Field K] (ex sqrt : K → K) : GnVars K :=
  gn_initial_vars (gnExprExampleEnv K ex sqrt) (exampleOld K) (fun _ => 0) (fun _ => 9)
    (fun _ => 9) (fun _ => 9) (fun _ => 9) (fun _ => 9) (fun _ => 9) (exampleOld K)

/-- The residual `r( x ) = x[0] * x[0]` as an expression of the supported
algebra. -/
def gnSquareResidual (K : Type) [Field K] : Expr (gnContext K).num_dir K :=
  .mul (.var ⟨0, Nat.zero_lt_one⟩) (.var ⟨0, Nat.zero_lt_one⟩)

/-- The least squares problem with the one residual `x[0] * x[0]`, tolerance
`1/1000`, run in exact rational arithmetic. -/
def gnSquareEnv : GnEnv ℚ :=
  gnExprEnv (fun x => x) (gnContext ℚ) 1 (fun _ => gnSquareResidual ℚ) (1 / 1000) gnSqrt
    (fun _ => true) (2 ^ 1024) 35

/-- The variables at the top of the first iteration of the run of
`gnSquareEnv` from `x[0] = 0`, the minimizer. -/
def gnSquareStart : GnVars ℚ :=
  gn_initial_vars gnSquareEnv (exampleOld ℚ) (fun _ => 0) gnJunk gnJunk gnJunk gnJunk gnJunk
    gnJunk (exampleOld ℚ)

/-- Function `block_size()`. -/
def block_size : Nat := 4096

/-- Function `Block::offset()`, `simd::next_size<char>( sizeof( Block ) )`:
the size of the block header rounded up to the register width in bytes
(`lanes`, the pack size of `char`). -/
def Block.offset (lanes sizeofBlock : Nat) : Nat := next_size lanes sizeofBlock

/-- Struct `Block`, by the address of the block and its field `countdown`;
the field `next` is the position in the list that holds the block. -/
structure Block where
  base : Nat
  countdown : Nat
  deriving DecidableEq

/-- The globals of MultiDiff.cpp: `internal::buffer_size`, `next_buffer`,
`block_end`, the list `used_blocks`, the list `BlockList::free_blocks`, and
(ghost) the number of blocks obtained from `simd::cache_aligned_alloc` so
far. -/
structure Arena where
  buffer_size : Nat
  next_buffer : Nat
  block_end : Nat
  used_blocks : List Block
  free_blocks : List Block
  allocated : Nat
  deriving DecidableEq

/-- The globals after `MultiDiff<REAL>::Context( num_dir )` in a fresh
program: `buffer_size = sizeof( REAL ) * next_size<REAL>( num_dir )`,
everything else null or empty. -/
def Arena.init (sizeofReal W num_dir : Nat) : Arena :=
  ⟨sizeofReal * next_size W num_dir, 0, 0, [], [], 0⟩

/-- Member `BlockList::get_new_block()`: the head of the free list if there
is one, else a block from `simd::cache_aligned_alloc( block_size() )`, whose
`k`-th call returns the address `alloc k` (its `countdown` field not yet
written, any value `junk`); the block becomes the head of `used_blocks`. -/
def get_new_block (alloc : Nat → Nat) (junk : Nat) (a : Arena) : Nat × Arena :=
  match a.free_blocks with
  | b :: rest =>
    (b.base, ⟨a.buffer_size, a.next_buffer, a.block_end, b :: a.used_blocks, rest, a.allocated⟩)
  | [] =>
    (alloc a.allocated,
      ⟨a.buffer_size, a.next_buffer, a.block_end, ⟨alloc a.allocated, junk⟩ :: a.used_blocks, [],
        a.allocated + 1⟩)

/-- Function `internal::new_buffer()`, with `offset = Block::offset()`:
returns the buffer and the new globals. -/
def new_buffer (offset : Nat) (alloc : Nat → Nat) (junk : Nat) (a : Arena) : Nat × Arena :=
  if a.next_buffer = a.block_end then
    let g := get_new_block alloc junk a
    let countdown := (block_size - offset) / a.buffer_size
    let next_buffer := g.1 + offset
    (next_buffer,
      ⟨a.buffer_size, next_buffer + a.buffer_size, next_buffer + countdown * a.buffer_size,
        ⟨g.1, countdown⟩ :: g.2.used_blocks.tail, g.2.free_blocks, g.2.allocated⟩)
  else
    (a.next_buffer,
      ⟨a.buffer_size, a.next_buffer + a.buffer_size, a.block_end, a.used_blocks, a.free_blocks,
        a.allocated⟩)

/-- The live `MultiDiff` objects of the thread: the globals of the arena, the
field `dval` of every live object (0 for `nullptr`), and (ghost) the buffers
returned by `new_buffer` and the arguments of `release_buffer` so far, oldest
first. -/
structure Heap where
  arena : Arena
  objs : List Nat
  news : List Nat
  rels : List Nat

/-- The thread right after `MultiDiff<REAL>::Context( num_dir )` in a fresh
program: no object, no buffer. -/
def Heap.init (sizeofReal W num_dir : Nat) : Heap :=
  ⟨Arena.init sizeofReal W num_dir, [], [], []⟩

theorem next_size_dvd (W n : Nat) : W ∣ next_size W n := Dvd.intro_left _ rfl

theorem le_next_size (W n : Nat) (hW : 0 < W) : n ≤ next_size W n := by
  unfold next_size
  have h1 : n + W - 1 < ((n + W - 1) / W + 1) * W := by
    rw [Nat.mul_comm]; exact Nat.lt_mul_div_succ _ hW
  have h2 : ((n + W - 1) / W + 1) * W = (n + W - 1) / W * W + W := by ring
  omega

theorem block_of_lane (W i j : Nat) (hi : W ∣ i) (h1 : i ≤ j) (h2 : j < i + W) :
    j / W * W = i ∧ j % W = j - i := by
  obtain ⟨a, rfl⟩ := hi
  have hW : 0 < W := by
    rcases Nat.eq_zero_or_pos W with h | h
    · subst h; omega
    · exact h
  have hq : j / W = a := by
    apply Nat.div_eq_of_lt_le
    · rw [Nat.mul_comm]; exact h1
    · rw [Nat.mul_comm, Nat.mul_succ]; exact h2
  have hm := Nat.div_add_mod j W
  rw [hq] at hm
  refine ⟨by rw [hq, Nat.mul_comm], by omega⟩

theorem store_loop_lane {K : Type} (W D : Nat) (hD : W ∣ D) (g : Nat → Pack K) :
    ∀ (fuel i : Nat) (buf : Nat → K), W ∣ i → D ≤ i + fuel * W → ∀ j,
      store_loop W D g fuel i buf j =
        if i ≤ j ∧ j < D then g (j / W * W) (j % W) else buf j := by
  intro fuel
  induction fuel with
  | zero =>
    intro i buf _ hf j
    have : ¬ (i ≤ j ∧ j < D) := by omega
    simp [store_loop, this]
  | succ fuel ih =>
    intro i buf hi hf j
    rw [store_loop]
    by_cases hlt : i < D
    · rw [if_pos hlt, ih (i + W) _ (Dvd.dvd.add hi (dvd_refl W)) (by
        have : (fuel + 1) * W = fuel * W + W := by ring
        omega)]
      have hiW : i + W ≤ D := by
        obtain ⟨a, rfl⟩ := hi
        obtain ⟨d, rfl⟩ := hD
        have : a < d := Nat.lt_of_mul_lt_mul_left hlt
        calc W * a + W = W * (a + 1) := by ring
          _ ≤ W * d := Nat.mul_le_mul_left _ this
      by_cases h1 : i + W ≤ j ∧ j < D
      · have h2 : i ≤ j ∧ j < D := by omega
        rw [if_pos h1, if_pos h2]
      · rw [if_neg h1]
        unfold aligned_store
        by_cases h3 : i ≤ j ∧ j < i + W
        · have h2 : i ≤ j ∧ j < D := by omega
          obtain ⟨e1, e2⟩ := block_of_lane W i j hi h3.1 h3.2
          rw [if_pos h3, if_pos h2, e1, e2]
        · have h2 : ¬ (i ≤ j ∧ j < D) := by omega
          rw [if_neg h3, if_neg h2]
    · have h2 : ¬ (i ≤ j ∧ j < D) := by omega
      rw [if_neg hlt, if_neg h2]

theorem setDiffValsZero_loop_lane {K : Type} [Zero K] (W D : Nat) (hW : 0 < W) (hD : W ∣ D) :
    ∀ (fuel i : Nat) (buf : Nat → K), W ∣ i → i ≤ D → D ≤ i + fuel * W → ∀ j,
      setDiffValsZero_loop W D fuel i buf j = if i ≤ j ∧ j < D then 0 else buf j := by
  intro fuel
  induction fuel with
  | zero =>
    intro i buf _ _ hf j
    have : ¬ (i ≤ j ∧ j < D) := by omega
    simp [setDiffValsZero_loop, this]
  | succ fuel ih =>
    intro i buf hi hle hf j
    rw [setDiffValsZero_loop]
    by_cases hne : i ≠ D
    · have hlt : i < D := by omega
      have hiW : i + W ≤ D := by
        obtain ⟨a, rfl⟩ := hi
        obtain ⟨d, rfl⟩ := hD
        have : a < d := Nat.lt_of_mul_lt_mul_left hlt
        calc W * a + W = W * (a + 1) := by ring
          _ ≤ W * d := Nat.mul_le_mul_left _ this
      rw [if_pos hne, ih (i + W) _ (Dvd.dvd.add hi (dvd_refl W)) hiW (by
        have : (fuel + 1) * W = fuel * W + W := by ring
        omega)]
      by_cases h1 : i + W ≤ j ∧ j < D
      · have h2 : i ≤ j ∧ j < D := by omega
        rw [if_pos h1, if_pos h2]
      · rw [if_neg h1]
        unfold aligned_store broadcast
        by_cases h3 : i ≤ j ∧ j < i + W
        · have h2 : i ≤ j ∧ j < D := by omega
          rw [if_pos h3, if_pos h2]
        · have h2 : ¬ (i ≤ j ∧ j < D) := by omega
          rw [if_neg h3, if_neg h2]
    · have h2 : ¬ (i ≤ j ∧ j < D) := by omega
      rw [if_neg hne, if_neg h2]

/-! ## MultiDiff: materialization and the operators -/

theorem ofExpr_value {K : Type} [Field K] (c : Context K) (σ : Nat → MultiDiff K)
    (x : MultiDiffExpr K) : (MultiDiff.ofExpr c σ x).getValue = x.getValue σ := rfl

theorem ofExpr_lane {K : Type} [Field K] (c : Context K) (σ : Nat → MultiDiff K)
    (x : MultiDiffExpr K) (hx : LaneUniform σ x) (j : Nat) (hj : j < c.num_directions) :
    (MultiDiff.ofExpr c σ x).getDiffValue j = x.getDiffValues σ j 0 := by
  unfold MultiDiff.ofExpr MultiDiff.getDiffValue
  simp only
  rw [store_loop_lane c.W c.num_directions (next_size_dvd _ _) _ c.num_directions 0 c.fresh
    (dvd_zero _) (by
      have := c.W_pos
      have : c.num_directions * 1 ≤ c.num_directions * c.W := Nat.mul_le_mul_left _ this
      omega) j]
  rw [if_pos ⟨Nat.zero_le _, hj⟩, hx, Nat.div_add_mod']

theorem ReturnTypeAt_value {K : Type} [Field K] (M : Nat) (c : Context K)
    (σ : Nat → MultiDiff K) (x : MultiDiffExpr K) :
    (ReturnTypeAt M c σ x).getValue σ = x.getValue σ := by
  unfold ReturnTypeAt
  split_ifs
  · rfl
  · rfl

theorem ReturnTypeAt_lane {K : Type} [Field K] (M : Nat) (c : Context K)
    (σ : Nat → MultiDiff K) (x : MultiDiffExpr K) (hx : LaneUniform σ x) (j : Nat)
    (hj : j < c.num_directions) :
    (ReturnTypeAt M c σ x).getDiffValues σ j 0 = x.getDiffValues σ j 0 := by
  unfold ReturnTypeAt
  split_ifs
  · exact ofExpr_lane c σ x hx j hj
  · rfl

theorem ReturnTypeAt_uniform {K : Type} [Field K] (M : Nat) (c : Context K)
    (σ : Nat → MultiDiff K) (x : MultiDiffExpr K) (hx : LaneUniform σ x) :
    LaneUniform σ (ReturnTypeAt M c σ x) := by
  unfold ReturnTypeAt
  split_ifs
  · intro i l
    simp [MultiDiffExpr.getDiffValues, MultiDiff.getDiffValues, aligned_load]
  · exact hx

/-! ## MultiDiff: value and gradient lanes of each operator -/

namespace MultiDiffOps

variable {K : Type} [Field K] (c : Context K) (σ : Nat → MultiDiff K)

theorem neg_raw_uniform (a : MultiDiffExpr K) (ha : LaneUniform σ a) :
    LaneUniform σ (MultiDiffNeg a) := by
  intro i l
  simp only [MultiDiffNeg, MultiDiffExpr.getDiffValues, broadcast]
  rw [ha i l]

theorem neg_uniform (a : MultiDiffExpr K) (ha : LaneUniform σ a) :
    LaneUniform σ (neg c σ a) :=
  ReturnTypeAt_uniform 8 c σ _ (neg_raw_uniform σ a ha)

theorem neg_value (a : MultiDiffExpr K) :
    (neg c σ a).getValue σ = -a.getValue σ := by
  unfold neg ReturnType
  rw [ReturnTypeAt_value]
  rfl

theorem neg_lane (a : MultiDiffExpr K) (ha : LaneUniform σ a) (j : Nat)
    (hj : j < c.num_directions) :
    (neg c σ a).getDiffValues σ j 0 = -a.getDiffValues σ j 0 := by
  unfold neg ReturnType
  rw [ReturnTypeAt_lane 8 c σ _ (neg_raw_uniform σ a ha) j hj]
  rfl

theorem add_raw_uniform (a b : MultiDiffExpr K) (ha : LaneUniform σ a) (hb : LaneUniform σ b) :
    LaneUniform σ (MultiDiffPlus a b) := by
  intro i l
  simp only [MultiDiffPlus, MultiDiffExpr.getDiffValues, broadcast]
  rw [ha i l, hb i l]

theorem add_uniform (a b : MultiDiffExpr K) (ha : LaneUniform σ a) (hb : LaneUniform σ b) :
    LaneUniform σ (add c σ a b) :=
  ReturnTypeAt_uniform 8 c σ _ (add_raw_uniform σ a b ha hb)

theorem add_value (a b : MultiDiffExpr K) :
    (add c σ a b).getValue σ = a.getValue σ + b.getValue σ := by
  unfold add ReturnType
  rw [ReturnTypeAt_value]
  rfl

theorem add_lane (a b : MultiDiffExpr K) (ha : LaneUniform σ a) (hb : LaneUniform σ b) (j : Nat)
    (hj : j < c.num_directions) :
    (add c σ a b).getDiffValues σ j 0 = a.getDiffValues σ j 0 + b.getDiffValues σ j 0 := by
  unfold add ReturnType
  rw [ReturnTypeAt_lane 8 c σ _ (add_raw_uniform σ a b ha hb) j hj]
  rfl

theorem sub_raw_uniform (a b : MultiDiffExpr K) (ha : LaneUniform σ a) (hb : LaneUniform σ b) :
    LaneUniform σ (MultiDiffMinus a b) := by
  intro i l
  simp only [MultiDiffMinus, MultiDiffExpr.getDiffValues, broadcast]
  rw [ha i l, hb i l]

theorem sub_uniform (a b : MultiDiffExpr K) (ha : LaneUniform σ a) (hb : LaneUniform σ b) :
    LaneUniform σ (sub c σ a b) :=
  ReturnTypeAt_uniform 8 c σ _ (sub_raw_uniform σ a b ha hb)

theorem sub_value (a b : MultiDiffExpr K) :
    (sub c σ a b).getValue σ = a.getValue σ - b.getValue σ := by
  unfold sub ReturnType
  rw [ReturnTypeAt_value]
  rfl

theorem sub_lane (a b : MultiDiffExpr K) (ha : LaneUniform σ a) (hb : LaneUniform σ b) (j : Nat)
    (hj : j < c.num_directions) :
    (sub c σ a b).getDiffValues σ j 0 = a.getDiffValues σ j 0 - b.getDiffValues σ j 0 := by
  unfold sub ReturnType
  rw [ReturnTypeAt_lane 8 c σ _ (sub_raw_uniform σ a b ha hb) j hj]
  rfl

theorem mul_raw_uniform (a b : MultiDiffExpr K) (ha : LaneUniform σ a) (hb : LaneUniform σ b) :
    LaneUniform σ (MultiDiffMul σ a b) := by
  intro i l
  simp only [MultiDiffMul, MultiDiffExpr.getDiffValues, broadcast]
  rw [ha i l, hb i l]

theorem mul_uniform (a b : MultiDiffExpr K) (ha : LaneUniform σ a) (hb : LaneUniform σ b) :
    LaneUniform σ (mul c σ a b) :=
  ReturnTypeAt_uniform 8 c σ _ (mul_raw_uniform σ a b ha hb)

theorem mul_value (a b : MultiDiffExpr K) :
    (mul c σ a b).getValue σ = a.getValue σ * b.getValue σ := by
  unfold mul ReturnType
  rw [ReturnTypeAt_value]
  rfl

theorem mul_lane (a b : MultiDiffExpr K) (ha : LaneUniform σ a) (hb : LaneUniform σ b) (j : Nat)
    (hj : j < c.num_directions) :
    (mul c σ a b).getDiffValues σ j 0 = b.getValue σ * a.getDiffValues σ j 0 + a.getValue σ * b.getDiffValues σ j 0 := by
  unfold mul ReturnType
  rw [ReturnTypeAt_lane 8 c σ _ (mul_raw_uniform σ a b ha hb) j hj]
  rfl

theorem div_raw_uniform (a b : MultiDiffExpr K) (ha : LaneUniform σ a) (hb : LaneUniform σ b) :
    LaneUniform σ (MultiDiffDiv σ a b) := by
  intro i l
  simp only [MultiDiffDiv, MultiDiffExpr.getDiffValues, broadcast]
  rw [ha i l, hb i l]

theorem div_uniform (a b : MultiDiffExpr K) (ha : LaneUniform σ a) (hb : LaneUniform σ b) :
    LaneUniform σ (div c σ a b) :=
  ReturnTypeAt_uniform 8 c σ _ (div_raw_uniform σ a b ha hb)

theorem div_value (a b : MultiDiffExpr K) :
    (div c σ a b).getValue σ = a.getValue σ / b.getValue σ := by
  unfold div ReturnType
  rw [ReturnTypeAt_value]
  rfl

theorem div_lane (a b : MultiDiffExpr K) (ha : LaneUniform σ a) (hb : LaneUniform σ b) (j : Nat)
    (hj : j < c.num_directions) :
    (div c σ a b).getDiffValues σ j 0 = (b.getValue σ * a.getDiffValues σ j 0 - a.getValue σ * b.getDiffValues σ j 0) / (b.getValue σ * b.getValue σ) := by
  unfold div ReturnType
  rw [ReturnTypeAt_lane 8 c σ _ (div_raw_uniform σ a b ha hb) j hj]
  rfl

theorem exp_raw_uniform (ex : K → K) (a : MultiDiffExpr K) (ha : LaneUniform σ a) :
    LaneUniform σ (MultiDiffExp ex σ a) := by
  intro i l
  simp only [MultiDiffExp, MultiDiffExpr.getDiffValues, broadcast]
  rw [ha i l]

theorem exp_uniform (ex : K → K) (a : MultiDiffExpr K) (ha : LaneUniform σ a) :
    LaneUniform σ (exp c σ ex a) :=
  ReturnTypeAt_uniform 8 c σ _ (exp_raw_uniform σ ex a ha)

theorem exp_value (ex : K → K) (a : MultiDiffExpr K) :
    (exp c σ ex a).getValue σ = ex (a.getValue σ) := by
  unfold exp ReturnType
  rw [ReturnTypeAt_value]
  rfl

theorem exp_lane (ex : K → K) (a : MultiDiffExpr K) (ha : LaneUniform σ a) (j : Nat)
    (hj : j < c.num_directions) :
    (exp c σ ex a).getDiffValues σ j 0 = ex (a.getValue σ) * a.getDiffValues σ j 0 := by
  unfold exp ReturnType
  rw [ReturnTypeAt_lane 8 c σ _ (exp_raw_uniform σ ex a ha) j hj]
  rfl

theorem addScalar_raw_uniform (s : K) (a : MultiDiffExpr K) (ha : LaneUniform σ a) :
    LaneUniform σ (ScalarMultiDiffPlus s a) := by
  intro i l
  simp only [ScalarMultiDiffPlus, MultiDiffExpr.getDiffValues, broadcast]
  rw [ha i l]

theorem addScalar_uniform (s : K) (a : MultiDiffExpr K) (ha : LaneUniform σ a) :
    LaneUniform σ (addScalar c σ a s) :=
  ReturnTypeAt_uniform 8 c σ _ (addScalar_raw_uniform σ s a ha)

theorem addScalar_value (s : K) (a : MultiDiffExpr K) :
    (addScalar c σ a s).getValue σ = s + a.getValue σ := by
  unfold addScalar ReturnType
  rw [ReturnTypeAt_value]
  rfl

theorem addScalar_lane (s : K) (a : MultiDiffExpr K) (ha : LaneUniform σ a) (j : Nat)
    (hj : j < c.num_directions) :
    (addScalar c σ a s).getDiffValues σ j 0 = a.getDiffValues σ j 0 := by
  unfold addScalar ReturnType
  rw [ReturnTypeAt_lane 8 c σ _ (addScalar_raw_uniform σ s a ha) j hj]
  rfl

theorem subScalar_raw_uniform (s : K) (a : MultiDiffExpr K) (ha : LaneUniform σ a) :
    LaneUniform σ (ScalarMultiDiffPlus (-s) a) := by
  intro i l
  simp only [ScalarMultiDiffPlus, MultiDiffExpr.getDiffValues, broadcast]
  rw [ha i l]

theorem subScalar_uniform (s : K) (a : MultiDiffExpr K) (ha : LaneUniform σ a) :
    LaneUniform σ (subScalar c σ a s) :=
  ReturnTypeAt_uniform 8 c σ _ (subScalar_raw_uniform σ s a ha)

theorem subScalar_value (s : K) (a : MultiDiffExpr K) :
    (subScalar c σ a s).getValue σ = -s + a.getValue σ := by
  unfold subScalar ReturnType
  rw [ReturnTypeAt_value]
  rfl

theorem subScalar_lane (s : K) (a : MultiDiffExpr K) (ha : LaneUniform σ a) (j : Nat)
    (hj : j < c.num_directions) :
    (subScalar c σ a s).getDiffValues σ j 0 = a.getDiffValues σ j 0 := by
  unfold subScalar ReturnType
  rw [ReturnTypeAt_lane 8 c σ _ (subScalar_raw_uniform σ s a ha) j hj]
  rfl

theorem mulScalar_raw_uniform (s : K) (a : MultiDiffExpr K) (ha : LaneUniform σ a) :
    LaneUniform σ (ScalarMultiDiffMul s a) := by
  intro i l
  simp only [ScalarMultiDiffMul, MultiDiffExpr.getDiffValues, broadcast]
  rw [ha i l]

theorem mulScalar_uniform (s : K) (a : MultiDiffExpr K) (ha : LaneUniform σ a) :
    LaneUniform σ (mulScalar c σ a s) :=
  ReturnTypeAt_uniform 8 c σ _ (mulScalar_raw_uniform σ s a ha)

theorem mulScalar_value (s : K) (a : MultiDiffExpr K) :
    (mulScalar c σ a s).getValue σ = s * a.getValue σ := by
  unfold mulScalar ReturnType
  rw [ReturnTypeAt_value]
  rfl

theorem mulScalar_lane (s : K) (a : MultiDiffExpr K) (ha : LaneUniform σ a) (j : Nat)
    (hj : j < c.num_directions) :
    (mulScalar c σ a s).getDiffValues σ j 0 = s * a.getDiffValues σ j 0 := by
  unfold mulScalar ReturnType
  rw [ReturnTypeAt_lane 8 c σ _ (mulScalar_raw_uniform σ s a ha) j hj]
  rfl

theorem divScalar_raw_uniform (s : K) (a : MultiDiffExpr K) (ha : LaneUniform σ a) :
    LaneUniform σ (MultiDiffScalarDiv a s) := by
  intro i l
  simp only [MultiDiffScalarDiv, MultiDiffExpr.getDiffValues, broadcast]
  rw [ha i l]

theorem divScalar_uniform (s : K) (a : MultiDiffExpr K) (ha : LaneUniform σ a) :
    LaneUniform σ (divScalar c σ a s) :=
  ReturnTypeAt_uniform 8 c σ _ (divScalar_raw_uniform σ s a ha)

theorem divScalar_value (s : K) (a : MultiDiffExpr K) :
    (divScalar c σ a s).getValue σ = a.getValue σ / s := by
  unfold divScalar ReturnType
  rw [ReturnTypeAt_value]
  rfl

theorem divScalar_lane (s : K) (a : MultiDiffExpr K) (ha : LaneUniform σ a) (j : Nat)
    (hj : j < c.num_directions) :
    (divScalar c σ a s).getDiffValues σ j 0 = a.getDiffValues σ j 0 / s := by
  unfold divScalar ReturnType
  rw [ReturnTypeAt_lane 8 c σ _ (divScalar_raw_uniform σ s a ha) j hj]
  rfl

theorem scalarAdd_raw_uniform (s : K) (b : MultiDiffExpr K) (hb : LaneUniform σ b) :
    LaneUniform σ (ScalarMultiDiffPlus s b) := by
  intro i l
  simp only [ScalarMultiDiffPlus, MultiDiffExpr.getDiffValues, broadcast]
  rw [hb i l]

theorem scalarAdd_uniform (s : K) (b : MultiDiffExpr K) (hb : LaneUniform σ b) :
    LaneUniform σ (scalarAdd c σ s b) :=
  ReturnTypeAt_uniform 8 c σ _ (scalarAdd_raw_uniform σ s b hb)

theorem scalarAdd_value (s : K) (b : MultiDiffExpr K) :
    (scalarAdd c σ s b).getValue σ = s + b.getValue σ := by
  unfold scalarAdd ReturnType
  rw [ReturnTypeAt_value]
  rfl

theorem scalarAdd_lane (s : K) (b : MultiDiffExpr K) (hb : LaneUniform σ b) (j : Nat)
    (hj : j < c.num_directions) :
    (scalarAdd c σ s b).getDiffValues σ j 0 = b.getDiffValues σ j 0 := by
  unfold scalarAdd ReturnType
  rw [ReturnTypeAt_lane 8 c σ _ (scalarAdd_raw_uniform σ s b hb) j hj]
  rfl

theorem scalarSub_raw_uniform (s : K) (b : MultiDiffExpr K) (hb : LaneUniform σ b) :
    LaneUniform σ (ScalarMultiDiffMinus s b) := by
  intro i l
  simp only [ScalarMultiDiffMinus, MultiDiffExpr.getDiffValues, broadcast]
  rw [hb i l]

theorem scalarSub_uniform (s : K) (b : MultiDiffExpr K) (hb : LaneUniform σ b) :
    LaneUniform σ (scalarSub c σ s b) :=
  ReturnTypeAt_uniform 8 c σ _ (scalarSub_raw_uniform σ s b hb)

theorem scalarSub_value (s : K) (b : MultiDiffExpr K) :
    (scalarSub c σ s b).getValue σ = s - b.getValue σ := by
  unfold scalarSub ReturnType
  rw [ReturnTypeAt_value]
  rfl

theorem scalarSub_lane (s : K) (b : MultiDiffExpr K) (hb : LaneUniform σ b) (j : Nat)
    (hj : j < c.num_directions) :
    (scalarSub c σ s b).getDiffValues σ j 0 = -b.getDiffValues σ j 0 := by
  unfold scalarSub ReturnType
  rw [ReturnTypeAt_lane 8 c σ _ (scalarSub_raw_uniform σ s b hb) j hj]
  rfl

theorem scalarMul_raw_uniform (s : K) (b : MultiDiffExpr K) (hb : LaneUniform σ b) :
    LaneUniform σ (ScalarMultiDiffMul s b) := by
  intro i l
  simp only [ScalarMultiDiffMul, MultiDiffExpr.getDiffValues, broadcast]
  rw [hb i l]

theorem scalarMul_uniform (s : K) (b : MultiDiffExpr K) (hb : LaneUniform σ b) :
    LaneUniform σ (scalarMul c σ s b) :=
  ReturnTypeAt_uniform 8 c σ _ (scalarMul_raw_uniform σ s b hb)

theorem scalarMul_value (s : K) (b : MultiDiffExpr K) :
    (scalarMul c σ s b).getValue σ = s * b.getValue σ := by
  unfold scalarMul ReturnType
  rw [ReturnTypeAt_value]
  rfl

theorem scalarMul_lane (s : K) (b : MultiDiffExpr K) (hb : LaneUniform σ b) (j : Nat)
    (hj : j < c.num_directions) :
    (scalarMul c σ s b).getDiffValues σ j 0 = s * b.getDiffValues σ j 0 := by
  unfold scalarMul ReturnType
  rw [ReturnTypeAt_lane 8 c σ _ (scalarMul_raw_uniform σ s b hb) j hj]
  rfl

theorem scalarDiv_raw_uniform (s : K) (b : MultiDiffExpr K) (hb : LaneUniform σ b) :
    LaneUniform σ (ScalarMultiDiffDiv σ s b) := by
  intro i l
  simp only [ScalarMultiDiffDiv, MultiDiffExpr.getDiffValues, broadcast]
  rw [hb i l]

theorem scalarDiv_uniform (s : K) (b : MultiDiffExpr K) (hb : LaneUniform σ b) :
    LaneUniform σ (scalarDiv c σ s b) :=
  ReturnTypeAt_uniform 8 c σ _ (scalarDiv_raw_uniform σ s b hb)

theorem scalarDiv_value (s : K) (b : MultiDiffExpr K) :
    (scalarDiv c σ s b).getValue σ = s / b.getValue σ := by
  unfold scalarDiv ReturnType
  rw [ReturnTypeAt_value]
  rfl

theorem scalarDiv_lane (s : K) (b : MultiDiffExpr K) (hb : LaneUniform σ b) (j : Nat)
    (hj : j < c.num_directions) :
    (scalarDiv c σ s b).getDiffValues σ j 0 = -s * b.getDiffValues σ j 0 / (b.getValue σ * b.getValue σ) := by
  unfold scalarDiv ReturnType
  rw [ReturnTypeAt_lane 8 c σ _ (scalarDiv_raw_uniform σ s b hb) j hj]
  rfl

end MultiDiffOps

/-! ## MultiDiff: seeded independents and forward-mode exactness -/

theorem Independent_value {K : Type} [Zero K] [One K] (c : Context K) (old : Nat → MultiDiff K)
    (x : Fin c.num_dir → K) (r : Fin c.num_dir) :
    (Independent c old x r.val).getValue = x r := by
  unfold Independent
  rw [dif_pos r.isLt]
  rfl

theorem Independent_lane {K : Type} [Zero K] [One K] (c : Context K) (old : Nat → MultiDiff K)
    (x : Fin c.num_dir → K) (r : Fin c.num_dir) (j : Nat) (hj : j < c.num_directions) :
    (Independent c old x r.val).getDiffValue j = if j = r.val then 1 else 0 := by
  unfold Independent
  rw [dif_pos r.isLt]
  unfold MultiDiff.setIndependent MultiDiff.getDiffValue MultiDiff.setDiffValsZero
  simp only [Function.update_apply]
  split_ifs with h
  · rfl
  · rw [setDiffValsZero_loop_lane c.W c.num_directions c.W_pos (next_size_dvd _ _)
      c.num_directions 0 _ (dvd_zero _) (Nat.zero_le _) (by
        have := c.W_pos
        have : c.num_directions * 1 ≤ c.num_directions * c.W := Nat.mul_le_mul_left _ this
        omega) j]
    rw [if_pos ⟨Nat.zero_le _, hj⟩]

theorem var_uniform {K : Type} [Field K] (σ : Nat → MultiDiff K) (r : Nat) :
    LaneUniform σ (.var r) := by
  intro i l
  simp [MultiDiffExpr.getDiffValues, MultiDiff.getDiffValues, aligned_load]

theorem toMultiDiff_uniform {n : Nat} {K : Type} [Field K] (ex : K → K) (c : Context K)
    (σ : Nat → MultiDiff K) (e : Expr n K) : LaneUniform σ (e.toMultiDiff ex c σ) := by
  induction e with
  | var i => exact var_uniform σ _
  | neg a iha => exact MultiDiffOps.neg_uniform c σ _ iha
  | add a b iha ihb => exact MultiDiffOps.add_uniform c σ _ _ iha ihb
  | sub a b iha ihb => exact MultiDiffOps.sub_uniform c σ _ _ iha ihb
  | mul a b iha ihb => exact MultiDiffOps.mul_uniform c σ _ _ iha ihb
  | div a b iha ihb => exact MultiDiffOps.div_uniform c σ _ _ iha ihb
  | exp a iha => exact MultiDiffOps.exp_uniform c σ _ _ iha
  | addScalar a s iha => exact MultiDiffOps.addScalar_uniform c σ _ _ iha
  | subScalar a s iha => exact MultiDiffOps.subScalar_uniform c σ _ _ iha
  | mulScalar a s iha => exact MultiDiffOps.mulScalar_uniform c σ _ _ iha
  | divScalar a s iha => exact MultiDiffOps.divScalar_uniform c σ _ _ iha
  | scalarAdd s b ihb => exact MultiDiffOps.scalarAdd_uniform c σ _ _ ihb
  | scalarSub s b ihb => exact MultiDiffOps.scalarSub_uniform c σ _ _ ihb
  | scalarMul s b ihb => exact MultiDiffOps.scalarMul_uniform c σ _ _ ihb
  | scalarDiv s b ihb => exact MultiDiffOps.scalarDiv_uniform c σ _ _ ihb

theorem toMultiDiff_value {K : Type} [Field K] (ex : K → K) (c : Context K)
    (old : Nat → MultiDiff K) (x : Fin c.num_dir → K) (e : Expr c.num_dir K) :
    (e.toMultiDiff ex c (Independent c old x)).getValue (Independent c old x) = e.eval ex x := by
  induction e with
  | var i => exact Independent_value c old x i
  | neg a iha => rw [Expr.toMultiDiff, MultiDiffOps.neg_value, iha]; rfl
  | add a b iha ihb => rw [Expr.toMultiDiff, MultiDiffOps.add_value, iha, ihb]; rfl
  | sub a b iha ihb => rw [Expr.toMultiDiff, MultiDiffOps.sub_value, iha, ihb]; rfl
  | mul a b iha ihb => rw [Expr.toMultiDiff, MultiDiffOps.mul_value, iha, ihb]; rfl
  | div a b iha ihb => rw [Expr.toMultiDiff, MultiDiffOps.div_value, iha, ihb]; rfl
  | exp a iha => rw [Expr.toMultiDiff, MultiDiffOps.exp_value, iha]; rfl
  | addScalar a s iha =>
    rw [Expr.toMultiDiff, MultiDiffOps.addScalar_value, iha, add_comm]; rfl
  | subScalar a s iha =>
    rw [Expr.toMultiDiff, MultiDiffOps.subScalar_value, iha, neg_add_eq_sub]; rfl
  | mulScalar a s iha =>
    rw [Expr.toMultiDiff, MultiDiffOps.mulScalar_value, iha, mul_comm]; rfl
  | divScalar a s iha => rw [Expr.toMultiDiff, MultiDiffOps.divScalar_value, iha]; rfl
  | scalarAdd s b ihb => rw [Expr.toMultiDiff, MultiDiffOps.scalarAdd_value, ihb]; rfl
  | scalarSub s b ihb => rw [Expr.toMultiDiff, MultiDiffOps.scalarSub_value, ihb]; rfl
  | scalarMul s b ihb => rw [Expr.toMultiDiff, MultiDiffOps.scalarMul_value, ihb]; rfl
  | scalarDiv s b ihb => rw [Expr.toMultiDiff, MultiDiffOps.scalarDiv_value, ihb]; rfl

theorem toMultiDiff_hasDerivAt (c : Context ℝ) (old : Nat → MultiDiff ℝ)
    (x : Fin c.num_dir → ℝ) (i : Fin c.num_dir) (e : Expr c.num_dir ℝ)
    (hd : e.divisorsNonzero Real.exp x) :
    HasDerivAt (fun t => e.eval Real.exp (Function.update x i t))
      ((e.toMultiDiff Real.exp c (Independent c old x)).getDiffValues
        (Independent c old x) i.val 0) (x i) := by
  have hi : i.val < c.num_directions :=
    lt_of_lt_of_le i.isLt (le_next_size c.W c.num_dir c.W_pos)
  have hself : ∀ a : Expr c.num_dir ℝ,
      a.eval Real.exp (Function.update x i (x i)) = a.eval Real.exp x := by
    intro a; rw [Function.update_eq_self]
  have hval := toMultiDiff_value Real.exp c old x
  have hun := toMultiDiff_uniform Real.exp c (Independent c old x) (n := c.num_dir)
  induction e with
  | var k =>
    have hl := Independent_lane c old x k i.val hi
    simp only [Expr.toMultiDiff, MultiDiffExpr.getDiffValues, MultiDiff.getDiffValues,
      aligned_load, Nat.add_zero, Expr.eval]
    unfold MultiDiff.getDiffValue at hl
    rw [hl]
    by_cases hki : k = i
    · subst hki
      simp only [Function.update_same, if_true]
      exact hasDerivAt_id _
    · have h1 : ¬ (i.val = k.val) := fun h => hki (Fin.ext h.symm)
      rw [if_neg h1]
      simp only [Function.update_noteq hki]
      exact hasDerivAt_const _ _
  | neg a iha =>
    rw [Expr.toMultiDiff, MultiDiffOps.neg_lane c _ _ (hun a) _ hi]
    exact (iha hd).neg
  | add a b iha ihb =>
    rw [Expr.toMultiDiff, MultiDiffOps.add_lane c _ _ _ (hun a) (hun b) _ hi]
    exact (iha hd.1).add (ihb hd.2)
  | sub a b iha ihb =>
    rw [Expr.toMultiDiff, MultiDiffOps.sub_lane c _ _ _ (hun a) (hun b) _ hi]
    exact (iha hd.1).sub (ihb hd.2)
  | mul a b iha ihb =>
    rw [Expr.toMultiDiff, MultiDiffOps.mul_lane c _ _ _ (hun a) (hun b) _ hi, hval, hval]
    have h := (iha hd.1).mul (ihb hd.2)
    simp only [hself] at h
    convert h using 1
    ring
  | div a b iha ihb =>
    rw [Expr.toMultiDiff, MultiDiffOps.div_lane c _ _ _ (hun a) (hun b) _ hi, hval, hval]
    have h := (iha hd.1).div (ihb hd.2.1) (by rw [hself]; exact hd.2.2)
    simp only [hself] at h
    convert h using 1
    ring
  | exp a iha =>
    rw [Expr.toMultiDiff, MultiDiffOps.exp_lane c _ _ _ (hun a) _ hi, hval]
    have h := (iha hd).exp
    simp only [hself] at h
    exact h
  | addScalar a s iha =>
    rw [Expr.toMultiDiff, MultiDiffOps.addScalar_lane c _ _ _ (hun a) _ hi]
    exact (iha hd).add_const s
  | subScalar a s iha =>
    rw [Expr.toMultiDiff, MultiDiffOps.subScalar_lane c _ _ _ (hun a) _ hi]
    exact (iha hd).sub_const s
  | mulScalar a s iha =>
    rw [Expr.toMultiDiff, MultiDiffOps.mulScalar_lane c _ _ _ (hun a) _ hi]
    have h := (iha hd).mul_const s
    convert h using 1
    ring
  | divScalar a s iha =>
    rw [Expr.toMultiDiff, MultiDiffOps.divScalar_lane c _ _ _ (hun a) _ hi]
    exact (iha hd.1).div_const s
  | scalarAdd s b ihb =>
    rw [Expr.toMultiDiff, MultiDiffOps.scalarAdd_lane c _ _ _ (hun b) _ hi]
    exact (ihb hd).const_add s
  | scalarSub s b ihb =>
    rw [Expr.toMultiDiff, MultiDiffOps.scalarSub_lane c _ _ _ (hun b) _ hi]
    exact (ihb hd).const_sub s
  | scalarMul s b ihb =>
    rw [Expr.toMultiDiff, MultiDiffOps.scalarMul_lane c _ _ _ (hun b) _ hi]
    exact (ihb hd).const_mul s
  | scalarDiv s b ihb =>
    rw [Expr.toMultiDiff, MultiDiffOps.scalarDiv_lane c _ _ _ (hun b) _ hi, hval]
    have h := (hasDerivAt_const (x i) s).div (ihb hd.1) (by rw [hself]; exact hd.2)
    simp only [hself] at h
    convert h using 1
    ring

/-! ## SingleDiff: value and directional derivative -/

theorem directionInputs_apply {n : Nat} {K : Type} [Zero K] (x s : Fin n → K) (r : Fin n) :
    directionInputs x s r.val = ⟨x r, s r⟩ := by
  unfold directionInputs
  rw [dif_pos r.isLt]

theorem toSingleDiff_value {n : Nat} {K : Type} [Field K] (ex : K → K) (x s : Fin n → K)
    (e : Expr n K) :
    (e.toSingleDiff ex (directionInputs x s)).getValue (directionInputs x s) = e.eval ex x := by
  induction e with
  | var i =>
    simp only [Expr.toSingleDiff, SingleDiffExpr.getValue, directionInputs_apply,
      SingleDiff.getValue, Expr.eval]
  | neg a iha =>
    simp only [Expr.toSingleDiff, SingleDiffOps.neg, SingleDiffOps.SingleDiffNeg,
      SingleDiffExpr.getValue, Expr.eval, iha]
  | add a b iha ihb =>
    simp only [Expr.toSingleDiff, SingleDiffOps.add, SingleDiffOps.SingleDiffPlus,
      SingleDiffExpr.getValue, Expr.eval, iha, ihb]
  | sub a b iha ihb =>
    simp only [Expr.toSingleDiff, SingleDiffOps.sub, SingleDiffOps.SingleDiffMinus,
      SingleDiffExpr.getValue, Expr.eval, iha, ihb]
  | mul a b iha ihb =>
    simp only [Expr.toSingleDiff, SingleDiffOps.mul, SingleDiffOps.SingleDiffMul,
      SingleDiffExpr.getValue, Expr.eval, iha, ihb]
  | div a b iha ihb =>
    simp only [Expr.toSingleDiff, SingleDiffOps.div, SingleDiffOps.SingleDiffDiv,
      SingleDiffExpr.getValue, Expr.eval, iha, ihb]
  | exp a iha =>
    simp only [Expr.toSingleDiff, SingleDiffOps.exp, SingleDiffOps.SingleDiffExp,
      SingleDiffExpr.getValue, Expr.eval, iha]
  | addScalar a s iha =>
    simp only [Expr.toSingleDiff, SingleDiffOps.addScalar, SingleDiffOps.ScalarSingleDiffPlus,
      SingleDiffExpr.getValue, Expr.eval, iha]
    ring
  | subScalar a s iha =>
    simp only [Expr.toSingleDiff, SingleDiffOps.subScalar, SingleDiffOps.ScalarSingleDiffPlus,
      SingleDiffExpr.getValue, Expr.eval, iha]
    ring
  | mulScalar a s iha =>
    simp only [Expr.toSingleDiff, SingleDiffOps.mulScalar, SingleDiffOps.ScalarSingleDiffMul,
      SingleDiffExpr.getValue, Expr.eval, iha]
    ring
  | divScalar a s iha =>
    simp only [Expr.toSingleDiff, SingleDiffOps.divScalar, SingleDiffOps.SingleDiffScalarDiv,
      SingleDiffExpr.getValue, Expr.eval, iha]
  | scalarAdd s b ihb =>
    simp only [Expr.toSingleDiff, SingleDiffOps.scalarAdd, SingleDiffOps.ScalarSingleDiffPlus,
      SingleDiffExpr.getValue, Expr.eval, ihb]
  | scalarSub s b ihb =>
    simp only [Expr.toSingleDiff, SingleDiffOps.scalarSub, SingleDiffOps.ScalarSingleDiffMinus,
      SingleDiffExpr.getValue, Expr.eval, ihb]
  | scalarMul s b ihb =>
    simp only [Expr.toSingleDiff, SingleDiffOps.scalarMul, SingleDiffOps.ScalarSingleDiffMul,
      SingleDiffExpr.getValue, Expr.eval, ihb]
  | scalarDiv s b ihb =>
    simp only [Expr.toSingleDiff, SingleDiffOps.scalarDiv, SingleDiffOps.ScalarSingleDiffDiv,
      SingleDiffExpr.getValue, Expr.eval, ihb]

theorem toSingleDiff_diff {K : Type} [Field K] (ex : K → K) (c : Context K)
    (old : Nat → MultiDiff K) (x s : Fin c.num_dir → K) (e : Expr c.num_dir K) :
    (e.toSingleDiff ex (directionInputs x s)).getDiffValue (directionInputs x s) =
      ∑ i : Fin c.num_dir,
        (e.toMultiDiff ex c (Independent c old x)).getDiffValues (Independent c old x) i.val 0
          * s i := by
  have hl : ∀ i : Fin c.num_dir, i.val < c.num_directions := fun i =>
    lt_of_lt_of_le i.isLt (le_next_size c.W c.num_dir c.W_pos)
  have hval := toMultiDiff_value ex c old x
  have hsv := toSingleDiff_value ex x s
  have hun := toMultiDiff_uniform ex c (Independent c old x) (n := c.num_dir)
  induction e with
  | var k =>
    simp only [Expr.toSingleDiff, SingleDiffExpr.getDiffValue, directionInputs_apply,
      SingleDiff.getDiffValue, Expr.toMultiDiff, MultiDiffExpr.getDiffValues,
      MultiDiff.getDiffValues, aligned_load, Nat.add_zero]
    have h : ∀ i : Fin c.num_dir,
        (Independent c old x k.val).dval i.val * s i = if i = k then s i else 0 := by
      intro i
      have := Independent_lane c old x k i.val (hl i)
      unfold MultiDiff.getDiffValue at this
      rw [this]
      by_cases hik : i = k
      · subst hik; simp
      · have : ¬ (i.val = k.val) := fun h => hik (Fin.ext h)
        simp [this, hik]
    rw [Finset.sum_congr rfl (fun i _ => h i), Finset.sum_ite_eq' Finset.univ k]
    simp
  | neg a iha =>
    simp only [Expr.toSingleDiff, SingleDiffOps.neg, SingleDiffOps.SingleDiffNeg,
      SingleDiffExpr.getDiffValue, iha, ← Finset.sum_neg_distrib]
    refine Finset.sum_congr rfl fun i _ => ?_
    rw [Expr.toMultiDiff, MultiDiffOps.neg_lane c _ _ (hun a) _ (hl i)]
    ring
  | add a b iha ihb =>
    simp only [Expr.toSingleDiff, SingleDiffOps.add, SingleDiffOps.SingleDiffPlus,
      SingleDiffExpr.getDiffValue, iha, ihb, ← Finset.sum_add_distrib]
    refine Finset.sum_congr rfl fun i _ => ?_
    rw [Expr.toMultiDiff, MultiDiffOps.add_lane c _ _ _ (hun a) (hun b) _ (hl i)]
    ring
  | sub a b iha ihb =>
    simp only [Expr.toSingleDiff, SingleDiffOps.sub, SingleDiffOps.SingleDiffMinus,
      SingleDiffExpr.getDiffValue, iha, ihb, ← Finset.sum_sub_distrib]
    refine Finset.sum_congr rfl fun i _ => ?_
    rw [Expr.toMultiDiff, MultiDiffOps.sub_lane c _ _ _ (hun a) (hun b) _ (hl i)]
    ring
  | mul a b iha ihb =>
    simp only [Expr.toSingleDiff, SingleDiffOps.mul, SingleDiffOps.SingleDiffMul,
      SingleDiffExpr.getDiffValue, iha, ihb, hsv, Finset.mul_sum, ← Finset.sum_add_distrib]
    refine Finset.sum_congr rfl fun i _ => ?_
    rw [Expr.toMultiDiff, MultiDiffOps.mul_lane c _ _ _ (hun a) (hun b) _ (hl i), hval, hval]
    ring
  | div a b iha ihb =>
    simp only [Expr.toSingleDiff, SingleDiffOps.div, SingleDiffOps.SingleDiffDiv,
      SingleDiffExpr.getDiffValue, iha, ihb, hsv, Finset.mul_sum, ← Finset.sum_sub_distrib,
      Finset.sum_div]
    refine Finset.sum_congr rfl fun i _ => ?_
    rw [Expr.toMultiDiff, MultiDiffOps.div_lane c _ _ _ (hun a) (hun b) _ (hl i), hval, hval]
    ring
  | exp a iha =>
    simp only [Expr.toSingleDiff, SingleDiffOps.exp, SingleDiffOps.SingleDiffExp,
      SingleDiffExpr.getDiffValue, iha, hsv, Finset.mul_sum]
    refine Finset.sum_congr rfl fun i _ => ?_
    rw [Expr.toMultiDiff, MultiDiffOps.exp_lane c _ _ _ (hun a) _ (hl i), hval]
    ring
  | addScalar a t iha =>
    simp only [Expr.toSingleDiff, SingleDiffOps.addScalar, SingleDiffOps.ScalarSingleDiffPlus,
      SingleDiffExpr.getDiffValue, iha]
    refine Finset.sum_congr rfl fun i _ => ?_
    rw [Expr.toMultiDiff, MultiDiffOps.addScalar_lane c _ _ _ (hun a) _ (hl i)]
  | subScalar a t iha =>
    simp only [Expr.toSingleDiff, SingleDiffOps.subScalar, SingleDiffOps.ScalarSingleDiffPlus,
      SingleDiffExpr.getDiffValue, iha]
    refine Finset.sum_congr rfl fun i _ => ?_
    rw [Expr.toMultiDiff, MultiDiffOps.subScalar_lane c _ _ _ (hun a) _ (hl i)]
  | mulScalar a t iha =>
    simp only [Expr.toSingleDiff, SingleDiffOps.mulScalar, SingleDiffOps.ScalarSingleDiffMul,
      SingleDiffExpr.getDiffValue, iha, Finset.mul_sum]
    refine Finset.sum_congr rfl fun i _ => ?_
    rw [Expr.toMultiDiff, MultiDiffOps.mulScalar_lane c _ _ _ (hun a) _ (hl i)]
    ring
  | divScalar a t iha =>
    simp only [Expr.toSingleDiff, SingleDiffOps.divScalar, SingleDiffOps.SingleDiffScalarDiv,
      SingleDiffExpr.getDiffValue, iha, Finset.sum_div]
    refine Finset.sum_congr rfl fun i _ => ?_
    rw [Expr.toMultiDiff, MultiDiffOps.divScalar_lane c _ _ _ (hun a) _ (hl i)]
    ring
  | scalarAdd t b ihb =>
    simp only [Expr.toSingleDiff, SingleDiffOps.scalarAdd, SingleDiffOps.ScalarSingleDiffPlus,
      SingleDiffExpr.getDiffValue, ihb]
    refine Finset.sum_congr rfl fun i _ => ?_
    rw [Expr.toMultiDiff, MultiDiffOps.scalarAdd_lane c _ _ _ (hun b) _ (hl i)]
  | scalarSub t b ihb =>
    simp only [Expr.toSingleDiff, SingleDiffOps.scalarSub, SingleDiffOps.ScalarSingleDiffMinus,
      SingleDiffExpr.getDiffValue, ihb, ← Finset.sum_neg_distrib]
    refine Finset.sum_congr rfl fun i _ => ?_
    rw [Expr.toMultiDiff, MultiDiffOps.scalarSub_lane c _ _ _ (hun b) _ (hl i)]
    ring
  | scalarMul t b ihb =>
    simp only [Expr.toSingleDiff, SingleDiffOps.scalarMul, SingleDiffOps.ScalarSingleDiffMul,
      SingleDiffExpr.getDiffValue, ihb, Finset.mul_sum]
    refine Finset.sum_congr rfl fun i _ => ?_
    rw [Expr.toMultiDiff, MultiDiffOps.scalarMul_lane c _ _ _ (hun b) _ (hl i)]
    ring
  | scalarDiv t b ihb =>
    simp only [Expr.toSingleDiff, SingleDiffOps.scalarDiv, SingleDiffOps.ScalarSingleDiffDiv,
      SingleDiffExpr.getDiffValue, ihb, hsv, Finset.mul_sum, Finset.sum_div]
    refine Finset.sum_congr rfl fun i _ => ?_
    rw [Expr.toMultiDiff, MultiDiffOps.scalarDiv_lane c _ _ _ (hun b) _ (hl i), hval]
    ring

/-! ## Automatic differentiation: the claims -/

/-- C1: forward-mode exactness of `MultiDiff`. For every expression `e` of the
supported algebra (negation, sum, difference, product, quotient, `exp`, and the
variants with a scalar on either side) whose divisors are non-zero at `x`,
built by the overloaded operators over independents seeded with
`setIndependent( x_i, i )`, the materialized `MultiDiff` has
`getValue() = e(x)`, and `getDiffValue( i )` is the partial derivative of `e`
with respect to `x_i` at `x`, for every `i < n`. -/
theorem multidiff_forward_mode_exact (c : Context ℝ) (old : Nat → MultiDiff ℝ)
    (x : Fin c.num_dir → ℝ) (e : Expr c.num_dir ℝ) (hd : e.divisorsNonzero Real.exp x) :
    (MultiDiff.ofExpr c (Independent c old x)
        (e.toMultiDiff Real.exp c (Independent c old x))).getValue = e.eval Real.exp x ∧
    ∀ i : Fin c.num_dir,
      HasDerivAt (fun t => e.eval Real.exp (Function.update x i t))
        ((MultiDiff.ofExpr c (Independent c old x)
          (e.toMultiDiff Real.exp c (Independent c old x))).getDiffValue i.val) (x i) := by
  refine ⟨?_, fun i => ?_⟩
  · rw [ofExpr_value]
    exact toMultiDiff_value Real.exp c old x e
  · rw [ofExpr_lane c _ _ (toMultiDiff_uniform Real.exp c _ e) i.val
      (lt_of_lt_of_le i.isLt (le_next_size c.W c.num_dir c.W_pos))]
    exact toMultiDiff_hasDerivAt c old x i e hd

/-- Witness for C1: the expression `(x0 * x1) * (x0 * x1) / (exp(x0) + 1)` at
`x = (1, 2)`, whose divisor `exp(1) + 1` is non-zero. -/
theorem multidiff_forward_mode_exact_witness :
    (exampleExpr ℝ).divisorsNonzero Real.exp ![1, 2] ∧
    ((MultiDiff.ofExpr (exampleContext ℝ)
        (Independent (exampleContext ℝ) (exampleOld ℝ) ![1, 2])
        ((exampleExpr ℝ).toMultiDiff Real.exp (exampleContext ℝ)
          (Independent (exampleContext ℝ) (exampleOld ℝ) ![1, 2]))).getValue
        = (exampleExpr ℝ).eval Real.exp ![1, 2] ∧
     ∀ i : Fin 2,
      HasDerivAt (fun t => (exampleExpr ℝ).eval Real.exp (Function.update ![1, 2] i t))
        ((MultiDiff.ofExpr (exampleContext ℝ)
          (Independent (exampleContext ℝ) (exampleOld ℝ) ![1, 2])
          ((exampleExpr ℝ).toMultiDiff Real.exp (exampleContext ℝ)
            (Independent (exampleContext ℝ) (exampleOld ℝ) ![1, 2]))).getDiffValue i.val)
        ((![1, 2] : Fin 2 → ℝ) i)) :=
  have hd : (exampleExpr ℝ).divisorsNonzero Real.exp ![1, 2] := by
    simp only [exampleExpr, Expr.divisorsNonzero, Expr.eval, true_and, and_true]
    positivity
  ⟨hd, multidiff_forward_mode_exact (exampleContext ℝ) (exampleOld ℝ) ![1, 2] (exampleExpr ℝ) hd⟩

/-- C2: `SingleDiff` computes the directional derivative of the same function.
For every expression `e` of the supported algebra, every point `x` and every
direction `s`, evaluating `e` on the `SingleDiff` inputs `( x_i, s_i )` yields
the value `e(x)` and a derivative equal to the sum over `i` of
`MultiDiff(e).dval[i] * s_i`. -/
theorem singlediff_directional_derivative {K : Type} [Field K] (ex : K → K) (c : Context K)
    (old : Nat → MultiDiff K) (x s : Fin c.num_dir → K) (e : Expr c.num_dir K) :
    (SingleDiff.ofExpr (directionInputs x s)
        (e.toSingleDiff ex (directionInputs x s))).getValue = e.eval ex x ∧
    (SingleDiff.ofExpr (directionInputs x s)
        (e.toSingleDiff ex (directionInputs x s))).getDiffValue =
      ∑ i : Fin c.num_dir,
        (MultiDiff.ofExpr c (Independent c old x)
          (e.toMultiDiff ex c (Independent c old x))).getDiffValue i.val * s i := by
  refine ⟨toSingleDiff_value ex x s e, ?_⟩
  have h := toSingleDiff_diff ex c old x s e
  unfold SingleDiff.ofExpr SingleDiff.getDiffValue
  simp only
  rw [h]
  refine Finset.sum_congr rfl fun i _ => ?_
  rw [ofExpr_lane c _ _ (toMultiDiff_uniform ex c _ e) i.val
    (lt_of_lt_of_le i.isLt (le_next_size c.W c.num_dir c.W_pos))]

/-! ## Line search: the loop -/

theorem line_search_loop_true {K : Type} [LinearOrderedField K] (isfinite : K → Bool) (inf : K)
    (f0 : SingleDiff K) (f : K → SingleDiff K) (n : Nat) :
    ∀ (alpha lo up : K) (tr : List K),
      (line_search_loop isfinite inf f0 f n alpha lo up tr).ret = true →
      weakWolfe isfinite f0 f (line_search_loop isfinite inf f0 f n alpha lo up tr).alpha := by
  induction n with
  | zero => intro alpha lo up tr h; simp [line_search_loop] at h
  | succ n ih =>
    intro alpha lo up tr h
    rw [line_search_loop] at h ⊢
    split_ifs at h ⊢ with h1 h3
    · exact ih _ _ _ _ h
    · exact ih _ _ _ _ h
    · simp only [Bool.or_eq_true, Bool.not_eq_true', decide_eq_true_eq, not_or, Bool.not_eq_false,
        not_lt] at h1
      refine ⟨h1.1, ?_, ?_⟩
      · simpa [c1] using h1.2
      · simpa [c2] using not_lt.mp h3

theorem line_search_loop_evals {K : Type} [LinearOrderedField K] (isfinite : K → Bool) (inf : K)
    (f0 : SingleDiff K) (f : K → SingleDiff K) (n : Nat) :
    ∀ (alpha lo up : K) (tr : List K),
      ∃ new : List K,
        (line_search_loop isfinite inf f0 f n alpha lo up tr).evals = tr ++ new ∧
        new.length ≤ n ∧
        ((line_search_loop isfinite inf f0 f n alpha lo up tr).ret = false →
          new.length = n ∧ ∀ a ∈ new, ¬ weakWolfe isfinite f0 f a) := by
  induction n with
  | zero =>
    intro alpha lo up tr
    exact ⟨[], by simp [line_search_loop], by simp, fun _ => by simp⟩
  | succ n ih =>
    intro alpha lo up tr
    rw [line_search_loop]
    split_ifs with h1 h3
    · obtain ⟨new, e1, e2, e3⟩ := ih (next_alpha inf alpha lo alpha) lo alpha (tr ++ [alpha])
      refine ⟨alpha :: new, by simpa using e1, by simpa using e2, fun hf => ?_⟩
      obtain ⟨l1, l2⟩ := e3 hf
      refine ⟨by simpa using l1, ?_⟩
      intro a ha
      rcases List.mem_cons.mp ha with rfl | ha
      · rintro ⟨w1, w2, -⟩
        simp only [Bool.or_eq_true, Bool.not_eq_true', decide_eq_true_eq, c1] at h1
        rcases h1 with h1 | h1
        · rw [w1] at h1; exact Bool.noConfusion h1
        · exact absurd w2 (not_le.mpr h1)
      · exact l2 a ha
    · obtain ⟨new, e1, e2, e3⟩ := ih (next_alpha inf alpha alpha up) alpha up (tr ++ [alpha])
      refine ⟨alpha :: new, by simpa using e1, by simpa using e2, fun hf => ?_⟩
      obtain ⟨l1, l2⟩ := e3 hf
      refine ⟨by simpa using l1, ?_⟩
      intro a ha
      rcases List.mem_cons.mp ha with rfl | ha
      · rintro ⟨-, -, w3⟩
        simp only [c2] at h3
        exact absurd w3 (not_le.mpr h3)
      · exact l2 a ha
    · exact ⟨[alpha], rfl, by simp, fun hf => by simp at hf⟩

/-! ## Line search on values that may be NaN -/

/-- On values that are numbers the loop on values that may be NaN is
`line_search_loop`. -/
theorem line_search_loop_nan_toNan {K : Type} [LinearOrderedField K] (isfinite : K → Bool)
    (inf : K) (f0 : SingleDiff K) (f : K → SingleDiff K) (n : Nat) :
    ∀ (alpha lo up : K) (tr : List K),
      line_search_loop_nan isfinite inf f0.toNan (fun a => (f a).toNan) n alpha lo up tr =
        line_search_loop isfinite inf f0 f n alpha lo up tr := by
  induction n with
  | zero => intro alpha lo up tr; rfl
  | succ n ih =>
    intro alpha lo up tr
    rw [line_search_loop_nan, line_search_loop, ih, ih]
    simp only [SingleDiff.toNan, SingleDiff.getValue, SingleDiff.getDiffValue, nanIsFinite,
      nanMul, nanAdd, nanLt, gt_iff_lt, decide_eq_true_eq]

/-- On values that are numbers `line_search_nan` is `line_search`. -/
theorem line_search_nan_toNan {K : Type} [LinearOrderedField K] (isfinite : K → Bool)
    (inf : K) (maxiter : Nat) (f0 : SingleDiff K) (f : K → SingleDiff K) (alpha : K) :
    line_search_nan isfinite inf maxiter f0.toNan (fun a => (f a).toNan) alpha =
      line_search isfinite inf maxiter f0 f alpha :=
  line_search_loop_nan_toNan isfinite inf f0 f maxiter alpha 0 inf []

/-! ## Line search: the claims -/

/-- C9 (evaluation at the failing input): with `f0 = (0, -1)` and
`phi(a) = (1, 0)` every trial fails the Armijo test; started at `alpha = 1`
with 35 iterations the search returns false, the last step passed to `phi`
is `2^-34`, but the value left in `alpha` is `2^-35`, a step that was never
tested. -/
theorem line_search_exhausted_alpha_untested :
    (line_search (fun _ => true) (2 ^ 1024) 35 ⟨0, -1⟩ (fun _ => ⟨1, 0⟩) (1 : ℚ)).ret = false ∧
    (line_search (fun _ => true) (2 ^ 1024) 35 ⟨0, -1⟩ (fun _ => ⟨1, 0⟩) (1 : ℚ)).evals.getLast?
      = some (1 / 2 ^ 34) ∧
    (line_search (fun _ => true) (2 ^ 1024) 35 ⟨0, -1⟩ (fun _ => ⟨1, 0⟩) (1 : ℚ)).alpha
      = 1 / 2 ^ 35 ∧
    (1 / 2 ^ 35 : ℚ) ∉
      (line_search (fun _ => true) (2 ^ 1024) 35 ⟨0, -1⟩ (fun _ => ⟨1, 0⟩) (1 : ℚ)).evals := by
  refine ⟨by decide!, by decide!, by decide!, by decide!⟩

/-- C10: `line_search` evaluates `f` at most `maxiter` times
(`maxiter = LINESEARCH_MAXITER`), and it returns false only after exactly
`maxiter` evaluations, none of which passed the acceptance test (finite
value, Armijo inequality and curvature inequality together). -/
theorem line_search_bounded {K : Type} [LinearOrderedField K] (isfinite : K → Bool)
    (inf : K) (maxiter : Nat) (f0 : SingleDiff K) (f : K → SingleDiff K) (alpha : K) :
    (line_search isfinite inf maxiter f0 f alpha).evals.length ≤ maxiter ∧
    ((line_search isfinite inf maxiter f0 f alpha).ret = false →
      (line_search isfinite inf maxiter f0 f alpha).evals.length = maxiter ∧
      ∀ a ∈ (line_search isfinite inf maxiter f0 f alpha).evals,
        ¬ (isfinite (f a).getValue = true ∧
           (f a).getValue ≤ f0.getValue + (1 / 10000) * a * f0.getDiffValue ∧
           (f a).getDiffValue ≥ (9 / 10) * f0.getDiffValue)) := by
  obtain ⟨new, e1, e2, e3⟩ := line_search_loop_evals isfinite inf f0 f maxiter alpha 0 inf []
  have e1 : (line_search isfinite inf maxiter f0 f alpha).evals = new := by
    simpa [line_search] using e1
  rw [e1]
  exact ⟨e2, e3⟩

/-! ## BLAS kernels: what each call writes -/

theorem idx_inj (LDA i j i' j' : Nat) (hj : j < LDA) (hj' : j' < LDA)
    (h : i * LDA + j = i' * LDA + j') : i = i' ∧ j = j' := by
  have h1 : (i * LDA + j) / LDA = i := by
    rw [Nat.mul_comm, Nat.mul_add_div (by omega), Nat.div_eq_of_lt hj, Nat.add_zero]
  have h2 : (i' * LDA + j') / LDA = i' := by
    rw [Nat.mul_comm, Nat.mul_add_div (by omega), Nat.div_eq_of_lt hj', Nat.add_zero]
  have hi : i = i' := by rw [← h1, ← h2, h]
  subst hi
  exact ⟨rfl, by omega⟩

theorem scal_miss {K : Type} [Field K] (N : Nat) (alpha : K) (mem : Nat → K) (x incX p : Nat)
    (h : ∀ i, i < N → p ≠ x + i * incX) : scal N alpha mem x incX p = mem p := by
  unfold scal
  induction N with
  | zero => simp
  | succ n ih =>
    rw [List.range_succ, List.foldl_append]
    simp only [List.foldl_cons, List.foldl_nil]
    rw [Function.update_noteq (h n (Nat.lt_succ_self n))]
    exact ih (fun i hi => h i (Nat.lt_succ_of_lt hi))

theorem scal_hit {K : Type} [Field K] (N : Nat) (alpha : K) (mem : Nat → K) (x incX : Nat)
    (hinc : 0 < incX) (i : Nat) (hi : i < N) :
    scal N alpha mem x incX (x + i * incX) = alpha * mem (x + i * incX) := by
  induction N with
  | zero => omega
  | succ n ih =>
    have hstep : scal (n + 1) alpha mem x incX =
        Function.update (scal n alpha mem x incX) (x + n * incX)
          (alpha * scal n alpha mem x incX (x + n * incX)) := by
      unfold scal
      rw [List.range_succ, List.foldl_append]
      rfl
    rw [hstep]
    by_cases hin : i = n
    · subst hin
      rw [Function.update_same, scal_miss]
      intro i' hi' heq
      have : i * incX = i' * incX := by omega
      have := Nat.eq_of_mul_eq_mul_right hinc this
      omega
    · have hne : x + i * incX ≠ x + n * incX := by
        intro heq
        have : i * incX = n * incX := by omega
        exact hin (Nat.eq_of_mul_eq_mul_right hinc this)
      rw [Function.update_noteq hne]
      exact ih (by omega)

theorem gemv_miss {K : Type} [Field K] (M N : Nat) (alpha : K) (mem : Nat → K)
    (a lda x incX : Nat) (beta : K) (y incY p : Nat)
    (h : ∀ i, i < M → p ≠ y + i * incY) :
    gemv M N alpha mem a lda x incX beta y incY p = mem p := by
  unfold gemv
  induction M with
  | zero => simp
  | succ n ih =>
    rw [List.range_succ, List.foldl_append]
    simp only [List.foldl_cons, List.foldl_nil]
    rw [Function.update_noteq (h n (Nat.lt_succ_self n))]
    exact ih (fun i hi => h i (Nat.lt_succ_of_lt hi))

theorem gemv_hit {K : Type} [Field K] (M N : Nat) (alpha : K) (mem : Nat → K)
    (a lda x incX : Nat) (beta : K) (y incY : Nat) (hinc : 0 < incY) (i : Nat) (hi : i < M) :
    gemv M N alpha mem a lda x incX beta y incY (y + i * incY) =
      alpha * (∑ j in Finset.range N, mem (a + i * lda + j) * mem (x + j * incX))
        + beta * mem (y + i * incY) := by
  induction M with
  | zero => omega
  | succ n ih =>
    have hstep : gemv (n + 1) N alpha mem a lda x incX beta y incY =
        Function.update (gemv n N alpha mem a lda x incX beta y incY) (y + n * incY)
          (alpha * (∑ j in Finset.range N, mem (a + n * lda + j) * mem (x + j * incX))
            + beta * mem (y + n * incY)) := by
      unfold gemv
      rw [List.range_succ, List.foldl_append]
      rfl
    rw [hstep]
    by_cases hin : i = n
    · subst hin
      rw [Function.update_same]
    · have hne : y + i * incY ≠ y + n * incY := by
        intro heq
        have : i * incY = n * incY := by omega
        exact hin (Nat.eq_of_mul_eq_mul_right hinc this)
      rw [Function.update_noteq hne]
      exact ih (by omega)

/-! ## The Cholesky recurrence -/

theorem cholFactor_succ_of_ne {K : Type} [Field K] (sqrt : K → K) (M : Nat → Nat → K)
    (k i j : Nat) (h : j ≠ k) : cholFactor sqrt M (k + 1) i j = cholFactor sqrt M k i j := by
  rw [cholFactor]
  simp only [if_neg h]

theorem cholFactor_stable {K : Type} [Field K] (sqrt : K → K) (M : Nat → Nat → K)
    (k k' i j : Nat) (hj : j < k) (hk : k ≤ k') :
    cholFactor sqrt M k' i j = cholFactor sqrt M k i j := by
  induction k' with
  | zero => omega
  | succ n ih =>
    by_cases h : k = n + 1
    · subst h; rfl
    · rw [cholFactor_succ_of_ne sqrt M n i j (by omega)]
      exact ih (by omega)

theorem cholFactor_col_ge {K : Type} [Field K] (sqrt : K → K) (M : Nat → Nat → K)
    (k i j : Nat) (h : k ≤ j) : cholFactor sqrt M k i j = 0 := by
  induction k with
  | zero => rfl
  | succ n ih =>
    rw [cholFactor_succ_of_ne sqrt M n i j (by omega)]
    exact ih (by omega)

theorem cholFactor_upper {K : Type} [Field K] (sqrt : K → K) (M : Nat → Nat → K)
    (k i j : Nat) (h : i < j) : cholFactor sqrt M k i j = 0 := by
  induction k with
  | zero => rfl
  | succ n ih =>
    by_cases hj : j = n
    · subst hj
      rw [cholFactor]
      simp only [if_true, if_pos h]
    · rw [cholFactor_succ_of_ne sqrt M n i j hj]
      exact ih

theorem cholFactor_diag {K : Type} [Field K] (sqrt : K → K) (M : Nat → Nat → K) (k : Nat) :
    cholFactor sqrt M (k + 1) k k = sqrt (cholPivot sqrt M k) := by
  rw [cholFactor]
  simp only [if_true, lt_irrefl, if_false]
  rfl

theorem cholFactor_below {K : Type} [Field K] (sqrt : K → K) (M : Nat → Nat → K) (k i : Nat)
    (h : k < i) :
    cholFactor sqrt M (k + 1) i k =
      (M i k - ∑ t in Finset.range k, cholFactor sqrt M k i t * cholFactor sqrt M k k t)
        / sqrt (cholPivot sqrt M k) := by
  rw [cholFactor]
  have h1 : ¬ i < k := by omega
  have h2 : ¬ i = k := by omega
  simp only [if_true, if_neg h1, if_neg h2]
  rfl

theorem symOf_lower {K : Type} (A : Nat → K) (LDA i j : Nat) (h : j ≤ i) :
    symOf A LDA i j = A (i * LDA + j) := by
  unfold symOf
  rw [if_pos h]

theorem symOf_symm {K : Type} (A : Nat → K) (LDA i j : Nat) :
    symOf A LDA i j = symOf A LDA j i := by
  unfold symOf
  by_cases h1 : j ≤ i
  · by_cases h2 : i ≤ j
    · have : i = j := by omega
      subst this; rfl
    · rw [if_pos h1, if_neg h2]
  · have h2 : i ≤ j := by omega
    rw [if_neg h1, if_pos h2]

/-! ## cholesky_solve: one column of the factorization -/

theorem gemv_column_hit {K : Type} [Field K] (A : Nat → K) (LDA N k i : Nat)
    (hk : k < N) (hN : N ≤ LDA) (hki : k ≤ i) (hi : i < N) :
    gemv (N - k) k (-1) A (k * LDA + 0) LDA (k * LDA + 0) 1 1 (k * LDA + k) LDA (i * LDA + k)
      = A (i * LDA + k) - ∑ t in Finset.range k, A (i * LDA + t) * A (k * LDA + t) := by
  have hpos : i * LDA + k = k * LDA + k + (i - k) * LDA := by
    have : i = k + (i - k) := by omega
    conv_lhs => rw [this]
    ring
  rw [hpos, gemv_hit (N - k) k (-1) A _ LDA _ 1 1 _ LDA (by omega) (i - k) (by omega)]
  have hrow : ∀ t, k * LDA + 0 + (i - k) * LDA + t = k * LDA + k + (i - k) * LDA - k + t := by
    intro t; omega
  have hsum : ∑ t in Finset.range k, A (k * LDA + 0 + (i - k) * LDA + t) * A (k * LDA + 0 + t * 1)
      = ∑ t in Finset.range k, A (k * LDA + k + (i - k) * LDA - k + t) * A (k * LDA + t) := by
    refine Finset.sum_congr rfl fun t _ => ?_
    rw [hrow t, Nat.mul_one, Nat.add_zero]
  rw [hsum]
  have hrow2 : ∀ t, k * LDA + k + (i - k) * LDA - k + t = (k * LDA + k + (i - k) * LDA) - k + t :=
    fun _ => rfl
  have hsum2 : ∑ t in Finset.range k, A (k * LDA + k + (i - k) * LDA - k + t) * A (k * LDA + t)
      = ∑ t in Finset.range k, A (i * LDA + t) * A (k * LDA + t) := by
    refine Finset.sum_congr rfl fun t _ => ?_
    rw [← hpos]
    congr 2
    omega
  rw [hsum2, ← hpos]
  ring

theorem gemv_column_miss {K : Type} [Field K] (A : Nat → K) (LDA N k p : Nat)
    (h : ∀ i, k ≤ i → i < N → p ≠ i * LDA + k) :
    gemv (N - k) k (-1) A (k * LDA + 0) LDA (k * LDA + 0) 1 1 (k * LDA + k) LDA p = A p := by
  apply gemv_miss
  intro i hi heq
  apply h (k + i) (by omega) (by omega)
  rw [heq]
  ring

theorem scal_column_hit {K : Type} [Field K] (A : Nat → K) (alpha : K) (LDA N k i : Nat)
    (hk : k < N) (hN : N ≤ LDA) (hki : k < i) (hi : i < N) :
    scal (N - k - 1) alpha A ((k + 1) * LDA + k) LDA (i * LDA + k) = alpha * A (i * LDA + k) := by
  have hpos : i * LDA + k = (k + 1) * LDA + k + (i - k - 1) * LDA := by
    have : i = (k + 1) + (i - k - 1) := by omega
    conv_lhs => rw [this]
    ring
  rw [hpos]
  exact scal_hit (N - k - 1) alpha A _ LDA (by omega) (i - k - 1) (by omega)

theorem scal_column_miss {K : Type} [Field K] (A : Nat → K) (alpha : K) (LDA N k p : Nat)
    (h : ∀ i, k < i → i < N → p ≠ i * LDA + k) :
    scal (N - k - 1) alpha A ((k + 1) * LDA + k) LDA p = A p := by
  apply scal_miss
  intro i hi heq
  apply h (k + 1 + i) (by omega) (by omega)
  rw [heq]
  ring

theorem chol_column_pivot {K : Type} [Field K] (sqrt : K → K) (A0 : Nat → K) (LDA N k : Nat)
    (A : Nat → K) (hk : k < N) (hN : N ≤ LDA) (hinv : CholInv sqrt A0 LDA N k A)
    (i : Nat) (hki : k ≤ i) (hi : i < N) :
    gemv (N - k) k (-1) A (k * LDA + 0) LDA (k * LDA + 0) 1 1 (k * LDA + k) LDA (i * LDA + k)
      = symOf A0 LDA i k - ∑ t in Finset.range k,
          cholFactor sqrt (symOf A0 LDA) k i t * cholFactor sqrt (symOf A0 LDA) k k t := by
  rw [gemv_column_hit A LDA N k i hk hN hki hi]
  have hframe : A (i * LDA + k) = A0 (i * LDA + k) := by
    apply hinv.2
    intro i' j' hj' _ _ heq
    have := (idx_inj LDA i k i' j' (by omega) (by omega) heq).2
    omega
  rw [hframe, symOf_lower A0 LDA i k hki]
  congr 1
  refine Finset.sum_congr rfl fun t ht => ?_
  have ht : t < k := Finset.mem_range.mp ht
  rw [hinv.1 i t ht (by omega) hi, hinv.1 k t ht (by omega) hk]

theorem chol_column_step {K : Type} [Field K] (sqrt : K → K) (A0 : Nat → K) (LDA N k : Nat)
    (A : Nat → K) (hk : k < N) (hN : N ≤ LDA) (hinv : CholInv sqrt A0 LDA N k A) :
    CholInv sqrt A0 LDA N (k + 1)
      (scal (N - k - 1)
        (1 / (Function.update
          (gemv (N - k) k (-1) A (k * LDA + 0) LDA (k * LDA + 0) 1 1 (k * LDA + k) LDA)
          (k * LDA + k)
          (sqrt (gemv (N - k) k (-1) A (k * LDA + 0) LDA (k * LDA + 0) 1 1 (k * LDA + k) LDA
            (k * LDA + k)))) (k * LDA + k))
        (Function.update
          (gemv (N - k) k (-1) A (k * LDA + 0) LDA (k * LDA + 0) 1 1 (k * LDA + k) LDA)
          (k * LDA + k)
          (sqrt (gemv (N - k) k (-1) A (k * LDA + 0) LDA (k * LDA + 0) 1 1 (k * LDA + k) LDA
            (k * LDA + k))))
        ((k + 1) * LDA + k) LDA) := by
  have hpiv := chol_column_pivot sqrt A0 LDA N k A hk hN hinv
  set A1 := gemv (N - k) k (-1) A (k * LDA + 0) LDA (k * LDA + 0) 1 1 (k * LDA + k) LDA
    with hA1
  have hv : A1 (k * LDA + k) = cholPivot sqrt (symOf A0 LDA) k := by
    rw [hpiv k (le_refl k) hk, symOf_lower A0 LDA k k (le_refl k)]
    unfold cholPivot
    rw [symOf_lower A0 LDA k k (le_refl k)]
  set A2 := Function.update A1 (k * LDA + k) (sqrt (A1 (k * LDA + k))) with hA2
  have hA2kk : A2 (k * LDA + k) = sqrt (cholPivot sqrt (symOf A0 LDA) k) := by
    rw [hA2, Function.update_same, hv]
  have hscal_kk : ∀ alpha : K,
      scal (N - k - 1) alpha A2 ((k + 1) * LDA + k) LDA (k * LDA + k) = A2 (k * LDA + k) := by
    intro alpha
    apply scal_column_miss
    intro i' hi' _ heq
    have := (idx_inj LDA k k i' k (by omega) (by omega) heq).1
    omega
  constructor
  · intro i j hj hji hi
    by_cases hjk : j = k
    · subst hjk
      by_cases hik : i = j
      · subst hik
        rw [hscal_kk, hA2kk, cholFactor_diag]
      · have hlt : j < i := by omega
        rw [scal_column_hit A2 _ LDA N j i hk hN hlt hi, hA2kk, cholFactor_below _ _ _ _ hlt]
        have hne : i * LDA + j ≠ j * LDA + j := by
          intro heq
          exact hik (idx_inj LDA i j j j (by omega) (by omega) heq).1
        rw [hA2, Function.update_noteq hne, hpiv i (by omega) hi]
        ring
    · have hjlt : j < k := by omega
      rw [cholFactor_succ_of_ne _ _ _ _ _ hjk, ← hinv.1 i j hjlt hji hi]
      have h1 : scal (N - k - 1) (1 / A2 (k * LDA + k)) A2 ((k + 1) * LDA + k) LDA (i * LDA + j)
          = A2 (i * LDA + j) := by
        apply scal_column_miss
        intro i' _ _ heq
        exact hjk (idx_inj LDA i j i' k (by omega) (by omega) heq).2
      have h2 : i * LDA + j ≠ k * LDA + k := by
        intro heq
        exact hjk (idx_inj LDA i j k k (by omega) (by omega) heq).2
      rw [h1, hA2, Function.update_noteq h2, hA1]
      apply gemv_column_miss
      intro i' _ _ heq
      exact hjk (idx_inj LDA i j i' k (by omega) (by omega) heq).2
  · intro p hp
    have h1 : scal (N - k - 1) (1 / A2 (k * LDA + k)) A2 ((k + 1) * LDA + k) LDA p = A2 p := by
      apply scal_column_miss
      intro i' hi' hi'N heq
      exact hp i' k (by omega) (by omega) hi'N heq
    have h2 : p ≠ k * LDA + k := fun heq => hp k k (by omega) (le_refl k) hk heq
    rw [h1, hA2, Function.update_noteq h2, hA1]
    rw [gemv_column_miss A LDA N k p (fun i' hi' hi'N heq => hp i' k (by omega) hi' hi'N heq)]
    apply hinv.2
    intro i' j' hj' hji' hi' heq
    exact hp i' j' (by omega) hji' hi' heq

/-! ## cholesky_solve: the factorization loop refines the recurrence -/

theorem cholesky_loop_spec {K : Type} [LinearOrderedField K] (sqrt : K → K) (A0 : Nat → K)
    (LDA N : Nat) (hN : N ≤ LDA) :
    ∀ (fuel k : Nat) (A : Nat → K), k ≤ N → N ≤ k + fuel → CholInv sqrt A0 LDA N k A →
      ((∀ j, k ≤ j → j < N → ¬ cholPivot sqrt (symOf A0 LDA) j < 0) →
        (cholesky_loop sqrt LDA N fuel k A).1 = 0 ∧
        CholInv sqrt A0 LDA N N (cholesky_loop sqrt LDA N fuel k A).2) ∧
      (∀ k', k ≤ k' → k' < N →
        (∀ j, k ≤ j → j < k' → ¬ cholPivot sqrt (symOf A0 LDA) j < 0) →
        cholPivot sqrt (symOf A0 LDA) k' < 0 →
        (cholesky_loop sqrt LDA N fuel k A).1 = k' + 1) := by
  intro fuel
  induction fuel with
  | zero =>
    intro k A hk hf hinv
    have hkN : k = N := by omega
    subst hkN
    refine ⟨fun _ => ⟨rfl, hinv⟩, fun k' h1 h2 => by omega⟩
  | succ fuel ih =>
    intro k A hk hf hinv
    rw [cholesky_loop]
    by_cases hlt : k < N
    · rw [if_pos hlt]
      have hpiv : gemv (N - k) k (-1) A (k * LDA + 0) LDA (k * LDA + 0) 1 1 (k * LDA + k) LDA
          (k * LDA + k) = cholPivot sqrt (symOf A0 LDA) k := by
        rw [chol_column_pivot sqrt A0 LDA N k A hlt hN hinv k (le_refl k) hlt]
        rfl
      simp only
      by_cases hneg : cholPivot sqrt (symOf A0 LDA) k < 0
      · rw [if_pos (by rw [hpiv]; exact hneg)]
        refine ⟨fun hall => absurd hneg (hall k (le_refl k) hlt), ?_⟩
        intro k' hkk' hk'N hbefore _
        by_cases hk' : k' = k
        · subst hk'; rfl
        · exact absurd hneg (hbefore k (le_refl k) (by omega))
      · rw [if_neg (by rw [hpiv]; exact hneg)]
        have hstep := chol_column_step sqrt A0 LDA N k A hlt hN hinv
        obtain ⟨ih1, ih2⟩ := ih (k + 1) _ (by omega) (by omega) hstep
        refine ⟨fun hall => ih1 (fun j hj hjN => hall j (by omega) hjN), ?_⟩
        intro k' hkk' hk'N hbefore hk'neg
        have hk' : k' ≠ k := by
          intro h; subst h; exact hneg hk'neg
        exact ih2 k' (by omega) hk'N (fun j hj hjk' => hbefore j (by omega) hjk') hk'neg
    · rw [if_neg hlt]
      have hkN : k = N := by omega
      subst hkN
      refine ⟨fun _ => ⟨rfl, hinv⟩, fun k' h1 h2 => by omega⟩

theorem gemv_no_columns {K : Type} [Field K] (M : Nat) (mem : Nat → K) (a lda x incX y incY : Nat) :
    gemv M 0 (-1) mem a lda x incX 1 y incY = mem := by
  unfold gemv
  induction M with
  | zero => rfl
  | succ n ih =>
    rw [List.range_succ, List.foldl_append, ih]
    simp only [List.foldl_cons, List.foldl_nil, Finset.range_zero, Finset.sum_empty, mul_zero,
      zero_add, one_mul]
    exact Function.update_eq_self _ _

theorem cholInv_zero {K : Type} [Field K] (sqrt : K → K) (A0 : Nat → K) (LDA N : Nat) :
    CholInv sqrt A0 LDA N 0 A0 :=
  ⟨fun _ _ hj => absurd hj (Nat.not_lt_zero _), fun _ _ => rfl⟩

theorem cholPivot_zero {K : Type} [Field K] (sqrt : K → K) (A0 : Nat → K) (LDA : Nat) :
    cholPivot sqrt (symOf A0 LDA) 0 = A0 (0 * LDA + 0) := by
  unfold cholPivot
  rw [Finset.range_zero, Finset.sum_empty, sub_zero, symOf_lower A0 LDA 0 0 (le_refl 0)]

theorem cholesky_first_column {K : Type} [Field K] (sqrt : K → K) (A0 : Nat → K) (LDA N : Nat)
    (h0 : 0 < N) (hN : N ≤ LDA) :
    CholInv sqrt A0 LDA N 1
      (scal (N - 1)
        (1 / (Function.update A0 (0 * LDA + 0) (sqrt (A0 (0 * LDA + 0)))) (0 * LDA + 0))
        (Function.update A0 (0 * LDA + 0) (sqrt (A0 (0 * LDA + 0)))) (1 * LDA + 0) LDA) := by
  have h := chol_column_step sqrt A0 LDA N 0 A0 h0 hN (cholInv_zero sqrt A0 LDA N)
  rw [gemv_no_columns] at h
  exact h

theorem cholesky_solve_fail {K : Type} [LinearOrderedField K] (sqrt : K → K) (A_ : Nat → K)
    (LDA : Nat) (b : Nat → K) (N k : Nat) (hk : k < N) (hN : N ≤ LDA)
    (hbefore : ∀ j, j < k → ¬ cholPivot sqrt (symOf A_ LDA) j < 0)
    (hneg : cholPivot sqrt (symOf A_ LDA) k < 0) :
    (cholesky_solve sqrt A_ LDA b N).ret = k + 1 := by
  unfold cholesky_solve
  simp only
  by_cases h0 : A_ (0 * LDA + 0) < 0
  · rw [if_pos h0]
    have hk0 : k = 0 := by
      by_contra hne
      have := hbefore 0 (by omega)
      rw [cholPivot_zero] at this
      exact this h0
    subst hk0
    rfl
  · rw [if_neg h0]
    have hk0 : k ≠ 0 := by
      intro h; subst h
      rw [cholPivot_zero] at hneg
      exact h0 hneg
    have hinv := cholesky_first_column sqrt A_ LDA N (by omega) hN
    have hloop := (cholesky_loop_spec sqrt A_ LDA N hN N 1 _ (by omega) (by omega) hinv).2 k
      (by omega) hk (fun j _ hjk => hbefore j hjk) hneg
    rw [if_pos (by rw [hloop]; omega)]
    exact hloop

theorem cholesky_solve_ok {K : Type} [LinearOrderedField K] (sqrt : K → K) (A_ : Nat → K)
    (LDA : Nat) (b : Nat → K) (N : Nat) (h0 : 0 < N) (hN : N ≤ LDA)
    (hall : ∀ j, j < N → ¬ cholPivot sqrt (symOf A_ LDA) j < 0) :
    (cholesky_solve sqrt A_ LDA b N).ret = 0 ∧
    CholInv sqrt A_ LDA N N (cholesky_solve sqrt A_ LDA b N).A ∧
    (cholesky_solve sqrt A_ LDA b N).b =
      trsv_Trans N (cholesky_solve sqrt A_ LDA b N).A 0 LDA
        (trsv_NoTrans N (cholesky_solve sqrt A_ LDA b N).A 0 LDA b 0 1) 0 1 := by
  have hv : ¬ A_ (0 * LDA + 0) < 0 := by
    have := hall 0 h0
    rwa [cholPivot_zero] at this
  have hinv := cholesky_first_column sqrt A_ LDA N h0 hN
  have hloop := (cholesky_loop_spec sqrt A_ LDA N hN N 1 _ (by omega) (by omega) hinv).1
    (fun j _ hj => hall j hj)
  unfold cholesky_solve
  simp only
  rw [if_neg hv, if_neg (by rw [hloop.1]; simp)]
  exact ⟨rfl, hloop.2, rfl⟩

/-! ## The triangular solves -/

theorem trsv_NoTrans_spec {K : Type} [Field K] (A : Nat → K) (a lda : Nat) (X : Nat → K) :
    ∀ N : Nat,
      (∀ i, i < N → trsv_NoTrans N A a lda X 0 1 i =
        (X i - ∑ j in Finset.range i, A (a + i * lda + j) * trsv_NoTrans N A a lda X 0 1 j)
          / A (a + i * lda + i)) ∧
      (∀ i, N ≤ i → trsv_NoTrans N A a lda X 0 1 i = X i) := by
  intro N
  induction N with
  | zero =>
    refine ⟨fun i hi => by omega, fun i _ => ?_⟩
    simp [trsv_NoTrans]
  | succ n ih =>
    have hstep : trsv_NoTrans (n + 1) A a lda X 0 1 =
        Function.update (trsv_NoTrans n A a lda X 0 1) n
          ((trsv_NoTrans n A a lda X 0 1 n
            - ∑ j in Finset.range n, A (a + n * lda + j) * trsv_NoTrans n A a lda X 0 1 j)
            / A (a + n * lda + n)) := by
      unfold trsv_NoTrans
      rw [List.range_succ, List.foldl_append]
      simp only [List.foldl_cons, List.foldl_nil, Nat.zero_add, Nat.mul_one]
    obtain ⟨ih1, ih2⟩ := ih
    have hsum : ∀ i, i ≤ n →
        ∑ j in Finset.range i, A (a + i * lda + j) * trsv_NoTrans (n + 1) A a lda X 0 1 j
        = ∑ j in Finset.range i, A (a + i * lda + j) * trsv_NoTrans n A a lda X 0 1 j := by
      intro i hi
      refine Finset.sum_congr rfl fun j hj => ?_
      have hj : j < i := Finset.mem_range.mp hj
      rw [hstep, Function.update_noteq (by omega)]
    constructor
    · intro i hi
      rw [hsum i (by omega)]
      by_cases hin : i = n
      · subst hin
        rw [hstep, Function.update_same, ih2 i (le_refl i)]
      · rw [hstep, Function.update_noteq hin]
        exact ih1 i (by omega)
    · intro i hi
      rw [hstep, Function.update_noteq (by omega)]
      exact ih2 i (by omega)

theorem trsv_Trans_fold {K : Type} [Field K] (A : Nat → K) (a lda N : Nat)
    (f : (Nat → K) → Nat → (Nat → K))
    (hf : ∀ m i, f m i = Function.update m i
      ((m i - ∑ j in Finset.Ico (i + 1) N, A (a + j * lda + i) * m j) / A (a + i * lda + i))) :
    ∀ (n : Nat) (X : Nat → K),
      (∀ i, i < n → (List.range n).reverse.foldl f X i =
        (X i - ∑ j in Finset.Ico (i + 1) N,
            A (a + j * lda + i) * (List.range n).reverse.foldl f X j)
          / A (a + i * lda + i)) ∧
      (∀ i, n ≤ i → (List.range n).reverse.foldl f X i = X i) := by
  intro n
  induction n with
  | zero =>
    intro X
    refine ⟨fun i hi => by omega, fun i _ => ?_⟩
    simp
  | succ n ih =>
    intro X
    have hlist : (List.range (n + 1)).reverse = n :: (List.range n).reverse := by
      rw [List.range_succ, List.reverse_append]
      rfl
    rw [hlist, List.foldl_cons]
    obtain ⟨ih1, ih2⟩ := ih (f X n)
    constructor
    · intro i hi
      by_cases hin : i = n
      · subst hin
        have hsum : ∑ j in Finset.Ico (i + 1) N,
            A (a + j * lda + i) * (List.range i).reverse.foldl f (f X i) j
            = ∑ j in Finset.Ico (i + 1) N, A (a + j * lda + i) * X j := by
          refine Finset.sum_congr rfl fun j hj => ?_
          have hj := (Finset.mem_Ico.mp hj).1
          rw [ih2 j (by omega), hf, Function.update_noteq (by omega)]
        rw [hsum, ih2 i (le_refl i), hf, Function.update_same]
      · rw [ih1 i (by omega)]
        congr 2
        rw [hf, Function.update_noteq hin]
    · intro i hi
      rw [ih2 i (by omega), hf, Function.update_noteq (by omega)]

theorem trsv_Trans_spec {K : Type} [Field K] (A : Nat → K) (a lda N : Nat) (X : Nat → K) :
    (∀ i, i < N → trsv_Trans N A a lda X 0 1 i =
      (X i - ∑ j in Finset.Ico (i + 1) N, A (a + j * lda + i) * trsv_Trans N A a lda X 0 1 j)
        / A (a + i * lda + i)) ∧
    (∀ i, N ≤ i → trsv_Trans N A a lda X 0 1 i = X i) := by
  unfold trsv_Trans
  exact trsv_Trans_fold A a lda N _ (fun m i => by simp only [Nat.zero_add, Nat.mul_one]) N X

theorem forward_solve {K : Type} [Field K] (A : Nat → K) (LDA N : Nat) (b w : Nat → K)
    (hdiag : ∀ i, i < N → A (i * LDA + i) ≠ 0)
    (hb : ∀ i, i < N → b i = ∑ t in Finset.range (i + 1), A (i * LDA + t) * w t) :
    ∀ i, i < N → trsv_NoTrans N A 0 LDA b 0 1 i = w i := by
  intro i
  induction i using Nat.strong_induction_on with
  | _ i ih =>
    intro hi
    rw [(trsv_NoTrans_spec A 0 LDA b N).1 i hi]
    have hsum : ∑ j in Finset.range i, A (0 + i * LDA + j) * trsv_NoTrans N A 0 LDA b 0 1 j
        = ∑ j in Finset.range i, A (i * LDA + j) * w j := by
      refine Finset.sum_congr rfl fun j hj => ?_
      have hj : j < i := Finset.mem_range.mp hj
      rw [ih j hj (by omega), Nat.zero_add]
    rw [hsum, hb i hi, Finset.sum_range_succ, Nat.zero_add]
    have := hdiag i hi
    field_simp

theorem backward_solve {K : Type} [Field K] (A : Nat → K) (LDA N : Nat) (c x : Nat → K)
    (hdiag : ∀ i, i < N → A (i * LDA + i) ≠ 0)
    (hc : ∀ i, i < N → c i = ∑ j in Finset.Ico i N, A (j * LDA + i) * x j) :
    ∀ i, i < N → trsv_Trans N A 0 LDA c 0 1 i = x i := by
  have key : ∀ m i, i < N → N - i ≤ m → trsv_Trans N A 0 LDA c 0 1 i = x i := by
    intro m
    induction m with
    | zero => intro i hi hm; omega
    | succ m ih =>
      intro i hi hm
      rw [(trsv_Trans_spec A 0 LDA N c).1 i hi]
      have hsum : ∑ j in Finset.Ico (i + 1) N, A (0 + j * LDA + i) * trsv_Trans N A 0 LDA c 0 1 j
          = ∑ j in Finset.Ico (i + 1) N, A (j * LDA + i) * x j := by
        refine Finset.sum_congr rfl fun j hj => ?_
        obtain ⟨hj1, hj2⟩ := Finset.mem_Ico.mp hj
        rw [ih j hj2 (by omega), Nat.zero_add]
      rw [hsum, hc i hi, Finset.sum_eq_sum_Ico_succ_bot hi, Nat.zero_add]
      have := hdiag i hi
      field_simp
  intro i hi
  exact key (N - i) i hi (le_refl _)

/-! ## The recurrence factors a positive definite matrix -/

theorem sqrt_pos_of_pos {K : Type} [LinearOrderedField K] (sqrt : K → K)
    (hsqrt : ∀ v, 0 ≤ v → 0 ≤ sqrt v ∧ sqrt v * sqrt v = v) (v : K) (hv : 0 < v) :
    0 < sqrt v := by
  obtain ⟨h1, h2⟩ := hsqrt v (le_of_lt hv)
  rcases lt_or_eq_of_le h1 with h | h
  · exact h
  · rw [← h, mul_zero] at h2
    exact absurd h2 (ne_of_lt hv)

theorem chol_identity_lower {K : Type} [LinearOrderedField K] (sqrt : K → K)
    (hsqrt : ∀ v, 0 ≤ v → 0 ≤ sqrt v ∧ sqrt v * sqrt v = v) (M : Nat → Nat → K)
    (k i j : Nat) (hj : j < k) (hji : j ≤ i) (hp : 0 < cholPivot sqrt M j) :
    ∑ t in Finset.range k, cholFactor sqrt M k i t * cholFactor sqrt M k j t = M i j := by
  have hsub : ∑ t in Finset.range (j + 1), cholFactor sqrt M k i t * cholFactor sqrt M k j t
      = ∑ t in Finset.range k, cholFactor sqrt M k i t * cholFactor sqrt M k j t := by
    apply Finset.sum_subset
    · intro t ht
      rw [Finset.mem_range] at ht ⊢
      omega
    · intro t _ ht
      rw [Finset.mem_range] at ht
      rw [cholFactor_upper sqrt M k j t (by omega), mul_zero]
  rw [← hsub, Finset.sum_range_succ]
  have hlow : ∑ t in Finset.range j, cholFactor sqrt M k i t * cholFactor sqrt M k j t
      = ∑ t in Finset.range j, cholFactor sqrt M j i t * cholFactor sqrt M j j t := by
    refine Finset.sum_congr rfl fun t ht => ?_
    have ht : t < j := Finset.mem_range.mp ht
    rw [cholFactor_stable sqrt M j k i t ht (by omega),
      cholFactor_stable sqrt M j k j t ht (by omega)]
  rw [hlow, cholFactor_stable sqrt M (j + 1) k i j (by omega) (by omega),
    cholFactor_stable sqrt M (j + 1) k j j (by omega) (by omega), cholFactor_diag]
  have hs := (hsqrt _ (le_of_lt hp)).2
  have hne : sqrt (cholPivot sqrt M j) ≠ 0 := ne_of_gt (sqrt_pos_of_pos sqrt hsqrt _ hp)
  by_cases hij : i = j
  · subst hij
    rw [cholFactor_diag, hs]
    unfold cholPivot
    ring
  · rw [cholFactor_below sqrt M j i (by omega), div_mul_cancel₀ _ hne]
    ring

theorem chol_identity {K : Type} [LinearOrderedField K] (sqrt : K → K)
    (hsqrt : ∀ v, 0 ≤ v → 0 ≤ sqrt v ∧ sqrt v * sqrt v = v) (M : Nat → Nat → K)
    (hsym : ∀ i j, M i j = M j i) (k i j : Nat) (hmin : i < k ∨ j < k)
    (hp : ∀ t, t < k → 0 < cholPivot sqrt M t) :
    ∑ t in Finset.range k, cholFactor sqrt M k i t * cholFactor sqrt M k j t = M i j := by
  by_cases hji : j ≤ i
  · by_cases hj : j < k
    · exact chol_identity_lower sqrt hsqrt M k i j hj hji (hp j hj)
    · omega
  · have hi : i < k := by
      rcases hmin with h | h
      · exact h
      · omega
    rw [hsym i j, ← chol_identity_lower sqrt hsqrt M k j i hi (by omega) (hp i hi)]
    exact Finset.sum_congr rfl fun t _ => mul_comm _ _

theorem exists_back_subst {K : Type} [Field K] (U : Nat → Nat → K)
    (hU : ∀ i t, i < t → U i t = 0) :
    ∀ (k : Nat) (c : Nat → K), (∀ t, t < k → U t t ≠ 0) →
      ∃ y : Nat → K, ∀ t, t < k → ∑ i in Finset.range k, U i t * y i = c t := by
  intro k
  induction k with
  | zero => intro c _; exact ⟨fun _ => 0, fun t ht => by omega⟩
  | succ k ih =>
    intro c hd
    obtain ⟨y, hy⟩ := ih (fun t => c t - U k t * (c k / U k k)) (fun t ht => hd t (by omega))
    refine ⟨fun i => if i = k then c k / U k k else y i, ?_⟩
    intro t ht
    rw [Finset.sum_range_succ]
    simp only [if_true]
    have hsum : ∑ i in Finset.range k, U i t * (if i = k then c k / U k k else y i)
        = ∑ i in Finset.range k, U i t * y i := by
      refine Finset.sum_congr rfl fun i hi => ?_
      have hi : i < k := Finset.mem_range.mp hi
      rw [if_neg (by omega)]
    rw [hsum]
    by_cases htk : t = k
    · subst htk
      have hz : ∑ i in Finset.range t, U i t * y i = 0 := by
        apply Finset.sum_eq_zero
        intro i hi
        rw [hU i t (Finset.mem_range.mp hi), zero_mul]
      rw [hz, zero_add, mul_div_cancel₀ _ (hd t (by omega))]
    · rw [hy t (by omega)]
      ring

theorem posDef_leading {K : Type} [LinearOrderedField K] (S : Nat → Nat → K) (N m : Nat)
    (hm : m ≤ N) (hpd : PosDef S N) : PosDef S m := by
  intro v hv
  obtain ⟨i0, hi0, hvi0⟩ := hv
  have h := hpd (fun i => if i < m then v i else 0) ⟨i0, by omega, by simp [hi0, hvi0]⟩
  have hinner : ∀ i, ∑ j in Finset.range N,
      (if i < m then v i else 0) * S i j * (if j < m then v j else 0)
      = ∑ j in Finset.range m, (if i < m then v i else 0) * S i j * v j := by
    intro i
    symm
    have : ∑ j in Finset.range m, (if i < m then v i else 0) * S i j * v j
        = ∑ j in Finset.range m,
            (if i < m then v i else 0) * S i j * (if j < m then v j else 0) := by
      refine Finset.sum_congr rfl fun j hj => ?_
      rw [if_pos (Finset.mem_range.mp hj)]
    rw [this]
    apply Finset.sum_subset
    · intro j hj
      rw [Finset.mem_range] at hj ⊢
      omega
    · intro j _ hj
      rw [Finset.mem_range] at hj
      rw [if_neg hj, mul_zero]
  have houter : ∑ i in Finset.range N, ∑ j in Finset.range m,
      (if i < m then v i else 0) * S i j * v j
      = ∑ i in Finset.range m, ∑ j in Finset.range m, v i * S i j * v j := by
    symm
    have : ∑ i in Finset.range m, ∑ j in Finset.range m, v i * S i j * v j
        = ∑ i in Finset.range m, ∑ j in Finset.range m,
            (if i < m then v i else 0) * S i j * v j := by
      refine Finset.sum_congr rfl fun i hi => ?_
      rw [if_pos (Finset.mem_range.mp hi)]
    rw [this]
    apply Finset.sum_subset
    · intro i hi
      rw [Finset.mem_range] at hi ⊢
      omega
    · intro i _ hi
      rw [Finset.mem_range] at hi
      apply Finset.sum_eq_zero
      intro j _
      rw [if_neg hi, zero_mul, zero_mul]
  rw [Finset.sum_congr rfl (fun i _ => hinner i), houter] at h
  exact h

theorem quad_form_factor_zero {K : Type} [Field K] (F : Nat → Nat → K) (v : Nat → K)
    (k m : Nat) (hz : ∀ t, t < k → ∑ j in Finset.range m, F j t * v j = 0) (i : Nat) :
    ∑ j in Finset.range m, v i * (∑ t in Finset.range k, F i t * F j t) * v j = 0 := by
  have h1 : ∀ j, v i * (∑ t in Finset.range k, F i t * F j t) * v j
      = ∑ t in Finset.range k, v i * F i t * (F j t * v j) := by
    intro j
    rw [Finset.mul_sum, Finset.sum_mul]
    refine Finset.sum_congr rfl fun t _ => ?_
    ring
  rw [Finset.sum_congr rfl (fun j _ => h1 j), Finset.sum_comm]
  apply Finset.sum_eq_zero
  intro t ht
  rw [← Finset.mul_sum, hz t (Finset.mem_range.mp ht), mul_zero]

theorem cholPivot_pos {K : Type} [LinearOrderedField K] (sqrt : K → K)
    (hsqrt : ∀ v, 0 ≤ v → 0 ≤ sqrt v ∧ sqrt v * sqrt v = v) (M : Nat → Nat → K)
    (hsym : ∀ i j, M i j = M j i) (N : Nat) (hpd : PosDef M N) :
    ∀ k, k < N → 0 < cholPivot sqrt M k := by
  intro k
  induction k using Nat.strong_induction_on with
  | _ k ih =>
    intro hk
    have hp : ∀ t, t < k → 0 < cholPivot sqrt M t := fun t ht => ih t ht (by omega)
    have hdiag : ∀ t, t < k → cholFactor sqrt M k t t ≠ 0 := by
      intro t ht
      rw [cholFactor_stable sqrt M (t + 1) k t t (by omega) (by omega), cholFactor_diag]
      exact ne_of_gt (sqrt_pos_of_pos sqrt hsqrt _ (hp t ht))
    obtain ⟨y, hy⟩ := exists_back_subst (cholFactor sqrt M k)
      (fun i t hit => cholFactor_upper sqrt M k i t hit) k
      (fun t => cholFactor sqrt M k k t) hdiag
    have hpos := posDef_leading M N (k + 1) (by omega) hpd
      (fun i => if i = k then 1 else -y i) ⟨k, by omega, by simp⟩
    -- the combination of rows annihilates every computed column
    have hz : ∀ t, t < k → ∑ j in Finset.range (k + 1),
        cholFactor sqrt M k j t * (if j = k then 1 else -y j) = 0 := by
      intro t ht
      rw [Finset.sum_range_succ]
      simp only [if_true, mul_one]
      have : ∑ j in Finset.range k, cholFactor sqrt M k j t * (if j = k then 1 else -y j)
          = -∑ j in Finset.range k, cholFactor sqrt M k j t * y j := by
        rw [← Finset.sum_neg_distrib]
        refine Finset.sum_congr rfl fun j hj => ?_
        have hj : j < k := Finset.mem_range.mp hj
        rw [if_neg (by omega)]
        ring
      rw [this, hy t ht]
      ring
    -- the entries of M in terms of the computed columns
    have hM : ∀ i j, i < k + 1 → j < k + 1 →
        M i j = (∑ t in Finset.range k, cholFactor sqrt M k i t * cholFactor sqrt M k j t)
          + (if i = k ∧ j = k then cholPivot sqrt M k else 0) := by
      intro i j hi hj
      by_cases hij : i = k ∧ j = k
      · obtain ⟨h1, h2⟩ := hij
        subst h1; subst h2
        simp only [and_self, if_true]
        unfold cholPivot
        ring
      · rw [if_neg hij, add_zero]
        exact (chol_identity sqrt hsqrt M hsym k i j (by omega) hp).symm
    have hquad : ∑ i in Finset.range (k + 1), ∑ j in Finset.range (k + 1),
        (if i = k then 1 else -y i) * M i j * (if j = k then 1 else -y j)
        = cholPivot sqrt M k := by
      have hsplit : ∀ i, i ∈ Finset.range (k + 1) →
          ∑ j in Finset.range (k + 1),
            (if i = k then 1 else -y i) * M i j * (if j = k then 1 else -y j)
          = ∑ j in Finset.range (k + 1),
              (if i = k then 1 else -y i) * (if i = k ∧ j = k then cholPivot sqrt M k else 0)
                * (if j = k then 1 else -y j) := by
        intro i hi
        have hi : i < k + 1 := Finset.mem_range.mp hi
        have hzero := quad_form_factor_zero (cholFactor sqrt M k)
          (fun i => if i = k then 1 else -y i) k (k + 1) hz i
        have hexp : ∑ j in Finset.range (k + 1),
            (if i = k then 1 else -y i) * M i j * (if j = k then 1 else -y j)
            = ∑ j in Finset.range (k + 1),
                ((if i = k then 1 else -y i)
                  * (∑ t in Finset.range k, cholFactor sqrt M k i t * cholFactor sqrt M k j t)
                  * (if j = k then 1 else -y j)
                + (if i = k then 1 else -y i)
                  * (if i = k ∧ j = k then cholPivot sqrt M k else 0)
                  * (if j = k then 1 else -y j)) := by
          refine Finset.sum_congr rfl fun j hj => ?_
          rw [hM i j hi (Finset.mem_range.mp hj)]
          ring
        rw [hexp, Finset.sum_add_distrib, hzero, zero_add]
      rw [Finset.sum_congr rfl hsplit, Finset.sum_range_succ]
      have hfirst : ∑ i in Finset.range k, ∑ j in Finset.range (k + 1),
          (if i = k then 1 else -y i) * (if i = k ∧ j = k then cholPivot sqrt M k else 0)
            * (if j = k then 1 else -y j) = 0 := by
        apply Finset.sum_eq_zero
        intro i hi
        have hi : i < k := Finset.mem_range.mp hi
        apply Finset.sum_eq_zero
        intro j _
        have : ¬ (i = k ∧ j = k) := by omega
        rw [if_neg this, mul_zero, zero_mul]
      rw [hfirst, zero_add, Finset.sum_range_succ]
      have hsecond : ∑ j in Finset.range k,
          (if k = k then (1 : K) else -y k) * (if k = k ∧ j = k then cholPivot sqrt M k else 0)
            * (if j = k then 1 else -y j) = 0 := by
        apply Finset.sum_eq_zero
        intro j hj
        have hj : j < k := Finset.mem_range.mp hj
        have : ¬ (k = k ∧ j = k) := by omega
        rw [if_neg this, mul_zero, zero_mul]
      rw [hsecond, zero_add]
      simp
    rw [hquad] at hpos
    exact hpos

/-! ## cholesky_solve on a positive definite matrix -/

theorem cholesky_solve_spd_factor {K : Type} [LinearOrderedField K] (sqrt : K → K)
    (hsqrt : ∀ v, 0 ≤ v → 0 ≤ sqrt v ∧ sqrt v * sqrt v = v) (A_ : Nat → K) (LDA : Nat)
    (b : Nat → K) (N : Nat) (h1 : 1 ≤ N) (hN : N ≤ LDA) (hpd : PosDef (symOf A_ LDA) N) :
    (cholesky_solve sqrt A_ LDA b N).ret = 0 ∧
    (∀ i j, i < N → j < N → lowerOf (cholesky_solve sqrt A_ LDA b N).A LDA i j
        = cholFactor sqrt (symOf A_ LDA) N i j) ∧
    (∀ i, i < N → 0 < (cholesky_solve sqrt A_ LDA b N).A (i * LDA + i)) ∧
    (cholesky_solve sqrt A_ LDA b N).b =
      trsv_Trans N (cholesky_solve sqrt A_ LDA b N).A 0 LDA
        (trsv_NoTrans N (cholesky_solve sqrt A_ LDA b N).A 0 LDA b 0 1) 0 1 := by
  have hp := cholPivot_pos sqrt hsqrt (symOf A_ LDA) (symOf_symm A_ LDA) N hpd
  obtain ⟨hret, hinv, hb⟩ := cholesky_solve_ok sqrt A_ LDA b N (by omega) hN
    (fun j hj => not_lt.mpr (le_of_lt (hp j hj)))
  refine ⟨hret, ?_, ?_, hb⟩
  · intro i j hi hj
    unfold lowerOf
    by_cases hji : j ≤ i
    · rw [if_pos hji]
      exact hinv.1 i j hj hji hi
    · rw [if_neg hji, cholFactor_upper sqrt _ N i j (by omega)]
  · intro i hi
    rw [hinv.1 i i hi (le_refl i) hi,
      cholFactor_stable sqrt _ (i + 1) N i i (by omega) (by omega), cholFactor_diag]
    exact sqrt_pos_of_pos sqrt hsqrt _ (hp i hi)

theorem cholesky_solve_spd_solution {K : Type} [LinearOrderedField K] (sqrt : K → K)
    (hsqrt : ∀ v, 0 ≤ v → 0 ≤ sqrt v ∧ sqrt v * sqrt v = v) (A_ : Nat → K) (LDA : Nat)
    (b x : Nat → K) (N : Nat) (h1 : 1 ≤ N) (hN : N ≤ LDA) (hpd : PosDef (symOf A_ LDA) N)
    (hb : ∀ i, i < N → b i = matVec (symOf A_ LDA) N x i) :
    ∀ i, i < N → (cholesky_solve sqrt A_ LDA b N).b i = x i := by
  have hp := cholPivot_pos sqrt hsqrt (symOf A_ LDA) (symOf_symm A_ LDA) N hpd
  obtain ⟨-, hL, hdiag, hres⟩ := cholesky_solve_spd_factor sqrt hsqrt A_ LDA b N h1 hN hpd
  set A' := (cholesky_solve sqrt A_ LDA b N).A with hA'
  have hlow : ∀ i j, j ≤ i → i < N → A' (i * LDA + j) = cholFactor sqrt (symOf A_ LDA) N i j := by
    intro i j hji hi
    have := hL i j hi (by omega)
    unfold lowerOf at this
    rwa [if_pos hji] at this
  have hS : ∀ i j, i < N → symOf A_ LDA i j = ∑ t in Finset.range N,
      cholFactor sqrt (symOf A_ LDA) N i t * cholFactor sqrt (symOf A_ LDA) N j t := by
    intro i j hi
    exact (chol_identity sqrt hsqrt _ (symOf_symm A_ LDA) N i j (Or.inl hi) hp).symm
  -- the intermediate vector w = L^T x
  have hfwd : ∀ i, i < N → trsv_NoTrans N A' 0 LDA b 0 1 i
      = ∑ j in Finset.range N, cholFactor sqrt (symOf A_ LDA) N j i * x j := by
    apply forward_solve A' LDA N b _ (fun i hi => ne_of_gt (hdiag i hi))
    intro i hi
    rw [hb i hi]
    unfold matVec
    have h2 : ∀ j, symOf A_ LDA i j * x j = ∑ t in Finset.range N,
        cholFactor sqrt (symOf A_ LDA) N i t * (cholFactor sqrt (symOf A_ LDA) N j t * x j) := by
      intro j
      rw [hS i j hi, Finset.sum_mul]
      exact Finset.sum_congr rfl fun t _ => by ring
    rw [Finset.sum_congr rfl (fun j _ => h2 j), Finset.sum_comm]
    have h3 : ∑ t in Finset.range (i + 1), A' (i * LDA + t) *
        ∑ j in Finset.range N, cholFactor sqrt (symOf A_ LDA) N j t * x j
        = ∑ t in Finset.range (i + 1), ∑ j in Finset.range N,
            cholFactor sqrt (symOf A_ LDA) N i t * (cholFactor sqrt (symOf A_ LDA) N j t * x j) := by
      refine Finset.sum_congr rfl fun t ht => ?_
      have ht : t < i + 1 := Finset.mem_range.mp ht
      rw [hlow i t (by omega) hi, Finset.mul_sum]
    rw [h3]
    symm
    apply Finset.sum_subset
    · intro t ht
      rw [Finset.mem_range] at ht ⊢
      omega
    · intro t _ ht
      rw [Finset.mem_range] at ht
      apply Finset.sum_eq_zero
      intro j _
      rw [cholFactor_upper sqrt _ N i t (by omega), zero_mul]
  intro i hi
  rw [hres]
  apply backward_solve A' LDA N _ x (fun i hi => ne_of_gt (hdiag i hi)) _ i hi
  intro i hi
  rw [hfwd i hi]
  have h4 : ∑ j in Finset.Ico i N, A' (j * LDA + i) * x j
      = ∑ j in Finset.Ico i N, cholFactor sqrt (symOf A_ LDA) N j i * x j := by
    refine Finset.sum_congr rfl fun j hj => ?_
    obtain ⟨hj1, hj2⟩ := Finset.mem_Ico.mp hj
    rw [hlow j i hj1 hj2]
  rw [h4]
  symm
  apply Finset.sum_subset
  · intro j hj
    rw [Finset.mem_Ico] at hj
    rw [Finset.mem_range]
    omega
  · intro j hj hj'
    rw [Finset.mem_range] at hj
    rw [Finset.mem_Ico] at hj'
    rw [cholFactor_upper sqrt _ N j i (by omega), zero_mul]

/-! ## cholesky_solve: the claims -/

theorem real_sqrt_spec : ∀ v : ℝ, 0 ≤ v → 0 ≤ Real.sqrt v ∧ Real.sqrt v * Real.sqrt v = v :=
  fun v hv => ⟨Real.sqrt_nonneg v, Real.mul_self_sqrt hv⟩

theorem testMatrix_sym_values :
    symOf (testMatrix ℝ) 3 0 0 = 4 ∧ symOf (testMatrix ℝ) 3 0 1 = 12 ∧
    symOf (testMatrix ℝ) 3 0 2 = -16 ∧ symOf (testMatrix ℝ) 3 1 0 = 12 ∧
    symOf (testMatrix ℝ) 3 1 1 = 37 ∧ symOf (testMatrix ℝ) 3 1 2 = -43 ∧
    symOf (testMatrix ℝ) 3 2 0 = -16 ∧ symOf (testMatrix ℝ) 3 2 1 = -43 ∧
    symOf (testMatrix ℝ) 3 2 2 = 98 := by
  simp [symOf, testMatrix]

theorem testMatrix_posDef : PosDef (symOf (testMatrix ℝ) 3) 3 := by
  intro v hv
  obtain ⟨h00, h01, h02, h10, h11, h12, h20, h21, h22⟩ := testMatrix_sym_values
  simp only [Finset.sum_range_succ, Finset.sum_range_zero, zero_add, h00, h01, h02, h10, h11, h12,
    h20, h21, h22]
  have hq : v 0 * 4 * v 0 + v 0 * 12 * v 1 + v 0 * -16 * v 2
      + (v 1 * 12 * v 0 + v 1 * 37 * v 1 + v 1 * -43 * v 2)
      + (v 2 * -16 * v 0 + v 2 * -43 * v 1 + v 2 * 98 * v 2)
      = (2 * v 0 + 6 * v 1 - 8 * v 2) ^ 2 + (v 1 + 5 * v 2) ^ 2 + (3 * v 2) ^ 2 := by ring
  rw [hq]
  by_contra hle
  have hle := not_lt.mp hle
  have e3 : (3 * v 2) ^ 2 = 0 :=
    le_antisymm (by linarith [sq_nonneg (2 * v 0 + 6 * v 1 - 8 * v 2), sq_nonneg (v 1 + 5 * v 2)])
      (sq_nonneg _)
  have e2 : (v 1 + 5 * v 2) ^ 2 = 0 :=
    le_antisymm (by linarith [sq_nonneg (2 * v 0 + 6 * v 1 - 8 * v 2), sq_nonneg (3 * v 2)])
      (sq_nonneg _)
  have e1 : (2 * v 0 + 6 * v 1 - 8 * v 2) ^ 2 = 0 :=
    le_antisymm (by linarith [sq_nonneg (v 1 + 5 * v 2), sq_nonneg (3 * v 2)])
      (sq_nonneg _)
  have z2 : v 2 = 0 := by
    have := (pow_eq_zero_iff two_ne_zero).mp e3
    linarith
  have z1 : v 1 = 0 := by
    have := (pow_eq_zero_iff two_ne_zero).mp e2
    linarith
  have z0 : v 0 = 0 := by
    have := (pow_eq_zero_iff two_ne_zero).mp e1
    linarith
  obtain ⟨i, hi, hvi⟩ := hv
  interval_cases i
  · exact hvi z0
  · exact hvi z1
  · exact hvi z2

theorem testRhs_eq : ∀ i, i < 3 →
    testRhs ℝ i = matVec (symOf (testMatrix ℝ) 3) 3 (testX ℝ) i := by
  intro i hi
  obtain ⟨h00, h01, h02, h10, h11, h12, h20, h21, h22⟩ := testMatrix_sym_values
  interval_cases i
  · simp only [matVec, Finset.sum_range_succ, Finset.sum_range_zero, h00, h01, h02, testRhs, testX]
    norm_num
  · simp only [matVec, Finset.sum_range_succ, Finset.sum_range_zero, h10, h11, h12, testRhs, testX]
    norm_num
  · simp only [matVec, Finset.sum_range_succ, Finset.sum_range_zero, h20, h21, h22, testRhs, testX]
    norm_num

/-- C3: Cholesky solve round trip. For every symmetric positive definite
`N x N` matrix (its lower triangle stored in `A_`, `N >= 1`, `LDA >= N`) and
every vector `x`, `cholesky_solve` called on `A_` and `b = A * x` returns 0
and leaves `b` equal to `x`. -/
theorem cholesky_solve_round_trip {K : Type} [LinearOrderedField K] (sqrt : K → K)
    (hsqrt : ∀ v, 0 ≤ v → 0 ≤ sqrt v ∧ sqrt v * sqrt v = v) (A_ : Nat → K) (LDA : Nat)
    (b x : Nat → K) (N : Nat) (h1 : 1 ≤ N) (hN : N ≤ LDA) (hpd : PosDef (symOf A_ LDA) N)
    (hb : ∀ i, i < N → b i = matVec (symOf A_ LDA) N x i) :
    (cholesky_solve sqrt A_ LDA b N).ret = 0 ∧
    ∀ i, i < N → (cholesky_solve sqrt A_ LDA b N).b i = x i :=
  ⟨(cholesky_solve_spd_factor sqrt hsqrt A_ LDA b N h1 hN hpd).1,
   cholesky_solve_spd_solution sqrt hsqrt A_ LDA b x N h1 hN hpd hb⟩

/-- Witness for C3: the matrix `[[4,12,-16],[12,37,-43],[-16,-43,98]]` and
`x = (4, 5, 6)` of `CholeskyTest.cpp`, over the reals. -/
theorem cholesky_solve_round_trip_witness :
    (cholesky_solve Real.sqrt (testMatrix ℝ) 3 (testRhs ℝ) 3).ret = 0 ∧
    ∀ i, i < 3 → (cholesky_solve Real.sqrt (testMatrix ℝ) 3 (testRhs ℝ) 3).b i = testX ℝ i :=
  cholesky_solve_round_trip Real.sqrt real_sqrt_spec (testMatrix ℝ) 3 (testRhs ℝ) (testX ℝ) 3
    (by decide) (le_refl 3) testMatrix_posDef testRhs_eq

/-- C4: Cholesky factor. For every symmetric positive definite matrix,
`cholesky_solve` returns 0 and the lower triangle of the matrix argument then
holds a lower-triangular `L` with strictly positive diagonal such that
`L * L^T` equals the original matrix. -/
theorem cholesky_solve_factor {K : Type} [LinearOrderedField K] (sqrt : K → K)
    (hsqrt : ∀ v, 0 ≤ v → 0 ≤ sqrt v ∧ sqrt v * sqrt v = v) (A_ : Nat → K) (LDA : Nat)
    (b : Nat → K) (N : Nat) (h1 : 1 ≤ N) (hN : N ≤ LDA) (hpd : PosDef (symOf A_ LDA) N) :
    (cholesky_solve sqrt A_ LDA b N).ret = 0 ∧
    (∀ i, i < N → 0 < lowerOf (cholesky_solve sqrt A_ LDA b N).A LDA i i) ∧
    (∀ i j, i < N → j < N →
      ∑ t in Finset.range N,
        lowerOf (cholesky_solve sqrt A_ LDA b N).A LDA i t *
        lowerOf (cholesky_solve sqrt A_ LDA b N).A LDA j t = symOf A_ LDA i j) := by
  have hp := cholPivot_pos sqrt hsqrt (symOf A_ LDA) (symOf_symm A_ LDA) N hpd
  obtain ⟨hret, hL, hdiag, -⟩ := cholesky_solve_spd_factor sqrt hsqrt A_ LDA b N h1 hN hpd
  refine ⟨hret, ?_, ?_⟩
  · intro i hi
    unfold lowerOf
    rw [if_pos (le_refl i)]
    exact hdiag i hi
  · intro i j hi hj
    rw [← chol_identity sqrt hsqrt _ (symOf_symm A_ LDA) N i j (Or.inl hi) hp]
    refine Finset.sum_congr rfl fun t ht => ?_
    have ht : t < N := Finset.mem_range.mp ht
    rw [hL i t hi ht, hL j t hj ht]

theorem pos_of_mul_self_eq (a c : ℝ) (ha : 0 < a) (hc : 0 < c) (h : a * a = c * c) : a = c := by
  have h1 : (a - c) * (a + c) = 0 := by
    have : (a - c) * (a + c) = a * a - c * c := by ring
    rw [this, h, sub_self]
  rcases mul_eq_zero.mp h1 with h2 | h2
  · linarith
  · linarith

theorem factor_3x3_unique (l00 l10 l11 l20 l21 l22 : ℝ) (d0 : 0 < l00) (d1 : 0 < l11)
    (d2 : 0 < l22) (e00 : l00 * l00 = 4) (e10 : l10 * l00 = 12)
    (e11 : l10 * l10 + l11 * l11 = 37) (e20 : l20 * l00 = -16)
    (e21 : l20 * l10 + l21 * l11 = -43) (e22 : l20 * l20 + l21 * l21 + l22 * l22 = 98) :
    l00 = 2 ∧ l10 = 6 ∧ l11 = 1 ∧ l20 = -8 ∧ l21 = 5 ∧ l22 = 3 := by
  have h00 : l00 = 2 := pos_of_mul_self_eq l00 2 d0 (by norm_num) (by rw [e00]; norm_num)
  subst h00
  have h10 : l10 = 6 := by linarith
  subst h10
  have h20 : l20 = -8 := by linarith
  subst h20
  have h11 : l11 = 1 := pos_of_mul_self_eq l11 1 d1 (by norm_num) (by linarith)
  subst h11
  have h21 : l21 = 5 := by linarith
  subst h21
  have h22 : l22 = 3 := pos_of_mul_self_eq l22 3 d2 (by norm_num) (by linarith)
  exact ⟨rfl, rfl, rfl, rfl, rfl, h22⟩

/-- Witness for C4: on the matrix of `CholeskyTest.cpp` the factor left in the
lower triangle is `L = [[2],[6,1],[-8,5,3]]`. -/
theorem cholesky_solve_factor_witness :
    (cholesky_solve Real.sqrt (testMatrix ℝ) 3 (testRhs ℝ) 3).ret = 0 ∧
    (cholesky_solve Real.sqrt (testMatrix ℝ) 3 (testRhs ℝ) 3).A 0 = 2 ∧
    (cholesky_solve Real.sqrt (testMatrix ℝ) 3 (testRhs ℝ) 3).A 3 = 6 ∧
    (cholesky_solve Real.sqrt (testMatrix ℝ) 3 (testRhs ℝ) 3).A 4 = 1 ∧
    (cholesky_solve Real.sqrt (testMatrix ℝ) 3 (testRhs ℝ) 3).A 6 = -8 ∧
    (cholesky_solve Real.sqrt (testMatrix ℝ) 3 (testRhs ℝ) 3).A 7 = 5 ∧
    (cholesky_solve Real.sqrt (testMatrix ℝ) 3 (testRhs ℝ) 3).A 8 = 3 := by
  obtain ⟨hret, hdiag, hLL⟩ := cholesky_solve_factor Real.sqrt real_sqrt_spec (testMatrix ℝ) 3
    (testRhs ℝ) 3 (by decide) (le_refl 3) testMatrix_posDef
  obtain ⟨h00, h01, h02, h10, h11, h12, h20, h21, h22⟩ := testMatrix_sym_values
  have d0 := hdiag 0 (by decide)
  have d1 := hdiag 1 (by decide)
  have d2 := hdiag 2 (by decide)
  have e00 := hLL 0 0 (by decide) (by decide)
  have e10 := hLL 1 0 (by decide) (by decide)
  have e11 := hLL 1 1 (by decide) (by decide)
  have e20 := hLL 2 0 (by decide) (by decide)
  have e21 := hLL 2 1 (by decide) (by decide)
  have e22 := hLL 2 2 (by decide) (by decide)
  simp only [lowerOf, Finset.sum_range_succ, Finset.sum_range_zero, h00, h10, h11, h20, h21, h22]
    at d0 d1 d2 e00 e10 e11 e20 e21 e22
  norm_num at d0 d1 d2 e00 e10 e11 e20 e21 e22
  obtain ⟨l00, l10, l11, l20, l21, l22⟩ := factor_3x3_unique _ _ _ _ _ _ d0 d1 d2 e00 e10 e11 e20 e21 e22
  exact ⟨hret, l00, l10, l11, l20, l21, l22⟩

/-- C5: non-SPD signal. For every matrix whose column-by-column factorization
first meets a negative updated pivot at the 0-based position `k` (all earlier
pivots being positive), `cholesky_solve` returns exactly `k + 1`. -/
theorem cholesky_solve_negative_pivot {K : Type} [LinearOrderedField K] (sqrt : K → K)
    (A_ : Nat → K) (LDA : Nat) (b : Nat → K) (N k : Nat) (hk : k < N) (hN : N ≤ LDA)
    (hpos : ∀ j, j < k → 0 < cholPivot sqrt (symOf A_ LDA) j)
    (hneg : cholPivot sqrt (symOf A_ LDA) k < 0) :
    (cholesky_solve sqrt A_ LDA b N).ret = k + 1 :=
  cholesky_solve_fail sqrt A_ LDA b N k hk hN
    (fun j hj => not_lt.mpr (le_of_lt (hpos j hj))) hneg

/-- Witness for C5: the indefinite matrix `[[1,2],[2,1]]` has pivots `1` and
`1 - 2 * 2 = -3`, and `cholesky_solve` returns 2. -/
theorem cholesky_solve_negative_pivot_witness :
    cholPivot ratSqrt (symOf (indefiniteMatrix ℚ) 2) 0 = 1 ∧
    cholPivot ratSqrt (symOf (indefiniteMatrix ℚ) 2) 1 = -3 ∧
    (cholesky_solve ratSqrt (indefiniteMatrix ℚ) 2 (testRhs ℚ) 2).ret = 1 + 1 :=
  ⟨by decide!, by decide!,
   cholesky_solve_negative_pivot ratSqrt (indefiniteMatrix ℚ) 2 (testRhs ℚ) 2 1 (by decide)
    (le_refl 2)
    (fun j hj => by
      have hj0 : j = 0 := by omega
      subst hj0
      decide!)
    (by decide!)⟩

/-- C6: on failure `cholesky_solve` leaves the right-hand side untouched:
whenever it returns a value greater than 0, the vector `b` is equal, element
for element, to its input value. -/
theorem cholesky_solve_failure_keeps_rhs {K : Type} [LinearOrderedField K] (sqrt : K → K)
    (A_ : Nat → K) (LDA : Nat) (b : Nat → K) (N : Nat)
    (h : 0 < (cholesky_solve sqrt A_ LDA b N).ret) :
    ∀ i, (cholesky_solve sqrt A_ LDA b N).b i = b i := by
  intro i
  unfold cholesky_solve at h ⊢
  simp only at h ⊢
  split_ifs at h ⊢ with h1 h2
  · rfl
  · rfl
  · exact absurd h (lt_irrefl 0)

/-- Witness for C6: on the indefinite matrix `[[1,2],[2,1]]` the call returns
2 and `b` is unchanged. -/
theorem cholesky_solve_failure_keeps_rhs_witness :
    0 < (cholesky_solve ratSqrt (indefiniteMatrix ℚ) 2 (testRhs ℚ) 2).ret ∧
    ∀ i, (cholesky_solve ratSqrt (indefiniteMatrix ℚ) 2 (testRhs ℚ) 2).b i = testRhs ℚ i :=
  ⟨by decide!,
   cholesky_solve_failure_keeps_rhs ratSqrt (indefiniteMatrix ℚ) 2 (testRhs ℚ) 2 (by decide!)⟩

/-- C7 (evaluation at the failing input): the `1 x 1` zero matrix is not
positive definite, yet `cholesky_solve` returns 0 on it, because the pivot
test is `v < 0`. -/
theorem cholesky_solve_zero_matrix_returns_zero :
    ¬ PosDef (symOf (fun _ => (0 : ℚ)) 1) 1 ∧
    (cholesky_solve ratSqrt (fun _ => (0 : ℚ)) 1 (fun _ => 1) 1).ret = 0 := by
  refine ⟨?_, by decide!⟩
  intro hpd
  have h := hpd (fun _ => 1) ⟨0, by decide, by norm_num⟩
  simp [symOf] at h

/-- The executable model on `CholeskyTest.cpp`, with rational arithmetic: the
call returns 0, leaves `L = [[2],[6,1],[-8,5,3]]` in the lower triangle and
`b = (4, 5, 6)`. -/
theorem cholesky_test_run :
    (cholesky_solve ratSqrt (testMatrix ℚ) 3 (testRhs ℚ) 3).ret = 0 ∧
    (List.range 9).map (cholesky_solve ratSqrt (testMatrix ℚ) 3 (testRhs ℚ) 3).A
      = [2, 0, 0, 6, 1, 0, -8, 5, 3] ∧
    (List.range 3).map (cholesky_solve ratSqrt (testMatrix ℚ) 3 (testRhs ℚ) 3).b = [4, 5, 6] := by
  refine ⟨by decide!, by decide!, by decide!⟩

/-! ## MultiDiff: gradient lanes without any assumption on the operands -/

theorem ofExpr_lane_eq {K : Type} [Field K] (c : Context K) (σ : Nat → MultiDiff K)
    (x : MultiDiffExpr K) (j : Nat) (hj : j < c.num_directions) :
    (MultiDiff.ofExpr c σ x).getDiffValue j = x.lane c σ j := by
  unfold MultiDiff.ofExpr MultiDiff.getDiffValue MultiDiffExpr.lane
  simp only
  rw [store_loop_lane c.W c.num_directions (next_size_dvd _ _) _ c.num_directions 0 c.fresh
    (dvd_zero _) (by
      have := c.W_pos
      have : c.num_directions * 1 ≤ c.num_directions * c.W := Nat.mul_le_mul_left _ this
      omega) j]
  rw [if_pos ⟨Nat.zero_le _, hj⟩]

theorem var_lane {K : Type} [Field K] (c : Context K) (σ : Nat → MultiDiff K) (r j : Nat) :
    (MultiDiffExpr.var r : MultiDiffExpr K).lane c σ j = (σ r).getDiffValue j := by
  unfold MultiDiffExpr.lane
  simp only [MultiDiffExpr.getDiffValues, MultiDiff.getDiffValues, aligned_load,
    MultiDiff.getDiffValue, Nat.div_add_mod']

theorem tmp_lane {K : Type} [Field K] (c : Context K) (σ : Nat → MultiDiff K)
    (m : MultiDiff K) (j : Nat) :
    (MultiDiffExpr.tmp m).lane c σ j = m.getDiffValue j := by
  unfold MultiDiffExpr.lane
  simp only [MultiDiffExpr.getDiffValues, MultiDiff.getDiffValues, aligned_load,
    MultiDiff.getDiffValue, Nat.div_add_mod']

theorem materializeIf_value {K : Type} [Field K] (p : MultiDiffExpr K → Bool) (c : Context K)
    (σ : Nat → MultiDiff K) (x : MultiDiffExpr K) :
    (materializeIf p c σ x).getValue σ = x.getValue σ := by
  unfold materializeIf
  split_ifs
  · rfl
  · rfl

theorem materializeIf_lane {K : Type} [Field K] (p : MultiDiffExpr K → Bool) (c : Context K)
    (σ : Nat → MultiDiff K) (x : MultiDiffExpr K) (j : Nat) (hj : j < c.num_directions) :
    (materializeIf p c σ x).lane c σ j = x.lane c σ j := by
  unfold materializeIf
  split_ifs
  · rw [tmp_lane, ofExpr_lane_eq c σ x j hj]
  · rfl

theorem ReturnTypeAt_eq_materializeIf {K : Type} [Field K] (M : Nat) (c : Context K)
    (σ : Nat → MultiDiff K) (x : MultiDiffExpr K) :
    ReturnTypeAt M c σ x = materializeIf (fun y => decide (SimdTemps y > M)) c σ x := by
  unfold ReturnTypeAt materializeIf
  simp only [decide_eq_true_eq]

theorem ReturnType_lane_eq {K : Type} [Field K] (c : Context K)
    (σ : Nat → MultiDiff K) (x : MultiDiffExpr K) (j : Nat) (hj : j < c.num_directions) :
    (ReturnType c σ x).lane c σ j = x.lane c σ j := by
  unfold ReturnType
  rw [ReturnTypeAt_eq_materializeIf]
  exact materializeIf_lane _ c σ x j hj

namespace MultiDiffOps

variable {K : Type} [Field K] (c : Context K) (σ : Nat → MultiDiff K)

theorem lane_neg (a : MultiDiffExpr K) (j : Nat) (hj : j < c.num_directions) :
    (neg c σ a).lane c σ j = -a.lane c σ j := by
  unfold neg
  rw [ReturnType_lane_eq c σ _ j hj]
  rfl

theorem lane_add (a b : MultiDiffExpr K) (j : Nat) (hj : j < c.num_directions) :
    (add c σ a b).lane c σ j = a.lane c σ j + b.lane c σ j := by
  unfold add
  rw [ReturnType_lane_eq c σ _ j hj]
  rfl

theorem lane_sub (a b : MultiDiffExpr K) (j : Nat) (hj : j < c.num_directions) :
    (sub c σ a b).lane c σ j = a.lane c σ j - b.lane c σ j := by
  unfold sub
  rw [ReturnType_lane_eq c σ _ j hj]
  rfl

theorem lane_mul (a b : MultiDiffExpr K) (j : Nat) (hj : j < c.num_directions) :
    (mul c σ a b).lane c σ j = b.getValue σ * a.lane c σ j + a.getValue σ * b.lane c σ j := by
  unfold mul
  rw [ReturnType_lane_eq c σ _ j hj]
  rfl

theorem lane_div (a b : MultiDiffExpr K) (j : Nat) (hj : j < c.num_directions) :
    (div c σ a b).lane c σ j = (b.getValue σ * a.lane c σ j - a.getValue σ * b.lane c σ j) / (b.getValue σ * b.getValue σ) := by
  unfold div
  rw [ReturnType_lane_eq c σ _ j hj]
  rfl

theorem lane_exp (ex : K → K) (a : MultiDiffExpr K) (j : Nat) (hj : j < c.num_directions) :
    (exp c σ ex a).lane c σ j = ex (a.getValue σ) * a.lane c σ j := by
  unfold exp
  rw [ReturnType_lane_eq c σ _ j hj]
  rfl

theorem lane_addScalar (s : K) (a : MultiDiffExpr K) (j : Nat) (hj : j < c.num_directions) :
    (addScalar c σ a s).lane c σ j = a.lane c σ j := by
  unfold addScalar
  rw [ReturnType_lane_eq c σ _ j hj]
  rfl

theorem lane_subScalar (s : K) (a : MultiDiffExpr K) (j : Nat) (hj : j < c.num_directions) :
    (subScalar c σ a s).lane c σ j = a.lane c σ j := by
  unfold subScalar
  rw [ReturnType_lane_eq c σ _ j hj]
  rfl

theorem lane_mulScalar (s : K) (a : MultiDiffExpr K) (j : Nat) (hj : j < c.num_directions) :
    (mulScalar c σ a s).lane c σ j = s * a.lane c σ j := by
  unfold mulScalar
  rw [ReturnType_lane_eq c σ _ j hj]
  rfl

theorem lane_divScalar (s : K) (a : MultiDiffExpr K) (j : Nat) (hj : j < c.num_directions) :
    (divScalar c σ a s).lane c σ j = a.lane c σ j / s := by
  unfold divScalar
  rw [ReturnType_lane_eq c σ _ j hj]
  rfl

theorem lane_scalarAdd (s : K) (b : MultiDiffExpr K) (j : Nat) (hj : j < c.num_directions) :
    (scalarAdd c σ s b).lane c σ j = b.lane c σ j := by
  unfold scalarAdd
  rw [ReturnType_lane_eq c σ _ j hj]
  rfl

theorem lane_scalarSub (s : K) (b : MultiDiffExpr K) (j : Nat) (hj : j < c.num_directions) :
    (scalarSub c σ s b).lane c σ j = -b.lane c σ j := by
  unfold scalarSub
  rw [ReturnType_lane_eq c σ _ j hj]
  rfl

theorem lane_scalarMul (s : K) (b : MultiDiffExpr K) (j : Nat) (hj : j < c.num_directions) :
    (scalarMul c σ s b).lane c σ j = s * b.lane c σ j := by
  unfold scalarMul
  rw [ReturnType_lane_eq c σ _ j hj]
  rfl

theorem lane_scalarDiv (s : K) (b : MultiDiffExpr K) (j : Nat) (hj : j < c.num_directions) :
    (scalarDiv c σ s b).lane c σ j = -s * b.lane c σ j / (b.getValue σ * b.getValue σ) := by
  unfold scalarDiv
  rw [ReturnType_lane_eq c σ _ j hj]
  rfl

end MultiDiffOps

/-! ## MultiDiff: the operation tables -/

/-- C11: operation table for `MultiDiff` operands `a`, `b` (two objects of the
store, possibly the same one). Each of neg, add, sub, mul, div, exp returns a
result whose primal is `-a`, `a + b`, `a - b`, `a * b`, `a / b`, `exp a` and
whose gradient is, lane by lane, `-a.d`, `a.d + b.d`, `a.d - b.d`,
`b * a.d + a * b.d`, `(b * a.d - a * b.d) / b^2`, `exp a * a.d`. -/
theorem multidiff_operation_table {K : Type} [Field K] (ex : K → K) (c : Context K)
    (σ : Nat → MultiDiff K) (a b : Nat) :
    ((MultiDiff.ofExpr c σ (MultiDiffOps.neg c σ (.var a))).getValue = -(σ a).getValue ∧
      ∀ j, j < c.num_directions →
        (MultiDiff.ofExpr c σ (MultiDiffOps.neg c σ (.var a))).getDiffValue j
          = -(σ a).getDiffValue j) ∧
    ((MultiDiff.ofExpr c σ (MultiDiffOps.add c σ (.var a) (.var b))).getValue
        = (σ a).getValue + (σ b).getValue ∧
      ∀ j, j < c.num_directions →
        (MultiDiff.ofExpr c σ (MultiDiffOps.add c σ (.var a) (.var b))).getDiffValue j
          = (σ a).getDiffValue j + (σ b).getDiffValue j) ∧
    ((MultiDiff.ofExpr c σ (MultiDiffOps.sub c σ (.var a) (.var b))).getValue
        = (σ a).getValue - (σ b).getValue ∧
      ∀ j, j < c.num_directions →
        (MultiDiff.ofExpr c σ (MultiDiffOps.sub c σ (.var a) (.var b))).getDiffValue j
          = (σ a).getDiffValue j - (σ b).getDiffValue j) ∧
    ((MultiDiff.ofExpr c σ (MultiDiffOps.mul c σ (.var a) (.var b))).getValue
        = (σ a).getValue * (σ b).getValue ∧
      ∀ j, j < c.num_directions →
        (MultiDiff.ofExpr c σ (MultiDiffOps.mul c σ (.var a) (.var b))).getDiffValue j
          = (σ b).getValue * (σ a).getDiffValue j + (σ a).getValue * (σ b).getDiffValue j) ∧
    ((MultiDiff.ofExpr c σ (MultiDiffOps.div c σ (.var a) (.var b))).getValue
        = (σ a).getValue / (σ b).getValue ∧
      ∀ j, j < c.num_directions →
        (MultiDiff.ofExpr c σ (MultiDiffOps.div c σ (.var a) (.var b))).getDiffValue j
          = ((σ b).getValue * (σ a).getDiffValue j - (σ a).getValue * (σ b).getDiffValue j)
            / (σ b).getValue ^ 2) ∧
    ((MultiDiff.ofExpr c σ (MultiDiffOps.exp c σ ex (.var a))).getValue = ex (σ a).getValue ∧
      ∀ j, j < c.num_directions →
        (MultiDiff.ofExpr c σ (MultiDiffOps.exp c σ ex (.var a))).getDiffValue j
          = ex (σ a).getValue * (σ a).getDiffValue j) := by
  refine ⟨⟨?_, fun j hj => ?_⟩, ⟨?_, fun j hj => ?_⟩, ⟨?_, fun j hj => ?_⟩,
    ⟨?_, fun j hj => ?_⟩, ⟨?_, fun j hj => ?_⟩, ⟨?_, fun j hj => ?_⟩⟩
  · rw [ofExpr_value, MultiDiffOps.neg_value]; rfl
  · rw [ofExpr_lane_eq c σ _ j hj, MultiDiffOps.lane_neg c σ _ j hj, var_lane]
  · rw [ofExpr_value, MultiDiffOps.add_value]; rfl
  · rw [ofExpr_lane_eq c σ _ j hj, MultiDiffOps.lane_add c σ _ _ j hj, var_lane, var_lane]
  · rw [ofExpr_value, MultiDiffOps.sub_value]; rfl
  · rw [ofExpr_lane_eq c σ _ j hj, MultiDiffOps.lane_sub c σ _ _ j hj, var_lane, var_lane]
  · rw [ofExpr_value, MultiDiffOps.mul_value]; rfl
  · rw [ofExpr_lane_eq c σ _ j hj, MultiDiffOps.lane_mul c σ _ _ j hj, var_lane, var_lane]
    rfl
  · rw [ofExpr_value, MultiDiffOps.div_value]; rfl
  · rw [ofExpr_lane_eq c σ _ j hj, MultiDiffOps.lane_div c σ _ _ j hj, var_lane, var_lane,
      pow_two]
    rfl
  · rw [ofExpr_value, MultiDiffOps.exp_value]; rfl
  · rw [ofExpr_lane_eq c σ _ j hj, MultiDiffOps.lane_exp c σ _ _ j hj, var_lane]
    rfl

/-- C12 (the variants that can be instantiated): for every scalar `s` and
`MultiDiff` object `a`, each of `s + a`, `a + s`, `s - a`, `a - s`, `s * a`,
`a * s` and `a / s` has the primal of the corresponding operation and the
gradient `a.d`, `a.d`, `-a.d`, `a.d`, `s * a.d`, `s * a.d`, `a.d / s`. The
variant `s / a` is left out: the constructor of `ScalarMultiDiffDiv` leaves
its reference member uninitialised. -/
theorem multidiff_scalar_variants {K : Type} [Field K] (c : Context K)
    (σ : Nat → MultiDiff K) (a : Nat) (s : K) :
    ((MultiDiff.ofExpr c σ (MultiDiffOps.scalarAdd c σ s (.var a))).getValue
        = s + (σ a).getValue ∧
      ∀ j, j < c.num_directions →
        (MultiDiff.ofExpr c σ (MultiDiffOps.scalarAdd c σ s (.var a))).getDiffValue j
          = (σ a).getDiffValue j) ∧
    ((MultiDiff.ofExpr c σ (MultiDiffOps.addScalar c σ (.var a) s)).getValue
        = (σ a).getValue + s ∧
      ∀ j, j < c.num_directions →
        (MultiDiff.ofExpr c σ (MultiDiffOps.addScalar c σ (.var a) s)).getDiffValue j
          = (σ a).getDiffValue j) ∧
    ((MultiDiff.ofExpr c σ (MultiDiffOps.scalarSub c σ s (.var a))).getValue
        = s - (σ a).getValue ∧
      ∀ j, j < c.num_directions →
        (MultiDiff.ofExpr c σ (MultiDiffOps.scalarSub c σ s (.var a))).getDiffValue j
          = -(σ a).getDiffValue j) ∧
    ((MultiDiff.ofExpr c σ (MultiDiffOps.subScalar c σ (.var a) s)).getValue
        = (σ a).getValue - s ∧
      ∀ j, j < c.num_directions →
        (MultiDiff.ofExpr c σ (MultiDiffOps.subScalar c σ (.var a) s)).getDiffValue j
          = (σ a).getDiffValue j) ∧
    ((MultiDiff.ofExpr c σ (MultiDiffOps.scalarMul c σ s (.var a))).getValue
        = s * (σ a).getValue ∧
      ∀ j, j < c.num_directions →
        (MultiDiff.ofExpr c σ (MultiDiffOps.scalarMul c σ s (.var a))).getDiffValue j
          = s * (σ a).getDiffValue j) ∧
    ((MultiDiff.ofExpr c σ (MultiDiffOps.mulScalar c σ (.var a) s)).getValue
        = (σ a).getValue * s ∧
      ∀ j, j < c.num_directions →
        (MultiDiff.ofExpr c σ (MultiDiffOps.mulScalar c σ (.var a) s)).getDiffValue j
          = s * (σ a).getDiffValue j) ∧
    ((MultiDiff.ofExpr c σ (MultiDiffOps.divScalar c σ (.var a) s)).getValue
        = (σ a).getValue / s ∧
      ∀ j, j < c.num_directions →
        (MultiDiff.ofExpr c σ (MultiDiffOps.divScalar c σ (.var a) s)).getDiffValue j
          = (σ a).getDiffValue j / s) := by
  refine ⟨⟨?_, fun j hj => ?_⟩, ⟨?_, fun j hj => ?_⟩, ⟨?_, fun j hj => ?_⟩,
    ⟨?_, fun j hj => ?_⟩, ⟨?_, fun j hj => ?_⟩, ⟨?_, fun j hj => ?_⟩, ⟨?_, fun j hj => ?_⟩⟩
  · rw [ofExpr_value, MultiDiffOps.scalarAdd_value]; rfl
  · rw [ofExpr_lane_eq c σ _ j hj, MultiDiffOps.lane_scalarAdd c σ _ _ j hj, var_lane]
  · rw [ofExpr_value, MultiDiffOps.addScalar_value, add_comm]; rfl
  · rw [ofExpr_lane_eq c σ _ j hj, MultiDiffOps.lane_addScalar c σ _ _ j hj, var_lane]
  · rw [ofExpr_value, MultiDiffOps.scalarSub_value]; rfl
  · rw [ofExpr_lane_eq c σ _ j hj, MultiDiffOps.lane_scalarSub c σ _ _ j hj, var_lane]
  · rw [ofExpr_value, MultiDiffOps.subScalar_value, neg_add_eq_sub]; rfl
  · rw [ofExpr_lane_eq c σ _ j hj, MultiDiffOps.lane_subScalar c σ _ _ j hj, var_lane]
  · rw [ofExpr_value, MultiDiffOps.scalarMul_value]; rfl
  · rw [ofExpr_lane_eq c σ _ j hj, MultiDiffOps.lane_scalarMul c σ _ _ j hj, var_lane]
  · rw [ofExpr_value, MultiDiffOps.mulScalar_value, mul_comm]; rfl
  · rw [ofExpr_lane_eq c σ _ j hj, MultiDiffOps.lane_mulScalar c σ _ _ j hj, var_lane]
  · rw [ofExpr_value, MultiDiffOps.divScalar_value]; rfl
  · rw [ofExpr_lane_eq c σ _ j hj, MultiDiffOps.lane_divScalar c σ _ _ j hj, var_lane]

/-! ## MultiDiff: seeding -/

theorem setDiffValsZero_lane {K : Type} [Zero K] (c : Context K) (m : MultiDiff K) (j : Nat)
    (hj : j < c.num_directions) : (MultiDiff.setDiffValsZero c m).dval j = 0 := by
  unfold MultiDiff.setDiffValsZero
  simp only
  rw [setDiffValsZero_loop_lane c.W c.num_directions c.W_pos (next_size_dvd _ _)
    c.num_directions 0 _ (dvd_zero _) (Nat.zero_le _) (by
      have := c.W_pos
      have : c.num_directions * 1 ≤ c.num_directions * c.W := Nat.mul_le_mul_left _ this
      omega) j]
  rw [if_pos ⟨Nat.zero_le _, hj⟩]

theorem setIndependent_spec {K : Type} [Zero K] [One K] (c : Context K) (m : MultiDiff K)
    (v : K) (i : Nat) :
    (m.setIndependent c v i).getValue = v ∧
    (m.setIndependent c v i).getDiffValue i = 1 ∧
    ∀ j, j < c.num_directions → j ≠ i → (m.setIndependent c v i).getDiffValue j = 0 := by
  refine ⟨rfl, ?_, fun j hj hne => ?_⟩
  · unfold MultiDiff.setIndependent MultiDiff.getDiffValue
    simp only [Function.update_same]
  · unfold MultiDiff.setIndependent MultiDiff.getDiffValue
    simp only [Function.update_noteq hne]
    exact setDiffValsZero_lane c _ j hj

theorem ofValueIndex_spec {K : Type} [Zero K] [One K] (c : Context K) (v : K) (i : Nat) :
    (MultiDiff.ofValueIndex c v i).getValue = v ∧
    (MultiDiff.ofValueIndex c v i).getDiffValue i = 1 ∧
    ∀ j, j < c.num_directions → j ≠ i → (MultiDiff.ofValueIndex c v i).getDiffValue j = 0 := by
  refine ⟨rfl, ?_, fun j hj hne => ?_⟩
  · unfold MultiDiff.ofValueIndex MultiDiff.getDiffValue
    simp only [Function.update_same]
  · unfold MultiDiff.ofValueIndex MultiDiff.getDiffValue
    simp only [Function.update_noteq hne]
    exact setDiffValsZero_lane c _ j hj

/-- C14: seeding. For every value `v` and index `i < n`, after
`setIndependent( v, i )` (on an object `m` of any previous contents) or
construction by `MultiDiff( v, i )` the object has `val = v`, `dval[i] = 1`
and `dval[j] = 0` for every other lane `j < D`; and `Independent( values )`
returns `n` objects whose `k`-th element is seeded this way with `values[k]`
and `k`. -/
theorem multidiff_seeding {K : Type} [Zero K] [One K] (c : Context K) (m : MultiDiff K)
    (v : K) (i : Nat) (hi : i < c.num_dir) (values : List K)
    (hlen : values.length = c.num_dir) :
    (i < c.num_directions ∧
      (m.setIndependent c v i).getValue = v ∧
      (m.setIndependent c v i).getDiffValue i = 1 ∧
      ∀ j, j < c.num_directions → j ≠ i → (m.setIndependent c v i).getDiffValue j = 0) ∧
    ((MultiDiff.ofValueIndex c v i).getValue = v ∧
      (MultiDiff.ofValueIndex c v i).getDiffValue i = 1 ∧
      ∀ j, j < c.num_directions → j ≠ i → (MultiDiff.ofValueIndex c v i).getDiffValue j = 0) ∧
    ((IndependentValues c values).length = c.num_dir ∧
      ∀ k w, values[k]? = some w →
        ∃ mk, (IndependentValues c values)[k]? = some mk ∧
          mk.getValue = w ∧ mk.getDiffValue k = 1 ∧
          ∀ j, j < c.num_directions → j ≠ k → mk.getDiffValue j = 0) := by
  refine ⟨⟨lt_of_lt_of_le hi (le_next_size c.W c.num_dir c.W_pos), setIndependent_spec c m v i⟩,
    ofValueIndex_spec c v i, ?_, ?_⟩
  · unfold IndependentValues
    rw [List.length_mapIdx, hlen]
  · intro k w hk
    refine ⟨MultiDiff.ofValueIndex c w k, ?_, ofValueIndex_spec c w k⟩
    unfold IndependentValues
    rw [List.getElem?_mapIdx, hk]
    rfl

/-- Witness for C14: seeding direction 1 of 2 with the value 9, in a context
of 4 lanes, on an object that held 5 in every lane. -/
theorem multidiff_seeding_witness :
    ((exampleOld ℚ 0).setIndependent (exampleContext ℚ) 9 1).getValue = 9 ∧
    (List.range 4).map ((exampleOld ℚ 0).setIndependent (exampleContext ℚ) 9 1).getDiffValue
      = [0, 1, 0, 0] ∧
    (IndependentValues (exampleContext ℚ) [8, 9]).length = 2 :=
  ⟨(multidiff_seeding (exampleContext ℚ) (exampleOld ℚ 0) 9 1 (by decide) [8, 9] rfl).1.2.1,
   by decide!,
   (multidiff_seeding (exampleContext ℚ) (exampleOld ℚ 0) 9 1 (by decide) [8, 9] rfl).2.2.1⟩

/-! ## SingleDiff: comma seeding -/

/-- C15: comma seeding of `SingleDiff`. For every `SingleDiff` `x` (whatever
its previous contents) and all `v` and `d`, the statement `x = v, d` (the
assignment `x = v` followed by `operator,( d )` on its result) leaves
`x.getValue() = v` and `x.getDiffValue() = d`, while the plain `x = v` leaves
the derivative 0; in particular `x = 5, 1` gives `(5, 1)`. -/
theorem singlediff_comma_seeding {K : Type} [Field K] (x : SingleDiff K) (v d : K) :
    ((x.assignReal v).comma d).getValue = v ∧
    ((x.assignReal v).comma d).getDiffValue = d ∧
    (x.assignReal v).getValue = v ∧
    (x.assignReal v).getDiffValue = 0 ∧
    ((x.assignReal 5).comma 1).getValue = 5 ∧
    ((x.assignReal 5).comma 1).getDiffValue = 1 :=
  ⟨rfl, rfl, rfl, rfl, rfl, rfl⟩

/-! ## MultiDiff: assignment of an expression to one of its own operands -/

theorem getDiffValues_congr {K : Type} [Field K] (x : MultiDiffExpr K)
    (σ σ' : Nat → MultiDiff K) (i l : Nat)
    (h : ∀ r, (σ r).dval (i + l) = (σ' r).dval (i + l)) :
    x.getDiffValues σ i l = x.getDiffValues σ' i l := by
  induction x with
  | var r => exact h r
  | tmp m => rfl
  | Plus a b iha ihb => simp only [MultiDiffExpr.getDiffValues, iha, ihb]
  | ScalarPlus s b ihb => simp only [MultiDiffExpr.getDiffValues, ihb]
  | Minus a b iha ihb => simp only [MultiDiffExpr.getDiffValues, iha, ihb]
  | ScalarMinus s b ihb => simp only [MultiDiffExpr.getDiffValues, ihb]
  | Mul aval bval a b iha ihb => simp only [MultiDiffExpr.getDiffValues, iha, ihb]
  | ScalarMul aval b ihb => simp only [MultiDiffExpr.getDiffValues, ihb]
  | Div aval bval b2val a b iha ihb => simp only [MultiDiffExpr.getDiffValues, iha, ihb]
  | ScalarDiv bval aval b2val b ihb => simp only [MultiDiffExpr.getDiffValues, ihb]
  | DivScalar a bval iha => simp only [MultiDiffExpr.getDiffValues, iha]
  | Exp val a iha => simp only [MultiDiffExpr.getDiffValues, iha]
  | Neg a iha => simp only [MultiDiffExpr.getDiffValues, iha]

theorem assign_loop_spec {K : Type} [Field K] (W D r : Nat) (hD : W ∣ D) (x : MultiDiffExpr K)
    (σ0 : Nat → MultiDiff K) :
    ∀ (fuel i : Nat) (σ : Nat → MultiDiff K), W ∣ i → D ≤ i + fuel * W →
      (∀ r' j, i ≤ j → (σ r').dval j = (σ0 r').dval j) →
      (∀ r', r' ≠ r → assign_loop W D r x fuel i σ r' = σ r') ∧
      (assign_loop W D r x fuel i σ r).val = (σ r).val ∧
      ∀ j, (assign_loop W D r x fuel i σ r).dval j =
        if i ≤ j ∧ j < D then x.getDiffValues σ0 (j / W * W) (j % W) else (σ r).dval j := by
  intro fuel
  induction fuel with
  | zero =>
    intro i σ _ hf _
    refine ⟨fun _ _ => rfl, rfl, fun j => ?_⟩
    have : ¬ (i ≤ j ∧ j < D) := by omega
    simp [assign_loop, this]
  | succ fuel ih =>
    intro i σ hi hf hag
    rw [assign_loop]
    by_cases hlt : i < D
    · rw [if_pos hlt]
      have hiW : i + W ≤ D := by
        obtain ⟨a, rfl⟩ := hi
        obtain ⟨d, rfl⟩ := hD
        have : a < d := Nat.lt_of_mul_lt_mul_left hlt
        calc W * a + W = W * (a + 1) := by ring
          _ ≤ W * d := Nat.mul_le_mul_left _ this
      obtain ⟨ih1, ih2, ih3⟩ := ih (i + W)
        (Function.update σ r ⟨(σ r).val, aligned_store W (x.getDiffValues σ i) (σ r).dval i⟩)
        (Dvd.dvd.add hi (dvd_refl W))
        (by
          have : (fuel + 1) * W = fuel * W + W := by ring
          omega)
        (by
          intro r' j hj
          by_cases hr : r' = r
          · subst hr
            rw [Function.update_same]
            simp only [aligned_store]
            rw [if_neg (by omega)]
            exact hag r' j (by omega)
          · rw [Function.update_noteq hr]
            exact hag r' j (by omega))
      refine ⟨fun r' hr => ?_, ?_, fun j => ?_⟩
      · rw [ih1 r' hr, Function.update_noteq hr]
      · rw [ih2, Function.update_same]
      · rw [ih3 j, Function.update_same]
        simp only [aligned_store]
        by_cases h1 : i + W ≤ j ∧ j < D
        · rw [if_pos h1, if_pos (by omega)]
        · rw [if_neg h1]
          by_cases h3 : i ≤ j ∧ j < i + W
          · obtain ⟨e1, e2⟩ := block_of_lane W i j hi h3.1 h3.2
            rw [if_pos h3, if_pos (by omega), e1, e2]
            apply getDiffValues_congr
            intro r'
            exact hag r' _ (by omega)
          · rw [if_neg h3, if_neg (by omega)]
    · rw [if_neg hlt]
      refine ⟨fun _ _ => rfl, rfl, fun j => ?_⟩
      rw [if_neg (by omega)]

theorem assignExpr_spec {K : Type} [Field K] (c : Context K) (σ : Nat → MultiDiff K) (r : Nat)
    (x : MultiDiffExpr K) :
    (MultiDiff.assignExpr c σ r x r).getValue = x.getValue σ ∧
    (∀ j, j < c.num_directions → (MultiDiff.assignExpr c σ r x r).getDiffValue j = x.lane c σ j) ∧
    (∀ j, c.num_directions ≤ j →
      (MultiDiff.assignExpr c σ r x r).getDiffValue j = (σ r).getDiffValue j) ∧
    ∀ r', r' ≠ r → MultiDiff.assignExpr c σ r x r' = σ r' := by
  obtain ⟨h1, h2, h3⟩ := assign_loop_spec c.W c.num_directions r (next_size_dvd _ _) x
    (Function.update σ r ⟨x.getValue σ, (σ r).dval⟩) c.num_directions 0
    (Function.update σ r ⟨x.getValue σ, (σ r).dval⟩) (dvd_zero _) (by
      have := c.W_pos
      have : c.num_directions * 1 ≤ c.num_directions * c.W := Nat.mul_le_mul_left _ this
      omega) (fun _ _ _ => rfl)
  refine ⟨?_, fun j hj => ?_, fun j hj => ?_, fun r' hr => ?_⟩
  · unfold MultiDiff.assignExpr MultiDiff.getValue
    rw [h2, Function.update_same]
  · unfold MultiDiff.assignExpr MultiDiff.getDiffValue MultiDiffExpr.lane
    rw [h3 j, if_pos ⟨Nat.zero_le _, hj⟩]
    apply getDiffValues_congr
    intro r'
    by_cases hr : r' = r
    · subst hr; rw [Function.update_same]
    · rw [Function.update_noteq hr]
  · unfold MultiDiff.assignExpr MultiDiff.getDiffValue
    rw [h3 j, if_neg (by omega), Function.update_same]
  · unfold MultiDiff.assignExpr
    rw [h1 r' hr, Function.update_noteq hr]

/-- C16: in-place modifiers are `x = x op y`. For every `MultiDiff` object `x`
(number `r` of the store) and every expression `y`, which may be `x` itself or
refer to `x`, after `x += y`, `x -= y`, `x *= y` or `x /= y` the primal and
every gradient lane of `x` equal those of `x op y` computed, through the
binary operator, from the store as it was before the statement. -/
theorem multidiff_inplace_modifiers {K : Type} [Field K] (c : Context K)
    (σ : Nat → MultiDiff K) (r : Nat) (y : MultiDiffExpr K) :
    ((MultiDiffOps.addAssign c σ r y r).getValue
        = (MultiDiff.ofExpr c σ (MultiDiffOps.add c σ (.var r) y)).getValue ∧
      ∀ j, j < c.num_directions → (MultiDiffOps.addAssign c σ r y r).getDiffValue j
        = (MultiDiff.ofExpr c σ (MultiDiffOps.add c σ (.var r) y)).getDiffValue j) ∧
    ((MultiDiffOps.subAssign c σ r y r).getValue
        = (MultiDiff.ofExpr c σ (MultiDiffOps.sub c σ (.var r) y)).getValue ∧
      ∀ j, j < c.num_directions → (MultiDiffOps.subAssign c σ r y r).getDiffValue j
        = (MultiDiff.ofExpr c σ (MultiDiffOps.sub c σ (.var r) y)).getDiffValue j) ∧
    ((MultiDiffOps.mulAssign c σ r y r).getValue
        = (MultiDiff.ofExpr c σ (MultiDiffOps.mul c σ (.var r) y)).getValue ∧
      ∀ j, j < c.num_directions → (MultiDiffOps.mulAssign c σ r y r).getDiffValue j
        = (MultiDiff.ofExpr c σ (MultiDiffOps.mul c σ (.var r) y)).getDiffValue j) ∧
    ((MultiDiffOps.divAssign c σ r y r).getValue
        = (MultiDiff.ofExpr c σ (MultiDiffOps.div c σ (.var r) y)).getValue ∧
      ∀ j, j < c.num_directions → (MultiDiffOps.divAssign c σ r y r).getDiffValue j
        = (MultiDiff.ofExpr c σ (MultiDiffOps.div c σ (.var r) y)).getDiffValue j) := by
  refine ⟨⟨?_, fun j hj => ?_⟩, ⟨?_, fun j hj => ?_⟩, ⟨?_, fun j hj => ?_⟩,
    ⟨?_, fun j hj => ?_⟩⟩
  · unfold MultiDiffOps.addAssign
    rw [(assignExpr_spec c σ r _).1, ofExpr_value, MultiDiffOps.add_value]
    rfl
  · unfold MultiDiffOps.addAssign
    rw [(assignExpr_spec c σ r _).2.1 j hj, ofExpr_lane_eq c σ _ j hj,
      MultiDiffOps.lane_add c σ _ _ j hj]
    rfl
  · unfold MultiDiffOps.subAssign
    rw [(assignExpr_spec c σ r _).1, ofExpr_value, MultiDiffOps.sub_value]
    rfl
  · unfold MultiDiffOps.subAssign
    rw [(assignExpr_spec c σ r _).2.1 j hj, ofExpr_lane_eq c σ _ j hj,
      MultiDiffOps.lane_sub c σ _ _ j hj]
    rfl
  · unfold MultiDiffOps.mulAssign
    rw [(assignExpr_spec c σ r _).1, ofExpr_value, MultiDiffOps.mul_value]
    rfl
  · unfold MultiDiffOps.mulAssign
    rw [(assignExpr_spec c σ r _).2.1 j hj, ofExpr_lane_eq c σ _ j hj,
      MultiDiffOps.lane_mul c σ _ _ j hj]
    rfl
  · unfold MultiDiffOps.divAssign
    rw [(assignExpr_spec c σ r _).1, ofExpr_value, MultiDiffOps.div_value]
    rfl
  · unfold MultiDiffOps.divAssign
    rw [(assignExpr_spec c σ r _).2.1 j hj, ofExpr_lane_eq c σ _ j hj,
      MultiDiffOps.lane_div c σ _ _ j hj]
    rfl

/-! ## MultiDiff: the materialization policy does not change results -/

namespace MultiDiffOps

variable {K : Type} [Field K] (c : Context K) (σ : Nat → MultiDiff K)

theorem MultiDiffNeg_getValue (a : MultiDiffExpr K) :
    (MultiDiffNeg a).getValue σ = -a.getValue σ := rfl

theorem MultiDiffNeg_lane (a : MultiDiffExpr K) (j : Nat) :
    (MultiDiffNeg a).lane c σ j = -a.lane c σ j := rfl

theorem MultiDiffPlus_getValue (a b : MultiDiffExpr K) :
    (MultiDiffPlus a b).getValue σ = a.getValue σ + b.getValue σ := rfl

theorem MultiDiffPlus_lane (a b : MultiDiffExpr K) (j : Nat) :
    (MultiDiffPlus a b).lane c σ j = a.lane c σ j + b.lane c σ j := rfl

theorem MultiDiffMinus_getValue (a b : MultiDiffExpr K) :
    (MultiDiffMinus a b).getValue σ = a.getValue σ - b.getValue σ := rfl

theorem MultiDiffMinus_lane (a b : MultiDiffExpr K) (j : Nat) :
    (MultiDiffMinus a b).lane c σ j = a.lane c σ j - b.lane c σ j := rfl

theorem MultiDiffMul_getValue (a b : MultiDiffExpr K) :
    (MultiDiffMul σ a b).getValue σ = a.getValue σ * b.getValue σ := rfl

theorem MultiDiffMul_lane (a b : MultiDiffExpr K) (j : Nat) :
    (MultiDiffMul σ a b).lane c σ j = b.getValue σ * a.lane c σ j + a.getValue σ * b.lane c σ j := rfl

theorem MultiDiffDiv_getValue (a b : MultiDiffExpr K) :
    (MultiDiffDiv σ a b).getValue σ = a.getValue σ / b.getValue σ := rfl

theorem MultiDiffDiv_lane (a b : MultiDiffExpr K) (j : Nat) :
    (MultiDiffDiv σ a b).lane c σ j = (b.getValue σ * a.lane c σ j - a.getValue σ * b.lane c σ j) / (b.getValue σ * b.getValue σ) := rfl

theorem MultiDiffExp_getValue (ex : K → K) (a : MultiDiffExpr K) :
    (MultiDiffExp ex σ a).getValue σ = ex (a.getValue σ) := rfl

theorem MultiDiffExp_lane (ex : K → K) (a : MultiDiffExpr K) (j : Nat) :
    (MultiDiffExp ex σ a).lane c σ j = ex (a.getValue σ) * a.lane c σ j := rfl

theorem ScalarMultiDiffPlus_getValue (s : K) (b : MultiDiffExpr K) :
    (ScalarMultiDiffPlus s b).getValue σ = s + b.getValue σ := rfl

theorem ScalarMultiDiffPlus_lane (s : K) (b : MultiDiffExpr K) (j : Nat) :
    (ScalarMultiDiffPlus s b).lane c σ j = b.lane c σ j := rfl

theorem ScalarMultiDiffMinus_getValue (s : K) (b : MultiDiffExpr K) :
    (ScalarMultiDiffMinus s b).getValue σ = s - b.getValue σ := rfl

theorem ScalarMultiDiffMinus_lane (s : K) (b : MultiDiffExpr K) (j : Nat) :
    (ScalarMultiDiffMinus s b).lane c σ j = -b.lane c σ j := rfl

theorem ScalarMultiDiffMul_getValue (s : K) (b : MultiDiffExpr K) :
    (ScalarMultiDiffMul s b).getValue σ = s * b.getValue σ := rfl

theorem ScalarMultiDiffMul_lane (s : K) (b : MultiDiffExpr K) (j : Nat) :
    (ScalarMultiDiffMul s b).lane c σ j = s * b.lane c σ j := rfl

theorem ScalarMultiDiffDiv_getValue (s : K) (b : MultiDiffExpr K) :
    (ScalarMultiDiffDiv σ s b).getValue σ = s / b.getValue σ := rfl

theorem ScalarMultiDiffDiv_lane (s : K) (b : MultiDiffExpr K) (j : Nat) :
    (ScalarMultiDiffDiv σ s b).lane c σ j = -s * b.lane c σ j / (b.getValue σ * b.getValue σ) := rfl

theorem MultiDiffScalarDiv_getValue (a : MultiDiffExpr K) (s : K) :
    (MultiDiffScalarDiv a s).getValue σ = a.getValue σ / s := rfl

theorem MultiDiffScalarDiv_lane (a : MultiDiffExpr K) (s : K) (j : Nat) :
    (MultiDiffScalarDiv a s).lane c σ j = a.lane c σ j / s := rfl

end MultiDiffOps


theorem toMultiDiffBy_policy {n : Nat} {K : Type} [Field K] (p q : MultiDiffExpr K → Bool)
    (ex : K → K) (c : Context K) (σ : Nat → MultiDiff K) (e : Expr n K) :
    (e.toMultiDiffBy p ex c σ).getValue σ = (e.toMultiDiffBy q ex c σ).getValue σ ∧
    ∀ j, j < c.num_directions →
      (e.toMultiDiffBy p ex c σ).lane c σ j = (e.toMultiDiffBy q ex c σ).lane c σ j := by
  induction e with
  | var i => exact ⟨rfl, fun _ _ => rfl⟩
  | neg a iha =>
    refine ⟨?_, fun j hj => ?_⟩
    · simp only [Expr.toMultiDiffBy, materializeIf_value, MultiDiffOps.MultiDiffNeg_getValue, iha.1]
    · simp only [Expr.toMultiDiffBy, materializeIf_lane _ c σ _ j hj, MultiDiffOps.MultiDiffNeg_lane,
        iha.1, iha.2 j hj]
  | add a b iha ihb =>
    refine ⟨?_, fun j hj => ?_⟩
    · simp only [Expr.toMultiDiffBy, materializeIf_value, MultiDiffOps.MultiDiffPlus_getValue, iha.1, ihb.1]
    · simp only [Expr.toMultiDiffBy, materializeIf_lane _ c σ _ j hj, MultiDiffOps.MultiDiffPlus_lane,
        iha.1, ihb.1, iha.2 j hj, ihb.2 j hj]
  | sub a b iha ihb =>
    refine ⟨?_, fun j hj => ?_⟩
    · simp only [Expr.toMultiDiffBy, materializeIf_value, MultiDiffOps.MultiDiffMinus_getValue, iha.1, ihb.1]
    · simp only [Expr.toMultiDiffBy, materializeIf_lane _ c σ _ j hj, MultiDiffOps.MultiDiffMinus_lane,
        iha.1, ihb.1, iha.2 j hj, ihb.2 j hj]
  | mul a b iha ihb =>
    refine ⟨?_, fun j hj => ?_⟩
    · simp only [Expr.toMultiDiffBy, materializeIf_value, MultiDiffOps.MultiDiffMul_getValue, iha.1, ihb.1]
    · simp only [Expr.toMultiDiffBy, materializeIf_lane _ c σ _ j hj, MultiDiffOps.MultiDiffMul_lane,
        iha.1, ihb.1, iha.2 j hj, ihb.2 j hj]
  | div a b iha ihb =>
    refine ⟨?_, fun j hj => ?_⟩
    · simp only [Expr.toMultiDiffBy, materializeIf_value, MultiDiffOps.MultiDiffDiv_getValue, iha.1, ihb.1]
    · simp only [Expr.toMultiDiffBy, materializeIf_lane _ c σ _ j hj, MultiDiffOps.MultiDiffDiv_lane,
        iha.1, ihb.1, iha.2 j hj, ihb.2 j hj]
  | exp a iha =>
    refine ⟨?_, fun j hj => ?_⟩
    · simp only [Expr.toMultiDiffBy, materializeIf_value, MultiDiffOps.MultiDiffExp_getValue, iha.1]
    · simp only [Expr.toMultiDiffBy, materializeIf_lane _ c σ _ j hj, MultiDiffOps.MultiDiffExp_lane,
        iha.1, iha.2 j hj]
  | addScalar a s iha =>
    refine ⟨?_, fun j hj => ?_⟩
    · simp only [Expr.toMultiDiffBy, materializeIf_value, MultiDiffOps.ScalarMultiDiffPlus_getValue, iha.1]
    · simp only [Expr.toMultiDiffBy, materializeIf_lane _ c σ _ j hj, MultiDiffOps.ScalarMultiDiffPlus_lane,
        iha.1, iha.2 j hj]
  | subScalar a s iha =>
    refine ⟨?_, fun j hj => ?_⟩
    · simp only [Expr.toMultiDiffBy, materializeIf_value, MultiDiffOps.ScalarMultiDiffPlus_getValue, iha.1]
    · simp only [Expr.toMultiDiffBy, materializeIf_lane _ c σ _ j hj, MultiDiffOps.ScalarMultiDiffPlus_lane,
        iha.1, iha.2 j hj]
  | mulScalar a s iha =>
    refine ⟨?_, fun j hj => ?_⟩
    · simp only [Expr.toMultiDiffBy, materializeIf_value, MultiDiffOps.ScalarMultiDiffMul_getValue, iha.1]
    · simp only [Expr.toMultiDiffBy, materializeIf_lane _ c σ _ j hj, MultiDiffOps.ScalarMultiDiffMul_lane,
        iha.1, iha.2 j hj]
  | divScalar a s iha =>
    refine ⟨?_, fun j hj => ?_⟩
    · simp only [Expr.toMultiDiffBy, materializeIf_value, MultiDiffOps.MultiDiffScalarDiv_getValue, iha.1]
    · simp only [Expr.toMultiDiffBy, materializeIf_lane _ c σ _ j hj, MultiDiffOps.MultiDiffScalarDiv_lane,
        iha.1, iha.2 j hj]
  | scalarAdd s b ihb =>
    refine ⟨?_, fun j hj => ?_⟩
    · simp only [Expr.toMultiDiffBy, materializeIf_value, MultiDiffOps.ScalarMultiDiffPlus_getValue, ihb.1]
    · simp only [Expr.toMultiDiffBy, materializeIf_lane _ c σ _ j hj, MultiDiffOps.ScalarMultiDiffPlus_lane,
        ihb.1, ihb.2 j hj]
  | scalarSub s b ihb =>
    refine ⟨?_, fun j hj => ?_⟩
    · simp only [Expr.toMultiDiffBy, materializeIf_value, MultiDiffOps.ScalarMultiDiffMinus_getValue, ihb.1]
    · simp only [Expr.toMultiDiffBy, materializeIf_lane _ c σ _ j hj, MultiDiffOps.ScalarMultiDiffMinus_lane,
        ihb.1, ihb.2 j hj]
  | scalarMul s b ihb =>
    refine ⟨?_, fun j hj => ?_⟩
    · simp only [Expr.toMultiDiffBy, materializeIf_value, MultiDiffOps.ScalarMultiDiffMul_getValue, ihb.1]
    · simp only [Expr.toMultiDiffBy, materializeIf_lane _ c σ _ j hj, MultiDiffOps.ScalarMultiDiffMul_lane,
        ihb.1, ihb.2 j hj]
  | scalarDiv s b ihb =>
    refine ⟨?_, fun j hj => ?_⟩
    · simp only [Expr.toMultiDiffBy, materializeIf_value, MultiDiffOps.ScalarMultiDiffDiv_getValue, ihb.1]
    · simp only [Expr.toMultiDiffBy, materializeIf_lane _ c σ _ j hj, MultiDiffOps.ScalarMultiDiffDiv_lane,
        ihb.1, ihb.2 j hj]

theorem toMultiDiff_eq_toMultiDiffBy {n : Nat} {K : Type} [Field K] (ex : K → K)
    (c : Context K) (σ : Nat → MultiDiff K) (e : Expr n K) :
    e.toMultiDiff ex c σ = e.toMultiDiffBy (fun y => decide (SimdTemps y > 8)) ex c σ := by
  induction e with
  | var i => rfl
  | neg a iha =>
    rw [Expr.toMultiDiff, Expr.toMultiDiffBy, iha]
    unfold MultiDiffOps.neg ReturnType
    rw [ReturnTypeAt_eq_materializeIf]
  | add a b iha ihb =>
    rw [Expr.toMultiDiff, Expr.toMultiDiffBy, iha, ihb]
    unfold MultiDiffOps.add ReturnType
    rw [ReturnTypeAt_eq_materializeIf]
  | sub a b iha ihb =>
    rw [Expr.toMultiDiff, Expr.toMultiDiffBy, iha, ihb]
    unfold MultiDiffOps.sub ReturnType
    rw [ReturnTypeAt_eq_materializeIf]
  | mul a b iha ihb =>
    rw [Expr.toMultiDiff, Expr.toMultiDiffBy, iha, ihb]
    unfold MultiDiffOps.mul ReturnType
    rw [ReturnTypeAt_eq_materializeIf]
  | div a b iha ihb =>
    rw [Expr.toMultiDiff, Expr.toMultiDiffBy, iha, ihb]
    unfold MultiDiffOps.div ReturnType
    rw [ReturnTypeAt_eq_materializeIf]
  | exp a iha =>
    rw [Expr.toMultiDiff, Expr.toMultiDiffBy, iha]
    unfold MultiDiffOps.exp ReturnType
    rw [ReturnTypeAt_eq_materializeIf]
  | addScalar a s iha =>
    rw [Expr.toMultiDiff, Expr.toMultiDiffBy, iha]
    unfold MultiDiffOps.addScalar ReturnType
    rw [ReturnTypeAt_eq_materializeIf]
  | subScalar a s iha =>
    rw [Expr.toMultiDiff, Expr.toMultiDiffBy, iha]
    unfold MultiDiffOps.subScalar ReturnType
    rw [ReturnTypeAt_eq_materializeIf]
  | mulScalar a s iha =>
    rw [Expr.toMultiDiff, Expr.toMultiDiffBy, iha]
    unfold MultiDiffOps.mulScalar ReturnType
    rw [ReturnTypeAt_eq_materializeIf]
  | divScalar a s iha =>
    rw [Expr.toMultiDiff, Expr.toMultiDiffBy, iha]
    unfold MultiDiffOps.divScalar ReturnType
    rw [ReturnTypeAt_eq_materializeIf]
  | scalarAdd s b ihb =>
    rw [Expr.toMultiDiff, Expr.toMultiDiffBy, ihb]
    unfold MultiDiffOps.scalarAdd ReturnType
    rw [ReturnTypeAt_eq_materializeIf]
  | scalarSub s b ihb =>
    rw [Expr.toMultiDiff, Expr.toMultiDiffBy, ihb]
    unfold MultiDiffOps.scalarSub ReturnType
    rw [ReturnTypeAt_eq_materializeIf]
  | scalarMul s b ihb =>
    rw [Expr.toMultiDiff, Expr.toMultiDiffBy, ihb]
    unfold MultiDiffOps.scalarMul ReturnType
    rw [ReturnTypeAt_eq_materializeIf]
  | scalarDiv s b ihb =>
    rw [Expr.toMultiDiff, Expr.toMultiDiffBy, ihb]
    unfold MultiDiffOps.scalarDiv ReturnType
    rw [ReturnTypeAt_eq_materializeIf]

/-- C17: the materialization threshold does not affect results. For every
expression, the value and every gradient lane obtained when the operators
return lazy proxy nodes (nothing is materialized) are equal to those obtained
when any choice `p` of sub-expressions is materialized into a `MultiDiff`, in
particular under the rule `SimdTemps > MAX_TMPS` for every threshold
`MAX_TMPS`, and under the rule `SimdTemps > 8` of the operators themselves. -/
theorem materialization_threshold_irrelevant {n : Nat} {K : Type} [Field K]
    (p : MultiDiffExpr K → Bool) (MAX_TMPS : Nat) (ex : K → K) (c : Context K)
    (σ : Nat → MultiDiff K) (e : Expr n K) :
    ((MultiDiff.ofExpr c σ (e.toMultiDiffBy p ex c σ)).getValue
        = (MultiDiff.ofExpr c σ (e.toMultiDiffBy (fun _ => false) ex c σ)).getValue ∧
      ∀ j, j < c.num_directions →
        (MultiDiff.ofExpr c σ (e.toMultiDiffBy p ex c σ)).getDiffValue j
          = (MultiDiff.ofExpr c σ (e.toMultiDiffBy (fun _ => false) ex c σ)).getDiffValue j) ∧
    ((MultiDiff.ofExpr c σ
          (e.toMultiDiffBy (fun y => decide (SimdTemps y > MAX_TMPS)) ex c σ)).getValue
        = (MultiDiff.ofExpr c σ (e.toMultiDiffBy (fun _ => false) ex c σ)).getValue ∧
      ∀ j, j < c.num_directions →
        (MultiDiff.ofExpr c σ
          (e.toMultiDiffBy (fun y => decide (SimdTemps y > MAX_TMPS)) ex c σ)).getDiffValue j
          = (MultiDiff.ofExpr c σ (e.toMultiDiffBy (fun _ => false) ex c σ)).getDiffValue j) ∧
    ((MultiDiff.ofExpr c σ (e.toMultiDiff ex c σ)).getValue
        = (MultiDiff.ofExpr c σ (e.toMultiDiffBy (fun _ => false) ex c σ)).getValue ∧
      ∀ j, j < c.num_directions →
        (MultiDiff.ofExpr c σ (e.toMultiDiff ex c σ)).getDiffValue j
          = (MultiDiff.ofExpr c σ (e.toMultiDiffBy (fun _ => false) ex c σ)).getDiffValue j) := by
  have key : ∀ q : MultiDiffExpr K → Bool,
      (MultiDiff.ofExpr c σ (e.toMultiDiffBy q ex c σ)).getValue
        = (MultiDiff.ofExpr c σ (e.toMultiDiffBy (fun _ => false) ex c σ)).getValue ∧
      ∀ j, j < c.num_directions →
        (MultiDiff.ofExpr c σ (e.toMultiDiffBy q ex c σ)).getDiffValue j
          = (MultiDiff.ofExpr c σ (e.toMultiDiffBy (fun _ => false) ex c σ)).getDiffValue j := by
    intro q
    obtain ⟨h1, h2⟩ := toMultiDiffBy_policy q (fun _ => false) ex c σ e
    refine ⟨?_, fun j hj => ?_⟩
    · rw [ofExpr_value, ofExpr_value, h1]
    · rw [ofExpr_lane_eq c σ _ j hj, ofExpr_lane_eq c σ _ j hj, h2 j hj]
  refine ⟨key p, key _, ?_⟩
  rw [toMultiDiff_eq_toMultiDiffBy]
  exact key _

/-! ## MultiDiff: the padding lanes stay zero -/

theorem paddingZero_var {K : Type} [Field K] (c : Context K) (σ : Nat → MultiDiff K) (r : Nat)
    (h : PaddingZero c (σ r)) : ExprPaddingZero c σ (.var r) := by
  intro j h1 h2
  rw [var_lane]
  exact h j h1 h2

theorem paddingZero_tmp {K : Type} [Field K] (c : Context K) (σ : Nat → MultiDiff K)
    (m : MultiDiff K) (h : PaddingZero c m) : ExprPaddingZero c σ (.tmp m) := by
  intro j h1 h2
  rw [tmp_lane]
  exact h j h1 h2

theorem paddingZero_ofExpr {K : Type} [Field K] (c : Context K) (σ : Nat → MultiDiff K)
    (x : MultiDiffExpr K) (h : ExprPaddingZero c σ x) : PaddingZero c (MultiDiff.ofExpr c σ x) := by
  intro j h1 h2
  have := ofExpr_lane_eq c σ x j h2
  unfold MultiDiff.getDiffValue at this
  rw [this]
  exact h j h1 h2

theorem paddingZero_assignExpr {K : Type} [Field K] (c : Context K) (σ : Nat → MultiDiff K)
    (r : Nat) (x : MultiDiffExpr K) (h : ExprPaddingZero c σ x) :
    PaddingZero c (MultiDiff.assignExpr c σ r x r) := by
  intro j h1 h2
  have := (assignExpr_spec c σ r x).2.1 j h2
  unfold MultiDiff.getDiffValue at this
  rw [this]
  exact h j h1 h2

theorem paddingZero_ofValue {K : Type} [Zero K] (c : Context K) (v : K) :
    PaddingZero c (MultiDiff.ofValue c v) :=
  fun j _ h2 => setDiffValsZero_lane c _ j h2

theorem paddingZero_assignReal {K : Type} [Zero K] (c : Context K) (m : MultiDiff K) (v : K) :
    PaddingZero c (m.assignReal c v) :=
  fun j _ h2 => setDiffValsZero_lane c _ j h2

theorem paddingZero_setIndependent {K : Type} [Zero K] [One K] (c : Context K)
    (m : MultiDiff K) (v : K) (i : Nat) (hi : i < c.num_dir) :
    PaddingZero c (m.setIndependent c v i) :=
  fun j h1 h2 => (setIndependent_spec c m v i).2.2 j h2 (by omega)

theorem paddingZero_ofValueIndex {K : Type} [Zero K] [One K] (c : Context K)
    (v : K) (i : Nat) (hi : i < c.num_dir) :
    PaddingZero c (MultiDiff.ofValueIndex c v i) :=
  fun j h1 h2 => (ofValueIndex_spec c v i).2.2 j h2 (by omega)

theorem copy_lane {K : Type} (c : Context K) (x : MultiDiff K) (j : Nat)
    (hj : j < c.num_directions) : (MultiDiff.copy c x).dval j = x.dval j := by
  unfold MultiDiff.copy
  simp only
  rw [store_loop_lane c.W c.num_directions (next_size_dvd _ _) _ c.num_directions 0 c.fresh
    (dvd_zero _) (by
      have := c.W_pos
      have : c.num_directions * 1 ≤ c.num_directions * c.W := Nat.mul_le_mul_left _ this
      omega) j]
  rw [if_pos ⟨Nat.zero_le _, hj⟩]
  simp only [MultiDiff.getDiffValues, aligned_load, Nat.div_add_mod']

theorem assign_lane {K : Type} (c : Context K) (m x : MultiDiff K) (j : Nat)
    (hj : j < c.num_directions) : (MultiDiff.assign c m x).dval j = x.dval j := by
  unfold MultiDiff.assign
  simp only
  rw [store_loop_lane c.W c.num_directions (next_size_dvd _ _) _ c.num_directions 0 m.dval
    (dvd_zero _) (by
      have := c.W_pos
      have : c.num_directions * 1 ≤ c.num_directions * c.W := Nat.mul_le_mul_left _ this
      omega) j]
  rw [if_pos ⟨Nat.zero_le _, hj⟩]
  simp only [MultiDiff.getDiffValues, aligned_load, Nat.div_add_mod']

theorem paddingZero_copy {K : Type} [Zero K] (c : Context K) (x : MultiDiff K)
    (h : PaddingZero c x) : PaddingZero c (MultiDiff.copy c x) := by
  intro j h1 h2
  rw [copy_lane c x j h2]
  exact h j h1 h2

theorem paddingZero_assign {K : Type} [Zero K] (c : Context K) (m x : MultiDiff K)
    (h : PaddingZero c x) : PaddingZero c (MultiDiff.assign c m x) := by
  intro j h1 h2
  rw [assign_lane c m x j h2]
  exact h j h1 h2

namespace MultiDiffOps

variable {K : Type} [Field K] (c : Context K) (σ : Nat → MultiDiff K)

theorem paddingZero_neg (a : MultiDiffExpr K) (ha : ExprPaddingZero c σ a) :
    ExprPaddingZero c σ (neg c σ a) := by
  intro j h1 h2
  rw [lane_neg c σ _ j h2, ha j h1 h2]
  simp

theorem paddingZero_add (a b : MultiDiffExpr K) (ha : ExprPaddingZero c σ a) (hb : ExprPaddingZero c σ b) :
    ExprPaddingZero c σ (add c σ a b) := by
  intro j h1 h2
  rw [lane_add c σ _ _ j h2, ha j h1 h2, hb j h1 h2]
  simp

theorem paddingZero_sub (a b : MultiDiffExpr K) (ha : ExprPaddingZero c σ a) (hb : ExprPaddingZero c σ b) :
    ExprPaddingZero c σ (sub c σ a b) := by
  intro j h1 h2
  rw [lane_sub c σ _ _ j h2, ha j h1 h2, hb j h1 h2]
  simp

theorem paddingZero_mul (a b : MultiDiffExpr K) (ha : ExprPaddingZero c σ a) (hb : ExprPaddingZero c σ b) :
    ExprPaddingZero c σ (mul c σ a b) := by
  intro j h1 h2
  rw [lane_mul c σ _ _ j h2, ha j h1 h2, hb j h1 h2]
  simp

theorem ieeeDiv_of_ne [DecidableEq K] (x y : K) (hy : y ≠ 0) : ieeeDiv x y = some (x / y) := by
  unfold ieeeDiv
  rw [if_neg hy]

theorem ieeeDiv_zero [DecidableEq K] (x : K) : ieeeDiv x 0 = none := by
  unfold ieeeDiv
  rw [if_pos rfl]

/-- With a non-zero divisor the lanes of the node `MultiDiffDiv` are the
numbers the division of the hardware gives. -/
theorem MultiDiffDiv_ieeeLane_eq [DecidableEq K] (a b : MultiDiffExpr K) (j : Nat)
    (hb0 : b.getValue σ ≠ 0) :
    MultiDiffDiv_ieeeLane c σ a b j = some ((MultiDiffDiv σ a b).lane c σ j) := by
  rw [MultiDiffDiv_lane]
  exact ieeeDiv_of_ne _ _ (mul_self_ne_zero.mpr hb0)

/-- With a non-zero divisor the lanes of the node `ScalarMultiDiffDiv` are
the numbers the division of the hardware gives. -/
theorem ScalarMultiDiffDiv_ieeeLane_eq [DecidableEq K] (s : K) (b : MultiDiffExpr K) (j : Nat)
    (hb0 : b.getValue σ ≠ 0) :
    ScalarMultiDiffDiv_ieeeLane c σ s b j = some ((ScalarMultiDiffDiv σ s b).lane c σ j) := by
  rw [ScalarMultiDiffDiv_lane]
  exact ieeeDiv_of_ne _ _ (mul_self_ne_zero.mpr hb0)

/-- With a non-zero divisor the lanes of the node `MultiDiffScalarDiv` are
the numbers the division of the hardware gives. -/
theorem MultiDiffScalarDiv_ieeeLane_eq [DecidableEq K] (a : MultiDiffExpr K) (s : K) (j : Nat)
    (hs : s ≠ 0) :
    MultiDiffScalarDiv_ieeeLane c σ a s j = some ((MultiDiffScalarDiv a s).lane c σ j) := by
  rw [MultiDiffScalarDiv_lane]
  exact ieeeDiv_of_ne _ _ hs

theorem MultiDiffDiv_ieeeLane_padding [DecidableEq K] (a b : MultiDiffExpr K)
    (ha : ExprPaddingZero c σ a) (hb : ExprPaddingZero c σ b) (hb0 : b.getValue σ ≠ 0) :
    ∀ j, c.num_dir ≤ j → j < c.num_directions → MultiDiffDiv_ieeeLane c σ a b j = some 0 := by
  intro j h1 h2
  unfold MultiDiffDiv_ieeeLane
  rw [ha j h1 h2, hb j h1 h2, ieeeDiv_of_ne _ _ (mul_self_ne_zero.mpr hb0)]
  simp

theorem ScalarMultiDiffDiv_ieeeLane_padding [DecidableEq K] (s : K) (b : MultiDiffExpr K)
    (hb : ExprPaddingZero c σ b) (hb0 : b.getValue σ ≠ 0) :
    ∀ j, c.num_dir ≤ j → j < c.num_directions →
      ScalarMultiDiffDiv_ieeeLane c σ s b j = some 0 := by
  intro j h1 h2
  unfold ScalarMultiDiffDiv_ieeeLane
  rw [hb j h1 h2, ieeeDiv_of_ne _ _ (mul_self_ne_zero.mpr hb0)]
  simp

theorem MultiDiffScalarDiv_ieeeLane_padding [DecidableEq K] (a : MultiDiffExpr K) (s : K)
    (ha : ExprPaddingZero c σ a) (hs : s ≠ 0) :
    ∀ j, c.num_dir ≤ j → j < c.num_directions →
      MultiDiffScalarDiv_ieeeLane c σ a s j = some 0 := by
  intro j h1 h2
  unfold MultiDiffScalarDiv_ieeeLane
  rw [ha j h1 h2, ieeeDiv_of_ne _ _ hs]
  simp

theorem paddingZero_div (a b : MultiDiffExpr K) (ha : ExprPaddingZero c σ a)
    (hb : ExprPaddingZero c σ b) (hb0 : b.getValue σ ≠ 0) :
    ExprPaddingZero c σ (div c σ a b) := by
  classical
  intro j h1 h2
  have e := MultiDiffDiv_ieeeLane_eq c σ a b j hb0
  rw [MultiDiffDiv_ieeeLane_padding c σ a b ha hb hb0 j h1 h2] at e
  rw [lane_div c σ _ _ j h2]
  exact (Option.some.inj e).symm

theorem paddingZero_exp (ex : K → K) (a : MultiDiffExpr K) (ha : ExprPaddingZero c σ a) :
    ExprPaddingZero c σ (exp c σ ex a) := by
  intro j h1 h2
  rw [lane_exp c σ _ _ j h2, ha j h1 h2]
  simp

theorem paddingZero_addScalar (a : MultiDiffExpr K) (s : K) (ha : ExprPaddingZero c σ a) :
    ExprPaddingZero c σ (addScalar c σ a s) := by
  intro j h1 h2
  rw [lane_addScalar c σ _ _ j h2, ha j h1 h2]

theorem paddingZero_subScalar (a : MultiDiffExpr K) (s : K) (ha : ExprPaddingZero c σ a) :
    ExprPaddingZero c σ (subScalar c σ a s) := by
  intro j h1 h2
  rw [lane_subScalar c σ _ _ j h2, ha j h1 h2]

theorem paddingZero_mulScalar (a : MultiDiffExpr K) (s : K) (ha : ExprPaddingZero c σ a) :
    ExprPaddingZero c σ (mulScalar c σ a s) := by
  intro j h1 h2
  rw [lane_mulScalar c σ _ _ j h2, ha j h1 h2]
  simp

theorem paddingZero_divScalar (a : MultiDiffExpr K) (s : K) (ha : ExprPaddingZero c σ a)
    (hs : s ≠ 0) : ExprPaddingZero c σ (divScalar c σ a s) := by
  classical
  intro j h1 h2
  have e := MultiDiffScalarDiv_ieeeLane_eq c σ a s j hs
  rw [MultiDiffScalarDiv_ieeeLane_padding c σ a s ha hs j h1 h2] at e
  rw [lane_divScalar c σ _ _ j h2]
  exact (Option.some.inj e).symm

theorem paddingZero_scalarAdd (s : K) (b : MultiDiffExpr K) (hb : ExprPaddingZero c σ b) :
    ExprPaddingZero c σ (scalarAdd c σ s b) := by
  intro j h1 h2
  rw [lane_scalarAdd c σ _ _ j h2, hb j h1 h2]

theorem paddingZero_scalarSub (s : K) (b : MultiDiffExpr K) (hb : ExprPaddingZero c σ b) :
    ExprPaddingZero c σ (scalarSub c σ s b) := by
  intro j h1 h2
  rw [lane_scalarSub c σ _ _ j h2, hb j h1 h2]
  simp

theorem paddingZero_scalarMul (s : K) (b : MultiDiffExpr K) (hb : ExprPaddingZero c σ b) :
    ExprPaddingZero c σ (scalarMul c σ s b) := by
  intro j h1 h2
  rw [lane_scalarMul c σ _ _ j h2, hb j h1 h2]
  simp

theorem paddingZero_scalarDiv (s : K) (b : MultiDiffExpr K) (hb : ExprPaddingZero c σ b)
    (hb0 : b.getValue σ ≠ 0) : ExprPaddingZero c σ (scalarDiv c σ s b) := by
  classical
  intro j h1 h2
  have e := ScalarMultiDiffDiv_ieeeLane_eq c σ s b j hb0
  rw [ScalarMultiDiffDiv_ieeeLane_padding c σ s b hb hb0 j h1 h2] at e
  rw [lane_scalarDiv c σ _ _ j h2]
  exact (Option.some.inj e).symm

end MultiDiffOps

/-- The primal of the object built for an expression over any store is the
value of the expression at the primals of the store. -/
theorem toMultiDiff_value_store {N : Nat} {K : Type} [Field K] (ex : K → K) (c : Context K)
    (σ : Nat → MultiDiff K) (e : Expr N K) :
    (e.toMultiDiff ex c σ).getValue σ = e.eval ex (fun i => (σ i.val).getValue) := by
  induction e with
  | var i => rfl
  | neg a iha => rw [Expr.toMultiDiff, MultiDiffOps.neg_value, iha]; rfl
  | add a b iha ihb => rw [Expr.toMultiDiff, MultiDiffOps.add_value, iha, ihb]; rfl
  | sub a b iha ihb => rw [Expr.toMultiDiff, MultiDiffOps.sub_value, iha, ihb]; rfl
  | mul a b iha ihb => rw [Expr.toMultiDiff, MultiDiffOps.mul_value, iha, ihb]; rfl
  | div a b iha ihb => rw [Expr.toMultiDiff, MultiDiffOps.div_value, iha, ihb]; rfl
  | exp a iha => rw [Expr.toMultiDiff, MultiDiffOps.exp_value, iha]; rfl
  | addScalar a s iha =>
    rw [Expr.toMultiDiff, MultiDiffOps.addScalar_value, iha, add_comm]; rfl
  | subScalar a s iha =>
    rw [Expr.toMultiDiff, MultiDiffOps.subScalar_value, iha, neg_add_eq_sub]; rfl
  | mulScalar a s iha =>
    rw [Expr.toMultiDiff, MultiDiffOps.mulScalar_value, iha, mul_comm]; rfl
  | divScalar a s iha => rw [Expr.toMultiDiff, MultiDiffOps.divScalar_value, iha]; rfl
  | scalarAdd s b ihb => rw [Expr.toMultiDiff, MultiDiffOps.scalarAdd_value, ihb]; rfl
  | scalarSub s b ihb => rw [Expr.toMultiDiff, MultiDiffOps.scalarSub_value, ihb]; rfl
  | scalarMul s b ihb => rw [Expr.toMultiDiff, MultiDiffOps.scalarMul_value, ihb]; rfl
  | scalarDiv s b ihb => rw [Expr.toMultiDiff, MultiDiffOps.scalarDiv_value, ihb]; rfl

theorem toMultiDiff_padding {N : Nat} {K : Type} [Field K] (ex : K → K) (c : Context K)
    (σ : Nat → MultiDiff K) (hσ : ∀ r, r < N → PaddingZero c (σ r)) (e : Expr N K)
    (hd : e.divisorsNonzero ex (fun i => (σ i.val).getValue)) :
    ExprPaddingZero c σ (e.toMultiDiff ex c σ) := by
  induction e with
  | var i => exact paddingZero_var c σ _ (hσ _ i.isLt)
  | neg a iha => exact MultiDiffOps.paddingZero_neg c σ _ (iha hd)
  | add a b iha ihb => exact MultiDiffOps.paddingZero_add c σ _ _ (iha hd.1) (ihb hd.2)
  | sub a b iha ihb => exact MultiDiffOps.paddingZero_sub c σ _ _ (iha hd.1) (ihb hd.2)
  | mul a b iha ihb => exact MultiDiffOps.paddingZero_mul c σ _ _ (iha hd.1) (ihb hd.2)
  | div a b iha ihb =>
    exact MultiDiffOps.paddingZero_div c σ _ _ (iha hd.1) (ihb hd.2.1)
      (by rw [toMultiDiff_value_store]; exact hd.2.2)
  | exp a iha => exact MultiDiffOps.paddingZero_exp c σ _ _ (iha hd)
  | addScalar a s iha => exact MultiDiffOps.paddingZero_addScalar c σ _ _ (iha hd)
  | subScalar a s iha => exact MultiDiffOps.paddingZero_subScalar c σ _ _ (iha hd)
  | mulScalar a s iha => exact MultiDiffOps.paddingZero_mulScalar c σ _ _ (iha hd)
  | divScalar a s iha => exact MultiDiffOps.paddingZero_divScalar c σ _ _ (iha hd.1) hd.2
  | scalarAdd s b ihb => exact MultiDiffOps.paddingZero_scalarAdd c σ _ _ (ihb hd)
  | scalarSub s b ihb => exact MultiDiffOps.paddingZero_scalarSub c σ _ _ (ihb hd)
  | scalarMul s b ihb => exact MultiDiffOps.paddingZero_scalarMul c σ _ _ (ihb hd)
  | scalarDiv s b ihb =>
    exact MultiDiffOps.paddingZero_scalarDiv c σ _ _ (ihb hd.1)
      (by rw [toMultiDiff_value_store]; exact hd.2)

theorem assignExpr_padding_store {K : Type} [Field K] (c : Context K) (σ : Nat → MultiDiff K)
    (N r : Nat) (x : MultiDiffExpr K) (hσ : ∀ q, q < N → PaddingZero c (σ q))
    (hx : ExprPaddingZero c σ x) :
    ∀ q, q < N → PaddingZero c (MultiDiff.assignExpr c σ r x q) := by
  intro q hq
  by_cases h : q = r
  · subst h
    exact paddingZero_assignExpr c σ q x hx
  · rw [(assignExpr_spec c σ r x).2.2.2 q h]
    exact hσ q hq

theorem runAssignments_padding {N : Nat} {K : Type} [Field K] (ex : K → K) (c : Context K)
    (prog : List (Fin N × Expr N K)) (σ : Nat → MultiDiff K)
    (hσ : ∀ r, r < N → PaddingZero c (σ r)) (hd : runDivisorsNonzero ex c prog σ) :
    ∀ r, r < N → PaddingZero c (runAssignments ex c prog σ r) := by
  induction prog generalizing σ with
  | nil => exact hσ
  | cons p ps ih =>
    exact ih _
      (assignExpr_padding_store c σ N p.1.val _ hσ (toMultiDiff_padding ex c σ hσ p.2 hd.1))
      hd.2

theorem Independent_padding {K : Type} [Field K] (c : Context K) (old : Nat → MultiDiff K)
    (x : Fin c.num_dir → K) : ∀ r, r < c.num_dir → PaddingZero c (Independent c old x r) := by
  intro r hr j h1 h2
  have := Independent_lane c old x ⟨r, hr⟩ j h2
  unfold MultiDiff.getDiffValue at this
  rw [this, if_neg]
  simp only
  omega

namespace MultiDiffOps

variable {K : Type} [Field K] (c : Context K) (σ : Nat → MultiDiff K)

theorem paddingZero_addAssign (r : Nat) (y : MultiDiffExpr K) (hr : PaddingZero c (σ r))
    (hy : ExprPaddingZero c σ y) : PaddingZero c (addAssign c σ r y r) := by
  refine paddingZero_assignExpr c σ r _ (fun j h1 h2 => ?_)
  rw [MultiDiffPlus_lane, paddingZero_var c σ r hr j h1 h2, hy j h1 h2, add_zero]

theorem paddingZero_subAssign (r : Nat) (y : MultiDiffExpr K) (hr : PaddingZero c (σ r))
    (hy : ExprPaddingZero c σ y) : PaddingZero c (subAssign c σ r y r) := by
  refine paddingZero_assignExpr c σ r _ (fun j h1 h2 => ?_)
  rw [MultiDiffMinus_lane, paddingZero_var c σ r hr j h1 h2, hy j h1 h2, sub_zero]

theorem paddingZero_mulAssign (r : Nat) (y : MultiDiffExpr K) (hr : PaddingZero c (σ r))
    (hy : ExprPaddingZero c σ y) : PaddingZero c (mulAssign c σ r y r) := by
  refine paddingZero_assignExpr c σ r _ (fun j h1 h2 => ?_)
  rw [MultiDiffMul_lane, paddingZero_var c σ r hr j h1 h2, hy j h1 h2]
  simp

theorem paddingZero_divAssign (r : Nat) (y : MultiDiffExpr K) (hr : PaddingZero c (σ r))
    (hy : ExprPaddingZero c σ y) (hy0 : y.getValue σ ≠ 0) :
    PaddingZero c (divAssign c σ r y r) := by
  classical
  refine paddingZero_assignExpr c σ r _ (fun j h1 h2 => ?_)
  have e := MultiDiffDiv_ieeeLane_eq c σ (.var r) y j hy0
  rw [MultiDiffDiv_ieeeLane_padding c σ (.var r) y (paddingZero_var c σ r hr) hy hy0 j h1 h2]
    at e
  exact (Option.some.inj e).symm

end MultiDiffOps

/-! ## MultiDiff: SIMD-padding invariance -/

/-- C13 (counterexample): a quotient with a zero divisor does not keep the
padding lanes zero. In a context of 4 lanes and 2 independents (padding lanes
2 and 3), with `x0 = 1` and `x1 = 0` seeded, both operands have zero padding
and the divisor has the primal 0; the padding lanes of `x0 / x1`, of `1 / x1`
and of `x0 / 0`, each the quotient `0 / 0` on the hardware, are not numbers,
so they are not zero. -/
theorem multidiff_padding_division_by_zero :
    ExprPaddingZero (exampleContext ℚ) (zeroDivisorStore ℚ) (.var 0) ∧
    ExprPaddingZero (exampleContext ℚ) (zeroDivisorStore ℚ) (.var 1) ∧
    (MultiDiffExpr.var 1).getValue (zeroDivisorStore ℚ) = 0 ∧
    ∀ j, 2 ≤ j → j < 4 →
      MultiDiffDiv_ieeeLane (exampleContext ℚ) (zeroDivisorStore ℚ) (.var 0) (.var 1) j = none ∧
      ScalarMultiDiffDiv_ieeeLane (exampleContext ℚ) (zeroDivisorStore ℚ) 1 (.var 1) j = none ∧
      MultiDiffScalarDiv_ieeeLane (exampleContext ℚ) (zeroDivisorStore ℚ) (.var 0) 0 j = none := by
  have h0 : ∀ j, 2 ≤ j → j < 4 →
      (MultiDiffExpr.var 0).lane (exampleContext ℚ) (zeroDivisorStore ℚ) j = 0 := by
    intro j h1 h2
    interval_cases j <;> decide!
  have h1 : ∀ j, 2 ≤ j → j < 4 →
      (MultiDiffExpr.var 1).lane (exampleContext ℚ) (zeroDivisorStore ℚ) j = 0 := by
    intro j h1 h2
    interval_cases j <;> decide!
  have hv : (MultiDiffExpr.var 1).getValue (zeroDivisorStore ℚ) = 0 := by decide!
  refine ⟨h0, h1, hv, fun j hj1 hj2 => ⟨?_, ?_, ?_⟩⟩
  · unfold MultiDiffDiv_ieeeLane
    rw [hv, mul_zero]
    exact MultiDiffOps.ieeeDiv_zero _
  · unfold ScalarMultiDiffDiv_ieeeLane
    rw [hv, mul_zero]
    exact MultiDiffOps.ieeeDiv_zero _
  · unfold MultiDiffScalarDiv_ieeeLane
    exact MultiDiffOps.ieeeDiv_zero _

/-- C13 (amended): SIMD-padding invariance. With `n` independents and `D`
lanes per buffer, and values that are numbers, every `MultiDiff` operation
that gives an object a value leaves the padding lanes `dval[n..D-1]` of the
result zero when those of its operands are zero, a quotient provided its
divisor is not zero: the constructors from a scalar, from a scalar and a
direction `i < n`, by copy, by move and from an expression;
`setIndependent( v, i )` with `i < n`; the assignments of a scalar, of an
object (by copy or by move) and of an expression, whatever the target held
before; the in-place modifiers `+=`, `-=`, `*=`, and `/=` by a non-zero
value; negation, sum, difference, product, `exp`, the quotient by a non-zero
value, and the eight variants with a scalar on either side, those that divide
under the same condition. For each of the three quotient nodes the padding
lanes are then zero also as the division of the hardware gives them. Hence
the objects seeded by `Independent` have zero padding, and so has every
object after any sequence of statements `x_r = e( x_0, ..., x_{n-1} )` run
from them in which no divisor is zero. -/
theorem multidiff_padding_invariance {K : Type} [Field K] [DecidableEq K] (ex : K → K)
    (c : Context K) (σ : Nat → MultiDiff K) (a b : MultiDiffExpr K) (m x : MultiDiff K)
    (r i : Nat) (v s : K) (old : Nat → MultiDiff K) (xs : Fin c.num_dir → K)
    (prog : List (Fin c.num_dir × Expr c.num_dir K))
    (ha : ExprPaddingZero c σ a) (hb : ExprPaddingZero c σ b) (hx : PaddingZero c x)
    (hr : PaddingZero c (σ r)) (hi : i < c.num_dir) :
    (PaddingZero c (MultiDiff.ofValue c v) ∧ PaddingZero c (MultiDiff.ofValueIndex c v i) ∧
      PaddingZero c (MultiDiff.copy c x) ∧ PaddingZero c (MultiDiff.move x) ∧
      PaddingZero c (MultiDiff.ofExpr c σ a)) ∧
    PaddingZero c (m.setIndependent c v i) ∧
    (PaddingZero c (m.assignReal c v) ∧ PaddingZero c (MultiDiff.assign c m x) ∧
      PaddingZero c (MultiDiff.moveAssign m x).1 ∧
      PaddingZero c (MultiDiff.assignExpr c σ r a r)) ∧
    (PaddingZero c (MultiDiffOps.addAssign c σ r b r) ∧
      PaddingZero c (MultiDiffOps.subAssign c σ r b r) ∧
      PaddingZero c (MultiDiffOps.mulAssign c σ r b r) ∧
      (b.getValue σ ≠ 0 →
        PaddingZero c (MultiDiffOps.divAssign c σ r b r) ∧
        ∀ j, c.num_dir ≤ j → j < c.num_directions →
          MultiDiffDiv_ieeeLane c σ (.var r) b j = some 0)) ∧
    (ExprPaddingZero c σ (MultiDiffOps.neg c σ a) ∧
      ExprPaddingZero c σ (MultiDiffOps.add c σ a b) ∧
      ExprPaddingZero c σ (MultiDiffOps.sub c σ a b) ∧
      ExprPaddingZero c σ (MultiDiffOps.mul c σ a b) ∧
      (b.getValue σ ≠ 0 →
        ExprPaddingZero c σ (MultiDiffOps.div c σ a b) ∧
        ∀ j, c.num_dir ≤ j → j < c.num_directions →
          MultiDiffDiv_ieeeLane c σ a b j = some 0) ∧
      ExprPaddingZero c σ (MultiDiffOps.exp c σ ex a)) ∧
    (ExprPaddingZero c σ (MultiDiffOps.addScalar c σ a s) ∧
      ExprPaddingZero c σ (MultiDiffOps.subScalar c σ a s) ∧
      ExprPaddingZero c σ (MultiDiffOps.mulScalar c σ a s) ∧
      (s ≠ 0 →
        ExprPaddingZero c σ (MultiDiffOps.divScalar c σ a s) ∧
        ∀ j, c.num_dir ≤ j → j < c.num_directions →
          MultiDiffScalarDiv_ieeeLane c σ a s j = some 0) ∧
      ExprPaddingZero c σ (MultiDiffOps.scalarAdd c σ s b) ∧
      ExprPaddingZero c σ (MultiDiffOps.scalarSub c σ s b) ∧
      ExprPaddingZero c σ (MultiDiffOps.scalarMul c σ s b) ∧
      (b.getValue σ ≠ 0 →
        ExprPaddingZero c σ (MultiDiffOps.scalarDiv c σ s b) ∧
        ∀ j, c.num_dir ≤ j → j < c.num_directions →
          ScalarMultiDiffDiv_ieeeLane c σ s b j = some 0)) ∧
    (∀ q, q < c.num_dir → PaddingZero c (Independent c old xs q)) ∧
    (runDivisorsNonzero ex c prog (Independent c old xs) →
      ∀ q, q < c.num_dir → PaddingZero c (runAssignments ex c prog (Independent c old xs) q)) :=
  ⟨⟨paddingZero_ofValue c v, paddingZero_ofValueIndex c v i hi, paddingZero_copy c x hx, hx,
      paddingZero_ofExpr c σ a ha⟩,
    paddingZero_setIndependent c m v i hi,
    ⟨paddingZero_assignReal c m v, paddingZero_assign c m x hx, hx,
      paddingZero_assignExpr c σ r a ha⟩,
    ⟨MultiDiffOps.paddingZero_addAssign c σ r b hr hb,
      MultiDiffOps.paddingZero_subAssign c σ r b hr hb,
      MultiDiffOps.paddingZero_mulAssign c σ r b hr hb,
      fun hb0 => ⟨MultiDiffOps.paddingZero_divAssign c σ r b hr hb hb0,
        MultiDiffOps.MultiDiffDiv_ieeeLane_padding c σ (.var r) b (paddingZero_var c σ r hr) hb
          hb0⟩⟩,
    ⟨MultiDiffOps.paddingZero_neg c σ a ha, MultiDiffOps.paddingZero_add c σ a b ha hb,
      MultiDiffOps.paddingZero_sub c σ a b ha hb, MultiDiffOps.paddingZero_mul c σ a b ha hb,
      fun hb0 => ⟨MultiDiffOps.paddingZero_div c σ a b ha hb hb0,
        MultiDiffOps.MultiDiffDiv_ieeeLane_padding c σ a b ha hb hb0⟩,
      MultiDiffOps.paddingZero_exp c σ ex a ha⟩,
    ⟨MultiDiffOps.paddingZero_addScalar c σ a s ha, MultiDiffOps.paddingZero_subScalar c σ a s ha,
      MultiDiffOps.paddingZero_mulScalar c σ a s ha,
      fun hs => ⟨MultiDiffOps.paddingZero_divScalar c σ a s ha hs,
        MultiDiffOps.MultiDiffScalarDiv_ieeeLane_padding c σ a s ha hs⟩,
      MultiDiffOps.paddingZero_scalarAdd c σ s b hb, MultiDiffOps.paddingZero_scalarSub c σ s b hb,
      MultiDiffOps.paddingZero_scalarMul c σ s b hb,
      fun hb0 => ⟨MultiDiffOps.paddingZero_scalarDiv c σ s b hb hb0,
        MultiDiffOps.ScalarMultiDiffDiv_ieeeLane_padding c σ s b hb hb0⟩⟩,
    Independent_padding c old xs,
    fun hd => runAssignments_padding ex c prog _ (Independent_padding c old xs) hd⟩

/-- Witness for C13 (amended): in a context of 4 lanes and 2 independents
(padding lanes 2 and 3), with `x0 = 1` and `x1 = 2` seeded, the divisor `x1`
is not zero and after `x0 /= x1` the lanes of `x0` are `1/2, -1/4, 0, 0`; the
padding lanes are zero also as the division of the hardware gives them. -/
theorem multidiff_padding_invariance_witness :
    ExprPaddingZero (exampleContext ℚ) (exampleStore ℚ) (.var 0) ∧
    ExprPaddingZero (exampleContext ℚ) (exampleStore ℚ) (.var 1) ∧
    PaddingZero (exampleContext ℚ) (exampleStore ℚ 0) ∧
    (MultiDiffExpr.var 1).getValue (exampleStore ℚ) ≠ 0 ∧
    (PaddingZero (exampleContext ℚ)
        (MultiDiffOps.divAssign (exampleContext ℚ) (exampleStore ℚ) 0 (.var 1) 0) ∧
      ∀ j, (exampleContext ℚ).num_dir ≤ j → j < (exampleContext ℚ).num_directions →
        MultiDiffDiv_ieeeLane (exampleContext ℚ) (exampleStore ℚ) (.var 0) (.var 1) j = some 0) ∧
    (List.range 4).map
      (MultiDiffOps.divAssign (exampleContext ℚ) (exampleStore ℚ) 0 (.var 1) 0).getDiffValue
      = [1 / 2, -1 / 4, 0, 0] :=
  have h0 : ExprPaddingZero (exampleContext ℚ) (exampleStore ℚ) (.var 0) := by
    have h : ∀ j, 2 ≤ j → j < 4 →
        (MultiDiffExpr.var 0).lane (exampleContext ℚ) (exampleStore ℚ) j = 0 := by
      intro j h1 h2
      interval_cases j <;> decide!
    exact h
  have h1 : ExprPaddingZero (exampleContext ℚ) (exampleStore ℚ) (.var 1) := by
    have h : ∀ j, 2 ≤ j → j < 4 →
        (MultiDiffExpr.var 1).lane (exampleContext ℚ) (exampleStore ℚ) j = 0 := by
      intro j h1 h2
      interval_cases j <;> decide!
    exact h
  have hx : PaddingZero (exampleContext ℚ) (exampleStore ℚ 0) := by
    have h : ∀ j, 2 ≤ j → j < 4 → (exampleStore ℚ 0).dval j = 0 := by
      intro j h1 h2
      interval_cases j <;> decide!
    exact h
  have hv : (MultiDiffExpr.var 1).getValue (exampleStore ℚ) ≠ 0 := by decide!
  ⟨h0, h1, hx, hv,
    (multidiff_padding_invariance (fun t => t) (exampleContext ℚ) (exampleStore ℚ) (.var 0)
      (.var 1) (exampleOld ℚ 0) (exampleStore ℚ 0) 0 1 9 3 (exampleOld ℚ) ![1, 2] []
      h0 h1 hx hx (by decide)).2.2.2.1.2.2.2 hv,
    by decide!⟩

/-! ## The Rosenbrock function under MultiDiff -/

theorem size_pred_eq (N : Nat) (h1 : 0 < N) (h2 : N < 2 ^ 64) : size_pred N = N - 1 := by
  unfold size_pred
  have : N + 2 ^ 64 - 1 = (N - 1) + 2 ^ 64 := by omega
  rw [this, Nat.add_mod_right, Nat.mod_eq_of_lt (by omega)]

theorem copy_getValue {K : Type} (c : Context K) (x : MultiDiff K) :
    (MultiDiff.copy c x).getValue = x.getValue := rfl

theorem rosen_brock_MultiDiff_step_spec {K : Type} [Field K] (c : Context K) (N : Nat)
    (σ : Nat → MultiDiff K) (i : Nat) :
    (rosen_brock_MultiDiff_step c N σ i N).getValue
      = (σ N).getValue + (sqr (1 - (σ i).getValue)
          + 100 * sqr ((σ (i + 1)).getValue - sqr (σ i).getValue)) ∧
    (∀ j, j < c.num_directions → (rosen_brock_MultiDiff_step c N σ i N).getDiffValue j
      = (σ N).getDiffValue j
        + (((1 - (σ i).getValue) * -(σ i).getDiffValue j
            + (1 - (σ i).getValue) * -(σ i).getDiffValue j)
          + 100 * (((σ (i + 1)).getValue - sqr (σ i).getValue)
              * ((σ (i + 1)).getDiffValue j
                - ((σ i).getValue * (σ i).getDiffValue j + (σ i).getValue * (σ i).getDiffValue j))
            + ((σ (i + 1)).getValue - sqr (σ i).getValue)
              * ((σ (i + 1)).getDiffValue j
                - ((σ i).getValue * (σ i).getDiffValue j
                  + (σ i).getValue * (σ i).getDiffValue j))))) ∧
    ∀ r, r ≠ N → rosen_brock_MultiDiff_step c N σ i r = σ r := by
  refine ⟨?_, fun j hj => ?_, fun r hr => ?_⟩
  · simp only [rosen_brock_MultiDiff_step, MultiDiffOps.addAssign]
    rw [(assignExpr_spec c σ N _).1, MultiDiffOps.MultiDiffPlus_getValue,
      MultiDiffOps.add_value, MultiDiffOps.scalarMul_value, MultiDiffOps.mul_value,
      MultiDiffOps.mul_value]
    simp only [MultiDiffExpr.getValue, ofExpr_value, MultiDiffOps.scalarSub_value,
      MultiDiffOps.sub_value, MultiDiffOps.mul_value, copy_getValue, sqr]
    rfl
  · simp only [rosen_brock_MultiDiff_step, MultiDiffOps.addAssign]
    rw [(assignExpr_spec c σ N _).2.1 j hj, MultiDiffOps.MultiDiffPlus_lane,
      MultiDiffOps.lane_add c σ _ _ j hj, MultiDiffOps.lane_scalarMul c σ _ _ j hj,
      MultiDiffOps.lane_mul c σ _ _ j hj, MultiDiffOps.lane_mul c σ _ _ j hj]
    simp only [tmp_lane, var_lane, ofExpr_lane_eq c σ _ j hj,
      MultiDiffOps.lane_scalarSub c σ _ _ j hj, MultiDiffOps.lane_sub c σ _ _ j hj,
      MultiDiffOps.lane_mul c σ _ _ j hj]
    simp only [MultiDiffExpr.getValue, ofExpr_value, MultiDiffOps.scalarSub_value,
      MultiDiffOps.sub_value, MultiDiffOps.mul_value, copy_getValue, sqr]
    have hc : (MultiDiff.copy c (σ i)).getDiffValue j = (σ i).getDiffValue j :=
      copy_lane c (σ i) j hj
    rw [hc]
    rfl
  · simp only [rosen_brock_MultiDiff_step, MultiDiffOps.addAssign]
    exact (assignExpr_spec c σ N _).2.2.2 r hr

theorem rosen_brock_MultiDiff_loop {K : Type} [Field K] (c : Context K) (N : Nat) (x : Nat → K)
    (σ0 : Nat → MultiDiff K)
    (hσ : ∀ r, r < N → (σ0 r).getValue = x r ∧
      ∀ j, j < c.num_directions → (σ0 r).getDiffValue j = if j = r then 1 else 0)
    (hv : (σ0 N).getValue = 0) (hl : ∀ j, j < c.num_directions → (σ0 N).getDiffValue j = 0)
    (k : Nat) (hk : k + 1 ≤ N) :
    (∀ r, r ≠ N → (List.range k).foldl (rosen_brock_MultiDiff_step c N) σ0 r = σ0 r) ∧
    ((List.range k).foldl (rosen_brock_MultiDiff_step c N) σ0 N).getValue
      = (List.range k).foldl
          (fun val i => val + (sqr (1 - x i) + 100 * sqr (x (i + 1) - sqr (x i)))) 0 ∧
    ∀ j, j < c.num_directions →
      ((List.range k).foldl (rosen_brock_MultiDiff_step c N) σ0 N).getDiffValue j
        = (List.range k).foldl (rosen_brock_deriv_step x) (fun _ => 0) j := by
  induction k with
  | zero => exact ⟨fun _ _ => rfl, hv, hl⟩
  | succ k ih =>
    obtain ⟨ih1, ih2, ih3⟩ := ih (by omega)
    obtain ⟨s1, s2, s3⟩ := rosen_brock_MultiDiff_step_spec c N
      ((List.range k).foldl (rosen_brock_MultiDiff_step c N) σ0) k
    have hk0 : (List.range k).foldl (rosen_brock_MultiDiff_step c N) σ0 k = σ0 k :=
      ih1 k (by omega)
    have hk1 : (List.range k).foldl (rosen_brock_MultiDiff_step c N) σ0 (k + 1) = σ0 (k + 1) :=
      ih1 (k + 1) (by omega)
    rw [hk0, hk1, (hσ k (by omega)).1, (hσ (k + 1) (by omega)).1] at s1 s2
    simp only [List.range_succ, List.foldl_append, List.foldl_cons, List.foldl_nil]
    refine ⟨fun r hr => ?_, ?_, fun j hj => ?_⟩
    · rw [s3 r hr, ih1 r hr]
    · rw [s1, ih2]
    · rw [s2 j hj, ih3 j hj, (hσ k (by omega)).2 j hj, (hσ (k + 1) (by omega)).2 j hj]
      simp only [rosen_brock_deriv_step, Function.update_apply]
      by_cases h1 : j = k
      · subst h1
        simp only [if_true, if_neg (Nat.succ_ne_self j).symm, if_neg (Nat.succ_ne_self j),
          sqr]
        ring
      · by_cases h2 : j = k + 1
        · subst h2
          simp only [if_true, if_neg h1, if_neg (Nat.succ_ne_self k), sqr]
          ring
        · simp only [if_neg h1, if_neg h2, sqr]
          ring

theorem IndependentValues_getD {K : Type} [Zero K] [One K] (c : Context K) (xs : List K)
    (d : MultiDiff K) (r : Nat) (hr : r < xs.length) :
    vectorData (IndependentValues c xs) d r = MultiDiff.ofValueIndex c (xs.getD r 0) r := by
  unfold vectorData IndependentValues
  rw [List.getD_eq_getElem?_getD, List.getElem?_mapIdx, List.getD_eq_getElem?_getD,
    List.getElem?_eq_getElem hr]
  rfl

/-- C18: the Rosenbrock gradient. For every vector `x` of `N >= 2` values (in
a context of `N` directions), `rosen_brock` run on the `MultiDiff` objects
`Independent( x )` returns an object whose `getValue()` is `rosen_brock( x )`
and whose `getDiffValues()[i]` is `rosen_brock_deriv( x )[i]`, the
hand-written gradient, for every `i < N`. -/
theorem rosen_brock_multidiff_gradient {K : Type} [Field K] (c : Context K) (xs : List K)
    (d : MultiDiff K) (hN : 2 ≤ xs.length) (h64 : xs.length < 2 ^ 64)
    (hn : c.num_dir = xs.length) :
    (rosen_brock_MultiDiff c (vectorData (IndependentValues c xs) d)
        (IndependentValues c xs).length).getValue
      = rosen_brock (fun i => xs.getD i 0) xs.length ∧
    ∀ i, i < xs.length →
      (rosen_brock_MultiDiff c (vectorData (IndependentValues c xs) d)
          (IndependentValues c xs).length).getDiffValue i
        = rosen_brock_deriv (fun i => xs.getD i 0) xs.length i := by
  have hlen : (IndependentValues c xs).length = xs.length := by
    unfold IndependentValues
    rw [List.length_mapIdx]
  have hsp : size_pred xs.length = xs.length - 1 := size_pred_eq _ (by omega) h64
  obtain ⟨-, h2, h3⟩ := rosen_brock_MultiDiff_loop c xs.length (fun i => xs.getD i 0)
    (Function.update (vectorData (IndependentValues c xs) d) xs.length (MultiDiff.ofValue c 0))
    (fun r hr => by
      rw [Function.update_noteq (Nat.ne_of_lt hr), IndependentValues_getD c xs d r hr]
      refine ⟨rfl, fun j hj => ?_⟩
      by_cases h : j = r
      · rw [if_pos h, h]
        exact (ofValueIndex_spec c _ r).2.1
      · rw [if_neg h]
        exact (ofValueIndex_spec c _ r).2.2 j hj h)
    (by rw [Function.update_same]; rfl)
    (fun j hj => by
      rw [Function.update_same]
      exact setDiffValsZero_lane c _ j hj)
    (xs.length - 1) (by omega)
  unfold rosen_brock_MultiDiff rosen_brock rosen_brock_deriv
  rw [hlen, hsp]
  refine ⟨h2, fun i hi => h3 i ?_⟩
  have := le_next_size c.W c.num_dir c.W_pos
  unfold Context.num_directions
  omega

/-- Witness for C18: `N = 10` at the point
`(3, -7, 1/2, 0, 9, -10, 4, -3/2, 6, -1)`; the value is 2187857 and the
gradient is the one listed, both as run through `MultiDiff`. -/
theorem rosen_brock_multidiff_gradient_witness :
    2 ≤ rosenPoint.length ∧ (rosenContext ℚ).num_dir = rosenPoint.length ∧
    (rosen_brock_MultiDiff (rosenContext ℚ)
        (vectorData (IndependentValues (rosenContext ℚ) rosenPoint) (exampleOld ℚ 0))
        (IndependentValues (rosenContext ℚ) rosenPoint).length).getValue
      = rosen_brock (fun i => rosenPoint.getD i 0) rosenPoint.length ∧
    rosen_brock (fun i => rosenPoint.getD i 0) rosenPoint.length = 2187857 ∧
    (List.range 10).map (rosen_brock_MultiDiff (rosenContext ℚ)
        (vectorData (IndependentValues (rosenContext ℚ) rosenPoint) (exampleOld ℚ 0))
        (IndependentValues (rosenContext ℚ) rosenPoint).length).getDiffValue
      = [19204, -139016, -9651, -52, 329416, -402222, 8806, -1255, 89560, -7400] :=
  ⟨by decide, rfl,
    (rosen_brock_multidiff_gradient (rosenContext ℚ) rosenPoint (exampleOld ℚ 0) (by decide)
      (by decide) rfl).1,
    by decide!, by decide!⟩

/-! ## SingleDiff on polynomials and exp -/

theorem polyExpr_value {K : Type} [Field K] (σ : Nat → SingleDiff K) (r : Nat)
    (q : PolyExpr K) : (q.toSingleDiff σ r).getValue σ = q.eval (σ r).val := by
  induction q with
  | x => rfl
  | const s => rfl
  | add a b iha ihb =>
    simp only [PolyExpr.toSingleDiff, SingleDiffOps.add, SingleDiffOps.SingleDiffPlus,
      SingleDiffExpr.getValue, PolyExpr.eval, iha, ihb]
  | mul a b iha ihb =>
    simp only [PolyExpr.toSingleDiff, SingleDiffOps.mul, SingleDiffOps.SingleDiffMul,
      SingleDiffExpr.getValue, PolyExpr.eval, iha, ihb]
  | addScalar a s iha =>
    simp only [PolyExpr.toSingleDiff, SingleDiffOps.addScalar,
      SingleDiffOps.ScalarSingleDiffPlus, SingleDiffExpr.getValue, PolyExpr.eval, iha]
    ring
  | scalarAdd s b ihb =>
    simp only [PolyExpr.toSingleDiff, SingleDiffOps.scalarAdd,
      SingleDiffOps.ScalarSingleDiffPlus, SingleDiffExpr.getValue, PolyExpr.eval, ihb]
  | mulScalar a s iha =>
    simp only [PolyExpr.toSingleDiff, SingleDiffOps.mulScalar,
      SingleDiffOps.ScalarSingleDiffMul, SingleDiffExpr.getValue, PolyExpr.eval, iha]
    ring
  | scalarMul s b ihb =>
    simp only [PolyExpr.toSingleDiff, SingleDiffOps.scalarMul,
      SingleDiffOps.ScalarSingleDiffMul, SingleDiffExpr.getValue, PolyExpr.eval, ihb]

theorem polyExpr_hasDerivAt (σ : Nat → SingleDiff ℝ) (r : Nat) (hr : (σ r).diffval = 1)
    (q : PolyExpr ℝ) :
    HasDerivAt (fun t => q.eval t) ((q.toSingleDiff σ r).getDiffValue σ) (σ r).val := by
  induction q with
  | x =>
    simp only [PolyExpr.toSingleDiff, SingleDiffExpr.getDiffValue, SingleDiff.getDiffValue,
      PolyExpr.eval, hr]
    exact hasDerivAt_id _
  | const s =>
    simp only [PolyExpr.toSingleDiff, SingleDiffExpr.getDiffValue, SingleDiff.getDiffValue,
      SingleDiff.ofValue, PolyExpr.eval]
    exact hasDerivAt_const _ _
  | add a b iha ihb =>
    simp only [PolyExpr.toSingleDiff, SingleDiffOps.add, SingleDiffOps.SingleDiffPlus,
      SingleDiffExpr.getDiffValue, PolyExpr.eval]
    exact iha.add ihb
  | mul a b iha ihb =>
    simp only [PolyExpr.toSingleDiff, SingleDiffOps.mul, SingleDiffOps.SingleDiffMul,
      SingleDiffExpr.getDiffValue, PolyExpr.eval]
    rw [polyExpr_value, polyExpr_value]
    exact (iha.mul ihb).congr_deriv (by ring)
  | addScalar a s iha =>
    simp only [PolyExpr.toSingleDiff, SingleDiffOps.addScalar,
      SingleDiffOps.ScalarSingleDiffPlus, SingleDiffExpr.getDiffValue, PolyExpr.eval]
    exact iha.add_const s
  | scalarAdd s b ihb =>
    simp only [PolyExpr.toSingleDiff, SingleDiffOps.scalarAdd,
      SingleDiffOps.ScalarSingleDiffPlus, SingleDiffExpr.getDiffValue, PolyExpr.eval]
    exact ihb.const_add s
  | mulScalar a s iha =>
    simp only [PolyExpr.toSingleDiff, SingleDiffOps.mulScalar,
      SingleDiffOps.ScalarSingleDiffMul, SingleDiffExpr.getDiffValue, PolyExpr.eval]
    exact (iha.mul_const s).congr_deriv (by ring)
  | scalarMul s b ihb =>
    simp only [PolyExpr.toSingleDiff, SingleDiffOps.scalarMul,
      SingleDiffOps.ScalarSingleDiffMul, SingleDiffExpr.getDiffValue, PolyExpr.eval]
    exact ihb.const_mul s

theorem horner_eval {K : Type} [Field K] (v : K) (n : Nat) (c : Nat → K) :
    (horner ((List.range n).map c)).eval v = ∑ k in Finset.range n, c k * v ^ k := by
  induction n generalizing c with
  | zero => rfl
  | succ n ih =>
    rw [List.range_succ_eq_map, List.map_cons, List.map_map, horner, PolyExpr.eval,
      PolyExpr.eval, PolyExpr.eval, ih, Finset.sum_range_succ', Finset.mul_sum]
    simp only [Function.comp, pow_succ, pow_zero, mul_one]
    rw [add_comm]
    congr 1
    refine Finset.sum_congr rfl fun k _ => ?_
    ring

theorem horner_eval_polynomial (p : Polynomial ℝ) (v : ℝ) :
    (horner ((List.range (p.natDegree + 1)).map p.coeff)).eval v = p.eval v := by
  rw [horner_eval, Polynomial.eval_eq_sum_range]

/-- C19: `SingleDiff` on polynomials and `exp`. After `x = v, 1`, every
polynomial written with `SingleDiff` additions and multiplications (with
`SingleDiff` or scalar operands) evaluates at `x` to the pair of its value at
`v` and its derivative at `v`; in particular for every real polynomial `p`,
evaluated in Horner form, the result is `( p(v), p'(v) )`. For every
`SingleDiff` `y = ( a, d )`, the expression `exp( y )`, and `y` itself after
`y = exp( y )`, is `( e^a, e^a * d )`. The polynomial
`1 + 2 x + 3 x^2 + 4 x^3 + 5 x^4 + 6 x^5` at `v = 1/2` gives `( 15/4, 99/8 )`. -/
theorem singlediff_polynomial_and_exp (σ : Nat → SingleDiff ℝ) (r : Nat) (v : ℝ)
    (q : PolyExpr ℝ) (p : Polynomial ℝ) :
    ((SingleDiff.ofExpr (Function.update σ r (((σ r).assignReal v).comma 1))
          (q.toSingleDiff (Function.update σ r (((σ r).assignReal v).comma 1)) r)).getValue
        = q.eval v ∧
      HasDerivAt (fun t => q.eval t)
        (SingleDiff.ofExpr (Function.update σ r (((σ r).assignReal v).comma 1))
          (q.toSingleDiff (Function.update σ r (((σ r).assignReal v).comma 1)) r)).getDiffValue
        v) ∧
    ((SingleDiff.ofExpr (Function.update σ r (((σ r).assignReal v).comma 1))
          ((horner ((List.range (p.natDegree + 1)).map p.coeff)).toSingleDiff
            (Function.update σ r (((σ r).assignReal v).comma 1)) r)).getValue
        = p.eval v ∧
      (SingleDiff.ofExpr (Function.update σ r (((σ r).assignReal v).comma 1))
          ((horner ((List.range (p.natDegree + 1)).map p.coeff)).toSingleDiff
            (Function.update σ r (((σ r).assignReal v).comma 1)) r)).getDiffValue
        = (Polynomial.derivative p).eval v) ∧
    (SingleDiff.ofExpr σ (SingleDiffOps.exp Real.exp σ (.var r))
        = ⟨Real.exp (σ r).val, Real.exp (σ r).val * (σ r).diffval⟩ ∧
      SingleDiff.assignExpr σ r (SingleDiffOps.exp Real.exp σ (.var r)) r
        = ⟨Real.exp (σ r).val, Real.exp (σ r).val * (σ r).diffval⟩) ∧
    ((SingleDiff.ofExpr (fun _ => (⟨1 / 2, 1⟩ : SingleDiff ℚ))
          ((horner [1, 2, 3, 4, 5, 6]).toSingleDiff (fun _ => ⟨1 / 2, 1⟩) 0)).getValue = 15 / 4 ∧
      (SingleDiff.ofExpr (fun _ => (⟨1 / 2, 1⟩ : SingleDiff ℚ))
          ((horner [1, 2, 3, 4, 5, 6]).toSingleDiff (fun _ => ⟨1 / 2, 1⟩) 0)).getDiffValue
        = 99 / 8) := by
  have hv : (Function.update σ r (((σ r).assignReal v).comma 1) r).val = v := by
    rw [Function.update_same]; rfl
  have hd : (Function.update σ r (((σ r).assignReal v).comma 1) r).diffval = 1 := by
    rw [Function.update_same]; rfl
  have hq : ∀ q : PolyExpr ℝ,
      (SingleDiff.ofExpr (Function.update σ r (((σ r).assignReal v).comma 1))
          (q.toSingleDiff (Function.update σ r (((σ r).assignReal v).comma 1)) r)).getValue
        = q.eval v ∧
      HasDerivAt (fun t => q.eval t)
        (SingleDiff.ofExpr (Function.update σ r (((σ r).assignReal v).comma 1))
          (q.toSingleDiff (Function.update σ r (((σ r).assignReal v).comma 1)) r)).getDiffValue
        v := by
    intro q
    have h1 := polyExpr_value (Function.update σ r (((σ r).assignReal v).comma 1)) r q
    have h2 := polyExpr_hasDerivAt (Function.update σ r (((σ r).assignReal v).comma 1)) r hd q
    rw [hv] at h1 h2
    exact ⟨h1, h2⟩
  refine ⟨hq q, ⟨?_, ?_⟩, ⟨rfl, ?_⟩, by decide!, by decide!⟩
  · rw [(hq _).1, horner_eval_polynomial]
  · have h := (hq (horner ((List.range (p.natDegree + 1)).map p.coeff))).2
    have hf : (fun t => (horner ((List.range (p.natDegree + 1)).map p.coeff)).eval t)
        = fun t => p.eval t := funext fun t => horner_eval_polynomial p t
    rw [hf] at h
    exact h.unique (p.hasDerivAt v)
  · unfold SingleDiff.assignExpr
    rw [Function.update_same]
    simp only [SingleDiffOps.exp, SingleDiffOps.SingleDiffExp, SingleDiffExpr.getValue,
      SingleDiffExpr.getDiffValue, Function.update_same, SingleDiff.getValue,
      SingleDiff.getDiffValue]

/-! ## gn_sbfgs_min: the initial evaluation -/

theorem axpy_spec {K : Type} [Field K] (N : Nat) (alpha : K) (X Y : Nat → K) (j : Nat) :
    axpy N alpha X 1 Y 1 j = if j < N then alpha * X j + Y j else Y j := by
  unfold axpy
  induction N with
  | zero => simp
  | succ n ih =>
    rw [List.range_succ, List.foldl_append]
    simp only [List.foldl_cons, List.foldl_nil, Nat.mul_one, Function.update_apply]
    simp only [Nat.mul_one] at ih
    by_cases h : j = n
    · subst h
      rw [if_pos rfl, if_pos (Nat.lt_succ_self j), ih, if_neg (Nat.lt_irrefl j)]
    · rw [if_neg h, ih]
      by_cases h2 : j < n
      · rw [if_pos h2, if_pos (Nat.lt_succ_of_lt h2)]
      · rw [if_neg h2, if_neg (by omega)]

theorem syr_row_spec {K : Type} [Field K] (alpha : K) (X : Nat → K) (lda : Nat) (m : Nat → K)
    (i cnt : Nat) (hcnt : cnt ≤ lda) (i' j' : Nat) (hj' : j' < lda) :
    (List.range cnt).foldl
      (fun m' j => Function.update m' (i * lda + j)
        (m' (i * lda + j) + X (i * 1) * (alpha * X (j * 1)))) m (i' * lda + j')
      = if i' = i ∧ j' < cnt then m (i' * lda + j') + X i' * (alpha * X j')
        else m (i' * lda + j') := by
  induction cnt with
  | zero => simp
  | succ n ih =>
    rw [List.range_succ, List.foldl_append]
    simp only [List.foldl_cons, List.foldl_nil, Nat.mul_one, Function.update_apply]
    simp only [Nat.mul_one] at ih
    by_cases h : i' * lda + j' = i * lda + n
    · obtain ⟨h1, h2⟩ := idx_inj lda i' j' i n hj' (by omega) h
      subst h1 h2
      rw [if_pos rfl, if_pos ⟨rfl, Nat.lt_succ_self _⟩, ih (by omega),
        if_neg (fun hh => Nat.lt_irrefl _ hh.2)]
    · rw [if_neg h, ih (by omega)]
      by_cases h2 : i' = i ∧ j' < n
      · rw [if_pos h2, if_pos ⟨h2.1, Nat.lt_succ_of_lt h2.2⟩]
      · rw [if_neg h2, if_neg]
        rintro ⟨h3, h4⟩
        subst h3
        have : j' = n := by
          by_contra hne
          exact h2 ⟨rfl, by omega⟩
        subst this
        exact h rfl

theorem syr_spec {K : Type} [Field K] (N : Nat) (alpha : K) (X A : Nat → K) (lda : Nat)
    (hN : N ≤ lda) (i j : Nat) (hj : j < lda) :
    syr N alpha X 1 A lda (i * lda + j)
      = if i < N ∧ j ≤ i then A (i * lda + j) + X i * (alpha * X j) else A (i * lda + j) := by
  unfold syr
  induction N with
  | zero => simp
  | succ n ih =>
    rw [List.range_succ, List.foldl_append]
    simp only [List.foldl_cons, List.foldl_nil]
    rw [syr_row_spec alpha X lda _ n (n + 1) hN i j hj, ih (by omega)]
    by_cases h : i = n ∧ j < n + 1
    · obtain ⟨h1, h2⟩ := h
      subst h1
      rw [if_pos ⟨rfl, h2⟩, if_neg (fun hh => Nat.lt_irrefl _ hh.1),
        if_pos ⟨Nat.lt_succ_self _, by omega⟩]
    · rw [if_neg h]
      by_cases h2 : i < n ∧ j ≤ i
      · rw [if_pos h2, if_pos ⟨Nat.lt_succ_of_lt h2.1, h2.2⟩]
      · rw [if_neg h2, if_neg]
        rintro ⟨h3, h4⟩
        have : i = n := by
          by_contra hne
          exact h2 ⟨by omega, h4⟩
        exact h ⟨this, by omega⟩

theorem gn_set_diagonal_spec {K : Type} (N CN : Nat) (normr : K) (A_ : Nat → K) (hN : N ≤ CN)
    (i j : Nat) (hj : j < CN) :
    gn_set_diagonal N CN normr A_ (i * CN + j)
      = if i < N ∧ i = j then normr else A_ (i * CN + j) := by
  unfold gn_set_diagonal
  induction N with
  | zero => simp
  | succ n ih =>
    rw [List.range_succ, List.foldl_append]
    simp only [List.foldl_cons, List.foldl_nil, Function.update_apply]
    by_cases h : i * CN + j = n * CN + n
    · obtain ⟨h1, h2⟩ := idx_inj CN i j n n hj (by omega) h
      subst h1 h2
      rw [if_pos rfl, if_pos ⟨Nat.lt_succ_self _, rfl⟩]
    · rw [if_neg h, ih (by omega)]
      by_cases h2 : i < n ∧ i = j
      · rw [if_pos h2, if_pos ⟨Nat.lt_succ_of_lt h2.1, h2.2⟩]
      · rw [if_neg h2, if_neg]
        rintro ⟨h3, h4⟩
        subst h4
        have : i = n := by
          by_contra hne
          exact h2 ⟨by omega, rfl⟩
        subst this
        exact h rfl

theorem gn_residual_sweep_spec {K : Type} [Field K] (N CN : Nat) (hN : N ≤ CN)
    (tp : Nat → MultiDiff K) (residuals : Nat → (Nat → MultiDiff K) → MultiDiff K)
    (st0 : GnState K) (M : Nat) :
    ((List.range M).foldl (gn_residual_step N CN tp residuals) st0).normr2
      = st0.normr2 + ∑ k in Finset.range M, (residuals k tp).getValue * (residuals k tp).getValue ∧
    (∀ j, j < N → ((List.range M).foldl (gn_residual_step N CN tp residuals) st0).g j
      = st0.g j + ∑ k in Finset.range M,
          (residuals k tp).getValue * (residuals k tp).getDiffValue j) ∧
    (∀ j, N ≤ j → ((List.range M).foldl (gn_residual_step N CN tp residuals) st0).g j
      = st0.g j) ∧
    ((List.range M).foldl (gn_residual_step N CN tp residuals) st0).A_ = st0.A_ ∧
    (∀ i j, i < N → j ≤ i →
      ((List.range M).foldl (gn_residual_step N CN tp residuals) st0).B_ (i * CN + j)
        = st0.B_ (i * CN + j) + ∑ k in Finset.range M,
            (residuals k tp).getDiffValue i * (residuals k tp).getDiffValue j) ∧
    ∀ i, i < M →
      ((List.range M).foldl (gn_residual_step N CN tp residuals) st0).r i = residuals i tp := by
  induction M with
  | zero =>
    refine ⟨by simp, fun j _ => by simp, fun j _ => rfl, rfl, fun i j _ _ => by simp,
      fun i hi => absurd hi (Nat.not_lt_zero i)⟩
  | succ n ih =>
    obtain ⟨h1, h2, h3, h4, h5, h6⟩ := ih
    rw [List.range_succ, List.foldl_append]
    simp only [List.foldl_cons, List.foldl_nil]
    refine ⟨?_, fun j hj => ?_, fun j hj => ?_, h4, fun i j hi hj => ?_, fun i hi => ?_⟩
    · simp only [gn_residual_step]
      rw [h1, Finset.sum_range_succ, add_assoc]
    · simp only [gn_residual_step]
      rw [axpy_spec, if_pos hj, h2 j hj, Finset.sum_range_succ]
      unfold MultiDiff.getDiffValue
      ring
    · simp only [gn_residual_step]
      rw [axpy_spec, if_neg (by omega), h3 j hj]
    · simp only [gn_residual_step]
      rw [syr_spec N 1 _ _ CN hN i j (by omega), if_pos ⟨hi, hj⟩, h5 i j hi hj,
        Finset.sum_range_succ]
      unfold MultiDiff.getDiffValue
      ring
    · simp only [gn_residual_step, Function.update_apply]
      by_cases h : i = n
      · subst h
        rw [if_pos rfl]
        rfl
      · rw [if_neg h]
        exact h6 i (by omega)

theorem idx_lt_size (N CN i j : Nat) (hi : i < N) (hj : j < CN) : i * CN + j < N * CN := by
  have h1 : (i + 1) * CN ≤ N * CN := Nat.mul_le_mul_right CN hi
  rw [Nat.succ_mul] at h1
  omega

theorem gn_sbfgs_min_init_spec {K : Type} [Field K] (sqrt : K → K) (c : Context K)
    (old : Nat → MultiDiff K) (params : Fin c.num_dir → K) (M : Nat)
    (residuals : Nat → (Nat → MultiDiff K) → MultiDiff K) (g0 A0 B0 : Nat → K)
    (r0 : Nat → MultiDiff K) :
    (gn_sbfgs_min_init sqrt c old params M residuals g0 A0 B0 r0).normr2
      = ∑ k in Finset.range M, (residuals k (Independent c old params)).getValue
          * (residuals k (Independent c old params)).getValue ∧
    (∀ j, j < c.num_dir →
      (gn_sbfgs_min_init sqrt c old params M residuals g0 A0 B0 r0).g j
        = ∑ k in Finset.range M, (residuals k (Independent c old params)).getValue
            * (residuals k (Independent c old params)).getDiffValue j) ∧
    (∀ i j, i < c.num_dir → j < next_size c.W c.num_dir →
      (gn_sbfgs_min_init sqrt c old params M residuals g0 A0 B0 r0).A_
          (i * next_size c.W c.num_dir + j)
        = if i = j then
            1 / 10000 * sqrt (gn_sbfgs_min_init sqrt c old params M residuals g0 A0 B0 r0).normr2
          else 0) ∧
    (∀ i j, i < c.num_dir → j ≤ i →
      (gn_sbfgs_min_init sqrt c old params M residuals g0 A0 B0 r0).B_
          (i * next_size c.W c.num_dir + j)
        = (∑ k in Finset.range M, (residuals k (Independent c old params)).getDiffValue i
            * (residuals k (Independent c old params)).getDiffValue j)
          + (gn_sbfgs_min_init sqrt c old params M residuals g0 A0 B0 r0).A_
              (i * next_size c.W c.num_dir + j)) := by
  have hN : c.num_dir ≤ next_size c.W c.num_dir := le_next_size c.W c.num_dir c.W_pos
  obtain ⟨h1, h2, -, h4, h5, -⟩ := gn_residual_sweep_spec c.num_dir (next_size c.W c.num_dir) hN
    (Independent c old params) residuals
    ⟨0, aligned_fill 0 g0 0 (next_size c.W c.num_dir),
      aligned_fill 0 A0 0 (c.num_dir * next_size c.W c.num_dir),
      aligned_fill 0 B0 0 (c.num_dir * next_size c.W c.num_dir), r0⟩ M
  simp only [gn_sbfgs_min_init]
  refine ⟨?_, fun j hj => ?_, fun i j hi hj => ?_, fun i j hi hj => ?_⟩
  · rw [h1, zero_add]
  · rw [h2 j hj]
    simp only [aligned_fill]
    rw [if_pos ⟨Nat.zero_le _, by omega⟩, zero_add]
  · rw [gn_set_diagonal_spec _ _ _ _ hN i j hj, h4]
    by_cases h : i = j
    · rw [if_pos ⟨hi, h⟩, if_pos h]
    · rw [if_neg (fun hh => h hh.2), if_neg h]
      simp only [aligned_fill]
      rw [if_pos ⟨Nat.zero_le _, idx_lt_size _ _ i j hi hj⟩]
  · simp only [aligned_transform_1]
    rw [if_pos (idx_lt_size _ _ i j hi (by omega)), h5 i j hi hj]
    simp only [aligned_fill]
    rw [if_pos ⟨Nat.zero_le _, idx_lt_size _ _ i j hi (by omega)⟩, zero_add]

/-- C20: the initial evaluation of `gn_sbfgs_min`. With `N` parameters,
`CN = next_size( N )`, `M` residuals and `r_k` the `MultiDiff` object that
residual `k` returns on the parameters seeded as independents, before the
first iteration: `normr2` is the sum of the `r_k.getValue()^2`; `g[j]` is the
sum of `r_k.getValue() * r_k.getDiffValue( j )` for `j < N`; `A( i, j )` is
`1e-4 * sqrt( normr2 )` on the diagonal and 0 elsewhere in the `N` rows; and
in the lower triangle `j <= i < N`, `B( i, j )` is the sum of
`r_k.getDiffValue( i ) * r_k.getDiffValue( j )` plus `A( i, j )`. This holds
whatever the new arrays held before. -/
theorem gn_sbfgs_min_initial_evaluation {K : Type} [Field K] (sqrt : K → K) (c : Context K)
    (old : Nat → MultiDiff K) (params : Fin c.num_dir → K) (M : Nat)
    (residuals : Nat → (Nat → MultiDiff K) → MultiDiff K) (g0 A0 B0 : Nat → K)
    (r0 : Nat → MultiDiff K) :
    (gn_sbfgs_min_init sqrt c old params M residuals g0 A0 B0 r0).normr2
      = ∑ k in Finset.range M, (residuals k (Independent c old params)).getValue
          * (residuals k (Independent c old params)).getValue ∧
    (∀ j, j < c.num_dir →
      (gn_sbfgs_min_init sqrt c old params M residuals g0 A0 B0 r0).g j
        = ∑ k in Finset.range M, (residuals k (Independent c old params)).getValue
            * (residuals k (Independent c old params)).getDiffValue j) ∧
    (∀ i j, i < c.num_dir → j < next_size c.W c.num_dir →
      (gn_sbfgs_min_init sqrt c old params M residuals g0 A0 B0 r0).A_
          (i * next_size c.W c.num_dir + j)
        = if i = j then
            1 / 10000 * sqrt (gn_sbfgs_min_init sqrt c old params M residuals g0 A0 B0 r0).normr2
          else 0) ∧
    (∀ i j, i < c.num_dir → j ≤ i →
      (gn_sbfgs_min_init sqrt c old params M residuals g0 A0 B0 r0).B_
          (i * next_size c.W c.num_dir + j)
        = (∑ k in Finset.range M, (residuals k (Independent c old params)).getDiffValue i
            * (residuals k (Independent c old params)).getDiffValue j)
          + (gn_sbfgs_min_init sqrt c old params M residuals g0 A0 B0 r0).A_
              (i * next_size c.W c.num_dir + j)) :=
  gn_sbfgs_min_init_spec sqrt c old params M residuals g0 A0 B0 r0

/-! ## gn_sbfgs_min: the loop and its trace -/

theorem gn_loop_trace {K : Type} [LinearOrderedField K] (env : GnEnv K) :
    ∀ (n : Nat) (v : GnVars K),
      (gn_loop env n v).heads.length = (gn_loop env n v).iterations ∧
      (gn_loop env n v).iterations ≤ n ∧
      (0 < n → (gn_loop env n v).heads[0]? = some v) ∧
      (n = 0 → (gn_loop env n v).vars = v ∧ (gn_loop env n v).stop = GnStop.running) ∧
      (∀ k a b, (gn_loop env n v).heads[k]? = some a → (gn_loop env n v).heads[k + 1]? = some b →
        (gn_iteration env a).2 = GnStop.running ∧ b = (gn_iteration env a).1) ∧
      (∀ k a, (gn_loop env n v).heads[k]? = some a → k + 1 = (gn_loop env n v).heads.length →
        (gn_loop env n v).vars = (gn_iteration env a).1 ∧
        (gn_loop env n v).stop = (gn_iteration env a).2 ∧
        ((gn_iteration env a).2 = GnStop.running → k + 1 = n)) := by
  intro n
  induction n with
  | zero =>
    intro v
    simp [gn_loop]
  | succ n ih =>
    intro v
    obtain ⟨h1, h2, h3, h4, h5, h6⟩ := ih (gn_iteration env v).1
    by_cases hr : (gn_iteration env v).2 = GnStop.running
    · simp only [gn_loop, if_pos hr]
      refine ⟨by simp [h1], by omega, fun _ => by simp, fun h => by omega, ?_, ?_⟩
      · intro k a b ha hb
        cases k with
        | zero =>
          simp only [List.getElem?_cons_zero, Option.some.injEq] at ha
          subst ha
          rw [List.getElem?_cons_succ] at hb
          by_cases hn : 0 < n
          · rw [h3 hn] at hb
            exact ⟨hr, (Option.some.inj hb).symm⟩
          · have hn0 : n = 0 := by omega
            subst hn0
            simp [gn_loop] at hb
        | succ k =>
          rw [List.getElem?_cons_succ] at ha hb
          exact h5 k a b ha hb
      · intro k a ha hk
        cases k with
        | zero =>
          simp only [List.getElem?_cons_zero, Option.some.injEq] at ha
          subst ha
          simp only [List.length_cons] at hk
          have hlen : (gn_loop env n (gn_iteration env v).1).heads.length = 0 := by omega
          have hn0 : n = 0 := by
            by_contra hne
            have := h3 (by omega)
            rw [List.getElem?_eq_none (by omega)] at this
            exact absurd this (by simp)
          subst hn0
          refine ⟨(h4 rfl).1, ?_, fun _ => rfl⟩
          rw [(h4 rfl).2, hr]
        | succ k =>
          rw [List.getElem?_cons_succ] at ha
          simp only [List.length_cons] at hk
          obtain ⟨e1, e2, e3⟩ := h6 k a ha (by omega)
          exact ⟨e1, e2, fun h => by have := e3 h; omega⟩
    · simp only [gn_loop, if_neg hr]
      refine ⟨rfl, by omega, fun _ => rfl, fun h => by omega, ?_, ?_⟩
      · intro k a b _ hb
        simp at hb
      · intro k a ha hk
        simp only [List.length_singleton] at hk
        have hk0 : k = 0 := by omega
        subst hk0
        simp only [List.getElem?_cons_zero, Option.some.injEq] at ha
        subst ha
        exact ⟨rfl, rfl, fun h => absurd h hr⟩

theorem gn_loop_stops {K : Type} [LinearOrderedField K] (env : GnEnv K) (n : Nat)
    (v : GnVars K) (k : Nat) (a : GnVars K) (ha : (gn_loop env n v).heads[k]? = some a)
    (hs : (gn_iteration env a).2 ≠ GnStop.running) :
    k + 1 = (gn_loop env n v).heads.length := by
  obtain ⟨-, -, -, -, h5, -⟩ := gn_loop_trace env n v
  have hk : k < (gn_loop env n v).heads.length := by
    by_contra h
    rw [List.getElem?_eq_none (by omega)] at ha
    exact absurd ha (by simp)
  by_contra hne
  have hk1 : k + 1 < (gn_loop env n v).heads.length := by omega
  have hb : (gn_loop env n v).heads[k + 1]? = some ((gn_loop env n v).heads.get ⟨k + 1, hk1⟩) :=
    List.getElem?_eq_getElem hk1
  exact hs (h5 k a _ ha hb).1

theorem gn_iteration_noStep {K : Type} [LinearOrderedField K] (env : GnEnv K) (v : GnVars K)
    (hf : (gn_line_search env (gn_direction env v).2).ret = false) :
    gn_iteration env v = ((gn_direction env v).2, GnStop.noStep) := by
  simp only [gn_iteration, hf]
  rfl

theorem gn_heads_zero {K : Type} [LinearOrderedField K] (env : GnEnv K) (MAXITER : Nat)
    (old : Nat → MultiDiff K) (params g0 s0 z0 As0 A0 B0 : Nat → K) (r0 : Nat → MultiDiff K)
    (a : GnVars K)
    (ha : (gn_sbfgs_min env MAXITER old params g0 s0 z0 As0 A0 B0 r0).heads[0]? = some a) :
    a = gn_initial_vars env old params g0 s0 z0 As0 A0 B0 r0 := by
  unfold gn_sbfgs_min at ha
  by_cases hn : 0 < MAXITER
  · rw [(gn_loop_trace env MAXITER _).2.2.1 hn] at ha
    exact (Option.some.inj ha).symm
  · have h0 : MAXITER = 0 := by omega
    subst h0
    simp [gn_loop] at ha

theorem gn_failure_run {K : Type} [LinearOrderedField K] (env : GnEnv K)
    (MAXITER : Nat) (old : Nat → MultiDiff K) (params g0 s0 z0 As0 A0 B0 : Nat → K)
    (r0 : Nat → MultiDiff K) (k : Nat) (a : GnVars K)
    (ha : (gn_sbfgs_min env MAXITER old params g0 s0 z0 As0 A0 B0 r0).heads[k]? = some a)
    (hf : (gn_line_search env (gn_direction env a).2).ret = false) :
    (gn_sbfgs_min env MAXITER old params g0 s0 z0 As0 A0 B0 r0).iterations = k + 1 ∧
    (gn_sbfgs_min env MAXITER old params g0 s0 z0 As0 A0 B0 r0).stop = GnStop.noStep ∧
    (∀ i, (gn_sbfgs_min env MAXITER old params g0 s0 z0 As0 A0 B0 r0).vars.params i
      = a.params i) ∧
    (k = 0 → ∀ i, (gn_sbfgs_min env MAXITER old params g0 s0 z0 As0 A0 B0 r0).vars.params i
      = params i) := by
  have hit := gn_iteration_noStep env a hf
  have hlen := gn_loop_stops env MAXITER _ k a ha (by rw [hit]; exact fun h => GnStop.noConfusion h)
  obtain ⟨h1, -, -, -, -, h6⟩ := gn_loop_trace env MAXITER
    (gn_initial_vars env old params g0 s0 z0 As0 A0 B0 r0)
  obtain ⟨e1, e2, -⟩ := h6 k a ha hlen
  have hp : ∀ i, (gn_sbfgs_min env MAXITER old params g0 s0 z0 As0 A0 B0 r0).vars.params i
      = a.params i := by
    intro i
    unfold gn_sbfgs_min
    rw [e1, hit]
    rfl
  refine ⟨?_, ?_, hp, fun hk i => ?_⟩
  · unfold gn_sbfgs_min
    rw [← h1, ← hlen]
  · unfold gn_sbfgs_min
    rw [e2, hit]
  · subst hk
    rw [hp i, gn_heads_zero env MAXITER old params g0 s0 z0 As0 A0 B0 r0 a ha]
    rfl

theorem line_search_loop_nonfinite {K : Type} [LinearOrderedField K] (isfinite : K → Bool)
    (inf : K) (f0 : SingleDiff K) (f : K → SingleDiff K) :
    ∀ (n : Nat) (alpha up : K) (tr : List K), 0 ≤ alpha → alpha < inf →
      (∀ l, l < n → isfinite (f (alpha / 2 ^ l)).getValue = false) →
      line_search_loop isfinite inf f0 f n alpha 0 up tr
        = ⟨false, alpha / 2 ^ n, tr ++ (List.range n).map (fun l => alpha / 2 ^ l)⟩ := by
  intro n
  induction n with
  | zero =>
    intro alpha up tr _ _ _
    simp [line_search_loop]
  | succ n ih =>
    intro alpha up tr h0 hinf hnf
    have hfin : isfinite (f alpha).getValue = false := by
      have := hnf 0 (Nat.succ_pos n)
      simpa using this
    rw [line_search_loop]
    simp only [hfin, Bool.not_false, Bool.true_or, if_true]
    have hna : next_alpha inf alpha 0 alpha = alpha / 2 := by
      unfold next_alpha
      rw [if_pos hinf, add_zero]
    rw [hna, ih (alpha / 2) alpha (tr ++ [alpha]) (by positivity)
      (lt_of_le_of_lt (by linarith) hinf)
      (fun l hl => by
        have := hnf (l + 1) (Nat.succ_lt_succ hl)
        rwa [pow_succ, mul_comm, ← div_div] at this)]
    congr 1
    · rw [pow_succ, mul_comm, div_div]
    · rw [List.range_succ_eq_map, List.map_cons, List.map_map, List.append_assoc]
      congr 2
      · simp
        intro l _
        rw [pow_succ, mul_comm, div_div]

theorem line_search_nonfinite {K : Type} [LinearOrderedField K] (isfinite : K → Bool)
    (inf : K) (n : Nat) (f0 : SingleDiff K) (f : K → SingleDiff K) (alpha0 : K)
    (h0 : 0 ≤ alpha0) (hinf : alpha0 < inf)
    (hnf : ∀ l, l < n → isfinite (f (alpha0 / 2 ^ l)).getValue = false) :
    (line_search isfinite inf n f0 f alpha0).ret = false ∧
    (line_search isfinite inf n f0 f alpha0).evals
      = (List.range n).map (fun l => alpha0 / 2 ^ l) := by
  unfold line_search
  rw [line_search_loop_nonfinite isfinite inf f0 f n alpha0 inf [] h0 hinf hnf]
  exact ⟨rfl, List.nil_append _⟩

theorem gn_heads_zero_some {K : Type} [LinearOrderedField K] (env : GnEnv K) (MAXITER : Nat)
    (h : 0 < MAXITER) (old : Nat → MultiDiff K) (params g0 s0 z0 As0 A0 B0 : Nat → K)
    (r0 : Nat → MultiDiff K) :
    (gn_sbfgs_min env MAXITER old params g0 s0 z0 As0 A0 B0 r0).heads[0]?
      = some (gn_initial_vars env old params g0 s0 z0 As0 A0 B0 r0) :=
  (gn_loop_trace env MAXITER _).2.2.1 h

/-! ## gn_sbfgs_min: line-search failure -/

/-- C22: a failed line search is terminal and leaves the iterate intact. If
in the iteration number `k` of a run of `gn_sbfgs_min` (started with the
variables `a`) `line_search` returns false, then the run ends in that
iteration with the diagnostic that no step was found, and `params` on return
is what it was at the start of that iteration, which for `k = 0` is the
initial `params`. -/
theorem gn_line_search_failure_terminal {K : Type} [LinearOrderedField K] (env : GnEnv K)
    (MAXITER : Nat) (old : Nat → MultiDiff K) (params g0 s0 z0 As0 A0 B0 : Nat → K)
    (r0 : Nat → MultiDiff K) (k : Nat) (a : GnVars K)
    (ha : (gn_sbfgs_min env MAXITER old params g0 s0 z0 As0 A0 B0 r0).heads[k]? = some a)
    (hf : (gn_line_search env (gn_direction env a).2).ret = false) :
    (gn_sbfgs_min env MAXITER old params g0 s0 z0 As0 A0 B0 r0).iterations = k + 1 ∧
    (gn_sbfgs_min env MAXITER old params g0 s0 z0 As0 A0 B0 r0).stop = GnStop.noStep ∧
    (∀ i, (gn_sbfgs_min env MAXITER old params g0 s0 z0 As0 A0 B0 r0).vars.params i
      = a.params i) ∧
    (k = 0 → ∀ i, (gn_sbfgs_min env MAXITER old params g0 s0 z0 As0 A0 B0 r0).vars.params i
      = params i) :=
  gn_failure_run env MAXITER old params g0 s0 z0 As0 A0 B0 r0 k a ha hf

/-- Witness for C22: the problem with the residual `x[0] - 201`, started at
`x[0] = 0` with `MAXITER = 3`, when every value of the line function is
non-finite: the line search of the first iteration fails, the run ends after
one iteration and `params[0]` is still 0. -/
theorem gn_line_search_failure_terminal_witness :
    (gn_line_search gnNonfiniteEnv (gn_direction gnNonfiniteEnv
      (gn_initial_vars gnNonfiniteEnv (exampleOld ℚ) (fun _ => 0) gnJunk gnJunk gnJunk gnJunk
        gnJunk gnJunk (exampleOld ℚ))).2).ret = false ∧
    (gn_sbfgs_min gnNonfiniteEnv 3 (exampleOld ℚ) (fun _ => 0) gnJunk gnJunk gnJunk gnJunk gnJunk
        gnJunk (exampleOld ℚ)).iterations = 1 ∧
    (gn_sbfgs_min gnNonfiniteEnv 3 (exampleOld ℚ) (fun _ => 0) gnJunk gnJunk gnJunk gnJunk gnJunk
        gnJunk (exampleOld ℚ)).stop = GnStop.noStep ∧
    (gn_sbfgs_min gnNonfiniteEnv 3 (exampleOld ℚ) (fun _ => 0) gnJunk gnJunk gnJunk gnJunk gnJunk
        gnJunk (exampleOld ℚ)).vars.params 0 = 0 :=
  have hf : (gn_line_search gnNonfiniteEnv (gn_direction gnNonfiniteEnv
      (gn_initial_vars gnNonfiniteEnv (exampleOld ℚ) (fun _ => 0) gnJunk gnJunk gnJunk gnJunk
        gnJunk gnJunk (exampleOld ℚ))).2).ret = false := by decide!
  have h := gn_line_search_failure_terminal gnNonfiniteEnv 3 (exampleOld ℚ) (fun _ => 0) gnJunk
    gnJunk gnJunk gnJunk gnJunk gnJunk (exampleOld ℚ) 0 _
    (gn_heads_zero_some gnNonfiniteEnv 3 (by decide) _ _ _ _ _ _ _ _ _) hf
  ⟨hf, h.1, h.2.1, h.2.2.2 rfl 0⟩

/-- C30: line-search failure on non-finite `phi`. If the value of
`phi( alpha )` is non-finite at every trial step, `line_search` (started at
`alpha0` with `0 <= alpha0 < inf`) takes the branch `up = alpha` each time,
tests exactly the `K` step lengths `alpha0, alpha0 / 2, alpha0 / 4, ...` and
returns false. When this happens in iteration `k` of `gn_sbfgs_min` (where
`alpha0 = 1`), the run ends in that iteration with the diagnostic that no step
satisfying the weak Wolfe conditions was found, `params` being what it was at
the start of the iteration. -/
theorem line_search_nonfinite_phi {K : Type} [LinearOrderedField K] (env : GnEnv K)
    (MAXITER : Nat) (old : Nat → MultiDiff K) (params g0 s0 z0 As0 A0 B0 : Nat → K)
    (r0 : Nat → MultiDiff K) (k : Nat) (a : GnVars K) (f0 : SingleDiff K)
    (f : K → SingleDiff K) (alpha0 : K)
    (ha : (gn_sbfgs_min env MAXITER old params g0 s0 z0 As0 A0 B0 r0).heads[k]? = some a)
    (hinf : 1 < env.inf)
    (hnf : ∀ l, l < env.LINESEARCH_MAXITER →
      env.isfinite (eval_step_size env.N env.M env.residualsSD (gn_direction env a).2.params
        (gn_direction env a).2.s (1 / 2 ^ l)).getValue = false)
    (h0 : 0 ≤ alpha0) (hlt : alpha0 < env.inf)
    (hf : ∀ l, l < env.LINESEARCH_MAXITER →
      env.isfinite (f (alpha0 / 2 ^ l)).getValue = false) :
    ((line_search env.isfinite env.inf env.LINESEARCH_MAXITER f0 f alpha0).ret = false ∧
      (line_search env.isfinite env.inf env.LINESEARCH_MAXITER f0 f alpha0).evals
        = (List.range env.LINESEARCH_MAXITER).map (fun l => alpha0 / 2 ^ l)) ∧
    ((gn_line_search env (gn_direction env a).2).ret = false ∧
      (gn_line_search env (gn_direction env a).2).evals
        = (List.range env.LINESEARCH_MAXITER).map (fun l => 1 / 2 ^ l)) ∧
    (gn_sbfgs_min env MAXITER old params g0 s0 z0 As0 A0 B0 r0).iterations = k + 1 ∧
    (gn_sbfgs_min env MAXITER old params g0 s0 z0 As0 A0 B0 r0).stop = GnStop.noStep ∧
    ∀ i, (gn_sbfgs_min env MAXITER old params g0 s0 z0 As0 A0 B0 r0).vars.params i
      = a.params i := by
  have hls := line_search_nonfinite env.isfinite env.inf env.LINESEARCH_MAXITER
    ((SingleDiff.assignReal ⟨0, 0⟩ (1 / 2 * (gn_direction env a).2.normr2)).comma
      (dot env.N (gn_direction env a).2.g 1 (gn_direction env a).2.s 1))
    (eval_step_size env.N env.M env.residualsSD (gn_direction env a).2.params
      (gn_direction env a).2.s) 1 zero_le_one hinf hnf
  have hrun := gn_failure_run env MAXITER old params g0 s0 z0 As0 A0 B0 r0 k a ha hls.1
  exact ⟨line_search_nonfinite env.isfinite env.inf env.LINESEARCH_MAXITER f0 f alpha0 h0 hlt hf,
    hls, hrun.1, hrun.2.1, hrun.2.2.1⟩

/-- Witness for C30: the same problem and start; with `K = 35` the line search
of the first iteration tests `1, 1/2, ..., 1/2^34` and the run ends there with
`params[0]` still 0. -/
theorem line_search_nonfinite_phi_witness :
    (1 : ℚ) < gnNonfiniteEnv.inf ∧
    (gn_line_search gnNonfiniteEnv (gn_direction gnNonfiniteEnv
      (gn_initial_vars gnNonfiniteEnv (exampleOld ℚ) (fun _ => 0) gnJunk gnJunk gnJunk gnJunk
        gnJunk gnJunk (exampleOld ℚ))).2).evals
      = (List.range 35).map (fun l => 1 / 2 ^ l) ∧
    (gn_sbfgs_min gnNonfiniteEnv 3 (exampleOld ℚ) (fun _ => 0) gnJunk gnJunk gnJunk gnJunk gnJunk
        gnJunk (exampleOld ℚ)).stop = GnStop.noStep ∧
    (gn_sbfgs_min gnNonfiniteEnv 3 (exampleOld ℚ) (fun _ => 0) gnJunk gnJunk gnJunk gnJunk gnJunk
        gnJunk (exampleOld ℚ)).vars.params 0 = 0 :=
  have hinf : (1 : ℚ) < gnNonfiniteEnv.inf := by decide!
  have h := line_search_nonfinite_phi gnNonfiniteEnv 3 (exampleOld ℚ) (fun _ => 0) gnJunk
    gnJunk gnJunk gnJunk gnJunk gnJunk (exampleOld ℚ) 0 _ ⟨0, -1⟩ (fun _ => ⟨1, 0⟩) 1
    (gn_heads_zero_some gnNonfiniteEnv 3 (by decide) _ _ _ _ _ _ _ _ _) hinf
    (fun _ _ => rfl) zero_le_one hinf (fun _ _ => rfl)
  ⟨hinf, h.2.1.2, h.2.2.2.1, h.2.2.2.2 0⟩

/-! ## gn_sbfgs_min: MAXITER bounds the work -/

theorem list_sum_le_length_mul (l : List Nat) (b : Nat) (h : ∀ x ∈ l, x ≤ b) :
    l.sum ≤ l.length * b := by
  induction l with
  | nil => simp
  | cons x xs ih =>
    simp only [List.sum_cons, List.length_cons]
    have h1 := h x (List.mem_cons_self x xs)
    have h2 := ih (fun y hy => h y (List.mem_cons_of_mem x hy))
    rw [Nat.succ_mul]
    omega

/-- C27: `MAXITER` bounds the total work. Every run of `gn_sbfgs_min` (a
total function of its input, the residual functors being functions) makes at
most `MAXITER` iterations; each iteration calls `cholesky_solve` once and
`line_search` once, the latter evaluating `eval_step_size` at most `K` times
(`K` the iteration bound of `line_search`); hence the run makes at most
`1 + MAXITER` sweeps over the residuals at `MultiDiff` and at most
`MAXITER * K` sweeps at `SingleDiff`. -/
theorem gn_maxiter_bounds_work {K : Type} [LinearOrderedField K] (env : GnEnv K)
    (MAXITER : Nat) (old : Nat → MultiDiff K) (params g0 s0 z0 As0 A0 B0 : Nat → K)
    (r0 : Nat → MultiDiff K) :
    (gn_sbfgs_min env MAXITER old params g0 s0 z0 As0 A0 B0 r0).iterations ≤ MAXITER ∧
    (gn_sbfgs_min env MAXITER old params g0 s0 z0 As0 A0 B0 r0).heads.length
      = (gn_sbfgs_min env MAXITER old params g0 s0 z0 As0 A0 B0 r0).iterations ∧
    (∀ v ∈ (gn_sbfgs_min env MAXITER old params g0 s0 z0 As0 A0 B0 r0).heads,
      (gn_line_search env (gn_direction env v).2).evals.length ≤ env.LINESEARCH_MAXITER) ∧
    gn_multidiff_sweeps env (gn_sbfgs_min env MAXITER old params g0 s0 z0 As0 A0 B0 r0)
      ≤ 1 + MAXITER ∧
    gn_singlediff_sweeps env (gn_sbfgs_min env MAXITER old params g0 s0 z0 As0 A0 B0 r0)
      ≤ MAXITER * env.LINESEARCH_MAXITER := by
  obtain ⟨h1, h2, -⟩ := gn_loop_trace env MAXITER
    (gn_initial_vars env old params g0 s0 z0 As0 A0 B0 r0)
  have hev : ∀ v : GnVars K,
      (gn_line_search env (gn_direction env v).2).evals.length ≤ env.LINESEARCH_MAXITER :=
    fun v => (line_search_loop_evals env.isfinite env.inf _ _ env.LINESEARCH_MAXITER 1 0
      env.inf []).elim fun new hn => by
        unfold gn_line_search line_search
        rw [hn.1]
        simpa using hn.2.1
  refine ⟨h2, h1, fun v _ => hev v, ?_, ?_⟩
  · unfold gn_multidiff_sweeps gn_sbfgs_min
    have := List.length_filter_le
      (fun v => (gn_line_search env (gn_direction env v).2).ret)
      (gn_loop env MAXITER (gn_initial_vars env old params g0 s0 z0 As0 A0 B0 r0)).heads
    omega
  · unfold gn_singlediff_sweeps gn_sbfgs_min
    refine le_trans (list_sum_le_length_mul _ env.LINESEARCH_MAXITER ?_) ?_
    · intro x hx
      obtain ⟨v, -, rfl⟩ := List.mem_map.mp hx
      exact hev v
    · rw [List.length_map, h1]
      exact Nat.mul_le_mul_right _ h2

/-! ## gn_sbfgs_min: the accept branch -/

theorem iamax_spec {K : Type} [LinearOrderedField K] (X : Nat → K) (n : Nat) :
    iamax (n + 1) X 1 < n + 1 ∧ ∀ i, i < n + 1 → |X i| ≤ |X (iamax (n + 1) X 1)| := by
  unfold iamax
  induction n with
  | zero =>
    have h1 : List.range (0 + 1) = [0] := rfl
    rw [h1]
    simp only [List.foldl_cons, List.foldl_nil, Nat.zero_mul, lt_self_iff_false, if_false]
    exact ⟨Nat.zero_lt_one, fun i hi => by
      have : i = 0 := by omega
      rw [this]⟩
  | succ n ih =>
    obtain ⟨h1, h2⟩ := ih
    rw [List.range_succ, List.foldl_append]
    simp only [List.foldl_cons, List.foldl_nil, Nat.mul_one] at h1 h2 ⊢
    split_ifs with hlt
    · refine ⟨Nat.lt_succ_self _, fun i hi => ?_⟩
      by_cases hin : i = n + 1
      · rw [hin]
      · exact le_trans (h2 i (by omega)) (le_of_lt hlt)
    · refine ⟨by omega, fun i hi => ?_⟩
      by_cases hin : i = n + 1
      · rw [hin]
        exact not_lt.mp hlt
      · exact h2 i (by omega)

theorem gn_sweep_spec {K : Type} [Field K] (N CN : Nat) (hN : N ≤ CN)
    (tp : Nat → MultiDiff K) (residuals : Nat → (Nat → MultiDiff K) → MultiDiff K)
    (st0 : GnSweep K) (M : Nat) :
    ((List.range M).foldl (gn_sweep_step N CN tp residuals) st0).new_normr2
      = st0.new_normr2
        + ∑ k in Finset.range M, (residuals k tp).getValue * (residuals k tp).getValue ∧
    (∀ j, j < CN → ((List.range M).foldl (gn_sweep_step N CN tp residuals) st0).g j
      = st0.g j + ∑ k in Finset.range M,
          (residuals k tp).getValue * (residuals k tp).getDiffValue j) ∧
    (∀ j, j < CN → ((List.range M).foldl (gn_sweep_step N CN tp residuals) st0).z j
      = st0.z j + ∑ k in Finset.range M,
          (residuals k tp).getValue
            * ((residuals k tp).getDiffValue j - (st0.r k).getDiffValue j)) ∧
    (∀ i j, i < N → j ≤ i →
      ((List.range M).foldl (gn_sweep_step N CN tp residuals) st0).B_ (i * CN + j)
        = st0.B_ (i * CN + j) + ∑ k in Finset.range M,
            (residuals k tp).getDiffValue i * (residuals k tp).getDiffValue j) ∧
    (∀ i, i < M →
      ((List.range M).foldl (gn_sweep_step N CN tp residuals) st0).r i = residuals i tp) ∧
    ∀ i, M ≤ i →
      ((List.range M).foldl (gn_sweep_step N CN tp residuals) st0).r i = st0.r i := by
  induction M with
  | zero =>
    refine ⟨by simp, fun j _ => by simp, fun j _ => by simp, fun i j _ _ => by simp,
      fun i hi => absurd hi (Nat.not_lt_zero i), fun i _ => rfl⟩
  | succ n ih =>
    obtain ⟨h1, h2, h3, h4, h5, h6⟩ := ih
    rw [List.range_succ, List.foldl_append]
    simp only [List.foldl_cons, List.foldl_nil]
    refine ⟨?_, fun j hj => ?_, fun j hj => ?_, fun i j hi hj => ?_, fun i hi => ?_,
      fun i hi => ?_⟩
    · simp only [gn_sweep_step]
      rw [h1, Finset.sum_range_succ, add_assoc]
    · simp only [gn_sweep_step, aligned_transform_2]
      rw [if_pos hj, h2 j hj, Finset.sum_range_succ]
      unfold MultiDiff.getDiffValue
      ring
    · simp only [gn_sweep_step, aligned_transform_2]
      rw [if_pos hj, h3 j hj, Finset.sum_range_succ, h6 n (le_refl n)]
      unfold MultiDiff.getDiffValue
      ring
    · simp only [gn_sweep_step]
      rw [syr_spec N 1 _ _ CN hN i j (by omega), if_pos ⟨hi, hj⟩, h4 i j hi hj,
        Finset.sum_range_succ]
      unfold MultiDiff.getDiffValue
      ring
    · simp only [gn_sweep_step, Function.update_apply]
      by_cases h : i = n
      · subst h
        rw [if_pos rfl]
        rfl
      · rw [if_neg h]
        exact h5 i (by omega)
    · simp only [gn_sweep_step, Function.update_apply]
      rw [if_neg (by omega)]
      exact h6 i (by omega)

theorem scal_vec {K : Type} [Field K] (N : Nat) (alpha : K) (X : Nat → K) (i : Nat) :
    scal N alpha X 0 1 i = if i < N then alpha * X i else X i := by
  by_cases h : i < N
  · rw [if_pos h]
    have := scal_hit N alpha X 0 1 Nat.one_pos i h
    simpa using this
  · rw [if_neg h]
    exact scal_miss N alpha X 0 1 i (fun k hk => by omega)

theorem gn_accept_spec {K : Type} [Field K] (env : GnEnv K) (v : GnVars K) (alpha : K) :
    (∀ i, (gn_accept env v alpha).1.s i = if i < env.N then alpha * v.s i else v.s i) ∧
    (∀ i, (gn_accept env v alpha).1.params i
      = if i < env.N then v.params i + alpha * v.s i else v.params i) ∧
    (gn_accept env v alpha).1.ad_params
      = Independent env.c v.ad_params (fun i => (gn_accept env v alpha).1.params i.val) ∧
    (gn_accept env v alpha).2
      = ∑ k in Finset.range env.M,
          (env.residuals k (gn_accept env v alpha).1.ad_params).getValue
            * (env.residuals k (gn_accept env v alpha).1.ad_params).getValue ∧
    (∀ j, j < env.CN → (gn_accept env v alpha).1.g j
      = ∑ k in Finset.range env.M,
          (env.residuals k (gn_accept env v alpha).1.ad_params).getValue
            * (env.residuals k (gn_accept env v alpha).1.ad_params).getDiffValue j) ∧
    (∀ j, j < env.N → (gn_accept env v alpha).1.z j
      = env.sqrt ((gn_accept env v alpha).2 / v.normr2)
        * ∑ k in Finset.range env.M,
            (env.residuals k (gn_accept env v alpha).1.ad_params).getValue
              * ((env.residuals k (gn_accept env v alpha).1.ad_params).getDiffValue j
                - (v.r k).getDiffValue j)) ∧
    (∀ i j, i < env.N → j ≤ i → (gn_accept env v alpha).1.B_ (i * env.CN + j)
      = ∑ k in Finset.range env.M,
          (env.residuals k (gn_accept env v alpha).1.ad_params).getDiffValue i
            * (env.residuals k (gn_accept env v alpha).1.ad_params).getDiffValue j) ∧
    (∀ k, k < env.M → (gn_accept env v alpha).1.r k
      = env.residuals k (gn_accept env v alpha).1.ad_params) ∧
    (gn_accept env v alpha).1.normr2 = v.normr2 ∧
    (gn_accept env v alpha).1.A_ = v.A_ ∧
    (gn_accept env v alpha).1.small_progress = v.small_progress := by
  have hN : env.N ≤ env.CN := le_next_size env.c.W env.c.num_dir env.c.W_pos
  obtain ⟨h1, h2, h3, h4, h5, -⟩ := gn_sweep_spec env.N env.CN hN
    (Independent env.c v.ad_params
      (fun i => (fun i => if i < env.N then v.params i + scal env.N alpha v.s 0 1 i
        else v.params i) i.val))
    env.residuals
    ⟨0, aligned_fill 0 v.g 0 env.CN, aligned_fill 0 v.z 0 env.CN,
      aligned_fill 0 v.B_ 0 (env.N * env.CN), v.r⟩ env.M
  refine ⟨fun i => scal_vec _ _ _ _, fun i => ?_, rfl, ?_, fun j hj => ?_, fun j hj => ?_,
    fun i j hi hj => ?_, fun k hk => h5 k hk, rfl, rfl, rfl⟩
  · simp only [gn_accept]
    by_cases h : i < env.N
    · rw [if_pos h, if_pos h, scal_vec, if_pos h]
    · rw [if_neg h, if_neg h]
  · simp only [gn_accept]
    rw [h1, zero_add]
  · simp only [gn_accept]
    rw [h2 j hj]
    simp only [aligned_fill]
    rw [if_pos ⟨Nat.zero_le _, hj⟩, zero_add]
  · simp only [gn_accept]
    rw [scal_vec, if_pos hj, h3 j (by omega)]
    simp only [aligned_fill]
    rw [if_pos ⟨Nat.zero_le _, by omega⟩, zero_add]
  · simp only [gn_accept]
    rw [h4 i j hi hj]
    simp only [aligned_fill]
    rw [if_pos ⟨Nat.zero_le _, idx_lt_size _ _ i j hi (by omega)⟩, zero_add]

/-! ## gn_sbfgs_min: the termination tests -/

theorem gn_hessian_update_keeps {K : Type} [LinearOrderedField K] (env : GnEnv K)
    (v : GnVars K) (nn : K) :
    (gn_hessian_update env v nn).small_progress = v.small_progress ∧
    (gn_hessian_update env v nn).params = v.params ∧
    (gn_hessian_update env v nn).ad_params = v.ad_params ∧
    (gn_hessian_update env v nn).normr2 = nn ∧
    (gn_hessian_update env v nn).g = v.g ∧
    (gn_hessian_update env v nn).r = v.r ∧
    (gn_hessian_update env v nn).s = v.s ∧
    (gn_hessian_update env v nn).z = v.z := by
  unfold gn_hessian_update
  simp only
  split_ifs <;> exact ⟨rfl, rfl, rfl, rfl, rfl, rfl, rfl, rfl⟩

theorem gn_iteration_cases {K : Type} [LinearOrderedField K] (env : GnEnv K) (v : GnVars K) :
    ((gn_line_search env (gn_direction env v).2).ret = false →
      gn_iteration env v = ((gn_direction env v).2, GnStop.noStep)) ∧
    ((gn_line_search env (gn_direction env v).2).ret = true → gn_progress env v = 15 →
      gn_iteration env v = (gn_tested env v, GnStop.stagnation)) ∧
    ((gn_line_search env (gn_direction env v).2).ret = true → gn_progress env v ≠ 15 →
      |(gn_tested env v).g (iamax env.N (gn_tested env v).g 1)| < env.tolerance →
      gn_iteration env v = (gn_tested env v, GnStop.gradient)) ∧
    ((gn_line_search env (gn_direction env v).2).ret = true → gn_progress env v ≠ 15 →
      ¬ |(gn_tested env v).g (iamax env.N (gn_tested env v).g 1)| < env.tolerance →
      gn_iteration env v
        = (gn_hessian_update env (gn_tested env v) (gn_accepted env v).2, GnStop.running)) := by
  refine ⟨gn_iteration_noStep env v, fun h1 h2 => ?_, fun h1 h2 h3 => ?_, fun h1 h2 h3 => ?_⟩
  · have h2' : (if 1 / 2 * ((gn_direction env v).2.normr2 - (gn_accept env (gn_direction env v).2
        (gn_line_search env (gn_direction env v).2).alpha).2) < env.tolerance
        then (gn_direction env v).2.small_progress + 1 else 0) = 15 := h2
    simp only [gn_iteration, h1, if_true, h2']
    unfold gn_tested
    rw [h2]
    rfl
  · have h2' : ¬ (if 1 / 2 * ((gn_direction env v).2.normr2 - (gn_accept env (gn_direction env v).2
        (gn_line_search env (gn_direction env v).2).alpha).2) < env.tolerance
        then (gn_direction env v).2.small_progress + 1 else 0) = 15 := h2
    have h3' : |(gn_accept env (gn_direction env v).2
        (gn_line_search env (gn_direction env v).2).alpha).1.g
        (iamax env.N (gn_accept env (gn_direction env v).2
          (gn_line_search env (gn_direction env v).2).alpha).1.g 1)| < env.tolerance := h3
    simp only [gn_iteration, h1, if_true, if_neg h2', if_pos h3']
    rfl
  · have h2' : ¬ (if 1 / 2 * ((gn_direction env v).2.normr2 - (gn_accept env (gn_direction env v).2
        (gn_line_search env (gn_direction env v).2).alpha).2) < env.tolerance
        then (gn_direction env v).2.small_progress + 1 else 0) = 15 := h2
    have h3' : ¬ |(gn_accept env (gn_direction env v).2
        (gn_line_search env (gn_direction env v).2).alpha).1.g
        (iamax env.N (gn_accept env (gn_direction env v).2
          (gn_line_search env (gn_direction env v).2).alpha).1.g 1)| < env.tolerance := h3
    simp only [gn_iteration, h1, if_true, if_neg h2', if_neg h3']
    rfl

theorem gn_iteration_running {K : Type} [LinearOrderedField K] (env : GnEnv K) (v : GnVars K)
    (h : (gn_iteration env v).2 = GnStop.running) :
    (gn_line_search env (gn_direction env v).2).ret = true ∧
    gn_progress env v ≠ 15 ∧
    ¬ |(gn_tested env v).g (iamax env.N (gn_tested env v).g 1)| < env.tolerance ∧
    (gn_iteration env v).1
      = gn_hessian_update env (gn_tested env v) (gn_accepted env v).2 := by
  obtain ⟨c1, c2, c3, c4⟩ := gn_iteration_cases env v
  by_cases h1 : (gn_line_search env (gn_direction env v).2).ret = true
  · by_cases h2 : gn_progress env v = 15
    · rw [c2 h1 h2] at h
      exact absurd h (fun h => GnStop.noConfusion h)
    · by_cases h3 : |(gn_tested env v).g (iamax env.N (gn_tested env v).g 1)| < env.tolerance
      · rw [c3 h1 h2 h3] at h
        exact absurd h (fun h => GnStop.noConfusion h)
      · refine ⟨h1, h2, h3, ?_⟩
        rw [c4 h1 h2 h3]
  · rw [c1 (by simpa using h1)] at h
    exact absurd h (fun h => GnStop.noConfusion h)

theorem gn_iteration_stagnation {K : Type} [LinearOrderedField K] (env : GnEnv K)
    (v : GnVars K) (h : (gn_iteration env v).2 = GnStop.stagnation) :
    (gn_line_search env (gn_direction env v).2).ret = true ∧ gn_progress env v = 15 := by
  obtain ⟨c1, c2, c3, c4⟩ := gn_iteration_cases env v
  by_cases h1 : (gn_line_search env (gn_direction env v).2).ret = true
  · by_cases h2 : gn_progress env v = 15
    · exact ⟨h1, h2⟩
    · by_cases h3 : |(gn_tested env v).g (iamax env.N (gn_tested env v).g 1)| < env.tolerance
      · rw [c3 h1 h2 h3] at h
        exact absurd h (fun h => GnStop.noConfusion h)
      · rw [c4 h1 h2 h3] at h
        exact absurd h (fun h => GnStop.noConfusion h)
  · rw [c1 (by simpa using h1)] at h
    exact absurd h (fun h => GnStop.noConfusion h)

theorem take_succ_reverse {α : Type} (l : List α) (k : Nat) (a : α) (h : l[k]? = some a) :
    (l.take (k + 1)).reverse = a :: (l.take k).reverse := by
  rw [List.take_succ, h]
  simp

theorem gn_heads_progress {K : Type} [LinearOrderedField K] (env : GnEnv K) (n : Nat)
    (v : GnVars K) (hv : v.small_progress = 0) :
    ∀ k a, (gn_loop env n v).heads[k]? = some a →
      a.small_progress = (((gn_loop env n v).heads.take k).reverse.takeWhile
        (fun b => decide (gn_delta env b < env.tolerance))).length ∧
      a.small_progress < 15 ∧
      ∀ j b, j < k → (gn_loop env n v).heads[j]? = some b →
        (gn_line_search env (gn_direction env b).2).ret = true := by
  obtain ⟨-, -, h3, -, h5, -⟩ := gn_loop_trace env n v
  intro k
  induction k with
  | zero =>
    intro a ha
    have hn : 0 < n := by
      by_contra h
      have h0 : n = 0 := by omega
      subst h0
      simp [gn_loop] at ha
    rw [h3 hn] at ha
    have := Option.some.inj ha
    subst this
    refine ⟨by simp [hv], by omega, fun j b hj _ => absurd hj (Nat.not_lt_zero j)⟩
  | succ k ih =>
    intro b hb
    have hk1 : k + 1 < (gn_loop env n v).heads.length := by
      by_contra h
      rw [List.getElem?_eq_none (by omega)] at hb
      exact absurd hb (by simp)
    obtain ⟨a, ha⟩ : ∃ a, (gn_loop env n v).heads[k]? = some a :=
      ⟨_, List.getElem?_eq_getElem (by omega)⟩
    obtain ⟨i1, i2, i3⟩ := ih a ha
    obtain ⟨hrun, hbeq⟩ := h5 k a b ha hb
    obtain ⟨r1, r2, -, r4⟩ := gn_iteration_running env a hrun
    have hsp : b.small_progress = gn_progress env a := by
      rw [hbeq, r4, (gn_hessian_update_keeps env _ _).1]
      rfl
    have hle : gn_progress env a ≤ a.small_progress + 1 := by
      unfold gn_progress
      split_ifs <;> omega
    refine ⟨?_, by omega, fun j c hj hc => ?_⟩
    · rw [hsp, take_succ_reverse _ k _ ha, List.takeWhile_cons]
      unfold gn_progress
      by_cases hd : gn_delta env a < env.tolerance
      · rw [if_pos hd, i1]
        simp [hd]
      · rw [if_neg hd]
        simp [hd]
    · by_cases hjk : j = k
      · subst hjk
        rw [ha] at hc
        rw [← Option.some.inj hc]
        exact r1
      · exact i3 j c (by omega) hc

/-- C23: the stagnation stop. In every run of `gn_sbfgs_min`, at the top of
iteration `k` the counter `small_progress` equals the number of the most
recent consecutive iterations (all of them accepted) whose decrease
`delta = 0.5 * ( normr2 - new_normr2 )` was smaller than the tolerance, and is
smaller than 15; an accepted iteration that brings the counter to 15 is the
last one and ends the run with the stagnation message, and a run ends with
that message only in this way. -/
theorem gn_stagnation_stop {K : Type} [LinearOrderedField K] (env : GnEnv K)
    (MAXITER : Nat) (old : Nat → MultiDiff K) (params g0 s0 z0 As0 A0 B0 : Nat → K)
    (r0 : Nat → MultiDiff K) :
    (∀ k a, (gn_sbfgs_min env MAXITER old params g0 s0 z0 As0 A0 B0 r0).heads[k]? = some a →
      a.small_progress
        = (((gn_sbfgs_min env MAXITER old params g0 s0 z0 As0 A0 B0 r0).heads.take k).reverse.takeWhile
            (fun b => decide (gn_delta env b < env.tolerance))).length ∧
      a.small_progress < 15 ∧
      (∀ j b, j < k →
        (gn_sbfgs_min env MAXITER old params g0 s0 z0 As0 A0 B0 r0).heads[j]? = some b →
        (gn_line_search env (gn_direction env b).2).ret = true) ∧
      gn_progress env a = (if gn_delta env a < env.tolerance then a.small_progress + 1 else 0) ∧
      ((gn_line_search env (gn_direction env a).2).ret = true → gn_progress env a = 15 →
        (gn_sbfgs_min env MAXITER old params g0 s0 z0 As0 A0 B0 r0).iterations = k + 1 ∧
        (gn_sbfgs_min env MAXITER old params g0 s0 z0 As0 A0 B0 r0).stop = GnStop.stagnation)) ∧
    ((gn_sbfgs_min env MAXITER old params g0 s0 z0 As0 A0 B0 r0).stop = GnStop.stagnation →
      ∃ k a, (gn_sbfgs_min env MAXITER old params g0 s0 z0 As0 A0 B0 r0).heads[k]? = some a ∧
        (gn_sbfgs_min env MAXITER old params g0 s0 z0 As0 A0 B0 r0).iterations = k + 1 ∧
        (gn_line_search env (gn_direction env a).2).ret = true ∧ gn_progress env a = 15) := by
  obtain ⟨h1, -, h3, h4, -, h6⟩ := gn_loop_trace env MAXITER
    (gn_initial_vars env old params g0 s0 z0 As0 A0 B0 r0)
  refine ⟨fun k a ha => ?_, fun hs => ?_⟩
  · obtain ⟨p1, p2, p3⟩ := gn_heads_progress env MAXITER
      (gn_initial_vars env old params g0 s0 z0 As0 A0 B0 r0) rfl k a ha
    refine ⟨p1, p2, p3, rfl, fun hr hp => ?_⟩
    have hit := (gn_iteration_cases env a).2.1 hr hp
    have hlen := gn_loop_stops env MAXITER _ k a ha
      (by rw [hit]; exact fun h => GnStop.noConfusion h)
    obtain ⟨-, e2, -⟩ := h6 k a ha hlen
    unfold gn_sbfgs_min
    exact ⟨by rw [← h1, ← hlen], by rw [e2, hit]⟩
  · unfold gn_sbfgs_min at hs ⊢
    have hne : (gn_loop env MAXITER
        (gn_initial_vars env old params g0 s0 z0 As0 A0 B0 r0)).heads.length ≠ 0 := by
      intro h0
      have hn : MAXITER = 0 := by
        by_contra hne
        have := h3 (by omega)
        rw [List.getElem?_eq_none (by omega)] at this
        exact absurd this (by simp)
      rw [(h4 hn).2] at hs
      exact GnStop.noConfusion hs
    obtain ⟨m, hm⟩ := Nat.exists_eq_succ_of_ne_zero hne
    obtain ⟨a, ha⟩ : ∃ a, (gn_loop env MAXITER
        (gn_initial_vars env old params g0 s0 z0 As0 A0 B0 r0)).heads[m]? = some a :=
      ⟨_, List.getElem?_eq_getElem (by omega)⟩
    obtain ⟨-, e2, -⟩ := h6 m a ha (by omega)
    rw [e2] at hs
    exact ⟨m, a, ha, by rw [← h1, hm], gn_iteration_stagnation env a hs⟩

theorem gn_max_norm_test {K : Type} [LinearOrderedField K] (N : Nat) (hN : 1 ≤ N)
    (g : Nat → K) (tol : K) :
    (iamax N g 1 < N ∧ ∀ i, i < N → |g i| ≤ |g (iamax N g 1)|) ∧
    (|g (iamax N g 1)| < tol ↔ ∀ i, i < N → |g i| < tol) := by
  obtain ⟨n, rfl⟩ : ∃ n, N = n + 1 := ⟨N - 1, by omega⟩
  obtain ⟨h1, h2⟩ := iamax_spec g n
  exact ⟨⟨h1, h2⟩, fun h i hi => lt_of_le_of_lt (h2 i hi) h, fun h => h _ h1⟩

/-- C24: the gradient-tolerance stop. In an iteration of a run of
`gn_sbfgs_min` whose line search succeeded, after the step the array `g` holds
the sum of `r_i * grad r_i` over the residuals evaluated at the new
parameters, `|g[imax]|` is the largest `|g[i]|`, `i < N`; if `small_progress`
has reached 15 the run ends with the stagnation message; otherwise, if the max
norm of `g` is smaller than the tolerance the run ends in this iteration with
the gradient message; otherwise the iteration goes on to the Hessian update
and the loop continues. -/
theorem gn_gradient_tolerance_stop {K : Type} [LinearOrderedField K] (env : GnEnv K)
    (MAXITER : Nat) (old : Nat → MultiDiff K) (params g0 s0 z0 As0 A0 B0 : Nat → K)
    (r0 : Nat → MultiDiff K) (k : Nat) (a : GnVars K) (hN : 1 ≤ env.N)
    (ha : (gn_sbfgs_min env MAXITER old params g0 s0 z0 As0 A0 B0 r0).heads[k]? = some a)
    (hls : (gn_line_search env (gn_direction env a).2).ret = true) :
    ((gn_tested env a).ad_params
        = Independent env.c a.ad_params (fun i => (gn_tested env a).params i.val) ∧
      ∀ j, j < env.N → (gn_tested env a).g j
        = ∑ i in Finset.range env.M,
            (env.residuals i (gn_tested env a).ad_params).getValue
              * (env.residuals i (gn_tested env a).ad_params).getDiffValue j) ∧
    (iamax env.N (gn_tested env a).g 1 < env.N ∧
      ∀ i, i < env.N →
        |(gn_tested env a).g i| ≤ |(gn_tested env a).g (iamax env.N (gn_tested env a).g 1)|) ∧
    (gn_progress env a = 15 →
      (gn_sbfgs_min env MAXITER old params g0 s0 z0 As0 A0 B0 r0).iterations = k + 1 ∧
      (gn_sbfgs_min env MAXITER old params g0 s0 z0 As0 A0 B0 r0).stop = GnStop.stagnation) ∧
    (gn_progress env a ≠ 15 → (∀ i, i < env.N → |(gn_tested env a).g i| < env.tolerance) →
      (gn_sbfgs_min env MAXITER old params g0 s0 z0 As0 A0 B0 r0).iterations = k + 1 ∧
      (gn_sbfgs_min env MAXITER old params g0 s0 z0 As0 A0 B0 r0).stop = GnStop.gradient) ∧
    (gn_progress env a ≠ 15 → ¬ (∀ i, i < env.N → |(gn_tested env a).g i| < env.tolerance) →
      gn_iteration env a
        = (gn_hessian_update env (gn_tested env a) (gn_accepted env a).2, GnStop.running)) := by
  obtain ⟨h1, -, -, -, -, h6⟩ := gn_loop_trace env MAXITER
    (gn_initial_vars env old params g0 s0 z0 As0 A0 B0 r0)
  obtain ⟨-, c2, c3, c4⟩ := gn_iteration_cases env a
  obtain ⟨m1, m2⟩ := gn_max_norm_test env.N hN (gn_tested env a).g env.tolerance
  obtain ⟨-, -, a3, -, a5, -⟩ := gn_accept_spec env (gn_direction env a).2
    (gn_line_search env (gn_direction env a).2).alpha
  have hstop : ∀ st : GnStop, st ≠ GnStop.running →
      gn_iteration env a = (gn_tested env a, st) →
      (gn_sbfgs_min env MAXITER old params g0 s0 z0 As0 A0 B0 r0).iterations = k + 1 ∧
      (gn_sbfgs_min env MAXITER old params g0 s0 z0 As0 A0 B0 r0).stop = st := by
    intro st hst hit
    have hlen := gn_loop_stops env MAXITER _ k a ha (by rw [hit]; exact hst)
    obtain ⟨-, e2, -⟩ := h6 k a ha hlen
    unfold gn_sbfgs_min
    exact ⟨by rw [← h1, ← hlen], by rw [e2, hit]⟩
  refine ⟨⟨a3, fun j hj => a5 j (lt_of_lt_of_le hj
      (le_next_size env.c.W env.c.num_dir env.c.W_pos))⟩, m1,
    fun hp => hstop _ (fun h => GnStop.noConfusion h) (c2 hls hp),
    fun hp hg => hstop _ (fun h => GnStop.noConfusion h) (c3 hls hp (m2.mpr hg)),
    fun hp hg => c4 hls hp (fun h => hg (m2.mp h))⟩

/-- Witness for C24: the problem with the residual `x[0] - 201` started at
`x[0] = 0`: the first line search succeeds, the gradient after the step is
`-40401/10201`, not below the tolerance `1/1000`, and the loop continues. -/
theorem gn_gradient_tolerance_stop_witness :
    1 ≤ gnExampleEnv.N ∧
    (gn_line_search gnExampleEnv (gn_direction gnExampleEnv
      (gn_initial_vars gnExampleEnv (exampleOld ℚ) (fun _ => 0) gnJunk gnJunk gnJunk gnJunk
        gnJunk gnJunk (exampleOld ℚ))).2).ret = true ∧
    (gn_tested gnExampleEnv (gn_initial_vars gnExampleEnv (exampleOld ℚ) (fun _ => 0) gnJunk
      gnJunk gnJunk gnJunk gnJunk gnJunk (exampleOld ℚ))).g 0 = -40401 / 10201 ∧
    (gn_iteration gnExampleEnv (gn_initial_vars gnExampleEnv (exampleOld ℚ) (fun _ => 0) gnJunk
      gnJunk gnJunk gnJunk gnJunk gnJunk (exampleOld ℚ))).2 = GnStop.running :=
  have hls : (gn_line_search gnExampleEnv (gn_direction gnExampleEnv
      (gn_initial_vars gnExampleEnv (exampleOld ℚ) (fun _ => 0) gnJunk gnJunk gnJunk gnJunk
        gnJunk gnJunk (exampleOld ℚ))).2).ret = true := by decide!
  have hg : (gn_tested gnExampleEnv (gn_initial_vars gnExampleEnv (exampleOld ℚ) (fun _ => 0)
      gnJunk gnJunk gnJunk gnJunk gnJunk gnJunk (exampleOld ℚ))).g 0 = -40401 / 10201 := by
    decide!
  have h := gn_gradient_tolerance_stop gnExampleEnv 2 (exampleOld ℚ) (fun _ => 0) gnJunk
    gnJunk gnJunk gnJunk gnJunk gnJunk (exampleOld ℚ) 0 _ (le_refl 1)
    (gn_heads_zero_some gnExampleEnv 2 (by decide) _ _ _ _ _ _ _ _ _) hls
  ⟨le_refl 1, hls, hg, by
    rw [h.2.2.2.2 (by decide!) (fun hall => absurd (hall 0 Nat.one_pos) (by rw [hg]; decide!))]⟩

/-! ## line_search: the iteration cap -/

theorem linesearch_maxiter_real (p : Nat) :
    ⌈-Real.logb 2 (((2 : ℝ) ^ (-(p : ℝ))) ^ ((2 : ℝ) / 3))⌉ = (LINESEARCH_MAXITER p : ℤ) := by
  have h1 : ((2 : ℝ) ^ (-(p : ℝ))) ^ ((2 : ℝ) / 3) = (2 : ℝ) ^ (-(p : ℝ) * (2 / 3)) := by
    rw [← Real.rpow_mul (by norm_num : (0 : ℝ) ≤ 2)]
  rw [h1, Real.logb_rpow (by norm_num) (by norm_num)]
  unfold LINESEARCH_MAXITER
  have hq : (2 * p + 2) / 3 * 3 + (2 * p + 2) % 3 = 2 * p + 2 := Nat.div_add_mod' _ _
  have hr : (2 * p + 2) % 3 < 3 := Nat.mod_lt _ (by norm_num)
  generalize (2 * p + 2) / 3 = q at hq
  generalize (2 * p + 2) % 3 = r at hq hr
  have hq' : (q : ℝ) * 3 + (r : ℝ) = 2 * (p : ℝ) + 2 := by exact_mod_cast hq
  have hr' : (r : ℝ) ≤ 2 := by exact_mod_cast Nat.le_of_lt_succ hr
  have hr0 : (0 : ℝ) ≤ (r : ℝ) := Nat.cast_nonneg _
  rw [Int.ceil_eq_iff, Int.cast_natCast]
  constructor <;> linarith

/-- C35 (as the code computes it): for a `REAL` with machine epsilon `2^-p` the
iteration cap `ceil( -log2( epsilon^(2/3) ) )` of `line_search` is the least
integer not below `2 p / 3`; for the 64-bit `REAL` (`p = 52`) it is 35, and
for the 32-bit `REAL` (`p = 23`) it is 16. -/
theorem linesearch_maxiter_value (p : Nat) :
    ⌈-Real.logb 2 (((2 : ℝ) ^ (-(p : ℝ))) ^ ((2 : ℝ) / 3))⌉ = (LINESEARCH_MAXITER p : ℤ) ∧
    LINESEARCH_MAXITER 52 = 35 ∧ LINESEARCH_MAXITER 23 = 16 :=
  ⟨linesearch_maxiter_real p, rfl, rfl⟩

/-- Counterexample to C35 as stated: for machine epsilon `2^-52` the value of
`ceil( -log2( epsilon^(2/3) ) )` is not 36. -/
theorem linesearch_maxiter_double_not_36 :
    ⌈-Real.logb 2 (((2 : ℝ) ^ (-((52 : ℕ) : ℝ))) ^ ((2 : ℝ) / 3))⌉ ≠ 36 ∧
    LINESEARCH_MAXITER 52 ≠ 36 := by
  refine ⟨?_, by decide⟩
  rw [linesearch_maxiter_real 52]
  decide

/-! ## The structured BFGS update -/

theorem symv_spec {K : Type} [Field K] (N : Nat) (alpha : K) (A : Nat → K) (lda : Nat)
    (X : Nat → K) (beta : K) (Y : Nat → K) (i : Nat) :
    symv N alpha A lda X 1 beta Y 1 i
      = if i < N then alpha * (∑ j in Finset.range N, symOf A lda i j * X j) + beta * Y i
        else Y i := by
  unfold symv
  have key : ∀ n, (List.range n).foldl
      (fun m i => Function.update m (i * 1)
        (alpha * (∑ j in Finset.range N, symOf A lda i j * X (j * 1)) + beta * Y (i * 1))) Y i
      = if i < n then alpha * (∑ j in Finset.range N, symOf A lda i j * X j) + beta * Y i
        else Y i := by
    intro n
    induction n with
    | zero => simp
    | succ n ih =>
      rw [List.range_succ, List.foldl_append]
      simp only [List.foldl_cons, List.foldl_nil, Nat.mul_one, Function.update_apply]
      simp only [Nat.mul_one] at ih
      by_cases h : i = n
      · subst h
        rw [if_pos rfl, if_pos (Nat.lt_succ_self i)]
      · rw [if_neg h, ih]
        by_cases h2 : i < n
        · rw [if_pos h2, if_pos (Nat.lt_succ_of_lt h2)]
        · rw [if_neg h2, if_neg (by omega)]
  exact key N

theorem syr_symOf {K : Type} [Field K] (N : Nat) (alpha : K) (X A : Nat → K) (lda : Nat)
    (hN : N ≤ lda) (i j : Nat) (hi : i < N) (hj : j < N) :
    symOf (syr N alpha X 1 A lda) lda i j = symOf A lda i j + alpha * X i * X j := by
  unfold symOf
  by_cases h : j ≤ i
  · rw [if_pos h, if_pos h, syr_spec N alpha X A lda hN i j (by omega), if_pos ⟨hi, h⟩]
    ring
  · rw [if_neg h, if_neg h, syr_spec N alpha X A lda hN j i (by omega),
      if_pos ⟨hj, by omega⟩]
    ring

theorem sbfgs_matrix {K : Type} [Field K] (N CN : Nat) (hN : N ≤ CN) (A_ s z As : Nat → K)
    (i j : Nat) (hi : i < N) (hj : j < N) :
    symOf (syr N (1 / dot N z 1 s 1) z 1
        (syr N (-1 / dot N s 1 (symv N 1 A_ CN s 1 0 As 1) 1) (symv N 1 A_ CN s 1 0 As 1) 1 A_ CN)
        CN) CN i j
      = symOf A_ CN i j
        - 1 / (∑ t in Finset.range N, s t * matVec (symOf A_ CN) N s t)
          * matVec (symOf A_ CN) N s i * matVec (symOf A_ CN) N s j
        + 1 / (∑ t in Finset.range N, z t * s t) * z i * z j := by
  have hAs : ∀ t, t < N → symv N 1 A_ CN s 1 0 As 1 t = matVec (symOf A_ CN) N s t := by
    intro t ht
    rw [symv_spec, if_pos ht]
    unfold matVec
    ring
  have hdot : dot N s 1 (symv N 1 A_ CN s 1 0 As 1) 1
      = ∑ t in Finset.range N, s t * matVec (symOf A_ CN) N s t := by
    unfold dot
    refine Finset.sum_congr rfl fun t ht => ?_
    rw [Nat.mul_one, hAs t (Finset.mem_range.mp ht)]
  have hzs : dot N z 1 s 1 = ∑ t in Finset.range N, z t * s t := by
    unfold dot
    simp only [Nat.mul_one]
  rw [syr_symOf N _ _ _ CN hN i j hi hj, syr_symOf N _ _ _ CN hN i j hi hj, hAs i hi, hAs j hj,
    hdot, hzs]
  ring

/-- C37: the matrix `A'` that the two `syr` calls of the structured BFGS
update leave in the lower triangle of `A_` (with `As = A * s` from `symv`,
`sAs = dot( s, As )`, `zs = dot( z, s )`) is, read as a symmetric matrix,
`A - (1/sAs) * As * As^T + (1/zs) * z * z^T`; it is symmetric and, when `sAs`
and `zs` are not zero, satisfies the secant equation `A' * s = z`. -/
theorem sbfgs_secant_equation {K : Type} [Field K] (N CN : Nat) (hN : N ≤ CN)
    (A_ s z As : Nat → K)
    (hsAs : dot N s 1 (symv N 1 A_ CN s 1 0 As 1) 1 ≠ 0) (hzs : dot N z 1 s 1 ≠ 0) :
    (∀ i j, i < N → j < N →
      symOf (syr N (1 / dot N z 1 s 1) z 1
          (syr N (-1 / dot N s 1 (symv N 1 A_ CN s 1 0 As 1) 1) (symv N 1 A_ CN s 1 0 As 1) 1
            A_ CN) CN) CN i j
        = symOf A_ CN i j
          - 1 / dot N s 1 (symv N 1 A_ CN s 1 0 As 1) 1
            * matVec (symOf A_ CN) N s i * matVec (symOf A_ CN) N s j
          + 1 / dot N z 1 s 1 * z i * z j) ∧
    (∀ i j,
      symOf (syr N (1 / dot N z 1 s 1) z 1
          (syr N (-1 / dot N s 1 (symv N 1 A_ CN s 1 0 As 1) 1) (symv N 1 A_ CN s 1 0 As 1) 1
            A_ CN) CN) CN i j
        = symOf (syr N (1 / dot N z 1 s 1) z 1
          (syr N (-1 / dot N s 1 (symv N 1 A_ CN s 1 0 As 1) 1) (symv N 1 A_ CN s 1 0 As 1) 1
            A_ CN) CN) CN j i) ∧
    (∀ i, i < N →
      matVec (symOf (syr N (1 / dot N z 1 s 1) z 1
          (syr N (-1 / dot N s 1 (symv N 1 A_ CN s 1 0 As 1) 1) (symv N 1 A_ CN s 1 0 As 1) 1
            A_ CN) CN) CN) N s i = z i) := by
  have hdot : dot N s 1 (symv N 1 A_ CN s 1 0 As 1) 1
      = ∑ t in Finset.range N, s t * matVec (symOf A_ CN) N s t := by
    unfold dot
    refine Finset.sum_congr rfl fun t ht => ?_
    rw [Nat.mul_one, symv_spec, if_pos (Finset.mem_range.mp ht)]
    unfold matVec
    ring
  have hz : dot N z 1 s 1 = ∑ t in Finset.range N, z t * s t := by
    unfold dot
    simp only [Nat.mul_one]
  refine ⟨?_, fun i j => symOf_symm _ _ i j, ?_⟩
  · intro i j hi hj
    rw [sbfgs_matrix N CN hN A_ s z As i j hi hj, hdot, hz]
  · intro i hi
    rw [hdot] at hsAs
    rw [hz] at hzs
    have : matVec (symOf (syr N (1 / dot N z 1 s 1) z 1
          (syr N (-1 / dot N s 1 (symv N 1 A_ CN s 1 0 As 1) 1) (symv N 1 A_ CN s 1 0 As 1) 1
            A_ CN) CN) CN) N s i
        = ∑ j in Finset.range N, (symOf A_ CN i j * s j
          - 1 / (∑ t in Finset.range N, s t * matVec (symOf A_ CN) N s t)
            * matVec (symOf A_ CN) N s i * (s j * matVec (symOf A_ CN) N s j)
          + 1 / (∑ t in Finset.range N, z t * s t) * z i * (z j * s j)) := by
      unfold matVec
      refine Finset.sum_congr rfl fun j hj => ?_
      rw [sbfgs_matrix N CN hN A_ s z As i j hi (Finset.mem_range.mp hj)]
      unfold matVec
      ring
    rw [this, Finset.sum_add_distrib, Finset.sum_sub_distrib, ← Finset.mul_sum, ← Finset.mul_sum]
    have e1 : ∑ j in Finset.range N, symOf A_ CN i j * s j = matVec (symOf A_ CN) N s i := rfl
    rw [e1]
    field_simp

/-- Witness of C37: the update of the 2 x 2 identity with `s = (1, 0)` and
`z = (2, 1)`. -/
theorem sbfgs_secant_equation_witness :
    (2 : Nat) ≤ 4 ∧
    (∀ i, i < 2 →
      matVec (symOf (syr 2 (1 / dot 2 (fun k => if k = 0 then (2 : ℚ) else 1) 1
            (fun k => if k = 0 then (1 : ℚ) else 0) 1) (fun k => if k = 0 then (2 : ℚ) else 1) 1
          (syr 2 (-1 / dot 2 (fun k => if k = 0 then (1 : ℚ) else 0) 1
              (symv 2 1 (fun k => if k = 0 ∨ k = 5 then (1 : ℚ) else 0) 4
                (fun k => if k = 0 then (1 : ℚ) else 0) 1 0 (fun _ => 0) 1) 1)
            (symv 2 1 (fun k => if k = 0 ∨ k = 5 then (1 : ℚ) else 0) 4
              (fun k => if k = 0 then (1 : ℚ) else 0) 1 0 (fun _ => 0) 1) 1
            (fun k => if k = 0 ∨ k = 5 then (1 : ℚ) else 0) 4) 4) 4) 2
        (fun k => if k = 0 then (1 : ℚ) else 0) i = (fun k => if k = 0 then (2 : ℚ) else 1) i) :=
  ⟨by decide,
    (sbfgs_secant_equation 2 4 (by decide) (fun k => if k = 0 ∨ k = 5 then (1 : ℚ) else 0)
      (fun k => if k = 0 then (1 : ℚ) else 0) (fun k => if k = 0 then (2 : ℚ) else 1)
      (fun _ => 0) (by decide!) (by decide!)).2.2⟩
/-! ## Line search: the bracket -/

theorem line_search_brackets_evals {K : Type} [LinearOrderedField K] (isfinite : K → Bool)
    (inf : K) (f0 : SingleDiff K) (f : K → SingleDiff K) (n : Nat) :
    ∀ (alpha lo up : K) (tr : List K),
      (line_search_loop isfinite inf f0 f n alpha lo up tr).evals
        = tr ++ (line_search_brackets isfinite inf f0 f n alpha lo up).map (fun t => t.2.1) := by
  induction n with
  | zero => intro alpha lo up tr; simp [line_search_loop, line_search_brackets]
  | succ n ih =>
    intro alpha lo up tr
    rw [line_search_loop, line_search_brackets]
    split_ifs with h1 h3
    · rw [ih]; simp
    · rw [ih]; simp
    · simp

theorem line_search_brackets_head {K : Type} [LinearOrderedField K] (isfinite : K → Bool)
    (inf : K) (f0 : SingleDiff K) (f : K → SingleDiff K) (n : Nat) (alpha lo up : K)
    (b : K × K × K)
    (h : (line_search_brackets isfinite inf f0 f n alpha lo up)[0]? = some b) :
    b = (lo, alpha, up) := by
  cases n with
  | zero => simp [line_search_brackets] at h
  | succ n =>
    rw [line_search_brackets] at h
    simpa using h.symm

/-- The loop invariant of `line_search` with `n + 1` iterations to go. -/
theorem line_search_brackets_inv {K : Type} [LinearOrderedField K] (isfinite : K → Bool)
    (inf : K) (f0 : SingleDiff K) (f : K → SingleDiff K) (n : Nat) :
    ∀ (alpha lo up : K), 0 ≤ lo → lo < alpha → alpha < up → up ≤ inf →
      (up < inf → alpha = (up + lo) / 2) → (¬ up < inf → alpha * 2 ^ (n - 1) < inf) →
      (∀ t ∈ line_search_brackets isfinite inf f0 f n alpha lo up,
        0 ≤ t.1 ∧ t.1 < t.2.1 ∧ t.2.1 < t.2.2) ∧
      (∀ k a b, (line_search_brackets isfinite inf f0 f n alpha lo up)[k]? = some a →
        (line_search_brackets isfinite inf f0 f n alpha lo up)[k + 1]? = some b →
        b.2.1 = next_alpha inf a.2.1 b.1 b.2.2 ∧
        (a.2.2 < inf → b.2.2 - b.1 = (a.2.2 - a.1) / 2)) := by
  induction n with
  | zero =>
    intro alpha lo up _ _ _ _ _ _
    simp [line_search_brackets]
  | succ n ih =>
    intro alpha lo up h0 h1 h2 h3 h4 h5
    have hapos : 0 < alpha := lt_of_le_of_lt h0 h1
    rcases Nat.eq_zero_or_pos n with hn0 | hnpos
    · subst hn0
      have e : line_search_brackets isfinite inf f0 f (0 + 1) alpha lo up = [(lo, alpha, up)] := by
        rw [line_search_brackets]
        split_ifs <;> simp [line_search_brackets]
      rw [e]
      refine ⟨?_, ?_⟩
      · intro t ht
        simp only [List.mem_singleton] at ht
        subst ht
        exact ⟨h0, h1, h2⟩
      · intro k a b _ hb
        simp at hb
    obtain ⟨m, rfl⟩ : ∃ m, n = m + 1 := ⟨n - 1, by omega⟩
    have key : ∀ (alpha1 lo1 up1 : K),
        (0 ≤ lo1 ∧ lo1 < alpha1 ∧ alpha1 < up1 ∧ up1 ≤ inf ∧
          (up1 < inf → alpha1 = (up1 + lo1) / 2) ∧
          (¬ up1 < inf → alpha1 * 2 ^ (m + 1 - 1) < inf)) →
        alpha1 = next_alpha inf alpha lo1 up1 →
        (up < inf → up1 - lo1 = (up - lo) / 2) →
        (∀ t ∈ (lo, alpha, up) :: line_search_brackets isfinite inf f0 f (m + 1) alpha1 lo1 up1,
          0 ≤ t.1 ∧ t.1 < t.2.1 ∧ t.2.1 < t.2.2) ∧
        (∀ k a b,
          ((lo, alpha, up) :: line_search_brackets isfinite inf f0 f (m + 1) alpha1 lo1 up1)[k]?
            = some a →
          ((lo, alpha, up) :: line_search_brackets isfinite inf f0 f (m + 1) alpha1 lo1 up1)[k + 1]?
            = some b →
          b.2.1 = next_alpha inf a.2.1 b.1 b.2.2 ∧
          (a.2.2 < inf → b.2.2 - b.1 = (a.2.2 - a.1) / 2)) := by
      intro alpha1 lo1 up1 ⟨g0, g1, g2, g3, g4, g5⟩ hnext hhalf
      obtain ⟨r1, r2⟩ := ih alpha1 lo1 up1 g0 g1 g2 g3 g4 g5
      refine ⟨?_, ?_⟩
      · intro t ht
        rcases List.mem_cons.mp ht with rfl | ht
        · exact ⟨h0, h1, h2⟩
        · exact r1 t ht
      · intro k a b ha hb
        cases k with
        | zero =>
          simp only [List.getElem?_cons_zero, Option.some.injEq] at ha
          simp only [List.getElem?_cons_succ] at hb
          have hb2 := line_search_brackets_head isfinite inf f0 f (m + 1) alpha1 lo1 up1 b hb
          subst ha; subst hb2
          exact ⟨hnext, hhalf⟩
        | succ k =>
          simp only [List.getElem?_cons_succ] at ha hb
          exact r2 k a b ha hb
    rw [line_search_brackets]
    split_ifs with c1 c3
    · -- up = alpha
      have hlt : alpha < inf := lt_of_lt_of_le h2 h3
      have hn : next_alpha inf alpha lo alpha = (alpha + lo) / 2 := by
        unfold next_alpha; rw [if_pos hlt]
      refine key _ lo alpha ⟨h0, ?_, ?_, le_of_lt hlt, fun _ => hn, fun h => absurd hlt h⟩ rfl ?_
      · rw [hn]; linarith
      · rw [hn]; linarith
      · intro hup
        rw [h4 hup]; ring
    · -- lo = alpha
      by_cases hup : up < inf
      · have hn : next_alpha inf alpha alpha up = (up + alpha) / 2 := by
          unfold next_alpha; rw [if_pos hup]
        refine key _ alpha up ⟨le_of_lt hapos, ?_, ?_, h3, fun _ => hn,
          fun h => absurd hup h⟩ rfl ?_
        · rw [hn]; linarith
        · rw [hn]; linarith
        · intro _
          rw [h4 hup]; ring
      · have hn : next_alpha inf alpha alpha up = alpha * 2 := by
          unfold next_alpha; rw [if_neg hup]
        have hupe : up = inf := le_antisymm h3 (not_lt.mp hup)
        have hb := h5 hup
        simp only [Nat.add_sub_cancel] at hb
        rw [pow_succ] at hb
        have h2n : (1 : K) ≤ 2 ^ m := one_le_pow₀ (by norm_num)
        refine key _ alpha up ⟨le_of_lt hapos, ?_, ?_, h3, fun h => absurd h hup, fun _ => ?_⟩
          rfl (fun h => absurd h hup)
        · rw [hn]; linarith
        · rw [hn, hupe]
          nlinarith
        · rw [hn]
          simp only [Nat.add_sub_cancel]
          linarith
    · refine ⟨?_, ?_⟩
      · intro t ht
        simp only [List.mem_singleton] at ht
        subst ht
        exact ⟨h0, h1, h2⟩
      · intro k a b _ hb
        simp at hb

/-- C34 (with the bound the sentinel needs): `line_search` started at a step
`alpha > 0` with `alpha * 2^(maxiter - 1) < inf`, where `inf` is the sentinel
`numeric_limits<REAL>::max()` that stands for "no upper bound yet" and
`maxiter` is `LINESEARCH_MAXITER`. The steps passed to `f` are the middle
components of the triples `(lo, alpha, up)` of the loop variables at each
evaluation; every triple has `0 <= lo < alpha < up`; after a non-accepting
trial the next step is `(up + lo) / 2` when `up < inf` and `2 * alpha`
otherwise (`next_alpha` at the updated bounds); and once `up < inf` every
further non-accepting iteration halves `up - lo`. -/
theorem line_search_bracketing {K : Type} [LinearOrderedField K] (isfinite : K → Bool)
    (inf : K) (maxiter : Nat) (f0 : SingleDiff K) (f : K → SingleDiff K) (alpha : K)
    (h0 : 0 < alpha) (hb : alpha * 2 ^ (maxiter - 1) < inf) :
    (line_search isfinite inf maxiter f0 f alpha).evals
      = (line_search_brackets isfinite inf f0 f maxiter alpha 0 inf).map (fun t => t.2.1) ∧
    (∀ t ∈ line_search_brackets isfinite inf f0 f maxiter alpha 0 inf,
      0 ≤ t.1 ∧ t.1 < t.2.1 ∧ t.2.1 < t.2.2) ∧
    (∀ k a b, (line_search_brackets isfinite inf f0 f maxiter alpha 0 inf)[k]? = some a →
      (line_search_brackets isfinite inf f0 f maxiter alpha 0 inf)[k + 1]? = some b →
      b.2.1 = next_alpha inf a.2.1 b.1 b.2.2 ∧
      (a.2.2 < inf → b.2.2 - b.1 = (a.2.2 - a.1) / 2)) := by
  have h1 : (1 : K) ≤ 2 ^ (maxiter - 1) := one_le_pow₀ (by norm_num)
  have hlt : alpha < inf := lt_of_le_of_lt (by nlinarith) hb
  refine ⟨?_, line_search_brackets_inv isfinite inf f0 f maxiter alpha 0 inf le_rfl h0 hlt le_rfl
    (fun h => absurd h (lt_irrefl _)) (fun _ => hb)⟩
  unfold line_search
  rw [line_search_brackets_evals]
  simp

/-- Witness of C34: the search of 35 iterations from `alpha = 1` against a
function every trial of which fails the Armijo test. -/
theorem line_search_bracketing_witness :
    (0 : ℚ) < 1 ∧ (1 : ℚ) * 2 ^ (35 - 1) < 2 ^ 1024 ∧
    ∀ t ∈ line_search_brackets (fun _ => true) (2 ^ 1024) ⟨0, -1⟩ (fun _ => ⟨1, 0⟩) 35 (1 : ℚ) 0
        (2 ^ 1024),
      0 ≤ t.1 ∧ t.1 < t.2.1 ∧ t.2.1 < t.2.2 :=
  ⟨by norm_num, by norm_num,
    (line_search_bracketing (fun _ => true) (2 ^ 1024) 35 ⟨0, -1⟩ (fun _ => ⟨1, 0⟩) (1 : ℚ)
      (by norm_num) (by norm_num)).2.1⟩

/-- Counterexample to C34 as stated (for every initial `alpha > 0`): with
the sentinel `inf = 2^1024`, a search started at `alpha = inf` tests its first
step with `alpha = up`; and a search started at `alpha = 2^1000` against
`phi(a) = (-a, -1)`, `f0 = (0, -1)`, whose every trial passes the Armijo test
and fails the curvature test, doubles the step until it tests `alpha = 2^1024`
with `lo = 2^1023` and `up = 2^1024`. -/
theorem line_search_bracket_sentinel_reached :
    (0 : ℚ) < 2 ^ 1024 ∧
    (line_search_brackets (fun _ => true) (2 ^ 1024) ⟨0, -1⟩ (fun _ => ⟨1, 0⟩) 35
      (2 ^ 1024 : ℚ) 0 (2 ^ 1024))[0]? = some (0, 2 ^ 1024, 2 ^ 1024) ∧
    ¬ ((2 : ℚ) ^ 1024 < 2 ^ 1024) ∧
    (0 : ℚ) < 2 ^ 1000 ∧
    (line_search_brackets (fun _ => true) (2 ^ 1024) ⟨0, -1⟩ (fun a => ⟨-a, -1⟩) 35
      (2 ^ 1000 : ℚ) 0 (2 ^ 1024))[24]? = some (2 ^ 1023, 2 ^ 1024, 2 ^ 1024) := by
  refine ⟨by norm_num, by decide!, by norm_num, by norm_num, by decide!⟩

/-! ## The buffer arena: the claims -/

/-- What `new_buffer` returns when it has to start a block (`next_buffer ==
block_end`) and a buffer fits in the region behind the header
(`0 < buffer_size <= block_size() - offset`): the first slot of the block now
at the head of `used_blocks`, whose `countdown` is the capacity
`(block_size() - offset) / buffer_size >= 1`, and the buffer ends inside the
buffer region, which ends inside the block. -/
theorem new_buffer_fresh_block (offset : Nat) (alloc : Nat → Nat) (junk : Nat) (a : Arena)
    (h : a.next_buffer = a.block_end) (hB : 0 < a.buffer_size)
    (hfit : a.buffer_size ≤ block_size - offset) :
    ∃ base rest,
      (new_buffer offset alloc junk a).2.used_blocks
        = ⟨base, (block_size - offset) / a.buffer_size⟩ :: rest ∧
      1 ≤ (block_size - offset) / a.buffer_size ∧
      (new_buffer offset alloc junk a).1 = base + offset ∧
      (new_buffer offset alloc junk a).1 + a.buffer_size
        ≤ base + offset + (block_size - offset) / a.buffer_size * a.buffer_size ∧
      base + offset + (block_size - offset) / a.buffer_size * a.buffer_size ≤ base + block_size ∧
      (new_buffer offset alloc junk a).2.next_buffer
        = base + offset + 1 * a.buffer_size ∧
      (new_buffer offset alloc junk a).2.block_end
        = base + offset + (block_size - offset) / a.buffer_size * a.buffer_size := by
  have hcap : 1 ≤ (block_size - offset) / a.buffer_size :=
    (Nat.one_le_div_iff hB).mpr hfit
  have hmul : (block_size - offset) / a.buffer_size * a.buffer_size ≤ block_size - offset :=
    Nat.div_mul_le_self _ _
  have hB1 : a.buffer_size ≤ (block_size - offset) / a.buffer_size * a.buffer_size := by
    calc a.buffer_size = 1 * a.buffer_size := (Nat.one_mul _).symm
      _ ≤ _ := Nat.mul_le_mul_right _ hcap
  have hoff : offset ≤ block_size := by
    by_contra hc
    have : block_size - offset = 0 := by omega
    omega
  unfold new_buffer
  rw [if_pos h]
  refine ⟨(get_new_block alloc junk a).1, (get_new_block alloc junk a).2.used_blocks.tail,
    rfl, hcap, rfl, ?_, ?_, ?_, rfl⟩
  · simp only; omega
  · omega
  · simp only [Nat.one_mul]

/-- What `new_buffer` returns inside the current block: with `next_buffer`
at slot `k` of a block of capacity `cap` (`k < cap`, `block_end` behind slot
`cap - 1`, the region ending inside the block), the buffer is slot `k`, it
ends inside the buffer region, and `next_buffer` moves to slot `k + 1`. -/
theorem new_buffer_current_block (offset : Nat) (alloc : Nat → Nat) (junk : Nat) (a : Arena)
    (base k cap : Nat) (hk : k < cap)
    (hnext : a.next_buffer = base + offset + k * a.buffer_size)
    (hend : a.block_end = base + offset + cap * a.buffer_size) (hB : 0 < a.buffer_size) :
    (new_buffer offset alloc junk a).1 = base + offset + k * a.buffer_size ∧
    (new_buffer offset alloc junk a).1 + a.buffer_size ≤ base + offset + cap * a.buffer_size ∧
    (new_buffer offset alloc junk a).2.next_buffer = base + offset + (k + 1) * a.buffer_size ∧
    (new_buffer offset alloc junk a).2.block_end = a.block_end ∧
    (new_buffer offset alloc junk a).2.used_blocks = a.used_blocks := by
  have hlt : k * a.buffer_size < cap * a.buffer_size := Nat.mul_lt_mul_of_pos_right hk hB
  have hle : (k + 1) * a.buffer_size ≤ cap * a.buffer_size := Nat.mul_le_mul_right _ hk
  have hne : a.next_buffer ≠ a.block_end := by omega
  unfold new_buffer
  rw [if_neg hne]
  refine ⟨hnext, ?_, ?_, rfl, rfl⟩
  · simp only [hnext]
    rw [Nat.add_mul, Nat.one_mul] at hle
    omega
  · simp only [hnext]
    rw [Nat.add_mul, Nat.one_mul]
    omega

/-- C33 (evaluation at the failing input): a context of 512 directions of
`double` (`sizeof( REAL ) = 8`, 4 lanes, header rounded up to 32 bytes) has
`buffer_size = 4096`. The first call of `new_buffer` takes a block at the
address `alloc 0`, computes the capacity `(4096 - 32) / 4096 = 0`, and still
returns the buffer `alloc 0 + 32`, whose 4096 bytes end 32 bytes behind the
end of the block; `block_end` is left behind `next_buffer`, so the second call
returns `alloc 0 + 4128`, a buffer that lies entirely behind the block. -/
theorem new_buffer_overruns_block (alloc : Nat → Nat) (junk : Nat) :
    Block.offset 32 16 = 32 ∧
    (Arena.init 8 4 512).buffer_size = 4096 ∧
    (new_buffer 32 alloc junk (Arena.init 8 4 512)).2.used_blocks = [⟨alloc 0, 0⟩] ∧
    (new_buffer 32 alloc junk (Arena.init 8 4 512)).1 = alloc 0 + 32 ∧
    alloc 0 + block_size
      < (new_buffer 32 alloc junk (Arena.init 8 4 512)).1 + (Arena.init 8 4 512).buffer_size ∧
    (new_buffer 32 alloc junk (new_buffer 32 alloc junk (Arena.init 8 4 512)).2).1
      = alloc 0 + 4128 ∧
    alloc 0 + block_size
      ≤ (new_buffer 32 alloc junk (new_buffer 32 alloc junk (Arena.init 8 4 512)).2).1 ∧
    (new_buffer 32 alloc junk (new_buffer 32 alloc junk (Arena.init 8 4 512)).2).2.used_blocks
      = [⟨alloc 0, 0⟩] := by
  have h0 : Block.offset 32 16 = 32 := by decide
  have hB : (Arena.init 8 4 512).buffer_size = 4096 := by decide
  have e1 : new_buffer 32 alloc junk (Arena.init 8 4 512)
      = (alloc 0 + 32, ⟨4096, alloc 0 + 32 + 4096, alloc 0 + 32, [⟨alloc 0, 0⟩], [], 1⟩) := by
    have hinit : Arena.init 8 4 512 = ⟨4096, 0, 0, [], [], 0⟩ := by decide
    rw [hinit]
    simp [new_buffer, get_new_block, block_size]
  have e2 : new_buffer 32 alloc junk
        ⟨4096, alloc 0 + 32 + 4096, alloc 0 + 32, [⟨alloc 0, 0⟩], [], 1⟩
      = (alloc 0 + 32 + 4096,
          ⟨4096, alloc 0 + 32 + 4096 + 4096, alloc 0 + 32, [⟨alloc 0, 0⟩], [], 1⟩) := by
    simp [new_buffer]
  rw [e1]
  simp only [e2, hB, block_size]
  refine ⟨h0, ?_, ?_, ?_, ?_, ?_, ?_, ?_⟩ <;> first | trivial | omega

/-! ## cholesky_solve: what it reads and what it writes -/

theorem scal_congr {K : Type} [Field K] (N : Nat) (alpha : K) (mem mem' : Nat → K) (x incX p : Nat)
    (h : mem p = mem' p) : scal N alpha mem x incX p = scal N alpha mem' x incX p := by
  unfold scal
  induction N with
  | zero => simpa using h
  | succ n ih =>
    rw [List.range_succ, List.foldl_append, List.foldl_append]
    simp only [List.foldl_cons, List.foldl_nil]
    by_cases hp : p = x + n * incX
    · subst hp
      rw [Function.update_same, Function.update_same, ih]
    · rw [Function.update_noteq hp, Function.update_noteq hp, ih]

theorem gemv_congr {K : Type} [Field K] (M N : Nat) (alpha : K) (mem mem' : Nat → K)
    (a lda x incX : Nat) (beta : K) (y incY p : Nat) (h : mem p = mem' p)
    (hA : ∀ i j, i < M → j < N → mem (a + i * lda + j) = mem' (a + i * lda + j))
    (hx : ∀ j, j < N → mem (x + j * incX) = mem' (x + j * incX)) :
    gemv M N alpha mem a lda x incX beta y incY p
      = gemv M N alpha mem' a lda x incX beta y incY p := by
  unfold gemv
  induction M with
  | zero => simpa using h
  | succ n ih =>
    rw [List.range_succ, List.foldl_append, List.foldl_append]
    simp only [List.foldl_cons, List.foldl_nil]
    by_cases hp : p = y + n * incY
    · subst hp
      rw [Function.update_same, Function.update_same, h]
      congr 2
      refine Finset.sum_congr rfl fun j hj => ?_
      rw [hA n j (Nat.lt_succ_self n) (Finset.mem_range.mp hj), hx j (Finset.mem_range.mp hj)]
    · rw [Function.update_noteq hp, Function.update_noteq hp]
      exact ih (fun i j hi hj => hA i j (Nat.lt_succ_of_lt hi) hj)

theorem trsv_NoTrans_congr {K : Type} [Field K] (N : Nat) (A A' : Nat → K) (a lda : Nat)
    (X : Nat → K) (x incX : Nat)
    (hA : ∀ i j, j ≤ i → i < N → A (a + i * lda + j) = A' (a + i * lda + j)) :
    trsv_NoTrans N A a lda X x incX = trsv_NoTrans N A' a lda X x incX := by
  unfold trsv_NoTrans
  induction N with
  | zero => rfl
  | succ n ih =>
    rw [List.range_succ, List.foldl_append, List.foldl_append]
    simp only [List.foldl_cons, List.foldl_nil]
    have hs : ∀ m : Nat → K,
        ∑ j in Finset.range n, A (a + n * lda + j) * m (x + j * incX)
          = ∑ j in Finset.range n, A' (a + n * lda + j) * m (x + j * incX) := by
      intro m
      refine Finset.sum_congr rfl fun j hj => ?_
      rw [hA n j (le_of_lt (Finset.mem_range.mp hj)) (Nat.lt_succ_self n)]
    rw [ih (fun i j hj hi => hA i j hj (Nat.lt_succ_of_lt hi)),
      hA n n (le_refl n) (Nat.lt_succ_self n), hs]

theorem trsv_Trans_congr {K : Type} [Field K] (N : Nat) (A A' : Nat → K) (a lda : Nat)
    (X : Nat → K) (x incX : Nat)
    (hA : ∀ i j, j ≤ i → i < N → A (a + i * lda + j) = A' (a + i * lda + j)) :
    trsv_Trans N A a lda X x incX = trsv_Trans N A' a lda X x incX := by
  unfold trsv_Trans
  have key : ∀ (l : List Nat) (X : Nat → K), (∀ i ∈ l, i < N) →
      l.foldl (fun m i => Function.update m (x + i * incX)
        ((m (x + i * incX) - ∑ j in Finset.Ico (i + 1) N, A (a + j * lda + i) * m (x + j * incX))
          / A (a + i * lda + i))) X
      = l.foldl (fun m i => Function.update m (x + i * incX)
        ((m (x + i * incX) - ∑ j in Finset.Ico (i + 1) N, A' (a + j * lda + i) * m (x + j * incX))
          / A' (a + i * lda + i))) X := by
    intro l
    induction l with
    | nil => intro X _; rfl
    | cons i l ih =>
      intro X hl
      simp only [List.foldl_cons]
      have hi : i < N := hl i (List.mem_cons_self i l)
      rw [hA i i (le_refl i) hi]
      have hs : ∑ j in Finset.Ico (i + 1) N, A (a + j * lda + i) * X (x + j * incX)
          = ∑ j in Finset.Ico (i + 1) N, A' (a + j * lda + i) * X (x + j * incX) := by
        refine Finset.sum_congr rfl fun j hj => ?_
        have hj2 := Finset.mem_Ico.mp hj
        rw [hA j i (by omega) hj2.2]
      rw [hs]
      exact ih _ (fun i' hi' => hl i' (List.mem_cons_of_mem i hi'))
  exact key _ X (fun i hi => by
    have := List.mem_reverse.mp hi
    exact List.mem_range.mp this)

theorem cholesky_loop_congr {K : Type} [LinearOrderedField K] (sqrt : K → K) (LDA N : Nat) :
    ∀ (fuel k : Nat) (A A' : Nat → K),
      (∀ i j, j ≤ i → i < N → A (i * LDA + j) = A' (i * LDA + j)) →
      (cholesky_loop sqrt LDA N fuel k A).1 = (cholesky_loop sqrt LDA N fuel k A').1 ∧
      ∀ i j, j ≤ i → i < N →
        (cholesky_loop sqrt LDA N fuel k A).2 (i * LDA + j)
          = (cholesky_loop sqrt LDA N fuel k A').2 (i * LDA + j) := by
  intro fuel
  induction fuel with
  | zero => intro k A A' h; exact ⟨rfl, h⟩
  | succ fuel ih =>
    intro k A A' h
    rw [cholesky_loop, cholesky_loop]
    by_cases hk : k < N
    · rw [if_pos hk, if_pos hk]
      have h1 : ∀ i j, j ≤ i → i < N →
          gemv (N - k) k (-1) A (k * LDA + 0) LDA (k * LDA + 0) 1 1 (k * LDA + k) LDA
            (i * LDA + j)
          = gemv (N - k) k (-1) A' (k * LDA + 0) LDA (k * LDA + 0) 1 1 (k * LDA + k) LDA
            (i * LDA + j) := by
        intro i j hj hi
        apply gemv_congr _ _ _ _ _ _ _ _ _ _ _ _ _ (h i j hj hi)
        · intro i' j' hi' hj'
          have e : k * LDA + 0 + i' * LDA + j' = (k + i') * LDA + j' := by ring
          rw [e]
          exact h (k + i') j' (by omega) (by omega)
        · intro j' hj'
          have e : k * LDA + 0 + j' * 1 = k * LDA + j' := by ring
          rw [e]
          exact h k j' (by omega) hk
      simp only
      rw [h1 k k (le_refl k) hk]
      by_cases hv : gemv (N - k) k (-1) A' (k * LDA + 0) LDA (k * LDA + 0) 1 1 (k * LDA + k) LDA
          (k * LDA + k) < 0
      · rw [if_pos hv, if_pos hv]
        exact ⟨rfl, h1⟩
      · rw [if_neg hv, if_neg hv]
        apply ih
        intro i j hj hi
        simp only [Function.update_same]
        apply scal_congr
        by_cases hp : i * LDA + j = k * LDA + k
        · rw [hp, Function.update_same, Function.update_same]
        · rw [Function.update_noteq hp, Function.update_noteq hp]
          exact h1 i j hj hi
    · rw [if_neg hk, if_neg hk]
      exact ⟨rfl, h⟩

theorem cholesky_loop_frame {K : Type} [LinearOrderedField K] (sqrt : K → K) (LDA N : Nat)
    (p : Nat) (hp : ∀ i j, j ≤ i → i < N → p ≠ i * LDA + j) :
    ∀ (fuel k : Nat) (A : Nat → K), (cholesky_loop sqrt LDA N fuel k A).2 p = A p := by
  intro fuel
  induction fuel with
  | zero => intro k A; rfl
  | succ fuel ih =>
    intro k A
    rw [cholesky_loop]
    by_cases hk : k < N
    · rw [if_pos hk]
      have h1 : gemv (N - k) k (-1) A (k * LDA + 0) LDA (k * LDA + 0) 1 1 (k * LDA + k) LDA p
          = A p := by
        apply gemv_miss
        intro i hi heq
        have e : k * LDA + k + i * LDA = (k + i) * LDA + k := by ring
        rw [e] at heq
        exact hp (k + i) k (by omega) (by omega) heq
      simp only
      split_ifs with hv
      · exact h1
      · rw [ih, scal_miss, Function.update_noteq (hp k k (le_refl k) hk), h1]
        intro i hi heq
        have e : (k + 1) * LDA + k + i * LDA = (k + 1 + i) * LDA + k := by ring
        rw [e] at heq
        exact hp (k + 1 + i) k (by omega) (by omega) heq
    · rw [if_neg hk]

/-- C40: `cholesky_solve` on an `N x N` matrix stored with leading dimension
`LDA >= N >= 1` touches only the lower triangle: every array element that is
not an entry `A(i,j)` with `j <= i < N` is left as it was, in particular every
entry with `j > i` and every storage column `j >= N`; and two arrays that
agree on the lower triangle give the same return value, the same `b` and the
same lower triangle on return. Both hold whether the call succeeds or
fails. -/
theorem cholesky_solve_lower_triangle_only {K : Type} [LinearOrderedField K] (sqrt : K → K)
    (A_ : Nat → K) (LDA : Nat) (b : Nat → K) (N : Nat) (h0 : 0 < N) (hN : N ≤ LDA) :
    (∀ p, (∀ i j, j ≤ i → i < N → p ≠ i * LDA + j) →
      (cholesky_solve sqrt A_ LDA b N).A p = A_ p) ∧
    (∀ i j, i < j → j < LDA →
      (cholesky_solve sqrt A_ LDA b N).A (i * LDA + j) = A_ (i * LDA + j)) ∧
    (∀ A' : Nat → K, (∀ i j, j ≤ i → i < N → A' (i * LDA + j) = A_ (i * LDA + j)) →
      (cholesky_solve sqrt A' LDA b N).ret = (cholesky_solve sqrt A_ LDA b N).ret ∧
      (cholesky_solve sqrt A' LDA b N).b = (cholesky_solve sqrt A_ LDA b N).b ∧
      ∀ i j, j ≤ i → i < N →
        (cholesky_solve sqrt A' LDA b N).A (i * LDA + j)
          = (cholesky_solve sqrt A_ LDA b N).A (i * LDA + j)) := by
  have frame : ∀ p, (∀ i j, j ≤ i → i < N → p ≠ i * LDA + j) →
      (cholesky_solve sqrt A_ LDA b N).A p = A_ p := by
    intro p hp
    unfold cholesky_solve
    simp only
    have hp0 : p ≠ 0 * LDA + 0 := hp 0 0 (le_refl 0) h0
    have hsc : ∀ (B : Nat → K) (al : K), scal (N - 1) al B (1 * LDA + 0) LDA p = B p := by
      intro B al
      apply scal_miss
      intro i hi heq
      have e : 1 * LDA + 0 + i * LDA = (1 + i) * LDA + 0 := by ring
      rw [e] at heq
      exact hp (1 + i) 0 (by omega) (by omega) heq
    split_ifs with hv hr
    · rfl
    · simp only
      rw [cholesky_loop_frame sqrt LDA N p hp, hsc, Function.update_noteq hp0]
    · simp only
      rw [cholesky_loop_frame sqrt LDA N p hp, hsc, Function.update_noteq hp0]
  refine ⟨frame, ?_, ?_⟩
  · intro i j hij hj
    apply frame
    intro i' j' hj' hi' heq
    have := idx_inj LDA i j i' j' hj (by omega) heq
    omega
  · intro A' hA
    have h00 : A' (0 * LDA + 0) = A_ (0 * LDA + 0) := hA 0 0 (le_refl 0) h0
    have hstart : ∀ i j, j ≤ i → i < N →
        scal (N - 1) (1 / Function.update A' (0 * LDA + 0) (sqrt (A' (0 * LDA + 0))) (0 * LDA + 0))
          (Function.update A' (0 * LDA + 0) (sqrt (A' (0 * LDA + 0)))) (1 * LDA + 0) LDA
          (i * LDA + j)
        = scal (N - 1)
          (1 / Function.update A_ (0 * LDA + 0) (sqrt (A_ (0 * LDA + 0))) (0 * LDA + 0))
          (Function.update A_ (0 * LDA + 0) (sqrt (A_ (0 * LDA + 0)))) (1 * LDA + 0) LDA
          (i * LDA + j) := by
      intro i j hj hi
      rw [h00]
      simp only [Function.update_same]
      apply scal_congr
      by_cases hp : i * LDA + j = 0 * LDA + 0
      · rw [hp, Function.update_same, Function.update_same]
      · rw [Function.update_noteq hp, Function.update_noteq hp]
        exact hA i j hj hi
    obtain ⟨l1, l2⟩ := cholesky_loop_congr sqrt LDA N N 1 _ _ hstart
    unfold cholesky_solve
    simp only
    rw [h00]
    by_cases hv : A_ (0 * LDA + 0) < 0
    · rw [if_pos hv, if_pos hv]
      exact ⟨rfl, rfl, hA⟩
    · rw [if_neg hv, if_neg hv]
      rw [h00] at l1 l2
      rw [l1]
      split_ifs with hr
      · exact ⟨rfl, rfl, l2⟩
      · refine ⟨rfl, ?_, l2⟩
        simp only
        have e1 : ∀ X : Nat → K,
            trsv_NoTrans N (cholesky_loop sqrt LDA N N 1 (scal (N - 1)
              (1 / Function.update A' (0 * LDA + 0) (sqrt (A_ (0 * LDA + 0))) (0 * LDA + 0))
              (Function.update A' (0 * LDA + 0) (sqrt (A_ (0 * LDA + 0)))) (1 * LDA + 0) LDA)).2
              0 LDA X 0 1
            = trsv_NoTrans N (cholesky_loop sqrt LDA N N 1 (scal (N - 1)
              (1 / Function.update A_ (0 * LDA + 0) (sqrt (A_ (0 * LDA + 0))) (0 * LDA + 0))
              (Function.update A_ (0 * LDA + 0) (sqrt (A_ (0 * LDA + 0)))) (1 * LDA + 0) LDA)).2
              0 LDA X 0 1 := by
          intro X
          apply trsv_NoTrans_congr
          intro i j hj hi
          rw [Nat.zero_add]
          exact l2 i j hj hi
        have e2 : ∀ X : Nat → K,
            trsv_Trans N (cholesky_loop sqrt LDA N N 1 (scal (N - 1)
              (1 / Function.update A' (0 * LDA + 0) (sqrt (A_ (0 * LDA + 0))) (0 * LDA + 0))
              (Function.update A' (0 * LDA + 0) (sqrt (A_ (0 * LDA + 0)))) (1 * LDA + 0) LDA)).2
              0 LDA X 0 1
            = trsv_Trans N (cholesky_loop sqrt LDA N N 1 (scal (N - 1)
              (1 / Function.update A_ (0 * LDA + 0) (sqrt (A_ (0 * LDA + 0))) (0 * LDA + 0))
              (Function.update A_ (0 * LDA + 0) (sqrt (A_ (0 * LDA + 0)))) (1 * LDA + 0) LDA)).2
              0 LDA X 0 1 := by
          intro X
          apply trsv_Trans_congr
          intro i j hj hi
          rw [Nat.zero_add]
          exact l2 i j hj hi
        rw [e1, e2]

/-- Witness of C40: a 2 x 2 matrix whose upper entry `A(0,1)` holds 77. -/
theorem cholesky_solve_lower_triangle_only_witness :
    0 < 2 ∧ 2 ≤ 2 ∧
    ∀ i j, i < j → j < 2 →
      (cholesky_solve gnSqrt (fun k => if k = 0 then (4 : ℚ) else if k = 1 then 77
          else if k = 2 then 2 else 5) 2 (fun _ => 1) 2).A (i * 2 + j)
        = (fun k => if k = 0 then (4 : ℚ) else if k = 1 then 77 else if k = 2 then 2 else 5)
          (i * 2 + j) :=
  ⟨by decide, by decide,
    (cholesky_solve_lower_triangle_only gnSqrt
      (fun k => if k = 0 then (4 : ℚ) else if k = 1 then 77 else if k = 2 then 2 else 5) 2
      (fun _ => 1) 2 (by decide) (by decide)).2.1⟩

/-! ## gn_sbfgs_min: the Hessian update -/

theorem gn_add_diagonal_spec {K : Type} [Field K] (N CN : Nat) (normr : K) (B_ : Nat → K)
    (hN : N ≤ CN) (i j : Nat) (hj : j < CN) :
    gn_add_diagonal N CN normr B_ (i * CN + j)
      = if i < N ∧ i = j then B_ (i * CN + j) + normr else B_ (i * CN + j) := by
  unfold gn_add_diagonal
  induction N with
  | zero => simp
  | succ n ih =>
    rw [List.range_succ, List.foldl_append]
    simp only [List.foldl_cons, List.foldl_nil, Function.update_apply]
    by_cases h : i * CN + j = n * CN + n
    · obtain ⟨h1, h2⟩ := idx_inj CN i j n n hj (by omega) h
      subst h1 h2
      rw [if_pos rfl, if_pos ⟨Nat.lt_succ_self _, rfl⟩, ih (by omega), if_neg (by omega)]
    · rw [if_neg h, ih (by omega)]
      by_cases h2 : i < n ∧ i = j
      · rw [if_pos h2, if_pos ⟨Nat.lt_succ_of_lt h2.1, h2.2⟩]
      · rw [if_neg h2, if_neg]
        rintro ⟨h3, h4⟩
        subst h4
        have : i = n := by
          by_contra hne
          exact h2 ⟨by omega, rfl⟩
        subst this
        exact h rfl

theorem gn_tested_spec {K : Type} [LinearOrderedField K] (env : GnEnv K) (v : GnVars K) :
    (gn_tested env v).A_ = v.A_ ∧
    (gn_tested env v).normr2 = v.normr2 ∧
    (gn_tested env v).ad_params
      = Independent env.c v.ad_params (fun i => (gn_tested env v).params i.val) ∧
    (∀ i, (gn_tested env v).s i
      = if i < env.N then (gn_line_search env (gn_direction env v).2).alpha
          * (gn_direction env v).2.s i else (gn_direction env v).2.s i) ∧
    (∀ i, (gn_tested env v).params i
      = if i < env.N then v.params i + (gn_tested env v).s i else v.params i) ∧
    (gn_accepted env v).2
      = ∑ k in Finset.range env.M,
          (env.residuals k (gn_tested env v).ad_params).getValue
            * (env.residuals k (gn_tested env v).ad_params).getValue ∧
    (∀ j, j < env.N → (gn_tested env v).g j
      = ∑ k in Finset.range env.M,
          (env.residuals k (gn_tested env v).ad_params).getValue
            * (env.residuals k (gn_tested env v).ad_params).getDiffValue j) ∧
    (∀ j, j < env.N → (gn_tested env v).z j
      = env.sqrt ((gn_accepted env v).2 / v.normr2)
        * ∑ k in Finset.range env.M,
            (env.residuals k (gn_tested env v).ad_params).getValue
              * ((env.residuals k (gn_tested env v).ad_params).getDiffValue j
                - (v.r k).getDiffValue j)) ∧
    (∀ i j, i < env.N → j ≤ i → (gn_tested env v).B_ (i * env.CN + j)
      = ∑ k in Finset.range env.M,
          (env.residuals k (gn_tested env v).ad_params).getDiffValue i
            * (env.residuals k (gn_tested env v).ad_params).getDiffValue j) ∧
    (∀ k, k < env.M → (gn_tested env v).r k = env.residuals k (gn_tested env v).ad_params) := by
  obtain ⟨a1, a2, a3, a4, a5, a6, a7, a8, a9, a10, -⟩ := gn_accept_spec env (gn_direction env v).2
    (gn_line_search env (gn_direction env v).2).alpha
  have hN : env.N ≤ env.CN := le_next_size env.c.W env.c.num_dir env.c.W_pos
  refine ⟨a10, a9, a3, a1, fun i => ?_, a4, fun j hj => a5 j (lt_of_lt_of_le hj hN), a6, a7, a8⟩
  have := a2 i
  have h1 := a1 i
  show (gn_accept env (gn_direction env v).2
      (gn_line_search env (gn_direction env v).2).alpha).1.params i = _
  rw [this]
  by_cases h : i < env.N
  · rw [if_pos h, if_pos h]
    show _ = v.params i + (gn_accept env (gn_direction env v).2
      (gn_line_search env (gn_direction env v).2).alpha).1.s i
    rw [h1, if_pos h]
    rfl
  · rw [if_neg h, if_neg h]
    rfl

theorem gn_hessian_update_spec {K : Type} [LinearOrderedField K] (env : GnEnv K) (v : GnVars K)
    (h : (gn_iteration env v).2 = GnStop.running) :
    (gn_iteration env v).1.normr2 = (gn_accepted env v).2 ∧
    (1 / 1000000 ≤ dot env.N (gn_tested env v).z 1 (gn_tested env v).s 1
        / dot env.N (gn_tested env v).s 1 (gn_tested env v).s 1 →
      (∀ i j, i < env.N → j ≤ i →
        (gn_iteration env v).1.A_ (i * env.CN + j)
          = v.A_ (i * env.CN + j)
            - 1 / dot env.N (gn_tested env v).s 1
                (matVec (symOf v.A_ env.CN) env.N (gn_tested env v).s) 1
              * matVec (symOf v.A_ env.CN) env.N (gn_tested env v).s i
              * matVec (symOf v.A_ env.CN) env.N (gn_tested env v).s j
            + 1 / dot env.N (gn_tested env v).z 1 (gn_tested env v).s 1
              * (gn_tested env v).z i * (gn_tested env v).z j) ∧
      (∀ i j, i < env.N → j ≤ i →
        (gn_iteration env v).1.B_ (i * env.CN + j)
          = (∑ k in Finset.range env.M,
              (env.residuals k (gn_tested env v).ad_params).getDiffValue i
                * (env.residuals k (gn_tested env v).ad_params).getDiffValue j)
            + (gn_iteration env v).1.A_ (i * env.CN + j))) ∧
    (¬ 1 / 1000000 ≤ dot env.N (gn_tested env v).z 1 (gn_tested env v).s 1
        / dot env.N (gn_tested env v).s 1 (gn_tested env v).s 1 →
      (gn_iteration env v).1.A_ = v.A_ ∧
      (∀ i j, i < env.N → j ≤ i →
        (gn_iteration env v).1.B_ (i * env.CN + j)
          = (∑ k in Finset.range env.M,
              (env.residuals k (gn_tested env v).ad_params).getDiffValue i
                * (env.residuals k (gn_tested env v).ad_params).getDiffValue j)
            + if i = j then env.sqrt (gn_accepted env v).2 else 0)) := by
  obtain ⟨-, -, -, hit⟩ := gn_iteration_running env v h
  obtain ⟨tA, -, -, -, -, -, -, -, tB, -⟩ := gn_tested_spec env v
  have hN : env.N ≤ env.CN := le_next_size env.c.W env.c.num_dir env.c.W_pos
  rw [hit]
  refine ⟨(gn_hessian_update_keeps env _ _).2.2.2.1, fun hb => ?_, fun hb => ?_⟩
  · have hA : ∀ i j, i < env.N → j ≤ i →
        (gn_hessian_update env (gn_tested env v) (gn_accepted env v).2).A_ (i * env.CN + j)
          = v.A_ (i * env.CN + j)
            - 1 / dot env.N (gn_tested env v).s 1
                (matVec (symOf v.A_ env.CN) env.N (gn_tested env v).s) 1
              * matVec (symOf v.A_ env.CN) env.N (gn_tested env v).s i
              * matVec (symOf v.A_ env.CN) env.N (gn_tested env v).s j
            + 1 / dot env.N (gn_tested env v).z 1 (gn_tested env v).s 1
              * (gn_tested env v).z i * (gn_tested env v).z j := by
      intro i j hi hj
      have e := sbfgs_matrix env.N env.CN hN v.A_ (gn_tested env v).s (gn_tested env v).z
        (gn_tested env v).As i j hi (by omega)
      rw [symOf_lower _ _ _ _ hj, symOf_lower _ _ _ _ hj] at e
      unfold gn_hessian_update
      simp only
      rw [if_pos hb]
      simp only [tA]
      rw [e]
      unfold dot
      simp only [Nat.mul_one]
    refine ⟨hA, fun i j hi hj => ?_⟩
    have hlt : i * env.CN + j < env.N * env.CN := by
      calc i * env.CN + j < i * env.CN + env.CN := by omega
        _ = (i + 1) * env.CN := by ring
        _ ≤ env.N * env.CN := Nat.mul_le_mul_right _ hi
    have hBv : (gn_hessian_update env (gn_tested env v) (gn_accepted env v).2).B_ (i * env.CN + j)
        = (gn_tested env v).B_ (i * env.CN + j)
          + (gn_hessian_update env (gn_tested env v) (gn_accepted env v).2).A_
              (i * env.CN + j) := by
      unfold gn_hessian_update
      simp only
      rw [if_pos hb]
      simp only [aligned_transform_1]
      rw [if_pos hlt]
    rw [hBv, tB i j hi hj]
  · have hA : (gn_hessian_update env (gn_tested env v) (gn_accepted env v).2).A_ = v.A_ := by
      unfold gn_hessian_update
      simp only
      rw [if_neg hb]
      exact tA
    refine ⟨hA, fun i j hi hj => ?_⟩
    have hBv : (gn_hessian_update env (gn_tested env v) (gn_accepted env v).2).B_
        = gn_add_diagonal env.N env.CN (env.sqrt (gn_accepted env v).2) (gn_tested env v).B_ := by
      unfold gn_hessian_update
      simp only
      rw [if_neg hb]
    rw [hBv, gn_add_diagonal_spec env.N env.CN _ _ hN i j (by omega), tB i j hi hj]
    by_cases hij : i = j
    · rw [if_pos ⟨hi, hij⟩, if_pos hij]
    · rw [if_neg (fun hh => hij hh.2), if_neg hij, add_zero]

/-- C25: the Hessian update of an iteration of `gn_sbfgs_min` that goes on
to the next one (step accepted, no termination test fired). With `s` the
accepted step, `z` the rescaled secant vector, `zs = dot( z, s )`,
`ss = dot( s, s )`, `As = A * s` for the symmetric matrix in the lower
triangle of `A_`, `sAs = dot( s, As )` and `J` the Jacobian of the residuals
at the new parameters: if `zs / ss >= 1e-6` the lower triangle of `A_` becomes
`A - (1/sAs) * As * As^T + (1/zs) * z * z^T` and that of `B_` becomes
`J^T J` plus the new `A_`; otherwise `A_` is left as it is and the lower
triangle of `B_` becomes `J^T J` with `sqrt( new_normr2 )` added to every
diagonal entry. In both cases `normr2` becomes `new_normr2`. -/
theorem gn_hessian_update_rule {K : Type} [LinearOrderedField K] (env : GnEnv K) (v : GnVars K)
    (h : (gn_iteration env v).2 = GnStop.running) :
    (gn_iteration env v).1.normr2 = (gn_accepted env v).2 ∧
    (1 / 1000000 ≤ dot env.N (gn_tested env v).z 1 (gn_tested env v).s 1
        / dot env.N (gn_tested env v).s 1 (gn_tested env v).s 1 →
      (∀ i j, i < env.N → j ≤ i →
        (gn_iteration env v).1.A_ (i * env.CN + j)
          = v.A_ (i * env.CN + j)
            - 1 / dot env.N (gn_tested env v).s 1
                (matVec (symOf v.A_ env.CN) env.N (gn_tested env v).s) 1
              * matVec (symOf v.A_ env.CN) env.N (gn_tested env v).s i
              * matVec (symOf v.A_ env.CN) env.N (gn_tested env v).s j
            + 1 / dot env.N (gn_tested env v).z 1 (gn_tested env v).s 1
              * (gn_tested env v).z i * (gn_tested env v).z j) ∧
      (∀ i j, i < env.N → j ≤ i →
        (gn_iteration env v).1.B_ (i * env.CN + j)
          = (∑ k in Finset.range env.M,
              (env.residuals k (gn_tested env v).ad_params).getDiffValue i
                * (env.residuals k (gn_tested env v).ad_params).getDiffValue j)
            + (gn_iteration env v).1.A_ (i * env.CN + j))) ∧
    (¬ 1 / 1000000 ≤ dot env.N (gn_tested env v).z 1 (gn_tested env v).s 1
        / dot env.N (gn_tested env v).s 1 (gn_tested env v).s 1 →
      (gn_iteration env v).1.A_ = v.A_ ∧
      (∀ i j, i < env.N → j ≤ i →
        (gn_iteration env v).1.B_ (i * env.CN + j)
          = (∑ k in Finset.range env.M,
              (env.residuals k (gn_tested env v).ad_params).getDiffValue i
                * (env.residuals k (gn_tested env v).ad_params).getDiffValue j)
            + if i = j then env.sqrt (gn_accepted env v).2 else 0)) :=
  gn_hessian_update_spec env v h

/-- Witness of C25: the first iteration of the run of `gnExampleEnv`. -/
theorem gn_hessian_update_rule_witness :
    (gn_iteration gnExampleEnv gnExampleStart).2 = GnStop.running ∧
    (gn_iteration gnExampleEnv gnExampleStart).1.normr2
      = (gn_accepted gnExampleEnv gnExampleStart).2 :=
  ⟨by decide!, (gn_hessian_update_rule gnExampleEnv gnExampleStart (by decide!)).1⟩

/-! ## gn_sbfgs_min: the variables at the top of an iteration -/

theorem Independent_idem {K : Type} [Zero K] [One K] (c : Context K) (old : Nat → MultiDiff K)
    (x : Fin c.num_dir → K) : Independent c (Independent c old x) x = Independent c old x := by
  funext r
  unfold Independent
  by_cases h : r < c.num_dir
  · simp only [dif_pos h]
    unfold MultiDiff.setIndependent
    congr 1
    funext j
    by_cases hj : j = r
    · subst hj
      rw [Function.update_same, Function.update_same]
    · rw [Function.update_noteq hj, Function.update_noteq hj]
      unfold MultiDiff.setDiffValsZero
      simp only
      have hf : c.num_directions ≤ 0 + c.num_directions * c.W := by
        have := c.W_pos
        have : c.num_directions * 1 ≤ c.num_directions * c.W := Nat.mul_le_mul_left _ this
        omega
      rw [setDiffValsZero_loop_lane c.W c.num_directions c.W_pos (next_size_dvd _ _)
        c.num_directions 0 _ (dvd_zero _) (Nat.zero_le _) hf j,
        setDiffValsZero_loop_lane c.W c.num_directions c.W_pos (next_size_dvd _ _)
        c.num_directions 0 _ (dvd_zero _) (Nat.zero_le _) hf j]
      by_cases hd : 0 ≤ j ∧ j < c.num_directions
      · rw [if_pos hd, if_pos hd]
      · rw [if_neg hd, if_neg hd, Function.update_noteq hj,
          setDiffValsZero_loop_lane c.W c.num_directions c.W_pos (next_size_dvd _ _)
          c.num_directions 0 _ (dvd_zero _) (Nat.zero_le _) hf j, if_neg hd]
  · simp only [dif_neg h]

theorem gn_heads_induction {K : Type} [LinearOrderedField K] (env : GnEnv K) (n : Nat)
    (v : GnVars K) (P : GnVars K → Prop) (h0 : P v)
    (hstep : ∀ a, P a → (gn_iteration env a).2 = GnStop.running → P (gn_iteration env a).1) :
    ∀ (k : Nat) (a : GnVars K), (gn_loop env n v).heads[k]? = some a → P a := by
  obtain ⟨-, -, t3, t4, t5, -⟩ := gn_loop_trace env n v
  intro k
  induction k with
  | zero =>
    intro a ha
    by_cases hn : 0 < n
    · rw [t3 hn] at ha
      rw [← Option.some.inj ha]
      exact h0
    · have hn0 : n = 0 := by omega
      subst hn0
      simp [gn_loop] at ha
  | succ k ih =>
    intro b hb
    have hk : k < (gn_loop env n v).heads.length := by
      by_contra h
      rw [List.getElem?_eq_none (by omega)] at hb
      exact absurd hb (by simp)
    obtain ⟨a, ha⟩ : ∃ a, (gn_loop env n v).heads[k]? = some a :=
      ⟨_, List.getElem?_eq_getElem hk⟩
    obtain ⟨r1, r2⟩ := t5 k a b ha hb
    rw [r2]
    exact hstep a (ih a ha) r1

theorem gn_initial_vars_spec {K : Type} [Field K] (env : GnEnv K) (old : Nat → MultiDiff K)
    (params g0 s0 z0 As0 A0 B0 : Nat → K) (r0 : Nat → MultiDiff K) :
    (gn_initial_vars env old params g0 s0 z0 As0 A0 B0 r0).params = params ∧
    (gn_initial_vars env old params g0 s0 z0 As0 A0 B0 r0).ad_params
      = Independent env.c old (fun i => params i.val) ∧
    (gn_initial_vars env old params g0 s0 z0 As0 A0 B0 r0).small_progress = 0 ∧
    (gn_initial_vars env old params g0 s0 z0 As0 A0 B0 r0).normr2
      = ∑ k in Finset.range env.M,
          (env.residuals k (Independent env.c old (fun i => params i.val))).getValue
            * (env.residuals k (Independent env.c old (fun i => params i.val))).getValue ∧
    (∀ j, j < env.N → (gn_initial_vars env old params g0 s0 z0 As0 A0 B0 r0).g j
      = ∑ k in Finset.range env.M,
          (env.residuals k (Independent env.c old (fun i => params i.val))).getValue
            * (env.residuals k (Independent env.c old (fun i => params i.val))).getDiffValue j) ∧
    (∀ k, k < env.M → (gn_initial_vars env old params g0 s0 z0 As0 A0 B0 r0).r k
      = env.residuals k (Independent env.c old (fun i => params i.val))) ∧
    (∀ i j, i < env.N → j < env.CN →
      (gn_initial_vars env old params g0 s0 z0 As0 A0 B0 r0).A_ (i * env.CN + j)
        = if i = j then 1 / 10000
            * env.sqrt (gn_initial_vars env old params g0 s0 z0 As0 A0 B0 r0).normr2 else 0) ∧
    (∀ i j, i < env.N → j ≤ i →
      (gn_initial_vars env old params g0 s0 z0 As0 A0 B0 r0).B_ (i * env.CN + j)
        = (∑ k in Finset.range env.M,
            (env.residuals k (Independent env.c old (fun i => params i.val))).getDiffValue i
              * (env.residuals k (Independent env.c old (fun i => params i.val))).getDiffValue j)
          + (gn_initial_vars env old params g0 s0 z0 As0 A0 B0 r0).A_ (i * env.CN + j)) := by
  obtain ⟨e1, e2, e3, e4⟩ := gn_sbfgs_min_init_spec env.sqrt env.c old
    (fun i => params i.val) env.M env.residuals g0 A0 B0 r0
  have hN : env.c.num_dir ≤ next_size env.c.W env.c.num_dir :=
    le_next_size env.c.W env.c.num_dir env.c.W_pos
  obtain ⟨-, -, -, -, -, e6⟩ := gn_residual_sweep_spec env.c.num_dir
    (next_size env.c.W env.c.num_dir) hN (Independent env.c old (fun i => params i.val))
    env.residuals
    ⟨0, aligned_fill 0 g0 0 (next_size env.c.W env.c.num_dir),
      aligned_fill 0 A0 0 (env.c.num_dir * next_size env.c.W env.c.num_dir),
      aligned_fill 0 B0 0 (env.c.num_dir * next_size env.c.W env.c.num_dir), r0⟩ env.M
  exact ⟨rfl, Independent_idem env.c old _, rfl, e1, e2, e6, e3, e4⟩

theorem gn_heads_spec {K : Type} [LinearOrderedField K] (env : GnEnv K)
    (MAXITER : Nat) (old : Nat → MultiDiff K) (params g0 s0 z0 As0 A0 B0 : Nat → K)
    (r0 : Nat → MultiDiff K) (k : Nat) (a : GnVars K)
    (ha : (gn_sbfgs_min env MAXITER old params g0 s0 z0 As0 A0 B0 r0).heads[k]? = some a) :
    (∃ X, a.ad_params = Independent env.c X (fun i => a.params i.val)) ∧
    a.normr2 = ∑ i in Finset.range env.M,
      (env.residuals i a.ad_params).getValue * (env.residuals i a.ad_params).getValue ∧
    (∀ j, j < env.N → a.g j = ∑ i in Finset.range env.M,
      (env.residuals i a.ad_params).getValue * (env.residuals i a.ad_params).getDiffValue j) ∧
    (∀ i, i < env.M → a.r i = env.residuals i a.ad_params) := by
  refine gn_heads_induction env MAXITER _
    (fun a => (∃ X, a.ad_params = Independent env.c X (fun i => a.params i.val)) ∧
      a.normr2 = ∑ i in Finset.range env.M,
        (env.residuals i a.ad_params).getValue * (env.residuals i a.ad_params).getValue ∧
      (∀ j, j < env.N → a.g j = ∑ i in Finset.range env.M,
        (env.residuals i a.ad_params).getValue * (env.residuals i a.ad_params).getDiffValue j) ∧
      (∀ i, i < env.M → a.r i = env.residuals i a.ad_params)) ?_ ?_ k a ha
  · obtain ⟨i1, i2, -, i4, i5, i6, -, -⟩ := gn_initial_vars_spec env old params g0 s0 z0 As0 A0
      B0 r0
    refine ⟨⟨old, ?_⟩, ?_, ?_, ?_⟩
    · rw [i2, i1]
    · rw [i4, i2]
    · intro j hj; rw [i5 j hj, i2]
    · intro i hi; rw [i6 i hi, i2]
  · intro a _ hrun
    obtain ⟨-, -, -, hit⟩ := gn_iteration_running env a hrun
    obtain ⟨-, -, t3, -, -, t6, t7, -, -, t10⟩ := gn_tested_spec env a
    obtain ⟨-, k2, k3, k4, k5, k6, -, -⟩ := gn_hessian_update_keeps env (gn_tested env a)
      (gn_accepted env a).2
    rw [hit]
    refine ⟨⟨a.ad_params, ?_⟩, ?_, ?_, ?_⟩
    · rw [k3, k2]; exact t3
    · rw [k4, k3]; exact t6
    · intro j hj; rw [k5, k3]; exact t7 j hj
    · intro i hi; rw [k6, k3]; exact t10 i hi

/-- C26: the secant vector. At the top of every iteration of a run of
`gn_sbfgs_min` the retained residuals `r` are the residuals at the current
parameters `x0` and `normr2` is their sum of squares. After the step to `x1`
the array `z` holds, for every `j < N`,
`sqrt( new_normr2 / normr2 ) * sum_i r_i(x1) * ( grad r_i(x1)[j] - grad r_i(x0)[j] )`,
`new_normr2` being the sum of squares at `x1`; and when the iteration goes on
to the Hessian update, the update runs on these variables, so `zs = dot( z, s )`
is computed from the rescaled `z`. -/
theorem gn_secant_vector {K : Type} [LinearOrderedField K] (env : GnEnv K)
    (MAXITER : Nat) (old : Nat → MultiDiff K) (params g0 s0 z0 As0 A0 B0 : Nat → K)
    (r0 : Nat → MultiDiff K) (k : Nat) (a : GnVars K)
    (ha : (gn_sbfgs_min env MAXITER old params g0 s0 z0 As0 A0 B0 r0).heads[k]? = some a) :
    (∀ i, i < env.M → a.r i = env.residuals i a.ad_params) ∧
    a.normr2 = ∑ i in Finset.range env.M,
      (env.residuals i a.ad_params).getValue * (env.residuals i a.ad_params).getValue ∧
    (gn_tested env a).ad_params
      = Independent env.c a.ad_params (fun i => (gn_tested env a).params i.val) ∧
    (gn_accepted env a).2 = ∑ i in Finset.range env.M,
      (env.residuals i (gn_tested env a).ad_params).getValue
        * (env.residuals i (gn_tested env a).ad_params).getValue ∧
    (∀ j, j < env.N → (gn_tested env a).z j
      = env.sqrt ((gn_accepted env a).2 / a.normr2)
        * ∑ i in Finset.range env.M,
            (env.residuals i (gn_tested env a).ad_params).getValue
              * ((env.residuals i (gn_tested env a).ad_params).getDiffValue j
                - (env.residuals i a.ad_params).getDiffValue j)) ∧
    ((gn_iteration env a).2 = GnStop.running →
      (gn_line_search env (gn_direction env a).2).ret = true ∧
      (gn_iteration env a).1
        = gn_hessian_update env (gn_tested env a) (gn_accepted env a).2 ∧
      (gn_iteration env a).1.z = (gn_tested env a).z ∧
      ((gn_iteration env a).1.A_ ≠ a.A_ →
        1 / 1000000 ≤ dot env.N (gn_tested env a).z 1 (gn_tested env a).s 1
          / dot env.N (gn_tested env a).s 1 (gn_tested env a).s 1)) := by
  obtain ⟨-, h2, -, h4⟩ := gn_heads_spec env MAXITER old params g0 s0 z0 As0 A0 B0 r0 k a ha
  obtain ⟨-, -, t3, -, -, t6, -, t8, -, -⟩ := gn_tested_spec env a
  refine ⟨h4, h2, t3, t6, fun j hj => ?_, fun hrun => ?_⟩
  · rw [t8 j hj]
    congr 1
    refine Finset.sum_congr rfl fun i hi => ?_
    rw [h4 i (Finset.mem_range.mp hi)]
  · obtain ⟨r1, -, -, hit⟩ := gn_iteration_running env a hrun
    refine ⟨r1, hit, ?_, fun hne => ?_⟩
    · rw [hit]
      exact (gn_hessian_update_keeps env _ _).2.2.2.2.2.2.2
    · by_contra hb
      exact hne ((gn_hessian_update_spec env a hrun).2.2 hb).1

/-- Witness of C26: the first iteration of the run of `gnExampleEnv`. -/
theorem gn_secant_vector_witness :
    (gn_sbfgs_min gnExampleEnv 2 (exampleOld ℚ) (fun _ => 0) gnJunk gnJunk gnJunk gnJunk gnJunk
      gnJunk (exampleOld ℚ)).heads[0]? = some gnExampleStart ∧
    gnExampleStart.normr2 = ∑ i in Finset.range gnExampleEnv.M,
      (gnExampleEnv.residuals i gnExampleStart.ad_params).getValue
        * (gnExampleEnv.residuals i gnExampleStart.ad_params).getValue :=
  ⟨gn_heads_zero_some gnExampleEnv 2 (by decide) _ _ _ _ _ _ _ _ _,
    (gn_secant_vector gnExampleEnv 2 (exampleOld ℚ) (fun _ => 0) gnJunk gnJunk gnJunk gnJunk
      gnJunk gnJunk (exampleOld ℚ) 0 gnExampleStart
      (gn_heads_zero_some gnExampleEnv 2 (by decide) _ _ _ _ _ _ _ _ _)).2.1⟩

/-! ## gn_sbfgs_min: the line function -/

theorem eval_step_size_fold {K : Type} [Field K] (tp : Nat → SingleDiff K)
    (rSD : Nat → (Nat → SingleDiff K) → SingleDiff K) (M : Nat) :
    ((List.range M).foldl
      (fun f i => f.addAssign (SingleDiffOps.mul tp (.tmp (rSD i tp)) (.tmp (rSD i tp))))
      (SingleDiff.ofValue 0))
    = ⟨∑ k in Finset.range M, (rSD k tp).getValue * (rSD k tp).getValue,
        ∑ k in Finset.range M, ((rSD k tp).getValue * (rSD k tp).getDiffValue
          + (rSD k tp).getValue * (rSD k tp).getDiffValue)⟩ := by
  induction M with
  | zero => simp [SingleDiff.ofValue]
  | succ n ih =>
    rw [List.range_succ, List.foldl_append, ih]
    simp only [List.foldl_cons, List.foldl_nil, Finset.sum_range_succ]
    simp [SingleDiff.addAssign, SingleDiff.assignExpr, SingleDiffOps.add, SingleDiffOps.mul,
      SingleDiffOps.SingleDiffPlus, SingleDiffOps.SingleDiffMul, SingleDiffExpr.getValue,
      SingleDiffExpr.getDiffValue, SingleDiff.getValue, SingleDiff.getDiffValue]

theorem eval_step_size_spec {K : Type} [LinearOrderedField K] (N M : Nat)
    (rSD : Nat → (Nat → SingleDiff K) → SingleDiff K) (params s : Nat → K) (a : K) :
    (eval_step_size N M rSD params s a).getValue
      = 1 / 2 * ∑ k in Finset.range M,
          (rSD k (directed_ad_params N params s a)).getValue
            * (rSD k (directed_ad_params N params s a)).getValue ∧
    (eval_step_size N M rSD params s a).getDiffValue
      = ∑ k in Finset.range M,
          (rSD k (directed_ad_params N params s a)).getValue
            * (rSD k (directed_ad_params N params s a)).getDiffValue := by
  unfold eval_step_size
  simp only
  rw [eval_step_size_fold]
  constructor
  · simp [SingleDiff.ofExpr, SingleDiffOps.mulScalar, SingleDiffOps.ScalarSingleDiffMul,
      SingleDiffExpr.getValue, SingleDiff.getValue]
  · simp only [SingleDiff.ofExpr, SingleDiffOps.mulScalar, SingleDiffOps.ScalarSingleDiffMul,
      SingleDiffExpr.getDiffValue, SingleDiff.getDiffValue]
    rw [Finset.mul_sum]
    refine Finset.sum_congr rfl fun k _ => ?_
    field_simp

theorem directed_ad_params_eq {K : Type} [Field K] (N : Nat) (params s : Nat → K) (a : K) :
    directed_ad_params N params s a
      = directionInputs (fun i : Fin N => params i.val + a * s i.val) (fun i : Fin N => s i.val) := by
  funext j
  unfold directed_ad_params directionInputs
  by_cases h : j < N
  · rw [if_pos h, dif_pos h]
    rfl
  · rw [if_neg h, dif_neg h]

theorem toSingleDiff_hasDerivAt {n : Nat} (x s : Fin n → ℝ) (t : ℝ) (e : Expr n ℝ)
    (hd : e.divisorsNonzero Real.exp (fun i => x i + t * s i)) :
    HasDerivAt (fun u => e.eval Real.exp (fun i => x i + u * s i))
      ((e.toSingleDiff Real.exp (directionInputs (fun i => x i + t * s i) s)).getDiffValue
        (directionInputs (fun i => x i + t * s i) s)) t := by
  have hsv := toSingleDiff_value Real.exp (fun i => x i + t * s i) s
  induction e with
  | var k =>
    simp only [Expr.toSingleDiff, SingleDiffExpr.getDiffValue, directionInputs_apply,
      SingleDiff.getDiffValue, Expr.eval]
    have h := ((hasDerivAt_id t).mul_const (s k)).const_add (x k)
    simpa using h
  | neg a iha =>
    simp only [Expr.toSingleDiff, SingleDiffOps.neg, SingleDiffOps.SingleDiffNeg,
      SingleDiffExpr.getDiffValue, Expr.eval]
    exact (iha hd).neg
  | add a b iha ihb =>
    simp only [Expr.toSingleDiff, SingleDiffOps.add, SingleDiffOps.SingleDiffPlus,
      SingleDiffExpr.getDiffValue, Expr.eval]
    exact (iha hd.1).add (ihb hd.2)
  | sub a b iha ihb =>
    simp only [Expr.toSingleDiff, SingleDiffOps.sub, SingleDiffOps.SingleDiffMinus,
      SingleDiffExpr.getDiffValue, Expr.eval]
    exact (iha hd.1).sub (ihb hd.2)
  | mul a b iha ihb =>
    simp only [Expr.toSingleDiff, SingleDiffOps.mul, SingleDiffOps.SingleDiffMul,
      SingleDiffExpr.getDiffValue, Expr.eval, hsv]
    have h := (iha hd.1).mul (ihb hd.2)
    convert h using 1
    ring
  | div a b iha ihb =>
    simp only [Expr.toSingleDiff, SingleDiffOps.div, SingleDiffOps.SingleDiffDiv,
      SingleDiffExpr.getDiffValue, Expr.eval, hsv]
    have h := (iha hd.1).div (ihb hd.2.1) hd.2.2
    convert h using 1
    ring
  | exp a iha =>
    simp only [Expr.toSingleDiff, SingleDiffOps.exp, SingleDiffOps.SingleDiffExp,
      SingleDiffExpr.getDiffValue, Expr.eval, hsv]
    exact (iha hd).exp
  | addScalar a c iha =>
    simp only [Expr.toSingleDiff, SingleDiffOps.addScalar, SingleDiffOps.ScalarSingleDiffPlus,
      SingleDiffExpr.getDiffValue, Expr.eval]
    exact (iha hd).add_const c
  | subScalar a c iha =>
    simp only [Expr.toSingleDiff, SingleDiffOps.subScalar, SingleDiffOps.ScalarSingleDiffPlus,
      SingleDiffExpr.getDiffValue, Expr.eval]
    exact (iha hd).sub_const c
  | mulScalar a c iha =>
    simp only [Expr.toSingleDiff, SingleDiffOps.mulScalar, SingleDiffOps.ScalarSingleDiffMul,
      SingleDiffExpr.getDiffValue, Expr.eval]
    have h := (iha hd).mul_const c
    convert h using 1
    ring
  | divScalar a c iha =>
    simp only [Expr.toSingleDiff, SingleDiffOps.divScalar, SingleDiffOps.SingleDiffScalarDiv,
      SingleDiffExpr.getDiffValue, Expr.eval]
    exact (iha hd.1).div_const c
  | scalarAdd c b ihb =>
    simp only [Expr.toSingleDiff, SingleDiffOps.scalarAdd, SingleDiffOps.ScalarSingleDiffPlus,
      SingleDiffExpr.getDiffValue, Expr.eval]
    exact (ihb hd).const_add c
  | scalarSub c b ihb =>
    simp only [Expr.toSingleDiff, SingleDiffOps.scalarSub, SingleDiffOps.ScalarSingleDiffMinus,
      SingleDiffExpr.getDiffValue, Expr.eval]
    exact (ihb hd).const_sub c
  | scalarMul c b ihb =>
    simp only [Expr.toSingleDiff, SingleDiffOps.scalarMul, SingleDiffOps.ScalarSingleDiffMul,
      SingleDiffExpr.getDiffValue, Expr.eval]
    exact (ihb hd).const_mul c
  | scalarDiv c b ihb =>
    simp only [Expr.toSingleDiff, SingleDiffOps.scalarDiv, SingleDiffOps.ScalarSingleDiffDiv,
      SingleDiffExpr.getDiffValue, Expr.eval, hsv]
    have h := (hasDerivAt_const t c).div (ihb hd.1) hd.2
    convert h using 1
    ring


theorem gnExprEnv_consistent {K : Type} [Field K] (ex : K → K) (c : Context K) (M : Nat)
    (es : Nat → Expr c.num_dir K) (tolerance : K) (sqrt : K → K) (isfinite : K → Bool) (inf : K)
    (maxiter : Nat) :
    (gnExprEnv ex c M es tolerance sqrt isfinite inf maxiter).Consistent := by
  intro k _ X x s
  refine ⟨?_, ?_⟩
  · show (SingleDiff.ofExpr (directionInputs x s)
        ((es k).toSingleDiff ex (directionInputs x s))).getValue
      = (MultiDiff.ofExpr c (Independent c X x)
        ((es k).toMultiDiff ex c (Independent c X x))).getValue
    rw [ofExpr_value, toMultiDiff_value]
    exact toSingleDiff_value ex x s (es k)
  · show (SingleDiff.ofExpr (directionInputs x s)
        ((es k).toSingleDiff ex (directionInputs x s))).getDiffValue
      = ∑ j : Fin c.num_dir, (MultiDiff.ofExpr c (Independent c X x)
        ((es k).toMultiDiff ex c (Independent c X x))).getDiffValue j.val * s j
    have h := toSingleDiff_diff ex c X x s (es k)
    unfold SingleDiff.ofExpr SingleDiff.getDiffValue
    simp only
    rw [h]
    refine Finset.sum_congr rfl fun i _ => ?_
    rw [ofExpr_lane c _ _ (toMultiDiff_uniform ex c _ (es k)) i.val
      (lt_of_lt_of_le i.isLt (le_next_size c.W c.num_dir c.W_pos))]

theorem gn_phi_spec {K : Type} [LinearOrderedField K] (env : GnEnv K) (hc : env.Consistent)
    (X : Nat → MultiDiff K) (params s : Nat → K) (t : K) :
    (eval_step_size env.N env.M env.residualsSD params s t).getValue
      = 1 / 2 * ∑ k in Finset.range env.M,
          (env.residuals k (Independent env.c X
              (fun i => params i.val + t * s i.val))).getValue
            * (env.residuals k (Independent env.c X
              (fun i => params i.val + t * s i.val))).getValue ∧
    (eval_step_size env.N env.M env.residualsSD params s t).getDiffValue
      = ∑ j in Finset.range env.N,
          (∑ k in Finset.range env.M,
            (env.residuals k (Independent env.c X
                (fun i => params i.val + t * s i.val))).getValue
              * (env.residuals k (Independent env.c X
                (fun i => params i.val + t * s i.val))).getDiffValue j) * s j := by
  obtain ⟨e1, e2⟩ := eval_step_size_spec env.N env.M env.residualsSD params s t
  rw [e1, e2, directed_ad_params_eq]
  constructor
  · congr 1
    refine Finset.sum_congr rfl fun k hk => ?_
    rw [(hc k (Finset.mem_range.mp hk) X _ _).1]
    rfl
  · have hl : ∀ k, k ∈ Finset.range env.M →
        (env.residualsSD k (directionInputs (fun i : Fin env.N => params i.val + t * s i.val)
            (fun i : Fin env.N => s i.val))).getValue
          * (env.residualsSD k (directionInputs (fun i : Fin env.N => params i.val + t * s i.val)
            (fun i : Fin env.N => s i.val))).getDiffValue
        = ∑ j in Finset.range env.N,
            (env.residuals k (Independent env.c X
                (fun i => params i.val + t * s i.val))).getValue
              * (env.residuals k (Independent env.c X
                (fun i => params i.val + t * s i.val))).getDiffValue j * s j := by
      intro k hk
      obtain ⟨c1, c2⟩ := hc k (Finset.mem_range.mp hk) X
        (fun i => params i.val + t * s i.val) (fun i => s i.val)
      have c1' : (env.residualsSD k (directionInputs
            (fun i : Fin env.N => params i.val + t * s i.val)
            (fun i : Fin env.N => s i.val))).getValue = _ := c1
      have c2' : (env.residualsSD k (directionInputs
            (fun i : Fin env.N => params i.val + t * s i.val)
            (fun i : Fin env.N => s i.val))).getDiffValue = _ := c2
      rw [c1', c2', Finset.mul_sum]
      rw [← Fin.sum_univ_eq_sum_range
        (fun j => (env.residuals k (Independent env.c X
                (fun i => params i.val + t * s i.val))).getValue
              * (env.residuals k (Independent env.c X
                (fun i => params i.val + t * s i.val))).getDiffValue j * s j) env.N]
      refine Finset.sum_congr rfl fun j _ => ?_
      ring
    rw [Finset.sum_congr rfl hl, Finset.sum_comm]
    refine Finset.sum_congr rfl fun j _ => ?_
    rw [Finset.sum_mul]

theorem gn_phi_zero {K : Type} [LinearOrderedField K] (env : GnEnv K) (hc : env.Consistent)
    (MAXITER : Nat) (old : Nat → MultiDiff K) (params g0 s0 z0 As0 A0 B0 : Nat → K)
    (r0 : Nat → MultiDiff K) (k : Nat) (a : GnVars K)
    (ha : (gn_sbfgs_min env MAXITER old params g0 s0 z0 As0 A0 B0 r0).heads[k]? = some a)
    (s : Nat → K) :
    (eval_step_size env.N env.M env.residualsSD a.params s 0).getValue = 1 / 2 * a.normr2 ∧
    (eval_step_size env.N env.M env.residualsSD a.params s 0).getDiffValue
      = dot env.N a.g 1 s 1 := by
  obtain ⟨⟨X, hX⟩, h2, h3, -⟩ := gn_heads_spec env MAXITER old params g0 s0 z0 As0 A0 B0 r0 k a ha
  obtain ⟨p1, p2⟩ := gn_phi_spec env hc X a.params s 0
  have hx : (fun i : Fin env.c.num_dir => a.params i.val + 0 * s i.val)
      = fun i : Fin env.c.num_dir => a.params i.val := by
    funext i
    rw [zero_mul, add_zero]
  rw [hx, ← hX] at p1 p2
  refine ⟨by rw [p1, h2], ?_⟩
  rw [p2]
  unfold dot
  refine Finset.sum_congr rfl fun j hj => ?_
  rw [Nat.mul_one, h3 j (Finset.mem_range.mp hj)]

/-- C36: the line function of `gn_sbfgs_min` for residuals written in the
supported algebra (identity parameter transform), at the top of any iteration
of a run, with `s` the search direction of that iteration and
`phi(t) = eval_step_size(t)`: `phi(0).value = 0.5 * normr2` and
`phi(0).dval = dot( g, s )`, the two numbers stored in `f0`; for every `t`,
`phi(t).value = 0.5 * sum_k r_k( params + t * s )^2`; and wherever the divisors
of the residuals are non-zero, `phi(t).dval` is the derivative of
`phi(.).value` at `t`. -/
theorem gn_line_function_is_phi (c : Context ℝ) (M : Nat) (es : Nat → Expr c.num_dir ℝ)
    (tolerance : ℝ) (sqrt : ℝ → ℝ) (isfinite : ℝ → Bool) (inf : ℝ) (maxiter : Nat)
    (MAXITER : Nat) (old : Nat → MultiDiff ℝ) (params g0 s0 z0 As0 A0 B0 : Nat → ℝ)
    (r0 : Nat → MultiDiff ℝ) (k : Nat) (a : GnVars ℝ)
    (ha : (gn_sbfgs_min (gnExprEnv Real.exp c M es tolerance sqrt isfinite inf maxiter) MAXITER
      old params g0 s0 z0 As0 A0 B0 r0).heads[k]? = some a) :
    (eval_step_size c.num_dir M
        (gnExprEnv Real.exp c M es tolerance sqrt isfinite inf maxiter).residualsSD a.params
        (gn_direction (gnExprEnv Real.exp c M es tolerance sqrt isfinite inf maxiter) a).2.s
        0).getValue
      = ((SingleDiff.assignReal ⟨0, 0⟩ (1 / 2 * a.normr2)).comma
          (dot c.num_dir a.g 1
            (gn_direction (gnExprEnv Real.exp c M es tolerance sqrt isfinite inf maxiter) a).2.s
            1)).getValue ∧
    (eval_step_size c.num_dir M
        (gnExprEnv Real.exp c M es tolerance sqrt isfinite inf maxiter).residualsSD a.params
        (gn_direction (gnExprEnv Real.exp c M es tolerance sqrt isfinite inf maxiter) a).2.s
        0).getDiffValue
      = ((SingleDiff.assignReal ⟨0, 0⟩ (1 / 2 * a.normr2)).comma
          (dot c.num_dir a.g 1
            (gn_direction (gnExprEnv Real.exp c M es tolerance sqrt isfinite inf maxiter) a).2.s
            1)).getDiffValue ∧
    gn_line_search (gnExprEnv Real.exp c M es tolerance sqrt isfinite inf maxiter)
        (gn_direction (gnExprEnv Real.exp c M es tolerance sqrt isfinite inf maxiter) a).2
      = line_search isfinite inf maxiter
          ((SingleDiff.assignReal ⟨0, 0⟩ (1 / 2 * a.normr2)).comma
            (dot c.num_dir a.g 1
              (gn_direction (gnExprEnv Real.exp c M es tolerance sqrt isfinite inf maxiter) a).2.s
              1))
          (eval_step_size c.num_dir M
            (gnExprEnv Real.exp c M es tolerance sqrt isfinite inf maxiter).residualsSD a.params
            (gn_direction (gnExprEnv Real.exp c M es tolerance sqrt isfinite inf maxiter) a).2.s)
          1 ∧
    (∀ t : ℝ,
      (eval_step_size c.num_dir M
          (gnExprEnv Real.exp c M es tolerance sqrt isfinite inf maxiter).residualsSD a.params
          (gn_direction (gnExprEnv Real.exp c M es tolerance sqrt isfinite inf maxiter) a).2.s
          t).getValue
        = 1 / 2 * ∑ j in Finset.range M,
            (es j).eval Real.exp (fun i => a.params i.val + t
              * (gn_direction (gnExprEnv Real.exp c M es tolerance sqrt isfinite inf maxiter)
                  a).2.s i.val)
            * (es j).eval Real.exp (fun i => a.params i.val + t
              * (gn_direction (gnExprEnv Real.exp c M es tolerance sqrt isfinite inf maxiter)
                  a).2.s i.val)) ∧
    (∀ t : ℝ,
      (∀ j, j < M → (es j).divisorsNonzero Real.exp (fun i => a.params i.val + t
        * (gn_direction (gnExprEnv Real.exp c M es tolerance sqrt isfinite inf maxiter)
            a).2.s i.val)) →
      HasDerivAt
        (fun u => (eval_step_size c.num_dir M
          (gnExprEnv Real.exp c M es tolerance sqrt isfinite inf maxiter).residualsSD a.params
          (gn_direction (gnExprEnv Real.exp c M es tolerance sqrt isfinite inf maxiter) a).2.s
          u).getValue)
        (eval_step_size c.num_dir M
          (gnExprEnv Real.exp c M es tolerance sqrt isfinite inf maxiter).residualsSD a.params
          (gn_direction (gnExprEnv Real.exp c M es tolerance sqrt isfinite inf maxiter) a).2.s
          t).getDiffValue t) := by
  have hc := gnExprEnv_consistent Real.exp c M es tolerance sqrt isfinite inf maxiter
  obtain ⟨z1, z2⟩ := gn_phi_zero _ hc MAXITER old params g0 s0 z0 As0 A0 B0 r0 k a ha
    (gn_direction (gnExprEnv Real.exp c M es tolerance sqrt isfinite inf maxiter) a).2.s
  have hval : ∀ (s : Nat → ℝ) (t : ℝ),
      (eval_step_size c.num_dir M
          (gnExprEnv Real.exp c M es tolerance sqrt isfinite inf maxiter).residualsSD a.params s
          t).getValue
        = 1 / 2 * ∑ j in Finset.range M,
            (es j).eval Real.exp (fun i => a.params i.val + t * s i.val)
            * (es j).eval Real.exp (fun i => a.params i.val + t * s i.val) := by
    intro s t
    rw [(eval_step_size_spec c.num_dir M _ a.params s t).1, directed_ad_params_eq]
    congr 1
    refine Finset.sum_congr rfl fun j _ => ?_
    have e : ((gnExprEnv Real.exp c M es tolerance sqrt isfinite inf maxiter).residualsSD j
        (directionInputs (fun i : Fin c.num_dir => a.params i.val + t * s i.val)
          (fun i : Fin c.num_dir => s i.val))).getValue
        = (es j).eval Real.exp (fun i => a.params i.val + t * s i.val) :=
      toSingleDiff_value Real.exp _ _ (es j)
    rw [e]
  refine ⟨z1, z2, rfl, fun t => hval _ t, fun t hd => ?_⟩
  have hfun : (fun u => (eval_step_size c.num_dir M
        (gnExprEnv Real.exp c M es tolerance sqrt isfinite inf maxiter).residualsSD a.params
        (gn_direction (gnExprEnv Real.exp c M es tolerance sqrt isfinite inf maxiter) a).2.s
        u).getValue)
      = fun u => 1 / 2 * ∑ j in Finset.range M,
          (es j).eval Real.exp (fun i => a.params i.val + u
            * (gn_direction (gnExprEnv Real.exp c M es tolerance sqrt isfinite inf maxiter)
                a).2.s i.val)
          * (es j).eval Real.exp (fun i => a.params i.val + u
            * (gn_direction (gnExprEnv Real.exp c M es tolerance sqrt isfinite inf maxiter)
                a).2.s i.val) := by
    funext u
    exact hval _ u
  rw [hfun, (eval_step_size_spec c.num_dir M _ a.params _ t).2, directed_ad_params_eq]
  have hterm : ∀ j, j ∈ Finset.range M →
      HasDerivAt (fun u => (es j).eval Real.exp (fun i => a.params i.val + u
            * (gn_direction (gnExprEnv Real.exp c M es tolerance sqrt isfinite inf maxiter)
                a).2.s i.val)
          * (es j).eval Real.exp (fun i => a.params i.val + u
            * (gn_direction (gnExprEnv Real.exp c M es tolerance sqrt isfinite inf maxiter)
                a).2.s i.val))
        (2 * (((gnExprEnv Real.exp c M es tolerance sqrt isfinite inf maxiter).residualsSD j
          (directionInputs (fun i : Fin c.num_dir => a.params i.val + t
            * (gn_direction (gnExprEnv Real.exp c M es tolerance sqrt isfinite inf maxiter)
                a).2.s i.val)
            (fun i : Fin c.num_dir =>
              (gn_direction (gnExprEnv Real.exp c M es tolerance sqrt isfinite inf maxiter)
                a).2.s i.val))).getValue
          * ((gnExprEnv Real.exp c M es tolerance sqrt isfinite inf maxiter).residualsSD j
          (directionInputs (fun i : Fin c.num_dir => a.params i.val + t
            * (gn_direction (gnExprEnv Real.exp c M es tolerance sqrt isfinite inf maxiter)
                a).2.s i.val)
            (fun i : Fin c.num_dir =>
              (gn_direction (gnExprEnv Real.exp c M es tolerance sqrt isfinite inf maxiter)
                a).2.s i.val))).getDiffValue)) t := by
    intro j hj
    have hder := toSingleDiff_hasDerivAt (fun i : Fin c.num_dir => a.params i.val)
      (fun i : Fin c.num_dir =>
        (gn_direction (gnExprEnv Real.exp c M es tolerance sqrt isfinite inf maxiter) a).2.s i.val)
      t (es j) (hd j (Finset.mem_range.mp hj))
    have h := hder.mul hder
    have e : ((gnExprEnv Real.exp c M es tolerance sqrt isfinite inf maxiter).residualsSD j
        (directionInputs (fun i : Fin c.num_dir => a.params i.val + t
            * (gn_direction (gnExprEnv Real.exp c M es tolerance sqrt isfinite inf maxiter)
                a).2.s i.val)
          (fun i : Fin c.num_dir =>
            (gn_direction (gnExprEnv Real.exp c M es tolerance sqrt isfinite inf maxiter)
              a).2.s i.val))).getValue
        = (es j).eval Real.exp (fun i => a.params i.val + t
            * (gn_direction (gnExprEnv Real.exp c M es tolerance sqrt isfinite inf maxiter)
                a).2.s i.val) :=
      toSingleDiff_value Real.exp _ _ (es j)
    rw [e]
    convert h using 1
    show 2 * (_ * (SingleDiff.ofExpr _ _).getDiffValue) = _
    unfold SingleDiff.ofExpr SingleDiff.getDiffValue
    simp only
    ring
  have hsum := (HasDerivAt.sum hterm).const_mul (1 / 2 : ℝ)
  convert hsum using 1
  rw [Finset.mul_sum]
  refine Finset.sum_congr rfl fun j _ => ?_
  ring

/-- Witness of C36: the first iteration of the run with the residual
`x[0] - 201` over the reals. -/
theorem gn_line_function_is_phi_witness :
    (gn_sbfgs_min (gnExprExampleEnv ℝ Real.exp Real.sqrt) 2 (exampleOld ℝ) (fun _ => 0)
      (fun _ => 9) (fun _ => 9) (fun _ => 9) (fun _ => 9) (fun _ => 9) (fun _ => 9)
      (exampleOld ℝ)).heads[0]? = some (gnExprExampleStart ℝ Real.exp Real.sqrt) ∧
    (eval_step_size 1 1 (gnExprExampleEnv ℝ Real.exp Real.sqrt).residualsSD
        (gnExprExampleStart ℝ Real.exp Real.sqrt).params
        (gn_direction (gnExprExampleEnv ℝ Real.exp Real.sqrt)
          (gnExprExampleStart ℝ Real.exp Real.sqrt)).2.s 0).getValue
      = 1 / 2 * (gnExprExampleStart ℝ Real.exp Real.sqrt).normr2 :=
  ⟨gn_heads_zero_some (gnExprExampleEnv ℝ Real.exp Real.sqrt) 2 (by decide) _ _ _ _ _ _ _ _ _,
    (gn_line_function_is_phi (gnContext ℝ) 1 (fun _ => gnExprResidual ℝ) (1 / 1000) Real.sqrt
      (fun _ => true) (2 ^ 1024) 35 2 (exampleOld ℝ) (fun _ => 0) (fun _ => 9) (fun _ => 9)
      (fun _ => 9) (fun _ => 9) (fun _ => 9) (fun _ => 9) (exampleOld ℝ) 0
      (gnExprExampleStart ℝ Real.exp Real.sqrt)
      (gn_heads_zero_some (gnExprExampleEnv ℝ Real.exp Real.sqrt) 2 (by decide) _ _ _ _ _ _ _ _
        _)).1⟩

/-! ## gn_sbfgs_min: monotone decrease -/

theorem line_search_loop_pos {K : Type} [LinearOrderedField K] (isfinite : K → Bool) (inf : K)
    (f0 : SingleDiff K) (f : K → SingleDiff K) (n : Nat) :
    ∀ (alpha lo up : K) (tr : List K), 0 < alpha → 0 ≤ lo → (up < inf → 0 < up) →
      (line_search_loop isfinite inf f0 f n alpha lo up tr).ret = true →
      0 < (line_search_loop isfinite inf f0 f n alpha lo up tr).alpha := by
  induction n with
  | zero => intro alpha lo up tr _ _ _ h; simp [line_search_loop] at h
  | succ n ih =>
    intro alpha lo up tr ha hlo hup h
    rw [line_search_loop] at h ⊢
    split_ifs at h ⊢ with h1 h3
    · refine ih _ _ _ _ ?_ hlo (fun _ => ha) h
      unfold next_alpha
      split_ifs <;> linarith
    · refine ih _ _ _ _ ?_ (le_of_lt ha) hup h
      unfold next_alpha
      split_ifs with hu
      · have := hup hu
        linarith
      · linarith
    · exact ha

theorem gn_line_search_accept {K : Type} [LinearOrderedField K] (env : GnEnv K) (v : GnVars K)
    (h : (gn_line_search env v).ret = true) :
    0 < (gn_line_search env v).alpha ∧
    (eval_step_size env.N env.M env.residualsSD v.params v.s (gn_line_search env v).alpha).getValue
      ≤ 1 / 2 * v.normr2 + 1 / 10000 * (gn_line_search env v).alpha * dot env.N v.g 1 v.s 1 ∧
    (eval_step_size env.N env.M env.residualsSD v.params v.s
        (gn_line_search env v).alpha).getDiffValue
      ≥ 9 / 10 * dot env.N v.g 1 v.s 1 := by
  unfold gn_line_search at h ⊢
  unfold line_search at h ⊢
  refine ⟨line_search_loop_pos _ _ _ _ _ 1 0 env.inf [] one_pos (le_refl 0)
    (fun hh => absurd hh (lt_irrefl _)) h, ?_⟩
  obtain ⟨-, w2, w3⟩ := line_search_loop_true _ _ _ _ _ 1 0 env.inf [] h
  exact ⟨w2, w3⟩

theorem gn_tested_params {K : Type} [LinearOrderedField K] (env : GnEnv K) (v : GnVars K) :
    (fun i : Fin env.c.num_dir => (gn_tested env v).params i.val)
      = fun i : Fin env.c.num_dir => v.params i.val
          + (gn_line_search env (gn_direction env v).2).alpha * (gn_direction env v).2.s i.val := by
  obtain ⟨-, -, -, t4, t5, -⟩ := gn_tested_spec env v
  funext i
  have hi : i.val < env.N := i.isLt
  rw [t5, if_pos hi, t4, if_pos hi]

theorem gn_new_normr2 {K : Type} [LinearOrderedField K] (env : GnEnv K) (hc : env.Consistent)
    (v : GnVars K) :
    (eval_step_size env.N env.M env.residualsSD v.params (gn_direction env v).2.s
        (gn_line_search env (gn_direction env v).2).alpha).getValue
      = 1 / 2 * (gn_accepted env v).2 := by
  obtain ⟨-, -, t3, -, -, t6, -⟩ := gn_tested_spec env v
  rw [(gn_phi_spec env hc v.ad_params v.params _ _).1, t6, t3, gn_tested_params]

theorem gn_fallback_descent {K : Type} [LinearOrderedField K] (env : GnEnv K) (v : GnVars K)
    (h : (gn_direction env v).1 ≠ 0) :
    (∀ j, j < env.CN → (gn_direction env v).2.s j = -v.g j) ∧
    dot env.N v.g 1 (gn_direction env v).2.s 1 ≤ 0 := by
  have hN : env.N ≤ env.CN := le_next_size env.c.W env.c.num_dir env.c.W_pos
  have hs : ∀ j, j < env.CN → (gn_direction env v).2.s j = -v.g j := by
    intro j hj
    have h' : (cholesky_solve env.sqrt v.B_ env.CN
        (aligned_transform (fun x => -x) v.s env.CN v.g) env.N).ret ≠ 0 := h
    simp only [gn_direction, if_pos h', aligned_transform, if_pos hj]
  refine ⟨hs, ?_⟩
  unfold dot
  apply Finset.sum_nonpos
  intro j hj
  rw [Nat.mul_one, hs j (lt_of_lt_of_le (Finset.mem_range.mp hj) hN)]
  nlinarith [mul_self_nonneg (v.g j)]

/-! ## Positive definiteness -/

theorem posDef_congr {K : Type} [LinearOrderedField K] (S T : Nat → Nat → K) (N : Nat)
    (h : ∀ i j, i < N → j < N → T i j = S i j) (hS : PosDef S N) : PosDef T N := by
  intro v hv
  have := hS v hv
  have e : ∑ i in Finset.range N, ∑ j in Finset.range N, v i * T i j * v j
      = ∑ i in Finset.range N, ∑ j in Finset.range N, v i * S i j * v j := by
    refine Finset.sum_congr rfl fun i hi => Finset.sum_congr rfl fun j hj => ?_
    rw [h i j (Finset.mem_range.mp hi) (Finset.mem_range.mp hj)]
  rw [e]
  exact this

theorem gram_form {K : Type} [LinearOrderedField K] (M N : Nat) (d : Nat → Nat → K)
    (v : Nat → K) :
    ∑ i in Finset.range N, ∑ j in Finset.range N,
        v i * (∑ k in Finset.range M, d k i * d k j) * v j
      = ∑ k in Finset.range M, (∑ i in Finset.range N, d k i * v i)
          * (∑ i in Finset.range N, d k i * v i) := by
  have h1 : ∀ k, (∑ i in Finset.range N, d k i * v i) * (∑ i in Finset.range N, d k i * v i)
      = ∑ i in Finset.range N, ∑ j in Finset.range N, v i * (d k i * d k j) * v j := by
    intro k
    rw [Finset.sum_mul]
    refine Finset.sum_congr rfl fun i _ => ?_
    rw [Finset.mul_sum]
    refine Finset.sum_congr rfl fun j _ => ?_
    ring
  rw [Finset.sum_congr rfl (fun k _ => h1 k)]
  have h2 : ∀ i j, v i * (∑ k in Finset.range M, d k i * d k j) * v j
      = ∑ k in Finset.range M, v i * (d k i * d k j) * v j := by
    intro i j
    rw [Finset.mul_sum, Finset.sum_mul]
  calc ∑ i in Finset.range N, ∑ j in Finset.range N,
        v i * (∑ k in Finset.range M, d k i * d k j) * v j
      = ∑ i in Finset.range N, ∑ j in Finset.range N, ∑ k in Finset.range M,
          v i * (d k i * d k j) * v j :=
        Finset.sum_congr rfl fun i _ => Finset.sum_congr rfl fun j _ => h2 i j
    _ = ∑ i in Finset.range N, ∑ k in Finset.range M, ∑ j in Finset.range N,
          v i * (d k i * d k j) * v j :=
        Finset.sum_congr rfl fun i _ => Finset.sum_comm
    _ = ∑ k in Finset.range M, ∑ i in Finset.range N, ∑ j in Finset.range N,
          v i * (d k i * d k j) * v j := Finset.sum_comm

theorem gram_nonneg {K : Type} [LinearOrderedField K] (M N : Nat) (d : Nat → Nat → K)
    (v : Nat → K) :
    0 ≤ ∑ i in Finset.range N, ∑ j in Finset.range N,
        v i * (∑ k in Finset.range M, d k i * d k j) * v j := by
  rw [gram_form]
  exact Finset.sum_nonneg fun k _ => mul_self_nonneg _

theorem posDef_add {K : Type} [LinearOrderedField K] (P A : Nat → Nat → K) (N : Nat)
    (hP : ∀ v : Nat → K, 0 ≤ ∑ i in Finset.range N, ∑ j in Finset.range N, v i * P i j * v j)
    (hA : PosDef A N) : PosDef (fun i j => P i j + A i j) N := by
  intro v hv
  have h1 := hA v hv
  have h2 := hP v
  have e : ∑ i in Finset.range N, ∑ j in Finset.range N, v i * (P i j + A i j) * v j
      = (∑ i in Finset.range N, ∑ j in Finset.range N, v i * P i j * v j)
        + ∑ i in Finset.range N, ∑ j in Finset.range N, v i * A i j * v j := by
    rw [← Finset.sum_add_distrib]
    refine Finset.sum_congr rfl fun i _ => ?_
    rw [← Finset.sum_add_distrib]
    refine Finset.sum_congr rfl fun j _ => ?_
    ring
  rw [e]
  linarith

theorem diag_form {K : Type} [LinearOrderedField K] (N : Nat) (c : K) (v : Nat → K) :
    ∑ i in Finset.range N, ∑ j in Finset.range N, v i * (if i = j then c else 0) * v j
      = c * ∑ i in Finset.range N, v i * v i := by
  rw [Finset.mul_sum]
  refine Finset.sum_congr rfl fun i hi => ?_
  rw [Finset.sum_eq_single i]
  · rw [if_pos rfl]; ring
  · intro j _ hji
    rw [if_neg (fun h => hji h.symm)]; ring
  · intro h; exact absurd hi h

theorem sum_sq_pos {K : Type} [LinearOrderedField K] (N : Nat) (v : Nat → K)
    (hv : ∃ i, i < N ∧ v i ≠ 0) : 0 < ∑ i in Finset.range N, v i * v i := by
  obtain ⟨i, hi, hvi⟩ := hv
  have hle : v i * v i ≤ ∑ i in Finset.range N, v i * v i :=
    Finset.single_le_sum (f := fun i => v i * v i) (fun j _ => mul_self_nonneg (v j))
      (Finset.mem_range.mpr hi)
  have : 0 < v i * v i := mul_self_pos.mpr hvi
  linarith

theorem posDef_diag {K : Type} [LinearOrderedField K] (N : Nat) (c : K) (hc : 0 < c) :
    PosDef (fun i j => if i = j then c else 0) N := by
  intro v hv
  rw [diag_form]
  exact mul_pos hc (sum_sq_pos N v hv)

theorem diag_nonneg {K : Type} [LinearOrderedField K] (N : Nat) (c : K) (hc : 0 ≤ c)
    (v : Nat → K) :
    0 ≤ ∑ i in Finset.range N, ∑ j in Finset.range N, v i * (if i = j then c else 0) * v j := by
  rw [diag_form]
  exact mul_nonneg hc (Finset.sum_nonneg fun i _ => mul_self_nonneg _)

/-- The bilinear form of `A` on the leading `N` coordinates. -/
theorem bilin_expand {K : Type} [LinearOrderedField K] (A : Nat → Nat → K) (N : Nat)
    (v s : Nat → K) (t : K) :
    ∑ i in Finset.range N, ∑ j in Finset.range N, (v i - t * s i) * A i j * (v j - t * s j)
      = (∑ i in Finset.range N, ∑ j in Finset.range N, v i * A i j * v j)
        - t * (∑ i in Finset.range N, ∑ j in Finset.range N, v i * A i j * s j)
        - t * (∑ i in Finset.range N, ∑ j in Finset.range N, s i * A i j * v j)
        + t * t * (∑ i in Finset.range N, ∑ j in Finset.range N, s i * A i j * s j) := by
  simp only [Finset.mul_sum, ← Finset.sum_sub_distrib, ← Finset.sum_add_distrib]
  refine Finset.sum_congr rfl fun i _ => Finset.sum_congr rfl fun j _ => ?_
  ring

theorem bilin_symm {K : Type} [LinearOrderedField K] (A : Nat → Nat → K) (N : Nat)
    (hsym : ∀ i j, A i j = A j i) (v s : Nat → K) :
    ∑ i in Finset.range N, ∑ j in Finset.range N, s i * A i j * v j
      = ∑ i in Finset.range N, ∑ j in Finset.range N, v i * A i j * s j := by
  rw [Finset.sum_comm]
  refine Finset.sum_congr rfl fun i _ => Finset.sum_congr rfl fun j _ => ?_
  rw [hsym j i]
  ring

theorem bfgs_form {K : Type} [LinearOrderedField K] (A : Nat → Nat → K) (N : Nat)
    (s z v : Nat → K) (a b : K) :
    ∑ i in Finset.range N, ∑ j in Finset.range N,
        v i * (A i j - a * matVec A N s i * matVec A N s j + b * z i * z j) * v j
      = (∑ i in Finset.range N, ∑ j in Finset.range N, v i * A i j * v j)
        - a * ((∑ i in Finset.range N, ∑ j in Finset.range N, v i * A i j * s j)
          * (∑ i in Finset.range N, ∑ j in Finset.range N, v i * A i j * s j))
        + b * ((∑ i in Finset.range N, z i * v i) * (∑ i in Finset.range N, z i * v i)) := by
  have hvs : ∑ i in Finset.range N, ∑ j in Finset.range N, v i * A i j * s j
      = ∑ i in Finset.range N, v i * matVec A N s i := by
    refine Finset.sum_congr rfl fun i _ => ?_
    unfold matVec
    rw [Finset.mul_sum]
    refine Finset.sum_congr rfl fun j _ => ?_
    ring
  rw [hvs]
  have e1 : (∑ i in Finset.range N, v i * matVec A N s i)
      * (∑ i in Finset.range N, v i * matVec A N s i)
      = ∑ i in Finset.range N, ∑ j in Finset.range N,
          v i * (matVec A N s i * matVec A N s j) * v j := by
    rw [Finset.sum_mul]
    refine Finset.sum_congr rfl fun i _ => ?_
    rw [Finset.mul_sum]
    refine Finset.sum_congr rfl fun j _ => ?_
    ring
  have e2 : (∑ i in Finset.range N, z i * v i) * (∑ i in Finset.range N, z i * v i)
      = ∑ i in Finset.range N, ∑ j in Finset.range N, v i * (z i * z j) * v j := by
    rw [Finset.sum_mul]
    refine Finset.sum_congr rfl fun i _ => ?_
    rw [Finset.mul_sum]
    refine Finset.sum_congr rfl fun j _ => ?_
    ring
  rw [e1, e2]
  simp only [Finset.mul_sum, ← Finset.sum_sub_distrib, ← Finset.sum_add_distrib]
  refine Finset.sum_congr rfl fun i _ => Finset.sum_congr rfl fun j _ => ?_
  ring

theorem posDef_bfgs {K : Type} [LinearOrderedField K] (A : Nat → Nat → K) (N : Nat)
    (hsym : ∀ i j, A i j = A j i) (hA : PosDef A N) (s z : Nat → K)
    (hzs : 0 < ∑ t in Finset.range N, z t * s t) :
    0 < ∑ t in Finset.range N, s t * matVec A N s t ∧
    PosDef (fun i j => A i j
      - 1 / (∑ t in Finset.range N, s t * matVec A N s t) * matVec A N s i * matVec A N s j
      + 1 / (∑ t in Finset.range N, z t * s t) * z i * z j) N := by
  have hs : ∃ i, i < N ∧ s i ≠ 0 := by
    by_contra hno
    have : ∑ t in Finset.range N, z t * s t = 0 := by
      apply Finset.sum_eq_zero
      intro t ht
      have : s t = 0 := by
        by_contra hne
        exact hno ⟨t, Finset.mem_range.mp ht, hne⟩
      rw [this, mul_zero]
    rw [this] at hzs
    exact lt_irrefl _ hzs
  have hss : ∑ t in Finset.range N, s t * matVec A N s t
      = ∑ i in Finset.range N, ∑ j in Finset.range N, s i * A i j * s j := by
    refine Finset.sum_congr rfl fun i _ => ?_
    unfold matVec
    rw [Finset.mul_sum]
    refine Finset.sum_congr rfl fun j _ => ?_
    ring
  have hsAs : 0 < ∑ t in Finset.range N, s t * matVec A N s t := by
    rw [hss]
    exact hA s hs
  refine ⟨hsAs, ?_⟩
  intro v hv
  rw [bfgs_form]
  set sAs := ∑ t in Finset.range N, s t * matVec A N s t with hsAs_def
  set zs := ∑ t in Finset.range N, z t * s t with hzs_def
  set qv := ∑ i in Finset.range N, ∑ j in Finset.range N, v i * A i j * v j with hqv
  set vs := ∑ i in Finset.range N, ∑ j in Finset.range N, v i * A i j * s j with hvs
  set zv := ∑ i in Finset.range N, z i * v i with hzv
  have hexp := bilin_expand A N v s (vs / sAs)
  rw [bilin_symm A N hsym v s, ← hss] at hexp
  have hne : sAs ≠ 0 := ne_of_gt hsAs
  have hq : ∑ i in Finset.range N, ∑ j in Finset.range N,
      (v i - vs / sAs * s i) * A i j * (v j - vs / sAs * s j) = qv - 1 / sAs * (vs * vs) := by
    rw [hexp]
    field_simp
    ring
  have hzpos : 0 ≤ 1 / zs * (zv * zv) :=
    mul_nonneg (le_of_lt (one_div_pos.mpr hzs)) (mul_self_nonneg _)
  by_cases hw : ∃ i, i < N ∧ v i - vs / sAs * s i ≠ 0
  · have := hA (fun i => v i - vs / sAs * s i) hw
    rw [hq] at this
    linarith
  · have hw0 : ∀ i, i < N → v i = vs / sAs * s i := by
      intro i hi
      by_contra hne'
      exact hw ⟨i, hi, sub_ne_zero.mpr hne'⟩
    have hq0 : qv - 1 / sAs * (vs * vs) = 0 := by
      rw [← hq]
      apply Finset.sum_eq_zero
      intro i hi
      apply Finset.sum_eq_zero
      intro j _
      rw [hw0 i (Finset.mem_range.mp hi), sub_self, zero_mul, zero_mul]
    have ht : vs / sAs ≠ 0 := by
      intro h0
      obtain ⟨i, hi, hvi⟩ := hv
      apply hvi
      rw [hw0 i hi, h0, zero_mul]
    have hzv' : zv = vs / sAs * zs := by
      rw [hzv, hzs_def, Finset.mul_sum]
      refine Finset.sum_congr rfl fun i hi => ?_
      rw [hw0 i (Finset.mem_range.mp hi)]
      ring
    have hpos : 0 < 1 / zs * (zv * zv) := by
      rw [hzv']
      have : 1 / zs * (vs / sAs * zs * (vs / sAs * zs)) = (vs / sAs) * (vs / sAs) * zs := by
        field_simp
        ring
      rw [this]
      exact mul_pos (mul_self_pos.mpr ht) hzs
    linarith

/-! ## cholesky_solve: the result solves the system -/

theorem cholesky_solve_spd_solves {K : Type} [LinearOrderedField K] (sqrt : K → K)
    (hsqrt : ∀ v, 0 ≤ v → 0 ≤ sqrt v ∧ sqrt v * sqrt v = v) (A_ : Nat → K) (LDA : Nat)
    (b : Nat → K) (N : Nat) (h1 : 1 ≤ N) (hN : N ≤ LDA) (hpd : PosDef (symOf A_ LDA) N) :
    (cholesky_solve sqrt A_ LDA b N).ret = 0 ∧
    ∀ i, i < N → matVec (symOf A_ LDA) N (cholesky_solve sqrt A_ LDA b N).b i = b i := by
  have hp := cholPivot_pos sqrt hsqrt (symOf A_ LDA) (symOf_symm A_ LDA) N hpd
  obtain ⟨hret, hL, hdiag, hres⟩ := cholesky_solve_spd_factor sqrt hsqrt A_ LDA b N h1 hN hpd
  refine ⟨hret, ?_⟩
  set A' := (cholesky_solve sqrt A_ LDA b N).A with hA'
  have hlow : ∀ i j, j ≤ i → i < N → A' (i * LDA + j) = cholFactor sqrt (symOf A_ LDA) N i j := by
    intro i j hji hi
    have := hL i j hi (by omega)
    unfold lowerOf at this
    rwa [if_pos hji] at this
  have hS : ∀ i j, i < N → symOf A_ LDA i j = ∑ t in Finset.range N,
      cholFactor sqrt (symOf A_ LDA) N i t * cholFactor sqrt (symOf A_ LDA) N j t := by
    intro i j hi
    exact (chol_identity sqrt hsqrt _ (symOf_symm A_ LDA) N i j (Or.inl hi) hp).symm
  set y := trsv_NoTrans N A' 0 LDA b 0 1 with hy
  set x := trsv_Trans N A' 0 LDA y 0 1 with hx
  -- L y = b
  have hfwd : ∀ i, i < N →
      ∑ t in Finset.range N, cholFactor sqrt (symOf A_ LDA) N i t * y t = b i := by
    intro i hi
    have hspec := (trsv_NoTrans_spec A' 0 LDA b N).1 i hi
    simp only [Nat.zero_add] at hspec
    have hd : A' (i * LDA + i) ≠ 0 := ne_of_gt (hdiag i hi)
    have h2 : y i * A' (i * LDA + i)
        = b i - ∑ j in Finset.range i, A' (i * LDA + j) * y j := by
      rw [hy, hspec]
      exact div_mul_cancel₀ _ hd
    have hsub : ∑ t in Finset.range N, cholFactor sqrt (symOf A_ LDA) N i t * y t
        = ∑ t in Finset.range (i + 1), cholFactor sqrt (symOf A_ LDA) N i t * y t := by
      symm
      apply Finset.sum_subset
      · intro t ht
        rw [Finset.mem_range] at ht ⊢
        omega
      · intro t _ ht
        rw [Finset.mem_range] at ht
        rw [cholFactor_upper sqrt _ N i t (by omega), zero_mul]
    rw [hsub, Finset.sum_range_succ]
    have h3 : ∑ t in Finset.range i, cholFactor sqrt (symOf A_ LDA) N i t * y t
        = ∑ j in Finset.range i, A' (i * LDA + j) * y j := by
      refine Finset.sum_congr rfl fun j hj => ?_
      rw [hlow i j (le_of_lt (Finset.mem_range.mp hj)) hi]
    rw [h3, ← hlow i i (le_refl i) hi]
    linear_combination h2
  -- L^T x = y
  have hbwd : ∀ t, t < N →
      ∑ j in Finset.range N, cholFactor sqrt (symOf A_ LDA) N j t * x j = y t := by
    intro t ht
    have hspec := (trsv_Trans_spec A' 0 LDA N y).1 t ht
    simp only [Nat.zero_add] at hspec
    have hd : A' (t * LDA + t) ≠ 0 := ne_of_gt (hdiag t ht)
    have h2 : x t * A' (t * LDA + t)
        = y t - ∑ j in Finset.Ico (t + 1) N, A' (j * LDA + t) * x j := by
      rw [hx, hspec]
      exact div_mul_cancel₀ _ hd
    have hsub : ∑ j in Finset.range N, cholFactor sqrt (symOf A_ LDA) N j t * x j
        = ∑ j in Finset.Ico t N, cholFactor sqrt (symOf A_ LDA) N j t * x j := by
      symm
      apply Finset.sum_subset
      · intro j hj
        rw [Finset.mem_Ico] at hj
        rw [Finset.mem_range]
        omega
      · intro j hj hj'
        rw [Finset.mem_range] at hj
        rw [Finset.mem_Ico] at hj'
        rw [cholFactor_upper sqrt _ N j t (by omega), zero_mul]
    rw [hsub, Finset.sum_eq_sum_Ico_succ_bot ht]
    have h3 : ∑ j in Finset.Ico (t + 1) N, cholFactor sqrt (symOf A_ LDA) N j t * x j
        = ∑ j in Finset.Ico (t + 1) N, A' (j * LDA + t) * x j := by
      refine Finset.sum_congr rfl fun j hj => ?_
      obtain ⟨hj1, hj2⟩ := Finset.mem_Ico.mp hj
      rw [hlow j t (by omega) hj2]
    rw [h3, ← hlow t t (le_refl t) ht]
    linear_combination h2
  intro i hi
  rw [hres]
  show matVec (symOf A_ LDA) N x i = b i
  unfold matVec
  have h4 : ∀ j, symOf A_ LDA i j * x j = ∑ t in Finset.range N,
      cholFactor sqrt (symOf A_ LDA) N i t * (cholFactor sqrt (symOf A_ LDA) N j t * x j) := by
    intro j
    rw [hS i j hi, Finset.sum_mul]
    exact Finset.sum_congr rfl fun t _ => by ring
  rw [Finset.sum_congr rfl (fun j _ => h4 j), Finset.sum_comm, ← hfwd i hi]
  refine Finset.sum_congr rfl fun t ht => ?_
  rw [← Finset.mul_sum, hbwd t (Finset.mem_range.mp ht)]

/-! ## gn_sbfgs_min: positive definiteness of `A` and `B` -/

theorem symOf_of_lower {K : Type} [Field K] (B : Nat → K) (CN N : Nat) (F : Nat → Nat → K)
    (hF : ∀ i j, F i j = F j i)
    (h : ∀ i j, i < N → j ≤ i → B (i * CN + j) = F i j) :
    ∀ i j, i < N → j < N → symOf B CN i j = F i j := by
  intro i j hi hj
  unfold symOf
  by_cases hji : j ≤ i
  · rw [if_pos hji, h i j hi hji]
  · rw [if_neg hji, h j i hj (by omega), hF]

theorem gn_update_branch_pos {K : Type} [LinearOrderedField K] (N : Nat) (z s : Nat → K)
    (hb : 1 / 1000000 ≤ dot N z 1 s 1 / dot N s 1 s 1) :
    0 < ∑ t in Finset.range N, z t * s t := by
  have hz : dot N z 1 s 1 = ∑ t in Finset.range N, z t * s t := by
    unfold dot; simp only [Nat.mul_one]
  have hs : 0 ≤ dot N s 1 s 1 := by
    unfold dot
    exact Finset.sum_nonneg fun i _ => mul_self_nonneg _
  rw [← hz]
  have hq : 0 < dot N z 1 s 1 / dot N s 1 s 1 := lt_of_lt_of_le (by norm_num) hb
  rcases eq_or_lt_of_le hs with h0 | hpos
  · rw [← h0, div_zero] at hq
    exact absurd hq (lt_irrefl _)
  · have := mul_pos hq hpos
    rwa [div_mul_cancel₀ _ (ne_of_gt hpos)] at this

theorem gn_hessian_update_posDef {K : Type} [LinearOrderedField K] (env : GnEnv K)
    (v : GnVars K) (nn : K) (hA : PosDef (symOf v.A_ env.CN) env.N) :
    PosDef (symOf (gn_hessian_update env v nn).A_ env.CN) env.N := by
  have hN : env.N ≤ env.CN := le_next_size env.c.W env.c.num_dir env.c.W_pos
  by_cases hb : 1 / 1000000 ≤ dot env.N v.z 1 v.s 1 / dot env.N v.s 1 v.s 1
  · have hzs := gn_update_branch_pos env.N v.z v.s hb
    obtain ⟨-, hpd⟩ := posDef_bfgs (symOf v.A_ env.CN) env.N (symOf_symm v.A_ env.CN) hA v.s v.z
      hzs
    refine posDef_congr _ _ env.N (fun i j hi hj => ?_) hpd
    have e := sbfgs_matrix env.N env.CN hN v.A_ v.s v.z v.As i j hi hj
    unfold gn_hessian_update
    simp only
    rw [if_pos hb]
    exact e
  · unfold gn_hessian_update
    simp only
    rw [if_neg hb]
    exact hA

theorem gn_jtj_posDef {K : Type} [LinearOrderedField K] (env : GnEnv K) (tp : Nat → MultiDiff K)
    (B : Nat → K) (P : Nat → Nat → K) (hP : PosDef P env.N) (hPs : ∀ i j, P i j = P j i)
    (hB : ∀ i j, i < env.N → j ≤ i → B (i * env.CN + j)
      = (∑ k in Finset.range env.M,
          (env.residuals k tp).getDiffValue i * (env.residuals k tp).getDiffValue j) + P i j) :
    PosDef (symOf B env.CN) env.N := by
  have hpd := posDef_add (fun i j => ∑ k in Finset.range env.M,
      (env.residuals k tp).getDiffValue i * (env.residuals k tp).getDiffValue j) P env.N
    (fun v => gram_nonneg env.M env.N (fun k i => (env.residuals k tp).getDiffValue i) v) hP
  refine posDef_congr _ _ env.N ?_ hpd
  apply symOf_of_lower B env.CN env.N
  · intro i j
    simp only
    rw [hPs i j]
    congr 1
    refine Finset.sum_congr rfl fun k _ => ?_
    ring
  · intro i j hi hj
    exact hB i j hi hj

theorem gn_initial_posDef {K : Type} [LinearOrderedField K] (env : GnEnv K)
    (hsqrt : ∀ v, 0 ≤ v → 0 ≤ env.sqrt v ∧ env.sqrt v * env.sqrt v = v)
    (old : Nat → MultiDiff K) (params g0 s0 z0 As0 A0 B0 : Nat → K) (r0 : Nat → MultiDiff K)
    (hpos : 0 < (gn_initial_vars env old params g0 s0 z0 As0 A0 B0 r0).normr2) :
    PosDef (symOf (gn_initial_vars env old params g0 s0 z0 As0 A0 B0 r0).A_ env.CN) env.N ∧
    PosDef (symOf (gn_initial_vars env old params g0 s0 z0 As0 A0 B0 r0).B_ env.CN) env.N := by
  have hN : env.N ≤ env.CN := le_next_size env.c.W env.c.num_dir env.c.W_pos
  obtain ⟨-, -, -, -, -, -, i7, i8⟩ := gn_initial_vars_spec env old params g0 s0 z0 As0 A0 B0 r0
  have hc : 0 < 1 / 10000
      * env.sqrt (gn_initial_vars env old params g0 s0 z0 As0 A0 B0 r0).normr2 :=
    mul_pos (by norm_num) (sqrt_pos_of_pos env.sqrt hsqrt _ hpos)
  have hA : PosDef (symOf (gn_initial_vars env old params g0 s0 z0 As0 A0 B0 r0).A_ env.CN)
      env.N := by
    refine posDef_congr _ _ env.N ?_ (posDef_diag env.N _ hc)
    apply symOf_of_lower _ env.CN env.N
    · intro i j
      by_cases h : i = j
      · subst h; rfl
      · rw [if_neg h, if_neg (fun hh => h hh.symm)]
    · intro i j hi hj
      exact i7 i j hi (by omega)
  refine ⟨hA, ?_⟩
  refine gn_jtj_posDef env (Independent env.c old (fun i => params i.val)) _
    (symOf (gn_initial_vars env old params g0 s0 z0 As0 A0 B0 r0).A_ env.CN) hA
    (symOf_symm _ _) ?_
  intro i j hi hj
  rw [i8 i j hi hj, symOf_lower _ _ _ _ hj]

theorem gn_next_posDef {K : Type} [LinearOrderedField K] (env : GnEnv K)
    (hsqrt : ∀ v, 0 ≤ v → 0 ≤ env.sqrt v ∧ env.sqrt v * env.sqrt v = v)
    (a : GnVars K) (hrun : (gn_iteration env a).2 = GnStop.running)
    (hA : PosDef (symOf a.A_ env.CN) env.N) :
    PosDef (symOf (gn_iteration env a).1.A_ env.CN) env.N ∧
    (1 / 1000000 ≤ dot env.N (gn_tested env a).z 1 (gn_tested env a).s 1
        / dot env.N (gn_tested env a).s 1 (gn_tested env a).s 1 →
      PosDef (symOf (gn_iteration env a).1.B_ env.CN) env.N) ∧
    (0 < (gn_iteration env a).1.normr2 →
      PosDef (symOf (gn_iteration env a).1.B_ env.CN) env.N) := by
  obtain ⟨-, -, -, hit⟩ := gn_iteration_running env a hrun
  obtain ⟨tA, -⟩ := gn_tested_spec env a
  obtain ⟨u1, u2, u3⟩ := gn_hessian_update_spec env a hrun
  have hA' : PosDef (symOf (gn_iteration env a).1.A_ env.CN) env.N := by
    rw [hit]
    exact gn_hessian_update_posDef env _ _ (by rw [tA]; exact hA)
  have hbranch : 1 / 1000000 ≤ dot env.N (gn_tested env a).z 1 (gn_tested env a).s 1
        / dot env.N (gn_tested env a).s 1 (gn_tested env a).s 1 →
      PosDef (symOf (gn_iteration env a).1.B_ env.CN) env.N := by
    intro hb
    refine gn_jtj_posDef env (gn_tested env a).ad_params _
      (symOf (gn_iteration env a).1.A_ env.CN) hA' (symOf_symm _ _) ?_
    intro i j hi hj
    rw [(u2 hb).2 i j hi hj, symOf_lower _ _ _ _ hj]
  refine ⟨hA', hbranch, fun hpos => ?_⟩
  by_cases hb : 1 / 1000000 ≤ dot env.N (gn_tested env a).z 1 (gn_tested env a).s 1
        / dot env.N (gn_tested env a).s 1 (gn_tested env a).s 1
  · exact hbranch hb
  · rw [u1] at hpos
    refine gn_jtj_posDef env (gn_tested env a).ad_params _
      (fun i j => if i = j then env.sqrt (gn_accepted env a).2 else 0)
      (posDef_diag env.N _ (sqrt_pos_of_pos env.sqrt hsqrt _ hpos)) ?_ ?_
    · intro i j
      show (if i = j then env.sqrt (gn_accepted env a).2 else 0)
        = if j = i then env.sqrt (gn_accepted env a).2 else 0
      by_cases h : i = j
      · subst h; rfl
      · rw [if_neg h, if_neg (fun hh => h hh.symm)]
    · intro i j hi hj
      exact (u3 hb).2 i j hi hj

theorem gn_heads_posDef {K : Type} [LinearOrderedField K] (env : GnEnv K)
    (hsqrt : ∀ v, 0 ≤ v → 0 ≤ env.sqrt v ∧ env.sqrt v * env.sqrt v = v)
    (MAXITER : Nat) (old : Nat → MultiDiff K) (params g0 s0 z0 As0 A0 B0 : Nat → K)
    (r0 : Nat → MultiDiff K)
    (hpos : 0 < (gn_initial_vars env old params g0 s0 z0 As0 A0 B0 r0).normr2)
    (k : Nat) (a : GnVars K)
    (ha : (gn_sbfgs_min env MAXITER old params g0 s0 z0 As0 A0 B0 r0).heads[k]? = some a) :
    PosDef (symOf a.A_ env.CN) env.N ∧
    (0 < a.normr2 → PosDef (symOf a.B_ env.CN) env.N) := by
  refine gn_heads_induction env MAXITER _
    (fun a => PosDef (symOf a.A_ env.CN) env.N ∧
      (0 < a.normr2 → PosDef (symOf a.B_ env.CN) env.N)) ?_ ?_ k a ha
  · obtain ⟨h1, h2⟩ := gn_initial_posDef env hsqrt old params g0 s0 z0 As0 A0 B0 r0 hpos
    exact ⟨h1, fun _ => h2⟩
  · intro a hP hrun
    obtain ⟨n1, -, n3⟩ := gn_next_posDef env hsqrt a hrun hP.1
    exact ⟨n1, n3⟩

theorem gn_initial_normr2_nonneg {K : Type} [LinearOrderedField K] (env : GnEnv K)
    (old : Nat → MultiDiff K) (params g0 s0 z0 As0 A0 B0 : Nat → K) (r0 : Nat → MultiDiff K) :
    0 ≤ (gn_initial_vars env old params g0 s0 z0 As0 A0 B0 r0).normr2 := by
  rw [(gn_initial_vars_spec env old params g0 s0 z0 As0 A0 B0 r0).2.2.2.1]
  exact Finset.sum_nonneg fun k _ => mul_self_nonneg _

/-- C38: positive definiteness is preserved. One update: if the symmetric
matrix in the lower triangle of `A_` is positive definite and the update
branch is taken (`zs / ss >= 1e-6`), then `zs > 0` and the updated `A_` is
symmetric positive definite. Along a run with an exact square root and a
non-zero initial residual norm: `A_` is positive definite at the top of every
iteration, and whenever an iteration takes the update branch the matrix
`B = J^T J + A` it builds is positive definite and `cholesky_solve` returns 0
on it in the next iteration. -/
theorem gn_positive_definiteness_preserved {K : Type} [LinearOrderedField K] (env : GnEnv K)
    (hsqrt : ∀ v, 0 ≤ v → 0 ≤ env.sqrt v ∧ env.sqrt v * env.sqrt v = v) (hN : 1 ≤ env.N)
    (MAXITER : Nat) (old : Nat → MultiDiff K) (params g0 s0 z0 As0 A0 B0 : Nat → K)
    (r0 : Nat → MultiDiff K)
    (hinit : (gn_initial_vars env old params g0 s0 z0 As0 A0 B0 r0).normr2 ≠ 0) :
    (∀ (v : GnVars K) (nn : K), PosDef (symOf v.A_ env.CN) env.N →
      1 / 1000000 ≤ dot env.N v.z 1 v.s 1 / dot env.N v.s 1 v.s 1 →
      0 < dot env.N v.z 1 v.s 1 ∧
      (gn_hessian_update env v nn).A_
        = syr env.N (1 / dot env.N v.z 1 v.s 1) v.z 1
            (syr env.N (-1 / dot env.N v.s 1 (symv env.N 1 v.A_ env.CN v.s 1 0 v.As 1) 1)
              (symv env.N 1 v.A_ env.CN v.s 1 0 v.As 1) 1 v.A_ env.CN) env.CN ∧
      (∀ i j, symOf (gn_hessian_update env v nn).A_ env.CN i j
        = symOf (gn_hessian_update env v nn).A_ env.CN j i) ∧
      PosDef (symOf (gn_hessian_update env v nn).A_ env.CN) env.N) ∧
    (∀ (k : Nat) (a : GnVars K),
      (gn_sbfgs_min env MAXITER old params g0 s0 z0 As0 A0 B0 r0).heads[k]? = some a →
      PosDef (symOf a.A_ env.CN) env.N) ∧
    (∀ (k : Nat) (a : GnVars K),
      (gn_sbfgs_min env MAXITER old params g0 s0 z0 As0 A0 B0 r0).heads[k]? = some a →
      (gn_iteration env a).2 = GnStop.running →
      1 / 1000000 ≤ dot env.N (gn_tested env a).z 1 (gn_tested env a).s 1
        / dot env.N (gn_tested env a).s 1 (gn_tested env a).s 1 →
      PosDef (symOf (gn_iteration env a).1.B_ env.CN) env.N ∧
      (gn_direction env (gn_iteration env a).1).1 = 0) := by
  have hpos : 0 < (gn_initial_vars env old params g0 s0 z0 As0 A0 B0 r0).normr2 :=
    lt_of_le_of_ne (gn_initial_normr2_nonneg env old params g0 s0 z0 As0 A0 B0 r0) (Ne.symm hinit)
  have hCN : env.N ≤ env.CN := le_next_size env.c.W env.c.num_dir env.c.W_pos
  refine ⟨fun v nn hA hb => ⟨?_, ?_, fun i j => symOf_symm _ _ i j,
    gn_hessian_update_posDef env v nn hA⟩, fun k a ha =>
      (gn_heads_posDef env hsqrt MAXITER old params g0 s0 z0 As0 A0 B0 r0 hpos k a ha).1,
    fun k a ha hrun hb => ?_⟩
  · have := gn_update_branch_pos env.N v.z v.s hb
    unfold dot
    simpa only [Nat.mul_one] using this
  · unfold gn_hessian_update
    simp only
    rw [if_pos hb]
  · have hA := (gn_heads_posDef env hsqrt MAXITER old params g0 s0 z0 As0 A0 B0 r0 hpos k a ha).1
    obtain ⟨-, n2, -⟩ := gn_next_posDef env hsqrt a hrun hA
    have hB := n2 hb
    exact ⟨hB, (cholesky_solve_spd_factor env.sqrt hsqrt _ env.CN _ env.N hN hCN hB).1⟩

theorem gnExprExample_normr2 :
    (gnExprExampleStart ℝ Real.exp Real.sqrt).normr2 = 40401 := by
  unfold gnExprExampleStart
  rw [(gn_initial_vars_spec _ _ _ _ _ _ _ _ _ _).2.2.2.1]
  show ∑ k in Finset.range 1, _ = _
  rw [Finset.sum_range_one]
  show (MultiDiff.ofExpr (gnContext ℝ) _ ((gnExprResidual ℝ).toMultiDiff Real.exp (gnContext ℝ)
      _)).getValue * (MultiDiff.ofExpr (gnContext ℝ) _ ((gnExprResidual ℝ).toMultiDiff Real.exp
      (gnContext ℝ) _)).getValue = _
  rw [ofExpr_value]
  have e := toMultiDiff_value Real.exp (gnContext ℝ) (exampleOld ℝ) (fun _ => 0)
    (gnExprResidual ℝ)
  have e' : MultiDiffExpr.getValue
      (Independent (gnExprExampleEnv ℝ Real.exp Real.sqrt).c (exampleOld ℝ) fun _ => 0)
      (Expr.toMultiDiff Real.exp (gnContext ℝ)
        (Independent (gnExprExampleEnv ℝ Real.exp Real.sqrt).c (exampleOld ℝ) fun _ => 0)
        (gnExprResidual ℝ)) = (gnExprResidual ℝ).eval Real.exp (fun _ => 0) := e
  rw [e']
  simp only [gnExprResidual, Expr.eval]
  norm_num

/-- Witness of C38: the run with the residual `x[0] - 201` from `x[0] = 0`
over the reals, whose initial `normr2` is `40401`. -/
theorem gn_positive_definiteness_preserved_witness :
    (1 ≤ (gnExprExampleEnv ℝ Real.exp Real.sqrt).N) ∧
    (gnExprExampleStart ℝ Real.exp Real.sqrt).normr2 ≠ 0 ∧
    PosDef (symOf (gnExprExampleStart ℝ Real.exp Real.sqrt).A_
      (gnExprExampleEnv ℝ Real.exp Real.sqrt).CN) (gnExprExampleEnv ℝ Real.exp Real.sqrt).N :=
  ⟨le_refl 1, by rw [gnExprExample_normr2]; norm_num,
    (gn_positive_definiteness_preserved (gnExprExampleEnv ℝ Real.exp Real.sqrt) real_sqrt_spec
      (le_refl 1) 2 (exampleOld ℝ) (fun _ => 0) (fun _ => 9) (fun _ => 9) (fun _ => 9)
      (fun _ => 9) (fun _ => 9) (fun _ => 9) (exampleOld ℝ)
      (by
        have h := gnExprExample_normr2
        unfold gnExprExampleStart at h
        rw [h]; norm_num)).2.1 0 _
      (gn_heads_zero_some (gnExprExampleEnv ℝ Real.exp Real.sqrt) 2 (by decide) _ _ _ _ _ _ _ _
        _)⟩

/-! ## gn_sbfgs_min: the search direction -/

theorem gn_direction_spd {K : Type} [LinearOrderedField K] (env : GnEnv K)
    (hsqrt : ∀ v, 0 ≤ v → 0 ≤ env.sqrt v ∧ env.sqrt v * env.sqrt v = v) (hN : 1 ≤ env.N)
    (a : GnVars K) (hB : PosDef (symOf a.B_ env.CN) env.N) :
    (gn_direction env a).1 = 0 ∧
    ∀ i, i < env.N →
      matVec (symOf a.B_ env.CN) env.N (gn_direction env a).2.s i = -a.g i := by
  have hCN : env.N ≤ env.CN := le_next_size env.c.W env.c.num_dir env.c.W_pos
  obtain ⟨h1, h2⟩ := cholesky_solve_spd_solves env.sqrt hsqrt a.B_ env.CN
    (aligned_transform (fun x => -x) a.s env.CN a.g) env.N hN hCN hB
  refine ⟨h1, fun i hi => ?_⟩
  have hs : (gn_direction env a).2.s
      = (cholesky_solve env.sqrt a.B_ env.CN (aligned_transform (fun x => -x) a.s env.CN a.g)
          env.N).b := by
    simp only [gn_direction]
    rw [if_neg (by rw [h1]; simp)]
  rw [hs, h2 i hi]
  simp only [aligned_transform, if_pos (lt_of_lt_of_le hi hCN)]

theorem gn_direction_regular {K : Type} [LinearOrderedField K] (env : GnEnv K)
    (hsqrt : ∀ v, 0 ≤ v → 0 ≤ env.sqrt v ∧ env.sqrt v * env.sqrt v = v) (hN : 1 ≤ env.N)
    (MAXITER : Nat) (old : Nat → MultiDiff K) (params g0 s0 z0 As0 A0 B0 : Nat → K)
    (r0 : Nat → MultiDiff K)
    (hinit : (gn_initial_vars env old params g0 s0 z0 As0 A0 B0 r0).normr2 ≠ 0)
    (k : Nat) (a : GnVars K)
    (ha : (gn_sbfgs_min env MAXITER old params g0 s0 z0 As0 A0 B0 r0).heads[k]? = some a) :
    (0 < a.normr2 → (gn_direction env a).1 = 0 ∧
      ∀ i, i < env.N →
        matVec (symOf a.B_ env.CN) env.N (gn_direction env a).2.s i = -a.g i) ∧
    ((gn_direction env a).1 ≠ 0 → ∀ j, j < env.CN → (gn_direction env a).2.s j = -a.g j) := by
  have hpos : 0 < (gn_initial_vars env old params g0 s0 z0 As0 A0 B0 r0).normr2 :=
    lt_of_le_of_ne (gn_initial_normr2_nonneg env old params g0 s0 z0 As0 A0 B0 r0) (Ne.symm hinit)
  obtain ⟨-, hB⟩ := gn_heads_posDef env hsqrt MAXITER old params g0 s0 z0 As0 A0 B0 r0 hpos k a ha
  exact ⟨fun h => gn_direction_spd env hsqrt hN a (hB h),
    fun h => (gn_fallback_descent env a h).1⟩

/-- C21 (evaluation at the failing input): the problem with the one residual
`x[0] * x[0]` started at its minimizer `x[0] = 0`. At the top of the first
iteration `normr2 = 0`, `g = 0` and `B` is the 1 x 1 zero matrix, which is not
positive definite; `cholesky_solve` lets the zero pivot through and returns 0,
leaving `sqrt( 0 ) = 0` on the diagonal of the factor, so the two triangular
solves that produce the direction divide by zero. -/
theorem gn_direction_zero_pivot :
    gnSquareStart.normr2 = 0 ∧ gnSquareStart.g 0 = 0 ∧ gnSquareStart.B_ 0 = 0 ∧
    ¬ PosDef (symOf gnSquareStart.B_ gnSquareEnv.CN) gnSquareEnv.N ∧
    (gn_direction gnSquareEnv gnSquareStart).1 = 0 ∧
    (gn_direction gnSquareEnv gnSquareStart).2.B_ (0 * gnSquareEnv.CN + 0) = 0 := by
  have hB : gnSquareStart.B_ 0 = 0 := by decide!
  refine ⟨by decide!, by decide!, hB, ?_, by decide!, by decide!⟩
  intro hpd
  have h := hpd (fun _ => 1) ⟨0, Nat.zero_lt_one, one_ne_zero⟩
  have hN : gnSquareEnv.N = 1 := rfl
  rw [hN, Finset.sum_range_one, Finset.sum_range_one] at h
  have e : symOf gnSquareStart.B_ gnSquareEnv.CN 0 0 = 0 := by
    rw [symOf_lower _ _ _ _ (le_refl 0)]
    simpa using hB
  rw [e] at h
  simp at h

/-! ## gn_sbfgs_min: the direction is a descent direction -/

theorem gn_accept_decrease {K : Type} [LinearOrderedField K] (env : GnEnv K)
    (hc : env.Consistent) (a : GnVars K)
    (hls : (gn_line_search env (gn_direction env a).2).ret = true)
    (hd : dot env.N a.g 1 (gn_direction env a).2.s 1 ≤ 0) :
    0 < (gn_line_search env (gn_direction env a).2).alpha ∧
    (gn_accepted env a).2 ≤ a.normr2 ∧ 0 ≤ gn_delta env a := by
  obtain ⟨p1, p2, -⟩ := gn_line_search_accept env (gn_direction env a).2 hls
  have e := gn_new_normr2 env hc a
  have p2' : (eval_step_size env.N env.M env.residualsSD a.params (gn_direction env a).2.s
      (gn_line_search env (gn_direction env a).2).alpha).getValue
      ≤ 1 / 2 * a.normr2 + 1 / 10000 * (gn_line_search env (gn_direction env a).2).alpha
        * dot env.N a.g 1 (gn_direction env a).2.s 1 := p2
  rw [e] at p2'
  have hle : (gn_accepted env a).2 ≤ a.normr2 := by
    have : 1 / 10000 * (gn_line_search env (gn_direction env a).2).alpha
        * dot env.N a.g 1 (gn_direction env a).2.s 1 ≤ 0 := by
      have h1 : 0 ≤ 1 / 10000 * (gn_line_search env (gn_direction env a).2).alpha := by
        positivity
      exact mul_nonpos_of_nonneg_of_nonpos h1 hd
    linarith
  refine ⟨p1, hle, ?_⟩
  unfold gn_delta
  linarith

theorem posDef_nonneg {K : Type} [LinearOrderedField K] (S : Nat → Nat → K) (N : Nat)
    (hS : PosDef S N) (v : Nat → K) :
    0 ≤ ∑ i in Finset.range N, ∑ j in Finset.range N, v i * S i j * v j := by
  by_cases hv : ∃ i, i < N ∧ v i ≠ 0
  · exact le_of_lt (hS v hv)
  · apply le_of_eq
    symm
    apply Finset.sum_eq_zero
    intro i hi
    apply Finset.sum_eq_zero
    intro j _
    have : v i = 0 := by
      by_contra hne
      exact hv ⟨i, Finset.mem_range.mp hi, hne⟩
    rw [this, zero_mul, zero_mul]

theorem gn_newton_descent {K : Type} [LinearOrderedField K] (env : GnEnv K)
    (hsqrt : ∀ v, 0 ≤ v → 0 ≤ env.sqrt v ∧ env.sqrt v * env.sqrt v = v) (hN : 1 ≤ env.N)
    (a : GnVars K) (hB : PosDef (symOf a.B_ env.CN) env.N) :
    (gn_direction env a).1 = 0 ∧
    (∀ i, i < env.N →
      matVec (symOf a.B_ env.CN) env.N (gn_direction env a).2.s i = -a.g i) ∧
    dot env.N a.g 1 (gn_direction env a).2.s 1
      = -∑ i in Finset.range env.N, ∑ j in Finset.range env.N,
          (gn_direction env a).2.s i * symOf a.B_ env.CN i j * (gn_direction env a).2.s j ∧
    dot env.N a.g 1 (gn_direction env a).2.s 1 ≤ 0 := by
  obtain ⟨h1, h2⟩ := gn_direction_spd env hsqrt hN a hB
  have e : dot env.N a.g 1 (gn_direction env a).2.s 1
      = -∑ i in Finset.range env.N, ∑ j in Finset.range env.N,
          (gn_direction env a).2.s i * symOf a.B_ env.CN i j * (gn_direction env a).2.s j := by
    unfold dot
    rw [← Finset.sum_neg_distrib]
    refine Finset.sum_congr rfl fun i hi => ?_
    have hg : a.g i = -matVec (symOf a.B_ env.CN) env.N (gn_direction env a).2.s i := by
      rw [h2 i (Finset.mem_range.mp hi), neg_neg]
    rw [Nat.mul_one, hg]
    unfold matVec
    rw [neg_mul, Finset.sum_mul]
    congr 1
    refine Finset.sum_congr rfl fun j _ => ?_
    ring
  refine ⟨h1, h2, e, ?_⟩
  rw [e]
  have := posDef_nonneg _ _ hB (gn_direction env a).2.s
  linarith

theorem gn_heads_induction_on {K : Type} [LinearOrderedField K] (env : GnEnv K) (n : Nat)
    (v : GnVars K) (P : GnVars K → Prop) (h0 : P v)
    (hstep : ∀ (k : Nat) (a : GnVars K), (gn_loop env n v).heads[k]? = some a → P a →
      (gn_iteration env a).2 = GnStop.running → P (gn_iteration env a).1) :
    ∀ (k : Nat) (a : GnVars K), (gn_loop env n v).heads[k]? = some a → P a := by
  obtain ⟨-, -, t3, t4, t5, -⟩ := gn_loop_trace env n v
  intro k
  induction k with
  | zero =>
    intro a ha
    by_cases hn : 0 < n
    · rw [t3 hn] at ha
      rw [← Option.some.inj ha]
      exact h0
    · have hn0 : n = 0 := by omega
      subst hn0
      simp [gn_loop] at ha
  | succ k ih =>
    intro b hb
    have hk : k < (gn_loop env n v).heads.length := by
      by_contra h
      rw [List.getElem?_eq_none (by omega)] at hb
      exact absurd hb (by simp)
    obtain ⟨a, ha⟩ : ∃ a, (gn_loop env n v).heads[k]? = some a :=
      ⟨_, List.getElem?_eq_getElem hk⟩
    obtain ⟨r1, r2⟩ := t5 k a b ha hb
    rw [r2]
    exact hstep k a ha (ih a ha) r1

theorem gn_head_zero_gradient {K : Type} [LinearOrderedField K] (env : GnEnv K)
    (MAXITER : Nat) (old : Nat → MultiDiff K) (params g0 s0 z0 As0 A0 B0 : Nat → K)
    (r0 : Nat → MultiDiff K) (k : Nat) (a : GnVars K)
    (ha : (gn_sbfgs_min env MAXITER old params g0 s0 z0 As0 A0 B0 r0).heads[k]? = some a) :
    0 ≤ a.normr2 ∧
    (a.normr2 = 0 → ∀ s : Nat → K, dot env.N a.g 1 s 1 = 0) := by
  obtain ⟨-, h2, h3, -⟩ := gn_heads_spec env MAXITER old params g0 s0 z0 As0 A0 B0 r0 k a ha
  refine ⟨by rw [h2]; exact Finset.sum_nonneg fun i _ => mul_self_nonneg _, fun h0 s => ?_⟩
  rw [h2] at h0
  have hz := (Finset.sum_eq_zero_iff_of_nonneg (fun i _ => mul_self_nonneg _)).mp h0
  unfold dot
  apply Finset.sum_eq_zero
  intro j hj
  rw [Nat.mul_one, h3 j (Finset.mem_range.mp hj)]
  have : ∑ i in Finset.range env.M,
      (env.residuals i a.ad_params).getValue * (env.residuals i a.ad_params).getDiffValue j
      = 0 := by
    apply Finset.sum_eq_zero
    intro i hi
    have := mul_self_eq_zero.mp (hz i hi)
    rw [this, zero_mul]
  rw [this, zero_mul]

theorem gn_heads_descent {K : Type} [LinearOrderedField K] (env : GnEnv K)
    (hc : env.Consistent)
    (hsqrt : ∀ v, 0 ≤ v → 0 ≤ env.sqrt v ∧ env.sqrt v * env.sqrt v = v)
    (MAXITER : Nat) (old : Nat → MultiDiff K) (params g0 s0 z0 As0 A0 B0 : Nat → K)
    (r0 : Nat → MultiDiff K) (k : Nat) (a : GnVars K)
    (ha : (gn_sbfgs_min env MAXITER old params g0 s0 z0 As0 A0 B0 r0).heads[k]? = some a) :
    (a.normr2 = 0 ∨
      (PosDef (symOf a.A_ env.CN) env.N ∧ PosDef (symOf a.B_ env.CN) env.N)) ∧
    dot env.N a.g 1 (gn_direction env a).2.s 1 ≤ 0 := by
  have hQ : a.normr2 = 0 ∨
      (PosDef (symOf a.A_ env.CN) env.N ∧ PosDef (symOf a.B_ env.CN) env.N) := by
    refine gn_heads_induction_on env MAXITER _
      (fun a => a.normr2 = 0 ∨
        (PosDef (symOf a.A_ env.CN) env.N ∧ PosDef (symOf a.B_ env.CN) env.N)) ?_ ?_ k a ha
    · rcases eq_or_lt_of_le (gn_initial_normr2_nonneg env old params g0 s0 z0 As0 A0 B0 r0)
        with h | h
      · exact Or.inl h.symm
      · exact Or.inr (gn_initial_posDef env hsqrt old params g0 s0 z0 As0 A0 B0 r0 h)
    · intro k a ha hP hrun
      obtain ⟨q1, -, -, hit⟩ := gn_iteration_running env a hrun
      have hnn : (gn_iteration env a).1.normr2 = (gn_accepted env a).2 := by
        rw [hit]; exact (gn_hessian_update_keeps env _ _).2.2.2.1
      have hnn0 : 0 ≤ (gn_accepted env a).2 := by
        rw [(gn_tested_spec env a).2.2.2.2.2.1]
        exact Finset.sum_nonneg fun i _ => mul_self_nonneg _
      rcases hP with h0 | ⟨hA, -⟩
      · left
        obtain ⟨-, hz⟩ := gn_head_zero_gradient env MAXITER old params g0 s0 z0 As0 A0 B0 r0 k a ha
        have hd : dot env.N a.g 1 (gn_direction env a).2.s 1 ≤ 0 := le_of_eq (hz h0 _)
        have := (gn_accept_decrease env hc a q1 hd).2.1
        rw [hnn]
        rw [h0] at this
        exact le_antisymm this hnn0
      · rcases eq_or_lt_of_le hnn0 with h | h
        · left; rw [hnn]; exact h.symm
        · right
          obtain ⟨n1, -, n3⟩ := gn_next_posDef env hsqrt a hrun hA
          exact ⟨n1, n3 (by rw [hnn]; exact h)⟩
  refine ⟨hQ, ?_⟩
  rcases hQ with h0 | ⟨-, hB⟩
  · exact le_of_eq ((gn_head_zero_gradient env MAXITER old params g0 s0 z0 As0 A0 B0 r0 k a ha).2
      h0 _)
  · rcases Nat.eq_zero_or_pos env.N with hN | hN
    · unfold dot
      rw [hN, Finset.sum_range_zero]
    · exact (gn_newton_descent env hsqrt hN a hB).2.2.2

theorem gn_heads_monotone {K : Type} [LinearOrderedField K] (env : GnEnv K)
    (hc : env.Consistent)
    (hsqrt : ∀ v, 0 ≤ v → 0 ≤ env.sqrt v ∧ env.sqrt v * env.sqrt v = v)
    (MAXITER : Nat) (old : Nat → MultiDiff K) (params g0 s0 z0 As0 A0 B0 : Nat → K)
    (r0 : Nat → MultiDiff K) :
    ∀ (d j : Nat) (a b : GnVars K),
      (gn_sbfgs_min env MAXITER old params g0 s0 z0 As0 A0 B0 r0).heads[j]? = some a →
      (gn_sbfgs_min env MAXITER old params g0 s0 z0 As0 A0 B0 r0).heads[j + d]? = some b →
      b.normr2 ≤ a.normr2 := by
  obtain ⟨-, -, -, -, t5, -⟩ := gn_loop_trace env MAXITER
    (gn_initial_vars env old params g0 s0 z0 As0 A0 B0 r0)
  intro d
  induction d with
  | zero =>
    intro j a b ha hb
    rw [Nat.add_zero, ha] at hb
    rw [Option.some.inj hb]
  | succ d ih =>
    intro j a b ha hb
    have hk : j + d < (gn_sbfgs_min env MAXITER old params g0 s0 z0 As0 A0 B0 r0).heads.length := by
      by_contra h
      have hb' : (gn_sbfgs_min env MAXITER old params g0 s0 z0 As0 A0 B0 r0).heads[j + d + 1]?
          = some b := hb
      rw [List.getElem?_eq_none (by omega)] at hb'
      exact absurd hb' (by simp)
    obtain ⟨m, hm⟩ :
        ∃ m, (gn_sbfgs_min env MAXITER old params g0 s0 z0 As0 A0 B0 r0).heads[j + d]? = some m :=
      ⟨_, List.getElem?_eq_getElem hk⟩
    have h1 := ih j a m ha hm
    obtain ⟨r1, r2⟩ := t5 (j + d) m b hm hb
    obtain ⟨q1, -, -, hit⟩ := gn_iteration_running env m r1
    have hd := (gn_heads_descent env hc hsqrt MAXITER old params g0 s0 z0 As0 A0 B0 r0 (j + d) m
      hm).2
    have h2 : b.normr2 ≤ m.normr2 := by
      rw [r2, hit, (gn_hessian_update_keeps env _ _).2.2.2.1]
      exact (gn_accept_decrease env hc m q1 hd).2.1
    exact le_trans h2 h1

/-- C39: monotone decrease, for residual functors whose `SingleDiff` and
`MultiDiff` instances agree (exact arithmetic). In any iteration whose line
search accepts a step and whose `dot( g, s )` is not positive, the accepted
step length is positive, `new_normr2 <= normr2` and `delta >= 0`. The
steepest-descent fallback has `s = -g` and `dot( g, s ) <= 0`. With an exact
square root: when `B` is positive definite, `cholesky_solve` returns 0, the
direction solves `B * s = -g`, and `dot( g, s ) = -s^T B s <= 0`; at the top of
every iteration of a run `dot( g, s ) <= 0` holds for the direction of that
iteration, so every accepted step has `new_normr2 <= normr2` and
`delta >= 0`; and `normr2` never increases over the run: the value at the top
of a later iteration is not larger than at the top of an earlier one. -/
theorem gn_monotone_decrease {K : Type} [LinearOrderedField K] (env : GnEnv K)
    (hc : env.Consistent) (MAXITER : Nat) (old : Nat → MultiDiff K)
    (params g0 s0 z0 As0 A0 B0 : Nat → K) (r0 : Nat → MultiDiff K) :
    (∀ a : GnVars K, (gn_line_search env (gn_direction env a).2).ret = true →
      dot env.N a.g 1 (gn_direction env a).2.s 1 ≤ 0 →
      0 < (gn_line_search env (gn_direction env a).2).alpha ∧
      (gn_accepted env a).2 ≤ a.normr2 ∧ 0 ≤ gn_delta env a) ∧
    (∀ a : GnVars K, (gn_direction env a).1 ≠ 0 →
      (∀ j, j < env.CN → (gn_direction env a).2.s j = -a.g j) ∧
      dot env.N a.g 1 (gn_direction env a).2.s 1 ≤ 0) ∧
    ((∀ v, 0 ≤ v → 0 ≤ env.sqrt v ∧ env.sqrt v * env.sqrt v = v) →
      (∀ a : GnVars K, 1 ≤ env.N → PosDef (symOf a.B_ env.CN) env.N →
        (gn_direction env a).1 = 0 ∧
        (∀ i, i < env.N →
          matVec (symOf a.B_ env.CN) env.N (gn_direction env a).2.s i = -a.g i) ∧
        dot env.N a.g 1 (gn_direction env a).2.s 1
          = -∑ i in Finset.range env.N, ∑ j in Finset.range env.N,
              (gn_direction env a).2.s i * symOf a.B_ env.CN i j * (gn_direction env a).2.s j ∧
        dot env.N a.g 1 (gn_direction env a).2.s 1 ≤ 0) ∧
      (∀ (k : Nat) (a : GnVars K),
        (gn_sbfgs_min env MAXITER old params g0 s0 z0 As0 A0 B0 r0).heads[k]? = some a →
        dot env.N a.g 1 (gn_direction env a).2.s 1 ≤ 0 ∧
        ((gn_line_search env (gn_direction env a).2).ret = true →
          (gn_accepted env a).2 ≤ a.normr2 ∧ 0 ≤ gn_delta env a)) ∧
      (∀ (j k : Nat) (a b : GnVars K), j ≤ k →
        (gn_sbfgs_min env MAXITER old params g0 s0 z0 As0 A0 B0 r0).heads[j]? = some a →
        (gn_sbfgs_min env MAXITER old params g0 s0 z0 As0 A0 B0 r0).heads[k]? = some b →
        b.normr2 ≤ a.normr2)) := by
  refine ⟨fun a hls hd => gn_accept_decrease env hc a hls hd,
    fun a h => gn_fallback_descent env a h, fun hsqrt => ⟨fun a hN hB =>
      gn_newton_descent env hsqrt hN a hB, fun k a ha => ?_, fun j k a b hjk ha hb => ?_⟩⟩
  · have hd := (gn_heads_descent env hc hsqrt MAXITER old params g0 s0 z0 As0 A0 B0 r0 k a ha).2
    exact ⟨hd, fun hls => (gn_accept_decrease env hc a hls hd).2⟩
  · obtain ⟨d, rfl⟩ : ∃ d, k = j + d := ⟨k - j, by omega⟩
    exact gn_heads_monotone env hc hsqrt MAXITER old params g0 s0 z0 As0 A0 B0 r0 d j a b ha hb

/-- Witness of C39: the run with the residual `x[0] - 201` from `x[0] = 0`
over the reals; its first direction, the solution of `B * s = -g`, has
`dot( g, s ) <= 0`. -/
theorem gn_monotone_decrease_witness :
    (gnExprExampleEnv ℝ Real.exp Real.sqrt).Consistent ∧
    (∀ v : ℝ, 0 ≤ v → 0 ≤ Real.sqrt v ∧ Real.sqrt v * Real.sqrt v = v) ∧
    (gn_sbfgs_min (gnExprExampleEnv ℝ Real.exp Real.sqrt) 2 (exampleOld ℝ) (fun _ => 0)
      (fun _ => 9) (fun _ => 9) (fun _ => 9) (fun _ => 9) (fun _ => 9) (fun _ => 9)
      (exampleOld ℝ)).heads[0]? = some (gnExprExampleStart ℝ Real.exp Real.sqrt) ∧
    dot (gnExprExampleEnv ℝ Real.exp Real.sqrt).N (gnExprExampleStart ℝ Real.exp Real.sqrt).g 1
      (gn_direction (gnExprExampleEnv ℝ Real.exp Real.sqrt)
        (gnExprExampleStart ℝ Real.exp Real.sqrt)).2.s 1 ≤ 0 :=
  ⟨gnExprEnv_consistent _ _ _ _ _ _ _ _ _, real_sqrt_spec,
    gn_heads_zero_some (gnExprExampleEnv ℝ Real.exp Real.sqrt) 2 (by decide) _ _ _ _ _ _ _ _ _,
    ((((gn_monotone_decrease (gnExprExampleEnv ℝ Real.exp Real.sqrt)
      (gnExprEnv_consistent _ _ _ _ _ _ _ _ _) 2 (exampleOld ℝ) (fun _ => 0) (fun _ => 9)
      (fun _ => 9) (fun _ => 9) (fun _ => 9) (fun _ => 9) (fun _ => 9) (exampleOld ℝ)).2.2
      real_sqrt_spec).2.1 0 (gnExprExampleStart ℝ Real.exp Real.sqrt)
      (gn_heads_zero_some (gnExprExampleEnv ℝ Real.exp Real.sqrt) 2 (by decide) _ _ _ _ _ _ _ _
        _)).1)⟩

/-! ## gn_sbfgs_min: a constant residual -/

/-- C28 (counterexample): the first accepted step is not the solution of the
normal equations, and the run does not stop within one further iteration. For
the one linear residual `r( x ) = x[0] - 201` (coefficient matrix `(1)`, of
full column rank; normal-equations solution `201`) started at `x[0] = 0` with
tolerance `1/1000`, in exact arithmetic: the first line search accepts its
first trial `alpha = 1`, the first iteration leaves `params[0]` at
`2010000/10201` (it solves `1.0201 * s = 201`), and the loop is still running
after three iterations, the gradient being `-40401/10201` after the first and
`-1615029975/511845376` after the second. -/
theorem gn_linear_first_step_not_exact :
    (gn_line_search gnExampleEnv (gn_direction gnExampleEnv gnExampleStart).2).ret = true ∧
    (gn_line_search gnExampleEnv (gn_direction gnExampleEnv gnExampleStart).2).evals = [1] ∧
    (gn_loop gnExampleEnv 1 gnExampleStart).vars.params 0 = 2010000 / 10201 ∧
    (gn_loop gnExampleEnv 1 gnExampleStart).vars.params 0 ≠ 201 ∧
    (gn_loop gnExampleEnv 1 gnExampleStart).vars.g 0 = -40401 / 10201 ∧
    (gn_loop gnExampleEnv 2 gnExampleStart).vars.g 0 = -1615029975 / 511845376 ∧
    (gn_loop gnExampleEnv 3 gnExampleStart).iterations = 3 ∧
    (gn_loop gnExampleEnv 3 gnExampleStart).stop = GnStop.running := by
  refine ⟨by decide!, by decide!, by decide!, by decide!, by decide!, by decide!, by decide!,
    by decide!⟩

/-- C28 (amended): for linear residuals `r_k( x ) = sum_j a k j * x_j - b k`
that are not all zero at the initial parameters `x0`, with `N >= 1`, the
first search direction of `gn_sbfgs_min` is the solution `s` of the damped
normal equations `( A^T A + lambda I ) s = -A^T r( x0 )` with
`lambda = 1e-4 * sqrt( normr2 ) > 0`, where `normr2 = sum_k r_k( x0 )^2`
(whatever the rank of `A`); and when the line search succeeds the step leaves
`params = x0 + alpha * s` with the accepted step length `alpha > 0`. -/
theorem gn_linear_first_step {K : Type} [LinearOrderedField K] (env : GnEnv K)
    (a : Nat → Nat → K) (b : Nat → K)
    (hlin : ∀ k, k < env.M → ∀ (X : Nat → MultiDiff K) (x : Nat → K),
      (env.residuals k (Independent env.c X (fun i => x i.val))).getValue
        = (∑ j in Finset.range env.N, a k j * x j) - b k ∧
      ∀ j, j < env.N →
        (env.residuals k (Independent env.c X (fun i => x i.val))).getDiffValue j = a k j)
    (hN : 1 ≤ env.N)
    (hsqrt : ∀ v, 0 ≤ v → 0 ≤ env.sqrt v ∧ env.sqrt v * env.sqrt v = v)
    (old : Nat → MultiDiff K) (params g0 s0 z0 As0 A0 B0 : Nat → K) (r0 : Nat → MultiDiff K)
    (hr : ∃ k, k < env.M ∧ (∑ j in Finset.range env.N, a k j * params j) - b k ≠ 0) :
    (gn_initial_vars env old params g0 s0 z0 As0 A0 B0 r0).normr2
      = ∑ k in Finset.range env.M,
          ((∑ j in Finset.range env.N, a k j * params j) - b k)
            * ((∑ j in Finset.range env.N, a k j * params j) - b k) ∧
    0 < 1 / 10000 * env.sqrt (gn_initial_vars env old params g0 s0 z0 As0 A0 B0 r0).normr2 ∧
    (gn_direction env (gn_initial_vars env old params g0 s0 z0 As0 A0 B0 r0)).1 = 0 ∧
    (∀ i, i < env.N →
      ∑ j in Finset.range env.N,
          ((∑ k in Finset.range env.M, a k i * a k j)
            + if i = j then 1 / 10000
              * env.sqrt (gn_initial_vars env old params g0 s0 z0 As0 A0 B0 r0).normr2 else 0)
          * (gn_direction env (gn_initial_vars env old params g0 s0 z0 As0 A0 B0 r0)).2.s j
        = -∑ k in Finset.range env.M,
            a k i * ((∑ j in Finset.range env.N, a k j * params j) - b k)) ∧
    ((gn_line_search env
        (gn_direction env (gn_initial_vars env old params g0 s0 z0 As0 A0 B0 r0)).2).ret = true →
      0 < (gn_line_search env
        (gn_direction env (gn_initial_vars env old params g0 s0 z0 As0 A0 B0 r0)).2).alpha ∧
      ∀ i, i < env.N →
        (gn_tested env (gn_initial_vars env old params g0 s0 z0 As0 A0 B0 r0)).params i
          = params i + (gn_line_search env
              (gn_direction env (gn_initial_vars env old params g0 s0 z0 As0 A0 B0 r0)).2).alpha
            * (gn_direction env (gn_initial_vars env old params g0 s0 z0 As0 A0 B0 r0)).2.s i) := by
  have hCN : env.N ≤ env.CN := le_next_size env.c.W env.c.num_dir env.c.W_pos
  obtain ⟨i1, -, -, i4, i5, -, i7, i8⟩ :=
    gn_initial_vars_spec env old params g0 s0 z0 As0 A0 B0 r0
  have hposD := gn_initial_posDef env hsqrt old params g0 s0 z0 As0 A0 B0 r0
  generalize hv0 : gn_initial_vars env old params g0 s0 z0 As0 A0 B0 r0 = v0 at *
  have hnorm : v0.normr2 = ∑ k in Finset.range env.M,
      ((∑ j in Finset.range env.N, a k j * params j) - b k)
        * ((∑ j in Finset.range env.N, a k j * params j) - b k) := by
    rw [i4]
    refine Finset.sum_congr rfl fun k hk => ?_
    rw [(hlin k (Finset.mem_range.mp hk) old params).1]
  have hS : 0 < v0.normr2 := by
    rw [hnorm]
    obtain ⟨k, hk, hck⟩ := hr
    exact Finset.sum_pos' (fun i _ => mul_self_nonneg _)
      ⟨k, Finset.mem_range.mpr hk, mul_self_pos.mpr hck⟩
  have hlam : 0 < 1 / 10000 * env.sqrt v0.normr2 :=
    mul_pos (by norm_num) (sqrt_pos_of_pos env.sqrt hsqrt _ hS)
  have hB := (hposD hS).2
  obtain ⟨d1, d2⟩ := gn_direction_spd env hsqrt hN v0 hB
  have hsym : ∀ i j, i < env.N → j < env.N → symOf v0.B_ env.CN i j
      = (∑ k in Finset.range env.M, a k i * a k j)
        + if i = j then 1 / 10000 * env.sqrt v0.normr2 else 0 := by
    apply symOf_of_lower v0.B_ env.CN env.N
    · intro i j
      congr 1
      · exact Finset.sum_congr rfl fun k _ => mul_comm _ _
      · by_cases h : i = j
        · subst h; rfl
        · rw [if_neg h, if_neg (fun hh => h hh.symm)]
    · intro i j hi hj
      rw [i8 i j hi hj, i7 i j hi (by omega)]
      congr 1
      refine Finset.sum_congr rfl fun k hk => ?_
      rw [(hlin k (Finset.mem_range.mp hk) old params).2 i hi,
        (hlin k (Finset.mem_range.mp hk) old params).2 j (by omega)]
  refine ⟨hnorm, hlam, d1, fun i hi => ?_, fun hls => ?_⟩
  · have e := d2 i hi
    unfold matVec at e
    rw [i5 i hi] at e
    have e2 : ∑ j in Finset.range env.N,
          ((∑ k in Finset.range env.M, a k i * a k j)
            + if i = j then 1 / 10000 * env.sqrt v0.normr2 else 0) * (gn_direction env v0).2.s j
        = ∑ j in Finset.range env.N, symOf v0.B_ env.CN i j * (gn_direction env v0).2.s j :=
      Finset.sum_congr rfl fun j hj => by rw [hsym i j hi (Finset.mem_range.mp hj)]
    rw [e2, e]
    congr 1
    refine Finset.sum_congr rfl fun k hk => ?_
    rw [(hlin k (Finset.mem_range.mp hk) old params).1,
      (hlin k (Finset.mem_range.mp hk) old params).2 i hi, mul_comm]
  · obtain ⟨-, -, -, t4, t5, -⟩ := gn_tested_spec env v0
    refine ⟨(gn_line_search_accept env _ hls).1, fun i hi => ?_⟩
    rw [t5 i, if_pos hi, t4 i, if_pos hi, i1]

theorem gnExprExample_linear (X : Nat → MultiDiff ℝ) (x : Nat → ℝ) :
    ((gnExprExampleEnv ℝ Real.exp Real.sqrt).residuals 0
        (Independent (gnExprExampleEnv ℝ Real.exp Real.sqrt).c X (fun i => x i.val))).getValue
      = (∑ j in Finset.range (gnExprExampleEnv ℝ Real.exp Real.sqrt).N, 1 * x j) - 201 ∧
    ∀ j, j < (gnExprExampleEnv ℝ Real.exp Real.sqrt).N →
      ((gnExprExampleEnv ℝ Real.exp Real.sqrt).residuals 0
        (Independent (gnExprExampleEnv ℝ Real.exp Real.sqrt).c X
          (fun i => x i.val))).getDiffValue j = 1 := by
  constructor
  · show (MultiDiff.ofExpr (gnContext ℝ) (Independent (gnContext ℝ) X (fun i => x i.val))
      ((gnExprResidual ℝ).toMultiDiff Real.exp (gnContext ℝ)
        (Independent (gnContext ℝ) X (fun i => x i.val)))).getValue
        = (∑ j in Finset.range 1, 1 * x j) - 201
    rw [ofExpr_value, toMultiDiff_value Real.exp (gnContext ℝ) X (fun i => x i.val)
      (gnExprResidual ℝ), Finset.sum_range_one, one_mul]
    rfl
  · intro j hj
    have hj0 : j = 0 := Nat.lt_one_iff.mp hj
    subst hj0
    show (MultiDiff.ofExpr (gnContext ℝ) (Independent (gnContext ℝ) X (fun i => x i.val))
      ((gnExprResidual ℝ).toMultiDiff Real.exp (gnContext ℝ)
        (Independent (gnContext ℝ) X (fun i => x i.val)))).getDiffValue 0 = 1
    rw [ofExpr_lane_eq _ _ _ 0 (by decide)]
    show (MultiDiffOps.subScalar (gnContext ℝ) (Independent (gnContext ℝ) X (fun i => x i.val))
      (.var 0) 201).lane (gnContext ℝ) (Independent (gnContext ℝ) X (fun i => x i.val)) 0 = 1
    rw [MultiDiffOps.lane_subScalar (gnContext ℝ) _ _ _ 0 (by decide), var_lane]
    exact (Independent_lane (gnContext ℝ) X (fun i => x i.val) ⟨0, Nat.zero_lt_one⟩ 0
      (by decide)).trans (if_pos rfl)

/-- Witness for C28 (amended): the residual `x[0] - 201` from `x[0] = 0` over
the reals with `Real.sqrt`; `normr2 = 40401`, the damping is
`1e-4 * sqrt( 40401 )` and the first direction solves
`( 1 + 1e-4 * sqrt( 40401 ) ) * s = 201`. -/
theorem gn_linear_first_step_witness :
    (∃ k, k < (gnExprExampleEnv ℝ Real.exp Real.sqrt).M ∧
      (∑ j in Finset.range (gnExprExampleEnv ℝ Real.exp Real.sqrt).N,
        (1 : ℝ) * (fun _ => (0 : ℝ)) j) - 201 ≠ 0) ∧
    (gn_direction (gnExprExampleEnv ℝ Real.exp Real.sqrt)
      (gnExprExampleStart ℝ Real.exp Real.sqrt)).1 = 0 ∧
    (1 + 1 / 10000 * Real.sqrt 40401)
        * (gn_direction (gnExprExampleEnv ℝ Real.exp Real.sqrt)
            (gnExprExampleStart ℝ Real.exp Real.sqrt)).2.s 0 = 201 :=
  have hr : ∃ k, k < (gnExprExampleEnv ℝ Real.exp Real.sqrt).M ∧
      (∑ j in Finset.range (gnExprExampleEnv ℝ Real.exp Real.sqrt).N,
        (1 : ℝ) * (fun _ => (0 : ℝ)) j) - 201 ≠ 0 :=
    ⟨0, Nat.zero_lt_one, by
      show (∑ j in Finset.range 1, (1 : ℝ) * 0) - 201 ≠ 0
      norm_num⟩
  have h := gn_linear_first_step (gnExprExampleEnv ℝ Real.exp Real.sqrt) (fun _ _ => 1)
    (fun _ => 201)
    (fun k hk X x => by
      have hk0 : k = 0 := Nat.lt_one_iff.mp hk
      subst hk0
      exact gnExprExample_linear X x)
    (le_refl 1) real_sqrt_spec (exampleOld ℝ) (fun _ => 0) (fun _ => 9) (fun _ => 9)
    (fun _ => 9) (fun _ => 9) (fun _ => 9) (fun _ => 9) (exampleOld ℝ) hr
  ⟨hr, h.2.2.1, by
    have e := h.2.2.2.1 0 Nat.zero_lt_one
    have hn := gnExprExample_normr2
    unfold gnExprExampleStart at hn
    rw [hn] at e
    have e2 : ∑ j in Finset.range 1,
        ((∑ k in Finset.range 1, (1 : ℝ) * 1)
          + if 0 = j then 1 / 10000 * Real.sqrt 40401 else 0)
          * (gn_direction (gnExprExampleEnv ℝ Real.exp Real.sqrt)
              (gnExprExampleStart ℝ Real.exp Real.sqrt)).2.s j
        = -∑ k in Finset.range 1, (1 : ℝ) * ((∑ j in Finset.range 1, 1 * (0 : ℝ)) - 201) := e
    simp only [Finset.sum_range_one, if_true, mul_one, mul_zero, zero_sub, neg_neg, one_mul]
      at e2
    exact e2⟩

/-! ## The buffer arena: the lifetime of buffers -/

end Cpplsq
